import Mathlib

/-!
# git-verify: result processors, task expansion and phase orchestration

A shallow embedding of `messages.h`, `gitWrapper.cpp` (`compareLogs`),
`taskCreator.cpp`, the decoding of a rule in `configLoader.cpp`, the loop of
`callProcess` in `taskBase.cpp`, and of `main.cpp` the choice of the mode and
the running of the phases.

Conventions of the embedding:

* C++ `int` values are `Int`; no arithmetic in the embedded code can leave the
  32-bit range for inputs that fit in memory, so no wrap-around is modelled.
* A data member that the C++ code leaves uninitialised (`Processing::status`)
  is an `Option Int`; `none` is the indeterminate value.
* Code that can leave the defined behaviour of C++ (an out-of-range
  `operator[]`, reading an indeterminate value), throw an uncaught exception or
  call `std::exit` returns `Except Fault _`.
* Library calls (`std::regex`, libgit2, process spawning, `std::filesystem`,
  yaml-cpp) are fields of the collaborator structures `RegexLib`, `DiffLib`,
  `GitRepo`, `FsLib`, `ProcessRunner` and `YamlLib`; the child process behind a
  `redi::pstream` is given by what the reads on its two pipes find (`PStream`).
* What a run does to the outside (checkouts, task runs, log lines) is recorded
  as a list of `Event`s.
-/

namespace GitVerify

/-! ## messages.h -/

/-- The ways in which an embedded C++ computation can stop early. -/
inductive Fault
  /-- A call of `std::exit(code)`. -/
  | exit (code : Int)
  /-- An uncaught C++ exception (the `std::runtime_error` thrown by `ok` in
  gitWrapper.cpp, `std::bad_optional_access`), which ends in `std::terminate`. -/
  | uncaught
  /-- Undefined behaviour: out-of-range index or indeterminate read. -/
  | undefined
  /-- The run never returns: `main` waits for the progress reporter of
  `runTasks`, which waits for a result that never comes. -/
  | hang
  deriving DecidableEq, Repr

/-- The `enum class MessageType`. -/
inductive MessageType
  | NORMAL
  | ERR
  deriving DecidableEq, Repr, Inhabited

/-- The alias `using Message = std::pair<MessageType, std::string>`. -/
abbrev Message := MessageType × String

/-- The alias `using Messages = std::vector<Message>`. -/
abbrev Messages := List Message

/-- The `std::regex` library calls used by messages.h. The pattern is passed
as the string from which the C++ code builds its `std::regex`. -/
structure RegexLib where
  /-- The constructor `std::regex(pattern)`: whether it returns. For a string
  that is not a regular expression it throws `std::regex_error`. -/
  regex : String → Bool
  /-- The call `std::regex_match(line, std::regex(pattern))`. -/
  regex_match : String → String → Bool
  /-- The call `std::regex_replace(line, std::regex(pattern), "")`. -/
  regex_replace : String → String → String

/-- The fields of libgit2's `git_diff_line` that `logDiff_line_cb` reads. -/
structure git_diff_line where
  old_lineno : Int
  new_lineno : Int
  deriving DecidableEq, Repr

/-- The libgit2 calls used by `GitWrapper::compareLogs`. -/
structure DiffLib where
  /-- The call `git_diff_buffers(old, new, ..., line_cb, payload)`: the
  returned error code and the lines handed to the line callback, in order. -/
  git_diff_buffers : String → String → Int × List git_diff_line

/-- The callback `logDiff_line_cb` of gitWrapper.cpp: a line without an old
line number is an added line, its new line number is recorded. -/
def logDiff_line_cb (addedLines : List Int) (line : git_diff_line) : List Int :=
  if line.old_lineno == -1 then addedLines ++ [line.new_lineno] else addedLines

/-- The function `GitWrapper::compareLogs`: the new line numbers of the added
lines; `ok` throws when `git_diff_buffers` reports an error. -/
def compareLogs (git : DiffLib) (oldLog newLog : String) : Except Fault (List Int) :=
  let r := git.git_diff_buffers oldLog newLog
  let addedLines := r.2.foldl logDiff_line_cb []
  if r.1 != 0 then .error .uncaught else .ok addedLines

/-- The `struct SharedDiffState`. -/
structure SharedDiffState where
  count : Int := 0
  a : Messages := []
  b : Messages := []
  deriving DecidableEq, Repr

/-- The objects behind the `std::shared_ptr<SharedDiffState>` handles, by
handle number. A handle is always valid, so lookup is total. -/
abbrev Heap := Nat → SharedDiffState

/-- The `enum class DiffPart` of `ProcessingDiff`. -/
inductive DiffPart
  | A
  | B
  deriving DecidableEq, Repr

/-- The class `Processing` with its four subclasses. Every constructor leaves
`status` uninitialised, so a freshly built object carries `none`. -/
inductive Processing
  | ProcessingNoop (status : Option Int)
  | ProcessingReturnValue (status : Option Int)
  | ProcessingMatch (matchForSuccess : Bool) (pattern : String) (status : Option Int)
  | ProcessingDiff (diffPart : DiffPart) (logFilterRegex : String) (diffState : Nat)
      (status : Option Int)
  deriving DecidableEq, Repr

/-- The method `Processing::getStatus`; `none` is an indeterminate value. -/
def Processing.getStatus : Processing → Option Int
  | .ProcessingNoop s => s
  | .ProcessingReturnValue s => s
  | .ProcessingMatch _ _ s => s
  | .ProcessingDiff _ _ _ s => s

/-- The loop of `ProcessingMatch::process`, carrying `result` and `status`. -/
def matchLoop (re : RegexLib) (matchForSuccess : Bool) (pattern : String) :
    Messages → Messages × Option Int → Messages × Option Int
  | [], acc => acc
  | msg :: rest, acc =>
    if re.regex_match msg.2 pattern != matchForSuccess then
      matchLoop re matchForSuccess pattern rest (acc.1 ++ [(MessageType.ERR, msg.2)], some 1)
    else
      matchLoop re matchForSuccess pattern rest acc

/-- The two loops that build `logA` and `logB`: every row contributes its
text with the filter pattern's matches removed, followed by a newline. -/
def filterLog (re : RegexLib) (logFilterRegex : String) (rows : Messages) : String :=
  rows.foldl (fun log row => log ++ re.regex_replace row.2 logFilterRegex ++ "\n") ""

/-- The constant `contextSize`. -/
def contextSize : Int := 3

/-- The read `msgB[i]`; out of range is undefined behaviour. -/
def msgAt (msgB : Messages) (i : Int) : Except Fault Message :=
  if 0 ≤ i then
    match msgB[i.toNat]? with
    | some m => .ok m
    | none => .error .undefined
  else .error .undefined

/-- The write `msgB[i].first = MessageType::ERR`. -/
def markErr (msgB : Messages) (i : Int) : Except Fault Messages :=
  if 0 ≤ i then
    match msgB[i.toNat]? with
    | some m => .ok (msgB.set i.toNat (MessageType.ERR, m.2))
    | none => .error .undefined
  else .error .undefined

/-- A given number of rounds of `lastAddedId++; diffMesgs.push_back(msgB[lastAddedId]);`. -/
def pushRounds (msgB : Messages) : Nat → Int → Messages → Except Fault (Int × Messages)
  | 0, lastAddedId, diffMesgs => .ok (lastAddedId, diffMesgs)
  | n + 1, lastAddedId, diffMesgs =>
    match msgAt msgB (lastAddedId + 1) with
    | .error e => .error e
    | .ok m => pushRounds msgB n (lastAddedId + 1) (diffMesgs ++ [m])

/-- The loop `while (lastAddedId < bound) { lastAddedId++;
diffMesgs.push_back(msgB[lastAddedId]); }`, which makes exactly
`bound - lastAddedId` rounds when that is positive and none otherwise. -/
def pushWhile (msgB : Messages) (lastAddedId bound : Int) (diffMesgs : Messages) :
    Except Fault (Int × Messages) :=
  pushRounds msgB (bound - lastAddedId).toNat lastAddedId diffMesgs

/-- The local variables of the second-delivery branch of `ProcessingDiff::process`. -/
structure DiffLoop where
  msgB : Messages
  diffMesgs : Messages
  lastAddedId : Int
  realAdded : Bool
  changedCount : Int
  deriving DecidableEq, Repr

/-- The placeholder line pushed between two blocks of context. -/
def placeholder : Message := (MessageType.NORMAL, "...")

/-- One round of the loop `for (auto && lineNo : GitWrapper::compareLogs(logA, logB))`. -/
def diffStep (st : DiffLoop) (lineNo : Int) : Except Fault DiffLoop :=
  match markErr st.msgB (lineNo - 1) with
  | .error e => .error e
  | .ok msgB =>
    match (if st.realAdded && decide (st.lastAddedId < lineNo - 1 - contextSize) then
            pushWhile msgB st.lastAddedId (st.lastAddedId + contextSize) st.diffMesgs
          else .ok (st.lastAddedId, st.diffMesgs)) with
    | .error e => .error e
    | .ok r1 =>
      let r2 : Int × Messages :=
        if r1.1 < lineNo - 1 - contextSize then
          let lastAddedId := max (-1) (lineNo - 1 - contextSize - 1)
          (lastAddedId, if lastAddedId ≥ 0 then r1.2 ++ [placeholder] else r1.2)
        else r1
      match pushWhile msgB r2.1 (lineNo - 1) r2.2 with
      | .error e => .error e
      | .ok r3 =>
        .ok { msgB := msgB, diffMesgs := r3.2, lastAddedId := r3.1, realAdded := true,
              changedCount := st.changedCount + 1 }

/-- The whole `for` loop over the added line numbers. -/
def diffLoop : List Int → DiffLoop → Except Fault DiffLoop
  | [], st => .ok st
  | lineNo :: rest, st =>
    match diffStep st lineNo with
    | .error e => .error e
    | .ok st1 => diffLoop rest st1

/-- The block `if (realAdded) { ... }` after the loop: the trailing context,
clipped to the last index of `msgB`. -/
def diffTail (st : DiffLoop) : Except Fault DiffLoop :=
  if st.realAdded then
    match pushWhile st.msgB st.lastAddedId
        (min (st.lastAddedId + contextSize) ((st.msgB.length : Int) - 1)) st.diffMesgs with
    | .error e => .error e
    | .ok r => .ok { st with diffMesgs := r.2, lastAddedId := r.1 }
  else .ok st

/-- The context-window part of `ProcessingDiff::process` (from
`int changedCount = 0;` to the end of the `if (realAdded)` block), run on the
new-side messages and the added line numbers. -/
def diffContext (msgB : Messages) (addedLines : List Int) : Except Fault DiffLoop :=
  match diffLoop addedLines
      { msgB := msgB, diffMesgs := [], lastAddedId := -1, realAdded := false,
        changedCount := 0 } with
  | .error e => .error e
  | .ok st => diffTail st

/-- The first statement of `ProcessingDiff::process`: the messages are stored
in the slot of the processor's own tag. -/
def storeSlot (diffPart : DiffPart) (state : SharedDiffState) (messages : Messages) :
    SharedDiffState :=
  match diffPart with
  | .A => { state with a := messages }
  | .B => { state with b := messages }

/-- The constructor `ProcessingReturnValue()`. -/
def Processing.newReturnValue : Processing := .ProcessingReturnValue none

/-- The object that the constructor `ProcessingMatch(matchForSuccess, match)`
leaves when it returns. -/
def Processing.freshMatch (matchForSuccess : Bool) (pattern : String) : Processing :=
  .ProcessingMatch matchForSuccess pattern none

/-- The constructor `ProcessingMatch(matchForSuccess, match)`. It builds
`std::regex(match)`, which throws `std::regex_error` when `match` is not a
regular expression; nothing catches the exception. -/
def Processing.newMatch (re : RegexLib) (matchForSuccess : Bool) (pattern : String) :
    Except Fault Processing :=
  if re.regex pattern then .ok (Processing.freshMatch matchForSuccess pattern)
  else .error .uncaught

/-- The object that the constructor
`ProcessingDiff(diffPart, logFilterRegexStr, diffState)` leaves when it
returns. -/
def Processing.freshDiff (diffPart : DiffPart) (logFilterRegexStr : String) (diffState : Nat) :
    Processing :=
  .ProcessingDiff diffPart logFilterRegexStr diffState none

/-- The constructor `ProcessingDiff(diffPart, logFilterRegexStr, diffState)`. It
builds `std::regex(logFilterRegexStr)`, which throws `std::regex_error` when the
string is not a regular expression; nothing catches the exception. -/
def Processing.newDiff (re : RegexLib) (diffPart : DiffPart) (logFilterRegexStr : String)
    (diffState : Nat) : Except Fault Processing :=
  if re.regex logFilterRegexStr then .ok (Processing.freshDiff diffPart logFilterRegexStr diffState)
  else .error .uncaught

/-- The result of a `process` call: the returned messages, the processor
object afterwards and the shared diff states afterwards. -/
structure Processed where
  msgs : Messages
  self : Processing
  heap : Heap

/-- The virtual method `Processing::process(messages, status)`. -/
def Processing.process (re : RegexLib) (git : DiffLib) (heap : Heap) (messages : Messages)
    (status : Int) : Processing → Except Fault Processed
  | .ProcessingNoop _ =>
    .ok { msgs := messages, self := .ProcessingNoop (some status), heap := heap }
  | .ProcessingReturnValue _ =>
    .ok { msgs := if status != 0 then messages else [],
          self := .ProcessingReturnValue (some status), heap := heap }
  | .ProcessingMatch matchForSuccess pattern st =>
    let r := matchLoop re matchForSuccess pattern messages ([], st)
    .ok { msgs := r.1, self := .ProcessingMatch matchForSuccess pattern r.2, heap := heap }
  | .ProcessingDiff diffPart logFilterRegex diffState _ =>
    let stored := storeSlot diffPart (heap diffState) messages
    if stored.count == 0 then
      .ok { msgs := [], self := .ProcessingDiff diffPart logFilterRegex diffState (some 1),
            heap := Function.update heap diffState { stored with count := 1 } }
    else
      let logA := filterLog re logFilterRegex stored.a
      let logB := filterLog re logFilterRegex stored.b
      match compareLogs git logA logB with
      | .error e => .error e
      | .ok addedLines =>
        match diffContext stored.b addedLines with
        | .error e => .error e
        | .ok fin =>
          .ok { msgs := fin.diffMesgs,
                self := .ProcessingDiff diffPart logFilterRegex diffState
                  (some (if fin.changedCount != 0 then 1 else 0)),
                heap := Function.update heap diffState { stored with b := fin.msgB } }

/-! ## configLoader.h, taskBase.h, gitWrapper.h -/

/-- The `enum class TestType`. It is declared in common.h, which is not among
the sources at hand; its five values are those that configLoader.cpp decodes
and taskCreator.cpp switches over. -/
inductive TestType
  | DIFF
  | RETURN
  | MATCH_SUCCESS
  | MATCH_FAIL
  | DIFF_WITH_CHECKOUT
  deriving DecidableEq, Repr

/-- The `enum class TaskType::TargetType`. -/
inductive TargetType
  | FILE
  | COMMIT_TEXT
  | FILE_NAME
  | ADDED_TEXT
  | BUILD
  | ANY_CHANGE
  deriving DecidableEq, Repr

/-- The `enum class TaskType::Process::Special`. -/
inductive Special
  | FILENAME
  deriving DecidableEq, Repr

/-- The `struct TaskType::File`. -/
structure TaskType.File where
  ext : List String := []
  files : List String := []
  exceptions : List String := []
  deriving DecidableEq, Repr

/-- The `struct TaskType::Process`; a parameter is a
`std::variant<std::string, Special>`. -/
structure TaskType.Process where
  params : List (String ⊕ Special)
  executable : String
  logDiffFilterRegex : String
  matchForFail : String
  matchForSuccess : String
  testType : TestType
  useStdin : Bool
  skipOnEmptyFile : Bool
  deriving DecidableEq, Repr

/-- The `struct TaskType`. -/
structure TaskType where
  name : String
  description : String
  file : Option TaskType.File
  process : TaskType.Process
  targetType : TargetType
  enabled : Bool
  deriving DecidableEq, Repr

/-- The alias `TaskTypesMap = std::map<std::string, TaskType>`, as the list of
its values in iteration (key) order. -/
abbrev TaskTypesMap := List TaskType

/-- The `struct ChangesData` (a structure of arrays). -/
structure ChangesData where
  newFiles : List String
  newFileContent : List String
  oldFileContent : List String
  deriving DecidableEq, Repr

/-- The `struct HeadData`. -/
structure HeadData where
  sha : String
  refName : String
  deriving DecidableEq, Repr

/-- The `struct CreatorConfig`. -/
structure CreatorConfig where
  remote : String
  url : String
  localRef : String
  localSha : String
  remoteRef : String
  remoteSha : String
  deriving DecidableEq, Repr

/-- The `struct TaskRunDescription`. -/
structure TaskRunDescription where
  taskTypeName : String
  fileName : String
  deriving DecidableEq, Repr

/-- The class `Task` with its subclasses `TaskNull` and `TaskPstream`. The
member `status` of `TaskPstream` is written by `run` before it is read. -/
inductive Task
  | TaskNull (descr : TaskRunDescription)
  | TaskPstream (programName : String) (args : List String) (fileContent : String)
      (useStdIn : Bool) (descr : TaskRunDescription)
  deriving DecidableEq, Repr

/-- The method `Task::getDescr`. -/
def Task.getDescr : Task → TaskRunDescription
  | .TaskNull d => d
  | .TaskPstream _ _ _ _ d => d

/-- The `struct TaskPhases`. -/
structure TaskPhases where
  forOld : List Task := []
  processingForOld : List Processing := []
  build : List Task := []
  processingBuild : List Processing := []
  forNew : List Task := []
  processingForNew : List Processing := []
  deriving DecidableEq, Repr

/-- The repository operations of `GitWrapper` that taskCreator.cpp and main.cpp
call. An operation that throws through `ok` returns its fault. The first
revision argument is the parameter `newCommitShaStr`, the second
`oldCommitShaStr`. -/
structure GitRepo where
  getChangedFiles : String → String → Except Fault ChangesData
  getAddedLines : String → String → String → Except Fault String
  getJoinedCommitMsg : String → String → Except Fault String
  getHeadSha : Except Fault HeadData
  canCheckout : String → Bool
  /-- Whether `doCheckout(rev)` completes (`true`) or throws (`false`). -/
  doCheckout : String → Bool
  /-- Whether `git_repository_set_head(repo, refName)` succeeds. -/
  set_head : String → Bool

/-- The `std::filesystem` calls of `testFile` whose results it reads in a
defined way. -/
structure FsLib where
  is_regular_file : String → Bool
  is_directory : String → Bool
  /-- The comparison `fileTest == filePath` of a string with a path. -/
  path_eq : String → String → Bool

/-- The four places at which main.cpp runs tasks and applies processors: the
build phase under the old checkout, the old-tree phase, the build phase under
the head, and the new-tree phase. -/
inductive Stage
  | buildOld
  | old
  | build
  | new
  deriving DecidableEq, Repr

/-- The outcome of spawning a process. Each task of each stage is run once, so
the outcome is given per stage and task index, besides the arguments of
`callProcess` (the input text is `none` for the overload without input). -/
structure ProcessRunner where
  callProcess : Stage → Nat → String → List String → Option String → Int × Messages

/-! ## taskCreator.cpp -/

/-- Modelled from the spec: `lastPart(str, ch)` is defined in common.h, which
is not among the sources at hand. The callers take the program name after the
last `/` and the extension after the last `.` with it: the part of `str` after
the last occurrence of `ch`, all of `str` when `ch` does not occur. -/
def lastPart (str : String) (ch : Char) : String :=
  String.mk ((str.data.reverse.takeWhile (fun c => c != ch)).reverse)

/-- The library call `std::filesystem::path::has_extension` on a generic-format
path: the file name (the part after the last `/`) is not `..` and holds a
period after its first character. -/
def has_extension (path : String) : Bool :=
  let filename := (path.data.reverse.takeWhile (fun c => c != '/')).reverse
  filename != ['.', '.'] && (filename.drop 1).contains '.'

/-- The function `prepareArgs`. -/
def prepareArgs (process : TaskType.Process) (fileName : String) : List String :=
  process.executable :: process.params.map (fun param =>
    match param with
    | .inr _ => fileName
    | .inl s => s)

/-- The loop `for (auto && fileTest : taskFileConfig.files)` of `testFile`. For a
directory entry the iterator `fs::relative(filePath, fileTest).begin()` is taken
from a temporary path and dereferenced in the next statement, when that path
has been destroyed: undefined behaviour. -/
def testFiles (fs : FsLib) (filePath : String) : List String → Except Fault Bool
  | [] => .ok false
  | fileTest :: rest =>
    if fs.is_regular_file fileTest then
      if fs.path_eq fileTest filePath then .ok true else testFiles fs filePath rest
    else if fs.is_directory fileTest then .error .undefined
    else testFiles fs filePath rest

/-- The function `testFile`. The first round of its loop over the exceptions
takes the iterator `fs::relative(filePath, exceptionTest).begin()` from a
temporary path and dereferences it in the next statement, when that path has
been destroyed: undefined behaviour, whatever the exception entry and the path
are. -/
def testFile (fs : FsLib) (taskFileConfig : TaskType.File) (filePath : String) :
    Except Fault Bool :=
  match taskFileConfig.exceptions with
  | _ :: _ => .error .undefined
  | [] =>
    if taskFileConfig.files.length == 0 then .ok true
    else testFiles fs filePath taskFileConfig.files

/-- The map `changedByExt`, a `std::map<std::string, std::vector<int>>`, as an
association list; only lookups by key are made on it. -/
abbrev ExtMap := List (String × List Nat)

/-- The statement `changedByExt[key].push_back(i)`. -/
def ExtMap.push (m : ExtMap) (key : String) (i : Nat) : ExtMap :=
  match m.lookup key with
  | some _ => m.map (fun kv => if kv.1 == key then (kv.1, kv.2 ++ [i]) else kv)
  | none => m ++ [(key, [i])]

/-- The name of the synthetic any-change bucket and file entry. -/
def anyChange : String := "___any_change___"

/-- The loop that fills `changedByExt` from `changesData.newFiles`. -/
def indexByExt : List String → Nat → ExtMap → ExtMap
  | [], _, m => m
  | fileName :: rest, i, m =>
    let m1 := if has_extension fileName then m.push (lastPart fileName '.') i else m
    indexByExt rest (i + 1) (m1.push "" i)

/-- The state that `TasksCreator::create` builds up: the phases and the number
of `SharedDiffState` objects made so far (the next free handle). -/
structure CreateState where
  phases : TaskPhases := {}
  diffStates : Nat := 0
  deriving DecidableEq, Repr

/-- The body of the inner loop of `forEachFile`, for one `fileId`. -/
def forOneFile (re : RegexLib) (fs : FsLib) (git : GitRepo) (config : CreatorConfig)
    (changesData : ChangesData) (taskType : TaskType) (file : TaskType.File) (fileId : Nat)
    (st : CreateState) : Except Fault CreateState :=
  match changesData.newFiles[fileId]? with
  | none => .error .undefined
  | some fileName =>
    match testFile fs file fileName with
    | .error e => .error e
    | .ok false => .ok st
    | .ok true =>
      let process := taskType.process
      let args := prepareArgs process fileName
      let descr : TaskRunDescription := { taskTypeName := taskType.name, fileName := fileName }
      match (if taskType.targetType == TargetType.ADDED_TEXT then
              git.getAddedLines config.localSha config.remoteSha fileName
            else match changesData.newFileContent[fileId]? with
              | some c => .ok c
              | none => .error .undefined) with
      | .error e => .error e
      | .ok content =>
        let task := Task.TaskPstream process.executable args content process.useStdin descr
        let pushNew (st : CreateState) (processing : Processing) : CreateState :=
          { st with phases := { st.phases with
              forNew := st.phases.forNew ++ [task],
              processingForNew := st.phases.processingForNew ++ [processing] } }
        match process.testType with
        | .RETURN => .ok (pushNew st Processing.newReturnValue)
        | .MATCH_SUCCESS =>
          match Processing.newMatch re true process.matchForSuccess with
          | .error e => .error e
          | .ok processing => .ok (pushNew st processing)
        | .MATCH_FAIL =>
          match Processing.newMatch re false process.matchForFail with
          | .error e => .error e
          | .ok processing => .ok (pushNew st processing)
        | testType =>
          if !process.useStdin && testType == TestType.DIFF then .error (.exit 1)
          else
            let sharedDiffState := st.diffStates
            match Processing.newDiff re .B process.logDiffFilterRegex sharedDiffState with
            | .error e => .error e
            | .ok processing =>
              match changesData.oldFileContent[fileId]? with
              | none => .error .undefined
              | some oldContent =>
                let task2 :=
                  if oldContent.length != 0 then
                    Task.TaskPstream process.executable args oldContent process.useStdin descr
                  else Task.TaskNull { taskTypeName := "empty_file", fileName := fileName }
                match Processing.newDiff re .A process.logDiffFilterRegex sharedDiffState with
                | .error e => .error e
                | .ok processingA =>
                  let st1 : CreateState :=
                    if testType == TestType.DIFF_WITH_CHECKOUT then
                      { phases := { st.phases with
                          forOld := st.phases.forOld ++ [task2],
                          processingForOld := st.phases.processingForOld ++ [processingA] },
                        diffStates := st.diffStates + 1 }
                    else
                      { phases := { st.phases with
                          forNew := st.phases.forNew ++ [task2],
                          processingForNew := st.phases.processingForNew ++ [processingA] },
                        diffStates := st.diffStates + 1 }
                  .ok (pushNew st1 processing)

/-- The inner loop `for (auto && fileId : changedByExt[ext])` of `forEachFile`. -/
def forFileIds (re : RegexLib) (fs : FsLib) (git : GitRepo) (config : CreatorConfig) (changesData : ChangesData)
    (taskType : TaskType) (file : TaskType.File) : List Nat → CreateState →
    Except Fault CreateState
  | [], st => .ok st
  | fileId :: rest, st =>
    match forOneFile re fs git config changesData taskType file fileId st with
    | .error e => .error e
    | .ok st1 => forFileIds re fs git config changesData taskType file rest st1

/-- The outer loop `for (auto && ext : taskType.file.value().ext)` of `forEachFile`. -/
def forExts (re : RegexLib) (fs : FsLib) (git : GitRepo) (config : CreatorConfig) (changesData : ChangesData)
    (changedByExt : ExtMap) (taskType : TaskType) (file : TaskType.File) :
    List String → CreateState → Except Fault CreateState
  | [], st => .ok st
  | ext :: rest, st =>
    match changedByExt.lookup ext with
    | none => forExts re fs git config changesData changedByExt taskType file rest st
    | some fileIds =>
      match forFileIds re fs git config changesData taskType file fileIds st with
      | .error e => .error e
      | .ok st1 => forExts re fs git config changesData changedByExt taskType file rest st1

/-- The lambda `forEachFile`; `file.value()` of an empty optional throws. -/
def forEachFile (re : RegexLib) (fs : FsLib) (git : GitRepo) (config : CreatorConfig) (changesData : ChangesData)
    (changedByExt : ExtMap) (taskType : TaskType) (st : CreateState) :
    Except Fault CreateState :=
  match taskType.file with
  | none => .error .uncaught
  | some file => forExts re fs git config changesData changedByExt taskType file file.ext st

/-- The lambda `forBuild`. -/
def forBuild (taskType : TaskType) (st : CreateState) : Except Fault CreateState :=
  let process := taskType.process
  let args := prepareArgs process "<no file name>"
  let task := Task.TaskPstream process.executable args "" false
    { taskTypeName := taskType.name, fileName := "<build>" }
  if process.useStdin then .error (.exit 1)
  else .ok { st with phases := { st.phases with
      build := st.phases.build ++ [task],
      processingBuild := st.phases.processingBuild ++ [Processing.newReturnValue] } }

/-- The lambda `forCommitText`. -/
def forCommitText (re : RegexLib) (git : GitRepo) (config : CreatorConfig) (taskType : TaskType)
    (st : CreateState) : Except Fault CreateState :=
  let process := taskType.process
  let args := prepareArgs process "<no file name>"
  match git.getJoinedCommitMsg config.localSha config.remoteSha with
  | .error e => .error e
  | .ok allCommitsText =>
    let task := Task.TaskPstream process.executable args allCommitsText true
      { taskTypeName := taskType.name, fileName := "<build>" }
    let pushNew (processing : Processing) : CreateState :=
      { st with phases := { st.phases with
          forNew := st.phases.forNew ++ [task],
          processingForNew := st.phases.processingForNew ++ [processing] } }
    match process.testType with
    | .DIFF => .error (.exit 1)
    | .DIFF_WITH_CHECKOUT => .error (.exit 1)
    | .MATCH_SUCCESS =>
      match Processing.newMatch re true process.matchForSuccess with
      | .error e => .error e
      | .ok processing => .ok (pushNew processing)
    | .MATCH_FAIL =>
      match Processing.newMatch re false process.matchForFail with
      | .error e => .error e
      | .ok processing => .ok (pushNew processing)
    | .RETURN => .ok (pushNew Processing.newReturnValue)

/-- The loop `for (auto && taskType : taskTypes)` of `TasksCreator::create`. -/
def forTaskTypes (re : RegexLib) (fs : FsLib) (git : GitRepo) (config : CreatorConfig) (changesData : ChangesData)
    (changedByExt : ExtMap) : List TaskType → CreateState → Except Fault CreateState
  | [], st => .ok st
  | taskType :: rest, st =>
    if !taskType.enabled then
      forTaskTypes re fs git config changesData changedByExt rest st
    else
      match (match taskType.targetType with
          | .ANY_CHANGE =>
            forEachFile re fs git config changesData changedByExt
              { taskType with file := some { ext := [anyChange] } } st
          | .FILE => forEachFile re fs git config changesData changedByExt taskType st
          | .ADDED_TEXT => forEachFile re fs git config changesData changedByExt taskType st
          | .FILE_NAME => forEachFile re fs git config changesData changedByExt taskType st
          | .BUILD => forBuild taskType st
          | .COMMIT_TEXT => forCommitText re git config taskType st) with
      | .error e => .error e
      | .ok st1 => forTaskTypes re fs git config changesData changedByExt rest st1

/-- The method `TasksCreator::create`. The cache `addedLinesCache` only saves
repeated calls of the same repository query and is left out. -/
def create (re : RegexLib) (fs : FsLib) (git : GitRepo) (config : CreatorConfig) (taskTypes : TaskTypesMap) :
    Except Fault CreateState :=
  match git.getChangedFiles config.localSha config.remoteSha with
  | .error e => .error e
  | .ok changesData0 =>
    let changedByExt0 := indexByExt changesData0.newFiles 0 []
    let changedByExt := changedByExt0.push anyChange changesData0.newFileContent.length
    let changesData : ChangesData :=
      { newFiles := changesData0.newFiles ++ [anyChange],
        newFileContent := changesData0.newFileContent ++ [""],
        oldFileContent := changesData0.oldFileContent ++ [""] }
    forTaskTypes re fs git config changesData changedByExt taskTypes {}

/-! ## main.cpp: running the phases -/

/-- The collaborators of a run. -/
structure World where
  re : RegexLib
  diff : DiffLib
  fs : FsLib
  git : GitRepo
  runner : ProcessRunner
  /-- The value of `std::thread::hardware_concurrency()`. -/
  hardware_concurrency : Nat

/-- What a run does, in order. -/
inductive Event
  /-- A call of `git.doCheckout(rev)` is entered. -/
  | checkout (rev : String)
  /-- A call of `git.doCheckoutHead(headData)` is entered. -/
  | checkoutHead (headData : HeadData)
  /-- The line `LogErr("Checkout failed")`. -/
  | checkoutFailed
  /-- The task with index `i` of a stage is run. -/
  | taskRun (stage : Stage) (i : Nat) (descr : TaskRunDescription)
  /-- The processor with index `i` of a stage has returned from `process`;
  `status` is the value of its member `status` at that moment. -/
  | processed (stage : Stage) (i : Nat) (status : Option Int)
  /-- The line `LogInfo("STATUS: ", status)`. -/
  | logStatus (status : Int)
  /-- The line `LogInfo(result.descr.taskTypeName, ": \"", result.descr.fileName, "\"")`. -/
  | logDescr (descr : TaskRunDescription)
  /-- A call of `print_msg(msg)`. -/
  | print (msg : Message)
  deriving DecidableEq, Repr

/-- The local `struct TaskResult` of main.cpp. -/
structure TaskResult where
  msgs : Messages
  descr : TaskRunDescription
  status : Int := -1
  deriving DecidableEq, Repr

/-- What `runTask` stores for one task: `run()`, `getStatus()`, `getDescr()`. -/
def Task.run (runner : ProcessRunner) (stage : Stage) (i : Nat) : Task → TaskResult
  | .TaskNull descr => { msgs := [], descr := descr, status := 0 }
  | .TaskPstream programName args fileContent useStdIn descr =>
    let result := runner.callProcess stage i programName args
      (if useStdIn then some fileContent else none)
    { msgs := result.2, descr := descr, status := result.1 }

/-- The result vector that the worker threads of `runTasks` fill, for the
tasks from index `i` on. When at least one worker is started the workers claim
every index exactly once, so the vector is the one a sequential run in index
order fills; the interleaving of the threads is not modelled. -/
def runTasks (runner : ProcessRunner) (stage : Stage) : Nat → List Task → List TaskResult
  | _, [] => []
  | i, task :: rest => task.run runner stage i :: runTasks runner stage (i + 1) rest

/-- The events of running the tasks of a stage. -/
def runEvents (stage : Stage) : Nat → List Task → List Event
  | _, [] => []
  | i, task :: rest => Event.taskRun stage i task.getDescr :: runEvents stage (i + 1) rest

/-- The number of worker threads that `runTasks` starts: `forceThreadNum` when
it is not 0 and the hardware concurrency otherwise, at most one per task. -/
def threadNum (hardware_concurrency forceThreadNum size : Nat) : Nat :=
  let threadNum := if forceThreadNum != 0 then forceThreadNum else hardware_concurrency
  if size > threadNum then threadNum else size

/-- The variables of `main` that change while the phases run; `fault` is set
when the run has stopped early, and a stopped run does nothing further. -/
structure MainState where
  trace : List Event := []
  heap : Heap
  phases : TaskPhases
  resultStatus : Int := 0
  fault : Option Fault := none

/-- Sequencing: the next step runs only if the run has not stopped. -/
def MainState.andThen (st : MainState) (next : MainState → MainState) : MainState :=
  match st.fault with
  | some _ => st
  | none => next st

/-- The lambda `runTasks` as seen from `main`: the tasks are run and `main`
waits for the progress reporter, which ends once no result holds the initial
status -1. With no worker thread and at least one task nothing is run and the
reporter never ends; it never ends either when a task's own status is -1. -/
def startTasks (w : World) (stage : Stage) (forceThreadNum : Nat) (tasks : List Task)
    (st : MainState) : MainState :=
  if threadNum w.hardware_concurrency forceThreadNum tasks.length == 0
      && tasks.length != 0 then
    { st with fault := some .hang }
  else if (runTasks w.runner stage 0 tasks).any (fun r => r.status == -1) then
    { st with trace := st.trace ++ runEvents stage 0 tasks, fault := some .hang }
  else { st with trace := st.trace ++ runEvents stage 0 tasks }

/-- The processor vector that a stage indexes. -/
def processingOf (stage : Stage) (phases : TaskPhases) : List Processing :=
  match stage with
  | .buildOld => phases.processingBuild
  | .build => phases.processingBuild
  | .old => phases.processingForOld
  | .new => phases.processingForNew

/-- Writing back a processor vector. -/
def setProcessing (stage : Stage) (phases : TaskPhases) (ps : List Processing) : TaskPhases :=
  match stage with
  | .buildOld => { phases with processingBuild := ps }
  | .build => { phases with processingBuild := ps }
  | .old => { phases with processingForOld := ps }
  | .new => { phases with processingForNew := ps }

/-- The body of the three loops over task results in `main`: the one in
`runBuild` (stages `buildOld` and `build`), the one over `resultsForOld`, which
calls `process` and reads neither the messages nor the status, and the one over
`results` of the new-tree phase. -/
def processResult (w : World) (stage : Stage) (i : Nat) (result : TaskResult)
    (st : MainState) : MainState :=
  match (processingOf stage st.phases)[i]? with
  | none => { st with fault := some .undefined }
  | some processing =>
    match processing.process w.re w.diff st.heap result.msgs result.status with
    | .error e => { st with fault := some e }
    | .ok r =>
      let st1 : MainState :=
        { st with
          heap := r.heap,
          phases := setProcessing stage st.phases ((processingOf stage st.phases).set i r.self),
          trace := st.trace ++ [Event.processed stage i r.self.getStatus] }
      match stage with
      | .old => st1
      | .new =>
        match r.self.getStatus with
        | none => { st1 with fault := some .undefined }
        | some status =>
          { st1 with
            resultStatus := Int.lor st1.resultStatus status,
            trace := st1.trace ++ [Event.logStatus status, Event.logDescr result.descr] ++
              r.msgs.map Event.print }
      | _ =>
        match r.self.getStatus with
        | none => { st1 with fault := some .undefined }
        | some status =>
          { st1 with
            resultStatus := Int.lor st1.resultStatus status,
            trace := st1.trace ++ r.msgs.map Event.print }

/-- A loop `for (auto && result : results) { ...; i++; }` over task results. -/
def processResults (w : World) (stage : Stage) : Nat → List TaskResult → MainState → MainState
  | _, [], st => st
  | i, result :: rest, st =>
    (processResult w stage i result st).andThen (processResults w stage (i + 1) rest)

/-- The lambda `runBuild`, called under the old checkout (`buildOld`) and
under the head (`build`). -/
def runBuild (w : World) (stage : Stage) (st : MainState) : MainState :=
  if st.phases.build.length != 0 then
    (startTasks w stage 1 st.phases.build st).andThen
      (processResults w stage 0 (runTasks w.runner stage 0 st.phases.build))
  else st

/-- The method `GitWrapper::doCheckout` as seen from `main`. -/
def doCheckout (w : World) (rev : String) (st : MainState) : MainState :=
  let st1 := { st with trace := st.trace ++ [Event.checkout rev] }
  if w.git.doCheckout rev then st1 else { st1 with fault := some .uncaught }

/-- The method `GitWrapper::doCheckoutHead` as seen from `main`. -/
def doCheckoutHead (w : World) (headData : HeadData) (st : MainState) : MainState :=
  (doCheckout w headData.sha
      { st with trace := st.trace ++ [Event.checkoutHead headData] }).andThen
    (fun st1 => if w.git.set_head headData.refName then st1
      else { st1 with fault := some .uncaught })

/-- The block `if (phases.forOld.size()) { ... }` of `main`. -/
def oldPhase (w : World) (config : CreatorConfig) (headData : HeadData) (st : MainState) :
    MainState :=
  if st.phases.forOld.length != 0 then
    if w.git.canCheckout config.remoteSha then
      ((((doCheckout w config.remoteSha st).andThen (runBuild w .buildOld)).andThen
        (fun st1 => startTasks w .old 0 st1.phases.forOld st1)).andThen
        (fun st1 =>
          processResults w .old 0 (runTasks w.runner .old 0 st1.phases.forOld) st1)).andThen
        (doCheckoutHead w headData)
    else { st with resultStatus := 1, trace := st.trace ++ [Event.checkoutFailed] }
  else st

/-- The part of `main` from `GitWrapper git = GitWrapper(".")` to the last
loop, for a loaded catalog `taskTypes`: the state in which the run ends. -/
def runPhases (w : World) (config : CreatorConfig) (taskTypes : TaskTypesMap) : MainState :=
  match create w.re w.fs w.git config taskTypes with
  | .error e => { heap := fun _ => {}, phases := {}, fault := some e }
  | .ok created =>
    let st0 : MainState := { heap := fun _ => {}, phases := created.phases }
    match w.git.getHeadSha with
    | .error e => { st0 with fault := some e }
    | .ok headData =>
      ((((oldPhase w config headData st0).andThen (runBuild w .build)).andThen
        (fun st1 => startTasks w .new 0 st1.phases.forNew st1)).andThen
        (fun st1 =>
          processResults w .new 0 (runTasks w.runner .new 0 st1.phases.forNew) st1))

/-- The exit code of the process: `return resultStatus ? 1 : 0` at the end of
`main`, the argument of `std::exit`, or none when the run is aborted. -/
def exitCode (st : MainState) : Option Int :=
  match st.fault with
  | none => some (if st.resultStatus != 0 then 1 else 0)
  | some (.exit code) => some code
  | some _ => none

/-- The statements of the block `if (git.canCheckout(config.remoteSha)) { ... }`
of `main` that come before the call `git.doCheckoutHead(headData)`: the
checkout of the old revision, the build phase, the old-tree tasks and the loop
over their results. -/
def oldTreeSteps (w : World) (config : CreatorConfig) (st : MainState) : MainState :=
  (((doCheckout w config.remoteSha st).andThen (runBuild w .buildOld)).andThen
    (fun st1 => startTasks w .old 0 st1.phases.forOld st1)).andThen
    (fun st1 => processResults w .old 0 (runTasks w.runner .old 0 st1.phases.forOld) st1)

/-! ## main.cpp: the mode of an invocation -/

/-- The local `enum class Mode` of `main`. -/
inductive Mode
  | NONE
  | PRE_PUSH
  | PRE_COMMIT
  | TEST_1
  | TEST_2
  | HELP
  deriving DecidableEq, Repr

/-- The lines that `main` logs before the phases run. -/
inductive LogLine
  /-- The usage text of the help mode. -/
  | usage
  /-- The line `test with: git-verify --test <localSha> <remoteSha>`. -/
  | testWith (localSha remoteSha : String)
  /-- The line `Unsupported pushing to multiple branches`. -/
  | multiBranch
  /-- The line `unsupported mode - pre-commit`. -/
  | preCommitUnsupported
  /-- The line `unknown mode`. -/
  | unknownMode
  deriving DecidableEq, Repr

/-- The choice of the mode from the program name `args[0]` and the argument
count, which is the length of `args`. Reading an argument that is not there is
undefined behaviour. -/
def selectMode (args : List String) : Except Fault Mode :=
  match args[0]? with
  | none => .error .undefined
  | some exeFullName =>
    let exeName := lastPart exeFullName '/'
    if exeName == "pre-push" then .ok .PRE_PUSH
    else if exeName == "pre-commit" then .ok .PRE_COMMIT
    else if args.length == 3 then .ok .TEST_2
    else if args.length == 2 then
      match args[1]? with
      | none => .error .undefined
      | some arg =>
        if arg == "--help" || arg == "-h" then .ok .HELP else .ok .TEST_1
    else .ok .HELP

/-- The loop `while (std::cin >> localRef >> localSha >> remoteRef >> remoteSha)`
of the pre-push mode over the words of the standard input: the configuration
of the last complete quadruple, the number of quadruples and the lines logged. -/
def readUpdates (remote url : String) :
    List String → CreatorConfig → Nat → List LogLine → CreatorConfig × Nat × List LogLine
  | localRef :: localSha :: remoteRef :: remoteSha :: rest, _, branchCount, log =>
    readUpdates remote url rest
      { remote := remote, url := url, localRef := localRef, localSha := localSha,
        remoteRef := remoteRef, remoteSha := remoteSha }
      (branchCount + 1) (log ++ [LogLine.testWith localSha remoteSha])
  | _, config, branchCount, log => (config, branchCount, log)

/-- The `switch (mode)` of `main` after the choice of the mode: the lines
logged, and the configuration with which the run goes on or the fault with
which it stops (`std::exit` included). -/
def startup (args stdin : List String) : List LogLine × Except Fault CreatorConfig :=
  match selectMode args with
  | .error e => ([], .error e)
  | .ok .HELP => ([LogLine.usage], .error (.exit 0))
  | .ok .PRE_PUSH =>
    match args[1]?, args[2]? with
    | some remote, some url =>
      let r := readUpdates remote url stdin
        { remote := "", url := "", localRef := "", localSha := "", remoteRef := "",
          remoteSha := "" } 0 []
      if r.2.1 > 1 then (r.2.2 ++ [LogLine.multiBranch], .error (.exit 1))
      else (r.2.2, .ok r.1)
    | _, _ => ([], .error .undefined)
  | .ok .TEST_2 =>
    match args[1]?, args[2]? with
    | some localSha, some remoteSha =>
      ([], .ok { remote := "", url := "", localRef := "", localSha := localSha,
                 remoteRef := "", remoteSha := remoteSha })
    | _, _ => ([], .error .undefined)
  | .ok .TEST_1 =>
    match args[1]? with
    | some remoteSha =>
      ([], .ok { remote := "", url := "", localRef := "", localSha := "HEAD",
                 remoteRef := "", remoteSha := remoteSha })
    | none => ([], .error .undefined)
  | .ok .PRE_COMMIT => ([LogLine.preCommitUnsupported], .error (.exit 1))
  | .ok .NONE => ([LogLine.unknownMode], .error (.exit 1))

/-- The function `main` for a loaded catalog: the lines logged before the
phases, and the state in which the run ends. -/
def program (w : World) (args stdin : List String) (taskTypes : TaskTypesMap) :
    List LogLine × MainState :=
  match startup args stdin with
  | (log, .error e) => (log, { heap := fun _ => {}, phases := {}, fault := some e })
  | (log, .ok config) => (log, runPhases w config taskTypes)

/-- The revision range that `GitWrapper::getJoinedCommitMsg` walks,
`oldCommitShaStr + ".." + newCommitShaStr`. -/
def commitRange (newCommitShaStr oldCommitShaStr : String) : String :=
  oldCommitShaStr ++ ".." ++ newCommitShaStr

/-! ## The aggregate of the statuses recorded in a trace -/

/-- The bitwise OR of the statuses of the processors applied in the given
stages, in the order of application (an indeterminate status adds nothing). -/
def orStatuses (stages : List Stage) (trace : List Event) : Int :=
  trace.foldl (fun acc ev =>
    match ev with
    | .processed stage _ (some status) => if stage ∈ stages then Int.lor acc status else acc
    | _ => acc) 0

/-- What one event adds to the aggregate status: a failed checkout
verification adds 1, a processor applied in the build phase (under either
checkout) or in the new-tree phase adds its status, anything else nothing. -/
def aggStep (acc : Int) : Event → Int
  | .checkoutFailed => Int.lor acc 1
  | .processed .buildOld _ (some status) => Int.lor acc status
  | .processed .build _ (some status) => Int.lor acc status
  | .processed .new _ (some status) => Int.lor acc status
  | _ => acc

/-- The aggregate that `main` keeps in `resultStatus`: the bitwise OR, in the
order of the events, of 1 for a failed checkout verification and of the
statuses of the processors applied in the build phase (under either checkout)
and in the new-tree phase. -/
def aggregate (trace : List Event) : Int :=
  trace.foldl aggStep 0

/-! ## Index-level description of the context window

The functions below describe, by index into the new-side list, which lines the
second-delivery branch emits; the theorems relate them to `diffContext`. -/

/-- The indices `lastAddedId + 1, ..., bound` that one `pushWhile` loop reads. -/
def idxs (lastAddedId bound : Int) : List Nat :=
  List.range' (lastAddedId + 1).toNat (bound - lastAddedId).toNat

/-- An output line by origin: `none` is the placeholder, `some i` is the line
with index `i` of the message list. -/
def render (msgB : Messages) : Option Nat → Message
  | none => placeholder
  | some i => msgB.getD i default

/-- The value of `lastAddedId` before the last `while` of a loop round. -/
def stepLast (last : Int) (ra : Bool) (lineNo : Int) : Int :=
  let last1 := if ra && decide (last < lineNo - 1 - contextSize) then
    max last (last + contextSize) else last
  if last1 < lineNo - 1 - contextSize then max (-1) (lineNo - 1 - contextSize - 1) else last1

/-- The origins of the lines that one loop round pushes. -/
def stepItems (last : Int) (ra : Bool) (lineNo : Int) : List (Option Nat) :=
  let p1 : List (Option Nat) :=
    if ra && decide (last < lineNo - 1 - contextSize) then
      (idxs last (last + contextSize)).map some else []
  let last1 := if ra && decide (last < lineNo - 1 - contextSize) then
    max last (last + contextSize) else last
  let p2 : List (Option Nat) :=
    if last1 < lineNo - 1 - contextSize then
      (if max (-1) (lineNo - 1 - contextSize - 1) ≥ 0 then [none] else [])
    else []
  (p1 ++ p2) ++ (idxs (stepLast last ra lineNo) (lineNo - 1)).map some

/-- The origins of the lines that the loop pushes for a list of line numbers. -/
def loopItems : Int → Bool → List Int → List (Option Nat)
  | _, _, [] => []
  | last, ra, l :: rest => stepItems last ra l ++ loopItems (max last (l - 1)) true rest

/-- The value of `lastAddedId` after the loop. -/
def lastAfter : Int → List Int → Int
  | last, [] => last
  | last, l :: rest => lastAfter (max last (l - 1)) rest

/-- The origins of the lines of the trailing context. -/
def tailItems (last : Int) (ra : Bool) (n : Nat) : List (Option Nat) :=
  if ra then (idxs last (min (last + contextSize) ((n : Int) - 1))).map some else []

/-- The message list after `msgB[lineNo-1].first = ERR` for every line number. -/
def markAll : Messages → List Int → Messages
  | msgB, [] => msgB
  | msgB, l :: rest =>
    markAll (msgB.set (l - 1).toNat (MessageType.ERR, (msgB.getD (l - 1).toNat default).2)) rest

/-- Line `i` (counted from 0) of the new-side list as the second delivery
leaves it: tagged ERR when its line number `i + 1` is an added line, otherwise
as it was delivered. -/
def markedLine (msgB : Messages) (added : List Int) (i : Nat) : Message :=
  (if ((i : Int) + 1) ∈ added then MessageType.ERR else (msgB.getD i default).1,
    (msgB.getD i default).2)

/-- Whether index `i` lies within `contextSize` of the index of an added line. -/
def nearAdded (added : List Int) (i : Nat) : Bool :=
  added.any (fun l => decide (|(i : Int) - (l - 1)| ≤ contextSize))

/-- An output line by origin, read from the list as the second delivery
leaves it. -/
def outputLine (msgB : Messages) (added : List Int) : Option Nat → Message
  | none => placeholder
  | some i => markedLine msgB added i

/-- The origins of all lines of the output: those of the loop followed by
those of the trailing context. -/
def allItems (last : Int) (ra : Bool) (added : List Int) (n : Nat) : List (Option Nat) :=
  loopItems last ra added ++ tailItems (lastAfter last added) (ra || !added.isEmpty) n

/-! ## Index-level description of the extension buckets -/

/-- The file ids that the loop filling `changedByExt` puts under the key `ext`,
in order, for files numbered from `i`: the id of a file whose extension is
`ext`, and under the key `""` the id of every file. -/
def bucketIds (ext : String) : List String → Nat → List Nat
  | [], _ => []
  | fileName :: rest, i =>
    (if has_extension fileName && lastPart fileName '.' == ext then [i] else []) ++
      ((if ext == "" then [i] else []) ++ bucketIds ext rest (i + 1))

/-! ## The pieces of what `TasksCreator::create` builds -/

/-- The map `changedByExt` as `TasksCreator::create` has filled it when its loop
over the rules starts. -/
def changedByExtOf (changes : ChangesData) : ExtMap :=
  (indexByExt changes.newFiles 0 []).push anyChange changes.newFileContent.length

/-- The change set after `TasksCreator::create` has pushed the synthetic
any-change entry onto its three vectors. -/
def withAnyChange (changes : ChangesData) : ChangesData :=
  { newFiles := changes.newFiles ++ [anyChange],
    newFileContent := changes.newFileContent ++ [""],
    oldFileContent := changes.oldFileContent ++ [""] }

/-- Whether the three vectors of a change set have one entry per changed file,
as `getChangedFiles` fills them. -/
def ChangesData.parallel (changes : ChangesData) : Bool :=
  changes.newFileContent.length == changes.newFiles.length &&
    changes.oldFileContent.length == changes.newFiles.length

/-- The state after `phases.forNew.push_back(task)` and
`phases.processingForNew.push_back(processing)`. -/
def CreateState.pushNew (st : CreateState) (task : Task) (processing : Processing) :
    CreateState :=
  { st with phases := { st.phases with
      forNew := st.phases.forNew ++ [task],
      processingForNew := st.phases.processingForNew ++ [processing] } }

/-- The state after `phases.forOld.push_back(task)` and
`phases.processingForOld.push_back(processing)`. -/
def CreateState.pushOld (st : CreateState) (task : Task) (processing : Processing) :
    CreateState :=
  { st with phases := { st.phases with
      forOld := st.phases.forOld ++ [task],
      processingForOld := st.phases.processingForOld ++ [processing] } }

/-- The state after `phases.build.push_back(task)` and
`phases.processingBuild.push_back(processing)`. -/
def CreateState.pushBuild (st : CreateState) (task : Task) (processing : Processing) :
    CreateState :=
  { st with phases := { st.phases with
      build := st.phases.build ++ [task],
      processingBuild := st.phases.processingBuild ++ [processing] } }

/-- The state after one more `std::make_shared<SharedDiffState>()`. -/
def CreateState.madeShared (st : CreateState) : CreateState :=
  { st with diffStates := st.diffStates + 1 }

/-- The handles of the shared diff states that the processors of a list hold. -/
def diffHandles (ps : List Processing) : List Nat :=
  ps.filterMap (fun p =>
    match p with
    | .ProcessingDiff _ _ diffState _ => some diffState
    | _ => none)

/-- The handles of the shared diff states that the processors of the three
phases hold. -/
def CreateState.handles (st : CreateState) : List Nat :=
  diffHandles st.phases.processingForOld ++ diffHandles st.phases.processingBuild ++
    diffHandles st.phases.processingForNew

/-- The task that `forEachFile` makes for a file of a rule and an input text. -/
def fileTask (taskType : TaskType) (fileName content : String) : Task :=
  Task.TaskPstream taskType.process.executable (prepareArgs taskType.process fileName) content
    taskType.process.useStdin { taskTypeName := taskType.name, fileName := fileName }

/-- The old-side task that `forEachFile` makes for a file of a rule of a DIFF
kind: a null task when the old content is empty. -/
def oldSideTask (taskType : TaskType) (fileName oldContent : String) : Task :=
  if oldContent.length != 0 then fileTask taskType fileName oldContent
  else Task.TaskNull { taskTypeName := "empty_file", fileName := fileName }

/-- The number of tasks of the three phases together. -/
def TaskPhases.taskCount (phases : TaskPhases) : Nat :=
  phases.forOld.length + phases.build.length + phases.forNew.length

/-- The task that `forBuild` makes for a rule. -/
def buildTask (taskType : TaskType) : Task :=
  Task.TaskPstream taskType.process.executable
    (prepareArgs taskType.process "<no file name>") "" false
    { taskTypeName := taskType.name, fileName := "<build>" }

/-- The task that `forCommitText` makes for a rule and the joined commit
messages. -/
def commitTextTask (taskType : TaskType) (allCommitsText : String) : Task :=
  Task.TaskPstream taskType.process.executable
    (prepareArgs taskType.process "<no file name>") allCommitsText true
    { taskTypeName := taskType.name, fileName := "<build>" }

/-- The processor that `forCommitText` makes for a rule of kind MATCH_SUCCESS,
MATCH_FAIL or RETURN. -/
def commitTextProcessing (taskType : TaskType) : Processing :=
  match taskType.process.testType with
  | .MATCH_SUCCESS => Processing.freshMatch true taskType.process.matchForSuccess
  | .MATCH_FAIL => Processing.freshMatch false taskType.process.matchForFail
  | _ => Processing.newReturnValue

/-- The enabled BUILD rules of a catalog, in order. -/
def enabledBuildRules (taskTypes : List TaskType) : List TaskType :=
  taskTypes.filter (fun t => t.enabled && t.targetType == TargetType.BUILD)

/-! ## The events of a stage -/

/-- Whether an event is one of running a task of the stage, of applying a
processor of the stage, or of the output that follows it. -/
def Event.ofStage (stage : Stage) : Event → Bool
  | .taskRun s _ _ => s == stage
  | .processed s _ _ => s == stage
  | .logStatus _ => true
  | .logDescr _ => true
  | .print _ => true
  | _ => false

/-! ## configLoader.cpp -/

/-- A node of a YAML document as yaml-cpp presents it. -/
inductive YamlNode
  | null
  | scalar (value : String)
  | sequence (items : List YamlNode)
  | map (fields : List (String × YamlNode))

/-- The method `Node::IsScalar`. -/
def YamlNode.IsScalar : YamlNode → Bool
  | .scalar _ => true
  | _ => false

/-- The method `Node::IsSequence`. -/
def YamlNode.IsSequence : YamlNode → Bool
  | .sequence _ => true
  | _ => false

/-- The method `Node::IsMap`. -/
def YamlNode.IsMap : YamlNode → Bool
  | .map _ => true
  | _ => false

/-- The child `node[key]` of a map; `none` is the undefined node, for which
`!node[key]` holds. -/
def YamlNode.get : YamlNode → String → Option YamlNode
  | .map fields, key => fields.lookup key
  | _, _ => none

/-- The elements that a range-based `for` over a sequence node visits. -/
def YamlNode.elements : YamlNode → List YamlNode
  | .sequence items => items
  | _ => []

/-- The conversions of yaml-cpp to built-in types, `node.as<std::string>()` and
`node.as<bool>()`; `none` stands for the exception that a failed conversion
throws. -/
structure YamlLib where
  as_string : YamlNode → Option String
  as_bool : YamlNode → Option Bool

/-- The call `node.as<TestType>()`: `convert<TestType>::decode`, whose result
`false` makes `as` throw. -/
def asTestType (yaml : YamlLib) (node : YamlNode) : Except Fault TestType :=
  if !node.IsScalar then .error .uncaught
  else
    match yaml.as_string node with
    | none => .error .uncaught
    | some typeName =>
      if typeName == "DIFF" then .ok .DIFF
      else if typeName == "RETURN" then .ok .RETURN
      else if typeName == "MATCH_SUCCESS" then .ok .MATCH_SUCCESS
      else if typeName == "MATCH_FAIL" then .ok .MATCH_FAIL
      else if typeName == "DIFF_WITH_CHECKOUT" then .ok .DIFF_WITH_CHECKOUT
      else .error .uncaught

/-- The call `node.as<TaskType::Process::Special>()`. -/
def asSpecial (yaml : YamlLib) (node : YamlNode) : Except Fault Special :=
  if !node.IsScalar then .error .uncaught
  else
    match yaml.as_string node with
    | none => .error .uncaught
    | some specialName =>
      if specialName == "FILENAME" then .ok .FILENAME else .error .uncaught

/-- The loop `for (auto && param : node["params"])` of
`convert<TaskType::Process>::decode`; the result `none` is `return false`. -/
def decodeParams (yaml : YamlLib) :
    List YamlNode → List (String ⊕ Special) → Except Fault (Option (List (String ⊕ Special)))
  | [], params => .ok (some params)
  | param :: rest, params =>
    if param.IsScalar then
      match yaml.as_string param with
      | none => .error .uncaught
      | some s => decodeParams yaml rest (params ++ [.inl s])
    else if param.IsMap then
      match param.get "special" with
      | some special =>
        match asSpecial yaml special with
        | .error e => .error e
        | .ok sp => decodeParams yaml rest (params ++ [.inr sp])
      | none => .ok none
    else .ok none

/-- The function `convert<TaskType::Process>::decode` on a process that
`node.as<TaskType::Process>()` has default-initialised (empty strings and no
parameters); the result `none` is `return false`, a fault an exception thrown
by a conversion. -/
def decodeProcess (yaml : YamlLib) (node : YamlNode) :
    Except Fault (Option TaskType.Process) :=
  if !node.IsMap then .ok none
  else
    match node.get "testType", node.get "useStdin", node.get "executable",
      node.get "params" with
    | some testTypeNode, some useStdinNode, some executableNode, some paramsNode =>
      if !paramsNode.IsSequence then .ok none
      else
        match decodeParams yaml paramsNode.elements [] with
        | .error e => .error e
        | .ok none => .ok none
        | .ok (some params) =>
          match asTestType yaml testTypeNode with
          | .error e => .error e
          | .ok testType =>
            match yaml.as_bool useStdinNode with
            | none => .error .uncaught
            | some useStdin =>
              let skipOnEmptyFile :=
                ((node.get "skipOnEmptyFile").bind yaml.as_bool).getD true
              match yaml.as_string executableNode with
              | none => .error .uncaught
              | some executable =>
                let process : TaskType.Process :=
                  { params := params, executable := executable, logDiffFilterRegex := "",
                    matchForFail := "", matchForSuccess := "", testType := testType,
                    useStdin := useStdin, skipOnEmptyFile := skipOnEmptyFile }
                let step1 : Except Fault (Option TaskType.Process) :=
                  if testType == TestType.DIFF then
                    match node.get "logDiffFilterRegex" with
                    | none => .ok none
                    | some n =>
                      match yaml.as_string n with
                      | none => .error .uncaught
                      | some s => .ok (some { process with logDiffFilterRegex := s })
                  else .ok (some process)
                match step1 with
                | .error e => .error e
                | .ok none => .ok none
                | .ok (some process1) =>
                  let step2 : Except Fault (Option TaskType.Process) :=
                    if testType == TestType.MATCH_FAIL then
                      match node.get "matchForFail" with
                      | none => .ok none
                      | some n =>
                        match yaml.as_string n with
                        | none => .error .uncaught
                        | some s => .ok (some { process1 with matchForFail := s })
                    else .ok (some process1)
                  match step2 with
                  | .error e => .error e
                  | .ok none => .ok none
                  | .ok (some process2) =>
                    if testType == TestType.MATCH_SUCCESS then
                      match node.get "matchForSuccess" with
                      | none => .ok none
                      | some n =>
                        match yaml.as_string n with
                        | none => .error .uncaught
                        | some s => .ok (some { process2 with matchForSuccess := s })
                    else .ok (some process2)
    | _, _, _, _ => .ok none

/-- The call `node.as<TaskType::TargetType>()`. -/
def asTargetType (yaml : YamlLib) (node : YamlNode) : Except Fault TargetType :=
  if !node.IsScalar then .error .uncaught
  else
    match yaml.as_string node with
    | none => .error .uncaught
    | some targetTypeName =>
      if targetTypeName == "FILE" then .ok .FILE
      else if targetTypeName == "COMMIT_TEXT" then .ok .COMMIT_TEXT
      else if targetTypeName == "FILE_NAME" then .ok .FILE_NAME
      else if targetTypeName == "ADDED_TEXT" then .ok .ADDED_TEXT
      else if targetTypeName == "BUILD" then .ok .BUILD
      else if targetTypeName == "ANY_CHANGE" then .ok .ANY_CHANGE
      else .error .uncaught

/-- The conversion of the elements of a sequence to strings. -/
def asStringsFrom (yaml : YamlLib) : List YamlNode → Except Fault (List String)
  | [] => .ok []
  | n :: rest =>
    match yaml.as_string n with
    | none => .error .uncaught
    | some s =>
      match asStringsFrom yaml rest with
      | .error e => .error e
      | .ok l => .ok (s :: l)

/-- The call `node.as<std::vector<std::string>>()`. -/
def asStrings (yaml : YamlLib) (node : YamlNode) : Except Fault (List String) :=
  if !node.IsSequence then .error .uncaught else asStringsFrom yaml node.elements

/-- An optional sequence field of the `file` node, `files` or `exceptions`; the
result `none` is `return false`. -/
def decodeFileList (yaml : YamlLib) (node : YamlNode) (key : String) :
    Except Fault (Option (List String)) :=
  match node.get key with
  | none => .ok (some [])
  | some n =>
    if !n.IsSequence then .ok none
    else
      match asStrings yaml n with
      | .error e => .error e
      | .ok l => .ok (some l)

/-- The function `convert<TaskType::File>::decode`; the result `none` is
`return false`. -/
def decodeFile (yaml : YamlLib) (node : YamlNode) : Except Fault (Option TaskType.File) :=
  if !node.IsMap then .ok none
  else
    match node.get "ext" with
    | none => .ok none
    | some extNode =>
      if !extNode.IsSequence then .ok none
      else
        match decodeFileList yaml node "files" with
        | .error e => .error e
        | .ok none => .ok none
        | .ok (some files) =>
          match decodeFileList yaml node "exceptions" with
          | .error e => .error e
          | .ok none => .ok none
          | .ok (some exceptions) =>
            match asStrings yaml extNode with
            | .error e => .error e
            | .ok ext =>
              .ok (some { ext := if ext.length == 0 then [""] else ext, files := files,
                          exceptions := exceptions })

/-- The function `convert<TaskType>::decode`; the result `none` is
`return false`. The name of the rule is left empty, the caller sets it. -/
def decodeTaskType (yaml : YamlLib) (node : YamlNode) : Except Fault (Option TaskType) :=
  if !node.IsMap then .ok none
  else
    match node.get "type", node.get "targetType" with
    | some _, some targetNode =>
      match (match node.get "description" with
          | none => (.ok "" : Except Fault String)
          | some d =>
            match yaml.as_string d with
            | none => .error .uncaught
            | some s => .ok s) with
      | .error e => .error e
      | .ok description =>
        match asTargetType yaml targetNode with
        | .error e => .error e
        | .ok targetType =>
          let fileStep : Except Fault (Option (Option TaskType.File)) :=
            if targetType != TargetType.COMMIT_TEXT && targetType != TargetType.BUILD
                && targetType != TargetType.ANY_CHANGE then
              match node.get "file" with
              | none => .ok none
              | some f =>
                match decodeFile yaml f with
                | .error e => .error e
                | .ok none => .error .uncaught
                | .ok (some file) => .ok (some (some file))
            else .ok (some none)
          match fileStep with
          | .error e => .error e
          | .ok none => .ok none
          | .ok (some file) =>
            match node.get "process" with
            | none => .ok none
            | some p =>
              match decodeProcess yaml p with
              | .error e => .error e
              | .ok none => .error .uncaught
              | .ok (some process) =>
                .ok (some { name := "", description := description, file := file,
                            process := process, targetType := targetType,
                            enabled := ((node.get "enabled").bind yaml.as_bool).getD true })
    | _, _ => .ok none

/-- The body of the loop of `loadTaskTypeConfig(fileName)` for one entry of the
document: `config[name] = it.second.as<TaskType>(); config[name].name = name`. -/
def loadRule (yaml : YamlLib) (name : String) (node : YamlNode) : Except Fault TaskType :=
  match decodeTaskType yaml node with
  | .error e => .error e
  | .ok none => .error .uncaught
  | .ok (some taskType) => .ok { taskType with name := name }

/-! ## The lines of a text blob -/

/-- The newline-terminated lines of a text, carrying the line being read: a
line ends at each `'\n'`; characters after the last newline form a final line
when there are any. Line `k` of a blob, counted from 1 as libgit2 counts the
lines of a buffer, is entry `k - 1` of this list. -/
def textLinesFrom : List Char → List Char → List (List Char)
  | [], cur => if cur = [] then [] else [cur]
  | c :: cs, cur => if c = '\n' then cur :: textLinesFrom cs [] else textLinesFrom cs (cur ++ [c])

/-- The lines of a text. -/
def textLines (text : List Char) : List (List Char) := textLinesFrom text []

/-- The spec's wording of the filtered blob, for comparison with `filterLog`:
the message lines that match the log-filter pattern are removed and the
remaining lines are joined with newlines. -/
def specFilterLog (re : RegexLib) (logFilterRegex : String) (rows : Messages) : String :=
  "\n".intercalate ((rows.filter (fun row => !re.regex_match row.2 logFilterRegex)).map
    (fun row => row.2))

/-! ## Index-level description of the visiting order of `forEachFile` -/

/-- The file ids that the two loops of `forEachFile` visit for a list of
extensions, in visiting order: bucket after bucket in the order of the
extension list, each bucket in its own order. -/
def visitedIds (changedByExt : ExtMap) (exts : List String) : List Nat :=
  exts.flatMap (fun ext => (changedByExt.lookup ext).getD [])

/-- The names of the files that `testFile` accepts among the files read at the
given file ids, in the order of the ids. -/
def acceptedNames (fs : FsLib) (changesData : ChangesData) (file : TaskType.File)
    (ids : List Nat) : List String :=
  ids.filterMap (fun id =>
    match changesData.newFiles[id]? with
    | some fileName =>
      match testFile fs file fileName with
      | .ok true => some fileName
      | _ => none
    | none => none)

/-- Whether the pattern from which the processor of a process specification
builds its `std::regex` is a regular expression: the pattern that the test kind
selects; the processor of kind RETURN builds none. -/
def TaskType.Process.patternCompiles (re : RegexLib) (process : TaskType.Process) : Bool :=
  match process.testType with
  | .RETURN => true
  | .MATCH_SUCCESS => re.regex process.matchForSuccess
  | .MATCH_FAIL => re.regex process.matchForFail
  | _ => re.regex process.logDiffFilterRegex

/-- The file names that the tasks of a phase carry in their descriptions. -/
def taskFiles (tasks : List Task) : List String :=
  tasks.map (fun task => task.getDescr.fileName)

/-- The number of tasks that the body of `forEachFile` pushes onto the new-tree
phase for an accepted file. -/
def newTasksPerFile (testType : TestType) : Nat :=
  if testType = TestType.DIFF then 2 else 1

/-- The number of tasks that the body of `forEachFile` pushes onto the old-tree
phase for an accepted file. -/
def oldTasksPerFile (testType : TestType) : Nat :=
  if testType = TestType.DIFF_WITH_CHECKOUT then 1 else 0

/-! ## The process calls of a run and the shared diff states -/

/-- The tag and the handle of the shared diff state that a processor holds;
only a `ProcessingDiff` holds one. -/
def Processing.holder : Processing → Option (DiffPart × Nat)
  | .ProcessingDiff diffPart _ diffState _ => some (diffPart, diffState)
  | _ => none

/-- The tag of a processor if it holds the shared diff state with handle `h`. -/
def holderPart (h : Nat) (p : Processing) : Option DiffPart :=
  match p.holder with
  | some (diffPart, diffState) => if diffState = h then some diffPart else none
  | none => none

/-- The tags of the processors of a vector that hold the shared diff state with
handle `h`, in the order of the vector. -/
def holdersIn (ps : List Processing) (h : Nat) : List DiffPart :=
  ps.filterMap (holderPart h)

/-- The calls of `process` that a trace records, in order: the stage and the
index of the processor. -/
def processCalls (trace : List Event) : List (Stage × Nat) :=
  trace.filterMap (fun ev =>
    match ev with
    | .processed stage i _ => some (stage, i)
    | _ => none)

/-- The calls of `process` that reach the shared diff state with handle `h` in a
trace, in order, each given by the tag of the processor that made it. The
processors are those of the phases as built by expansion; a call of `process`
changes neither the tag nor the handle of a processor. -/
def deliveries (phases : TaskPhases) (h : Nat) (trace : List Event) : List DiffPart :=
  (processCalls trace).filterMap (fun call =>
    match (processingOf call.1 phases)[call.2]? with
    | some p => holderPart h p
    | none => none)

/-- What no call of `process` changes in the phases: the three task vectors
and, for every processor, the tag and the handle it holds. -/
def TaskPhases.frame (phases : TaskPhases) :
    List Task × List Task × List Task × List (Option (DiffPart × Nat)) ×
      List (Option (DiffPart × Nat)) × List (Option (DiffPart × Nat)) :=
  (phases.forOld, phases.build, phases.forNew,
    phases.processingForOld.map Processing.holder,
    phases.processingBuild.map Processing.holder,
    phases.processingForNew.map Processing.holder)

/-- Whether every task vector of the phases has the length of its processor
vector, as `main` assumes when it indexes the processors by task index. -/
def TaskPhases.aligned (phases : TaskPhases) : Bool :=
  phases.forOld.length == phases.processingForOld.length &&
    phases.build.length == phases.processingBuild.length &&
    phases.forNew.length == phases.processingForNew.length

/-- Whether the processors of the phases hold the shared diff state with handle
`h` the way `forEachFile` hands it out, `diffStates` states having been made:
no processor of the build phase holds a state; a state that has been made is
held by an A-tagged and then a B-tagged processor of the new-tree phase, or by
an A-tagged processor of the old-tree phase and a B-tagged one of the new-tree
phase; a state that has not been made is held by no processor. -/
def pairedAt (phases : TaskPhases) (diffStates h : Nat) : Bool :=
  holdersIn phases.processingBuild h == [] &&
    (if h < diffStates then
      (holdersIn phases.processingForOld h == [] &&
          holdersIn phases.processingForNew h == [DiffPart.A, DiffPart.B]) ||
        (holdersIn phases.processingForOld h == [DiffPart.A] &&
          holdersIn phases.processingForNew h == [DiffPart.B])
    else
      holdersIn phases.processingForOld h == [] && holdersIn phases.processingForNew h == [])

/-- The state of `main` when the loop over the results of the new-tree phase
starts: after the block of the old-tree phase, the build phase under the head
and the run of the new-tree tasks. -/
def newTreeStart (w : World) (config : CreatorConfig) (headData : HeadData)
    (phases : TaskPhases) : MainState :=
  ((oldPhase w config headData { heap := fun _ => {}, phases := phases }).andThen
    (runBuild w .build)).andThen
    (fun st1 => startTasks w .new 0 st1.phases.forNew st1)

/-! ## taskBase.cpp: `callProcess` -/

/-- What one call of `readsome` finds on a pipe of the child process. -/
inductive Avail
  /-- Characters are waiting: the call reads them and returns their number. -/
  | data (chunk : String)
  /-- The pipe is open and nothing is waiting: the call returns 0. -/
  | nothing
  deriving DecidableEq, Repr

/-- The child process as `callProcess` sees it through its `redi::pstream`
(the vendored PStreams header pstream/pstream.h is not among the sources at
hand; the stream is described by what the calls made on it return). For each of
the two pipes the list says what the successive calls of `readsome` find; a
call on a pipe whose list is used up finds the end of the file, returns 0 and
sets the end-of-file flag. `eofOut` and `eofErr` are the values that
`process.out().eof()` and `process.err().eof()` return. -/
structure PStream where
  out : List Avail
  err : List Avail
  eofOut : Bool := false
  eofErr : Bool := false
  deriving DecidableEq, Repr

/-- The calls `process.out().eof()` (for `readErr = false`) and
`process.err().eof()` (for `readErr = true`). -/
def PStream.eof (readErr : Bool) (p : PStream) : Bool :=
  if readErr then p.eofErr else p.eofOut

/-- The stream after a call of `readsome` has found the end of the file on the
selected pipe. In PStreams `out()` and `err()` select the pipe and return the
one stream object itself, so the end-of-file flag is the flag of both
(`sharedFlags = true`; the overload of `callProcess` without input calls
`process.clear()` before it reads stderr for this reason). With
`sharedFlags = false` the two pipes have flags of their own. -/
def PStream.atEof (sharedFlags readErr : Bool) (p : PStream) : PStream :=
  if sharedFlags then { p with eofOut := true, eofErr := true }
  else if readErr then { p with eofErr := true }
  else { p with eofOut := true }

/-- The inner loop of `reader` over the positions of `'\n'` in `buf`: the
complete lines, in order, and the rest after the last newline. -/
def splitBuf : List Char → List Char → List String → List String × String
  | [], cur, lines => (lines, String.mk cur)
  | c :: cs, cur, lines =>
    if c = '\n' then splitBuf cs [] (lines ++ [String.mk cur])
    else splitBuf cs (cur ++ [c]) lines

/-- The loop `while ((n = stream.readsome(buf.data(), size)))` of the lambda
`reader`, over what the successive calls find on the selected pipe: what is
left of the pipe's list, whether the last call found the end of the file, the
rest `unfinished` and the messages. -/
def readerLoop (msgType : MessageType) :
    List Avail → String → Messages → List Avail × Bool × String × Messages
  | [], unfinished, msg => ([], true, unfinished, msg)
  | .nothing :: rest, unfinished, msg => (rest, false, unfinished, msg)
  | .data chunk :: rest, unfinished, msg =>
    if chunk.length = 0 then (rest, false, unfinished, msg)
    else
      let r := splitBuf (unfinished ++ chunk).data [] []
      readerLoop msgType rest r.2 (msg ++ r.1.map (fun line => (msgType, line)))

/-- The local variables of `callProcess` with input while its loop runs. -/
structure PollState where
  process : PStream
  endOut : Bool := false
  endErr : Bool := false
  unfinishedOut : String := ""
  unfinishedErr : String := ""
  msg : Messages := []
  deriving DecidableEq, Repr

/-- The first statement of the body of `while (end != ALL)`: stdout is read
unless `process.out().eof()` holds. -/
def pollOut (sharedFlags : Bool) (s : PollState) : PollState :=
  if !s.process.eof false then
    let r := readerLoop .NORMAL s.process.out s.unfinishedOut s.msg
    let p1 : PStream := { s.process with out := r.1 }
    { s with process := if r.2.1 then p1.atEof sharedFlags false else p1,
             unfinishedOut := r.2.2.1, msg := r.2.2.2 }
  else { s with endOut := true, msg := s.msg ++ [(MessageType.NORMAL, s.unfinishedOut)] }

/-- The second statement of the body of `while (end != ALL)`: stderr is read
unless `process.err().eof()` holds. -/
def pollErr (sharedFlags : Bool) (s : PollState) : PollState :=
  if !s.process.eof true then
    let r := readerLoop .ERR s.process.err s.unfinishedErr s.msg
    let p1 : PStream := { s.process with err := r.1 }
    { s with process := if r.2.1 then p1.atEof sharedFlags true else p1,
             unfinishedErr := r.2.2.1, msg := r.2.2.2 }
  else { s with endErr := true, msg := s.msg ++ [(MessageType.ERR, s.unfinishedErr)] }

/-- The loop `while (end != ALL)`, for a given number of rounds at most; a loop
that has not ended by then counts as a run that never returns. -/
def pollLoop (sharedFlags : Bool) : Nat → PollState → Except Fault Messages
  | 0, _ => .error .hang
  | fuel + 1, s =>
    if s.endOut && s.endErr then .ok s.msg
    else pollLoop sharedFlags fuel (pollErr sharedFlags (pollOut sharedFlags s))

/-- The messages that `callProcess(name, args, input)` returns for a child
process that has taken its input; the exit status that it returns with them
is left out. The loop is given one round for every entry of the two pipes'
lists and four more. -/
def callProcess (sharedFlags : Bool) (process : PStream) : Except Fault Messages :=
  pollLoop sharedFlags (process.out.length + process.err.length + 4) { process := process }

/-- All that the child process writes to a pipe. -/
def written (pipe : List Avail) : List Char :=
  (pipe.map (fun a =>
    match a with
    | .data chunk => chunk.data
    | .nothing => [])).flatten

/-- The messages that the overload `callProcess(name, args)` without input
returns: the lines that `std::getline` reads from stdout until the end of the
file and then, after `process.clear()`, from stderr. -/
def callProcessNoInput (process : PStream) : Messages :=
  (textLines (written process.out)).map (fun line => (MessageType.NORMAL, String.mk line)) ++
    (textLines (written process.err)).map (fun line => (MessageType.ERR, String.mk line))

/-! ## Fixtures for concrete runs -/

/-- A stand-in for `std::regex` whose constructor throws on the string `(`, an
unclosed group, and on no other string, and that knows the one pattern
`^OK.*`: a line matches when it starts with `OK`; replacement leaves every line
as it is. -/
def demoRegex : RegexLib where
  regex := fun pattern => pattern != "("
  regex_match := fun line pattern => pattern == "^OK.*" && line.data.take 2 == ['O', 'K']
  regex_replace := fun line _ => line

/-- A stand-in for libgit2's buffer diff that reports the given new-side line
numbers as added lines, whatever the buffers hold. -/
def demoDiff (added : List Int) : DiffLib where
  git_diff_buffers := fun _ _ => (0, added.map (fun l => { old_lineno := -1, new_lineno := l }))

/-- A store of shared diff states in which no state has received a delivery. -/
def freshHeap : Heap := fun _ => {}

/-- A store of shared diff states in which every state has had its first
delivery and holds the given old-side and new-side messages. -/
def pendingHeap (a b : Messages) : Heap := fun _ => { count := 1, a := a, b := b }

/-- Twenty-three numbered new-side lines. -/
def numbered23 : Messages :=
  [(.NORMAL, "line 1"), (.NORMAL, "line 2"), (.NORMAL, "line 3"), (.NORMAL, "line 4"),
   (.NORMAL, "line 5"), (.NORMAL, "line 6"), (.NORMAL, "line 7"), (.NORMAL, "line 8"),
   (.NORMAL, "line 9"), (.NORMAL, "line 10"), (.NORMAL, "line 11"), (.NORMAL, "line 12"),
   (.NORMAL, "line 13"), (.NORMAL, "line 14"), (.NORMAL, "line 15"), (.NORMAL, "line 16"),
   (.NORMAL, "line 17"), (.NORMAL, "line 18"), (.NORMAL, "line 19"), (.NORMAL, "line 20"),
   (.NORMAL, "line 21"), (.NORMAL, "line 22"), (.NORMAL, "line 23")]

/-- A disk on which no path names a regular file or a directory. -/
def demoFs : FsLib where
  is_regular_file := fun _ => false
  is_directory := fun _ => false
  path_eq := fun a b => a == b

/-- A repository with the given changed files in which every operation succeeds. -/
def demoGit (changes : ChangesData) : GitRepo where
  getChangedFiles := fun _ _ => .ok changes
  getAddedLines := fun _ _ _ => .ok ""
  getJoinedCommitMsg := fun _ _ => .ok ""
  getHeadSha := .ok { sha := "abc", refName := "refs/heads/main" }
  canCheckout := fun _ => true
  doCheckout := fun _ => true
  set_head := fun _ => true

/-- A process runner in which every process ends with the given status and
output. -/
def demoRunner (status : Int) (msgs : Messages) : ProcessRunner where
  callProcess := fun _ _ _ _ _ => (status, msgs)

/-- The change set whose only changed file is `a.py`. -/
def onePyFile : ChangesData :=
  { newFiles := ["a.py"], newFileContent := ["new"], oldFileContent := ["old"] }

/-- A world with one changed file `a.py`, a line diff that reports the given
added lines, and processes that end with the given status and output. -/
def demoWorld (added : List Int) (status : Int) (msgs : Messages) : World where
  re := demoRegex
  diff := demoDiff added
  fs := demoFs
  git := demoGit onePyFile
  runner := demoRunner status msgs
  hardware_concurrency := 4

/-- A two-revision configuration. -/
def demoConfig : CreatorConfig :=
  { remote := "", url := "", localRef := "", localSha := "HEAD", remoteRef := "",
    remoteSha := "HEAD~1" }

/-- A process specification of the given test kind. -/
def demoProcess (testType : TestType) : TaskType.Process :=
  { params := [.inr .FILENAME], executable := "lint", logDiffFilterRegex := "x",
    matchForFail := "", matchForSuccess := "", testType := testType, useStdin := true,
    skipOnEmptyFile := true }

/-- An enabled FILE rule for the extension `py` of the given test kind. -/
def pyRule (testType : TestType) : TaskType :=
  { name := "lint", description := "", file := some { ext := ["py"] },
    process := demoProcess testType, targetType := .FILE, enabled := true }

/-- The run of a DIFF_WITH_CHECKOUT rule on `a.py` in which the tool prints
the same line on the old tree and on the new tree. -/
def demoCheckoutRun : MainState :=
  runPhases (demoWorld [] 0 [(.NORMAL, "fine")]) demoConfig [pyRule .DIFF_WITH_CHECKOUT]

/-- The run of a RETURN rule on `a.py` in which the tool exits with status 1. -/
def demoReturnRun : MainState :=
  runPhases (demoWorld [] 1 [(.NORMAL, "bad")]) demoConfig [pyRule .RETURN]

/-- A disk on which a path with an extension is a regular file and any other
path is a directory. -/
def demoDisk : FsLib where
  is_regular_file := fun p => has_extension p
  is_directory := fun p => !has_extension p
  path_eq := fun a b => a == b

/-- An enabled ANY_CHANGE rule of the given test kind. -/
def anyChangeRule (testType : TestType) : TaskType :=
  { name := "any", description := "", file := none, process := demoProcess testType,
    targetType := .ANY_CHANGE, enabled := true }

/-- An enabled ANY_CHANGE rule of kind MATCH_FAIL whose pattern is `(`. -/
def badPatternRule : TaskType :=
  { anyChangeRule .MATCH_FAIL with
    process := { demoProcess .MATCH_FAIL with matchForFail := "(" } }

/-- An enabled BUILD rule that does not use stdin. -/
def buildRule : TaskType :=
  { name := "make", description := "", file := none,
    process := { demoProcess .RETURN with params := [.inl "all"], executable := "make",
                                          useStdin := false },
    targetType := .BUILD, enabled := true }

/-- An enabled COMMIT_TEXT rule of the given test kind. -/
def commitRule (testType : TestType) : TaskType :=
  { name := "msg", description := "", file := none,
    process := { demoProcess testType with params := [], executable := "checkmsg",
                                           matchForFail := "^WIP" },
    targetType := .COMMIT_TEXT, enabled := true }

/-- A repository like `demoGit` in which the checkout verification fails. -/
def noCheckoutGit (changes : ChangesData) : GitRepo :=
  { demoGit changes with canCheckout := fun _ => false }

/-- A repository like `demoGit` in which the checkout verification passes and
the checkout of `HEAD~1` throws. -/
def failingCheckoutGit (changes : ChangesData) : GitRepo :=
  { demoGit changes with doCheckout := fun rev => rev != "HEAD~1" }

/-- A world like `demoWorld` in which the checkout verification fails. -/
def noCheckoutWorld : World :=
  { demoWorld [] 0 [(.NORMAL, "fine")] with git := noCheckoutGit onePyFile }

/-- A world like `demoWorld` in which the checkout of the old revision throws
and every process ends with status 1. -/
def failingCheckoutWorld : World :=
  { demoWorld [] 1 [(.NORMAL, "bad")] with git := failingCheckoutGit onePyFile }

/-- The phases to which the catalog of the one rule `pyRule .DIFF_WITH_CHECKOUT`
expands on the change set `onePyFile`. -/
def checkoutRulePhases : CreateState :=
  { phases := {
      forOld := [fileTask (pyRule .DIFF_WITH_CHECKOUT) "a.py" "old"],
      processingForOld := [Processing.freshDiff .A "x" 0],
      forNew := [fileTask (pyRule .DIFF_WITH_CHECKOUT) "a.py" "new"],
      processingForNew := [Processing.freshDiff .B "x" 0] },
    diffStates := 1 }

/-- The conversions of yaml-cpp on scalars: the text of a scalar, and `true` or
`false` for the scalars so written. -/
def demoYaml : YamlLib where
  as_string := fun node =>
    match node with
    | .scalar value => some value
    | _ => none
  as_bool := fun node =>
    match node with
    | .scalar value =>
      if value == "true" then some true else if value == "false" then some false else none
    | _ => none

/-- The `process` node of a rule of the given test kind whose log filter
pattern is `[0-9]+`. -/
def demoProcessNode (testType : String) : YamlNode :=
  .map [("testType", .scalar testType), ("useStdin", .scalar "true"),
        ("executable", .scalar "lint"),
        ("params", .sequence [.map [("special", .scalar "FILENAME")]]),
        ("logDiffFilterRegex", .scalar "[0-9]+")]

/-- The catalog entry of a FILE rule for the extension `py` of the given test
kind whose log filter pattern is `[0-9]+`. -/
def demoRuleNode (testType : String) : YamlNode :=
  .map [("type", .scalar "PROCESS"), ("targetType", .scalar "FILE"),
        ("file", .map [("ext", .sequence [.scalar "py"])]),
        ("process", demoProcessNode testType)]

/-- A repository like `demoGit` in which the contents of the changed file
`a.py` and the joined commit messages name the revisions they are taken from. -/
def rangeGit : GitRepo :=
  { demoGit onePyFile with
    getChangedFiles := fun newCommitShaStr oldCommitShaStr =>
      .ok { newFiles := ["a.py"], newFileContent := ["tree of " ++ newCommitShaStr],
            oldFileContent := ["tree of " ++ oldCommitShaStr] }
    getJoinedCommitMsg := fun newCommitShaStr oldCommitShaStr =>
      .ok ("messages of " ++ commitRange newCommitShaStr oldCommitShaStr) }

/-- A world like `demoWorld` over the repository `rangeGit`. -/
def rangeWorld : World :=
  { demoWorld [] 0 [(.NORMAL, "fine")] with git := rangeGit }

/-- A stand-in for `std::regex` that knows the pattern `[0-9]+`: a line
matches when it is a non-empty run of digits, and replacing the matches by the
empty string removes every digit of the line. -/
def digitRegex : RegexLib where
  regex := fun pattern => pattern == "[0-9]+"
  regex_match := fun line _ => line.data.all Char.isDigit && line != ""
  regex_replace := fun line _ => String.mk (line.data.filter (fun c => !c.isDigit))

/-- A stand-in for libgit2's buffer diff working on the lines of the two
buffers: a line of the new buffer that is not a line of the old buffer is
reported as added, with its line number counted from 1. -/
def lineSetDiff : DiffLib where
  git_diff_buffers := fun old new =>
    (0, ((textLines new.data).enum.filter
          (fun l => !(textLines old.data).contains l.2)).map
        (fun l => { old_lineno := -1, new_lineno := (l.1 : Int) + 1 }))

/-- A rule over the files of two extensions, `py` listed before `c`. -/
def pyAndCRule (testType : TestType) : TaskType :=
  { name := "lint", description := "", file := some { ext := ["py", "c"] },
    process := demoProcess testType, targetType := .FILE, enabled := true }

/-- A change set of three files: a C file between two Python files. -/
def threeFiles : ChangesData :=
  { newFiles := ["a.py", "b.c", "c.py"], newFileContent := ["1", "2", "3"],
    oldFileContent := ["", "", ""] }

/-- A child process that has written `a` to stdout and `b` to stderr, a line
each, and has ended before `callProcess` reads for the first time. -/
def fastChild : PStream :=
  { out := [.data "a\n"], err := [.data "b\n"] }

/-- A child process that has written the line `a` and the unfinished line `x`
to stdout and closed it before `callProcess` reads for the first time, and
writes the line `b` to stderr after that. -/
def lateStderrChild : PStream :=
  { out := [.data "a\nx"], err := [.nothing, .data "b\n"] }

/-! ## Theorems -/

theorem matchLoop_eq (re : RegexLib) (mfs : Bool) (pattern : String) (messages : Messages) :
    ∀ acc : Messages × Option Int,
      (matchLoop re mfs pattern messages acc).1 =
        acc.1 ++ (messages.filter (fun m => re.regex_match m.2 pattern != mfs)).map
          (fun m => (MessageType.ERR, m.2)) ∧
      (matchLoop re mfs pattern messages acc).2 =
        if (messages.filter (fun m => re.regex_match m.2 pattern != mfs)) = [] then acc.2
        else some 1 := by
  induction messages with
  | nil => intro acc; simp [matchLoop]
  | cons m rest ih =>
    intro acc
    by_cases h : (re.regex_match m.2 pattern != mfs) = true
    · have := ih (acc.1 ++ [(MessageType.ERR, m.2)], some 1)
      simp only [matchLoop, h, if_true, List.filter_cons]
      refine ⟨by simp [this.1], ?_⟩
      rw [this.2]; simp
    · have := ih acc
      simp only [matchLoop, h, List.filter_cons]
      simpa using this

/-- C3: on a shared state whose counter is 0, `ProcessingDiff::process` of
either tag stores the messages in the slot of its own tag (leaving the other
slot and every other shared state alone), sets the counter to 1, sets its own
status to 1 and returns the empty message list. -/
theorem processingDiff_first_delivery (re : RegexLib) (git : DiffLib) (heap : Heap)
    (diffPart : DiffPart) (logFilterRegex : String) (diffState : Nat) (st0 : Option Int)
    (messages : Messages) (status : Int) (h0 : (heap diffState).count = 0) :
    ∃ r, (Processing.ProcessingDiff diffPart logFilterRegex diffState st0).process re git heap
          messages status = .ok r ∧
      r.msgs = [] ∧ r.self.getStatus = some 1 ∧ (r.heap diffState).count = 1 ∧
      (diffPart = .A → (r.heap diffState).a = messages ∧
        (r.heap diffState).b = (heap diffState).b) ∧
      (diffPart = .B → (r.heap diffState).b = messages ∧
        (r.heap diffState).a = (heap diffState).a) ∧
      (∀ other, other ≠ diffState → r.heap other = heap other) := by
  cases diffPart <;>
    simp [Processing.process, storeSlot, h0, Processing.getStatus, Function.update] <;>
    exact fun other hne heq => absurd heq hne

theorem processingDiff_first_delivery_witness :
    (freshHeap 0).count = 0 ∧
    ∃ r, (Processing.ProcessingDiff .A "x" 0 none).process demoRegex (demoDiff []) freshHeap
          [(MessageType.NORMAL, "line")] 0 = .ok r ∧
      r.msgs = [] ∧ r.self.getStatus = some 1 ∧ (r.heap 0).count = 1 ∧
      (DiffPart.A = .A → (r.heap 0).a = [(MessageType.NORMAL, "line")] ∧
        (r.heap 0).b = (freshHeap 0).b) ∧
      (DiffPart.A = .B → (r.heap 0).b = [(MessageType.NORMAL, "line")] ∧
        (r.heap 0).a = (freshHeap 0).a) ∧
      (∀ other, other ≠ 0 → r.heap other = freshHeap other) :=
  ⟨rfl, processingDiff_first_delivery demoRegex (demoDiff []) freshHeap .A "x" 0 none
    [(MessageType.NORMAL, "line")] 0 rfl⟩

/-- C4: starting from a shared state whose counter is 0, the first call
returns no messages and status 1 whichever tag makes it, and the messages and
the status the second call gives (or the fault it ends in) are the same for
the order A(mA), B(mB) and the order B(mB), A(mA). -/
theorem processingDiff_order_independent (re : RegexLib) (git : DiffLib) (heap : Heap)
    (logFilterRegex : String) (diffState : Nat) (sA sB : Option Int) (mA mB : Messages)
    (eA eB : Int) (h0 : (heap diffState).count = 0) :
    ∃ rA rB,
      (Processing.ProcessingDiff .A logFilterRegex diffState sA).process re git heap mA eA
        = .ok rA ∧ rA.msgs = [] ∧ rA.self.getStatus = some 1 ∧
      (Processing.ProcessingDiff .B logFilterRegex diffState sB).process re git heap mB eB
        = .ok rB ∧ rB.msgs = [] ∧ rB.self.getStatus = some 1 ∧
      ((Processing.ProcessingDiff .B logFilterRegex diffState sB).process re git rA.heap mB eB).map
          (fun r => (r.msgs, r.self.getStatus)) =
        ((Processing.ProcessingDiff .A logFilterRegex diffState sA).process re git rB.heap
          mA eA).map (fun r => (r.msgs, r.self.getStatus)) := by
  have hA : (Processing.ProcessingDiff .A logFilterRegex diffState sA).process re git heap mA eA
      = .ok { msgs := [], self := .ProcessingDiff .A logFilterRegex diffState (some 1),
              heap := Function.update heap diffState
                { count := 1, a := mA, b := (heap diffState).b } } := by
    simp [Processing.process, storeSlot, h0]
  have hB : (Processing.ProcessingDiff .B logFilterRegex diffState sB).process re git heap mB eB
      = .ok { msgs := [], self := .ProcessingDiff .B logFilterRegex diffState (some 1),
              heap := Function.update heap diffState
                { count := 1, a := (heap diffState).a, b := mB } } := by
    simp [Processing.process, storeSlot, h0]
  refine ⟨_, _, hA, rfl, rfl, hB, rfl, rfl, ?_⟩
  simp only [Processing.process, storeSlot, Function.update_same]
  simp only [show ((1 : Int) == 0) = false from rfl, Bool.false_eq_true, if_false]
  cases compareLogs git (filterLog re logFilterRegex mA) (filterLog re logFilterRegex mB) with
  | error e => rfl
  | ok added =>
    simp only []
    cases diffContext mB added with
    | error e => rfl
    | ok fin => rfl

theorem processingDiff_order_independent_witness :
    (freshHeap 0).count = 0 ∧
    ∃ rA rB,
      (Processing.ProcessingDiff .A "x" 0 none).process demoRegex (demoDiff [2]) freshHeap
        [(MessageType.NORMAL, "a")] 0 = .ok rA ∧ rA.msgs = [] ∧ rA.self.getStatus = some 1 ∧
      (Processing.ProcessingDiff .B "x" 0 none).process demoRegex (demoDiff [2]) freshHeap
        [(MessageType.NORMAL, "a"), (MessageType.NORMAL, "b")] 0 = .ok rB ∧ rB.msgs = [] ∧
        rB.self.getStatus = some 1 ∧
      ((Processing.ProcessingDiff .B "x" 0 none).process demoRegex (demoDiff [2]) rA.heap
          [(MessageType.NORMAL, "a"), (MessageType.NORMAL, "b")] 0).map
          (fun r => (r.msgs, r.self.getStatus)) =
        ((Processing.ProcessingDiff .A "x" 0 none).process demoRegex (demoDiff [2]) rB.heap
          [(MessageType.NORMAL, "a")] 0).map (fun r => (r.msgs, r.self.getStatus)) :=
  ⟨rfl, processingDiff_order_independent demoRegex (demoDiff [2]) freshHeap "x" 0 none none
    [(MessageType.NORMAL, "a")] [(MessageType.NORMAL, "a"), (MessageType.NORMAL, "b")] 0 0 rfl⟩

/-- C8: `ProcessingMatch::process` returns exactly the messages whose
full-line match result differs from `matchForSuccess`, in input order and each
retagged ERR, and its status is 1 whenever that list is non-empty. For a regex
library in which `^OK.*` matches the line `OK done` and not the line `FAIL x`,
the pattern `^OK.*` with `matchForSuccess = true` on these two lines returns
`[ERR "FAIL x"]` with status 1. -/
theorem processingMatch_process (re : RegexLib) (git : DiffLib)
    (hOK : re.regex_match "OK done" "^OK.*" = true)
    (hFAIL : re.regex_match "FAIL x" "^OK.*" = false) :
    (∀ (heap : Heap) (matchForSuccess : Bool) (pattern : String) (st0 : Option Int)
        (messages : Messages) (status : Int),
      ∃ r, (Processing.ProcessingMatch matchForSuccess pattern st0).process re git heap
            messages status = .ok r ∧
        r.msgs = (messages.filter
            (fun m => re.regex_match m.2 pattern != matchForSuccess)).map
              (fun m => (MessageType.ERR, m.2)) ∧
        (if r.msgs = [] then r.self.getStatus = st0 else r.self.getStatus = some 1) ∧
        r.heap = heap) ∧
    (∀ (heap : Heap) (st0 : Option Int) (t1 t2 : MessageType) (status : Int),
      ∃ r, (Processing.ProcessingMatch true "^OK.*" st0).process re git heap
            [(t1, "OK done"), (t2, "FAIL x")] status = .ok r ∧
        r.msgs = [(MessageType.ERR, "FAIL x")] ∧ r.self.getStatus = some 1) := by
  constructor
  · intro heap mfs pattern st0 messages status
    have h := matchLoop_eq re mfs pattern messages ([], st0)
    refine ⟨_, rfl, ?_, ?_, rfl⟩
    · simpa using h.1
    · simp only [Processing.getStatus]
      rw [h.1, h.2]
      by_cases hf : messages.filter (fun m => re.regex_match m.2 pattern != mfs) = []
      · simp [hf]
      · simp [hf]
  · intro heap st0 t1 t2 status
    refine ⟨_, rfl, ?_, ?_⟩
    · simp [matchLoop, hOK, hFAIL]
    · simp [matchLoop, hOK, hFAIL, Processing.getStatus]

theorem processingMatch_process_witness :
    demoRegex.regex_match "OK done" "^OK.*" = true ∧
    demoRegex.regex_match "FAIL x" "^OK.*" = false ∧
    ∃ r, (Processing.ProcessingMatch true "^OK.*" none).process demoRegex (demoDiff []) freshHeap
          [(MessageType.NORMAL, "OK done"), (MessageType.NORMAL, "FAIL x")] 0 = .ok r ∧
      r.msgs = [(MessageType.ERR, "FAIL x")] ∧ r.self.getStatus = some 1 :=
  ⟨by decide, by decide,
    (processingMatch_process demoRegex (demoDiff []) (by decide) (by decide)).2 freshHeap none
      MessageType.NORMAL MessageType.NORMAL 0⟩

/-- C9 (behaviour of the code): when every line is compliant, including when
there is no line at all, `ProcessingMatch::process` returns the empty list and
never writes `status`; an object fresh from its constructor therefore still
holds the indeterminate value, which is not the pass value 0. -/
theorem processingMatch_compliant_status_untouched (re : RegexLib) (git : DiffLib) (heap : Heap)
    (matchForSuccess : Bool) (pattern : String) (messages : Messages) (status : Int)
    (hc : ∀ m ∈ messages, re.regex_match m.2 pattern = matchForSuccess) :
    (∀ st0 : Option Int,
      ∃ r, (Processing.ProcessingMatch matchForSuccess pattern st0).process re git heap
            messages status = .ok r ∧ r.msgs = [] ∧ r.self.getStatus = st0) ∧
    ∃ r, (Processing.freshMatch matchForSuccess pattern).process re git heap messages status
          = .ok r ∧ r.msgs = [] ∧ r.self.getStatus = none ∧ r.self.getStatus ≠ some 0 := by
  have hf : messages.filter (fun m => re.regex_match m.2 pattern != matchForSuccess) = [] := by
    rw [List.filter_eq_nil_iff]
    intro m hm
    simp [hc m hm]
  have key : ∀ st0 : Option Int,
      ∃ r, (Processing.ProcessingMatch matchForSuccess pattern st0).process re git heap
            messages status = .ok r ∧ r.msgs = [] ∧ r.self.getStatus = st0 := by
    intro st0
    have h := matchLoop_eq re matchForSuccess pattern messages ([], st0)
    refine ⟨_, rfl, ?_, ?_⟩
    · simpa [hf] using h.1
    · simp only [Processing.getStatus]
      rw [h.2]; simp [hf]
  refine ⟨key, ?_⟩
  obtain ⟨r, h1, h2, h3⟩ := key none
  exact ⟨r, h1, h2, h3, by rw [h3]; simp⟩

theorem processingMatch_compliant_status_untouched_witness :
    (∀ m ∈ [(MessageType.NORMAL, "OK done")], demoRegex.regex_match m.2 "^OK.*" = true) ∧
    ∃ r, (Processing.freshMatch true "^OK.*").process demoRegex (demoDiff []) freshHeap
          [(MessageType.NORMAL, "OK done")] 0 = .ok r ∧ r.msgs = [] ∧
      r.self.getStatus = none ∧ r.self.getStatus ≠ some 0 :=
  ⟨by decide,
    (processingMatch_compliant_status_untouched demoRegex (demoDiff []) freshHeap true "^OK.*"
      [(MessageType.NORMAL, "OK done")] 0 (by decide)).2⟩

/-- C10: `ProcessingReturnValue::process` sets the status to the exit status
`s`, returns the messages unchanged when `s` is non-zero and the empty list
when `s` is 0, and touches no shared state; exit status 0 gives output `[]`
with status 0 and exit status 2 gives the original messages with status 2. -/
theorem processingReturnValue_process (re : RegexLib) (git : DiffLib) (heap : Heap)
    (st0 : Option Int) (messages : Messages) :
    (∀ s : Int,
      ∃ r, (Processing.ProcessingReturnValue st0).process re git heap messages s = .ok r ∧
        r.self.getStatus = some s ∧ r.msgs = (if s = 0 then [] else messages) ∧
        r.heap = heap) ∧
    (∃ r, (Processing.ProcessingReturnValue st0).process re git heap messages 0 = .ok r ∧
        r.self.getStatus = some 0 ∧ r.msgs = []) ∧
    (∃ r, (Processing.ProcessingReturnValue st0).process re git heap messages 2 = .ok r ∧
        r.self.getStatus = some 2 ∧ r.msgs = messages) := by
  refine ⟨fun s => ⟨_, rfl, rfl, ?_, rfl⟩, ⟨_, rfl, rfl, rfl⟩, ⟨_, rfl, rfl, rfl⟩⟩
  by_cases hs : s = 0 <;> simp [hs]

/-! ### The context-window loop -/

theorem msgAt_ok (msgB : Messages) (i : Int) (h0 : 0 ≤ i) (h1 : i < msgB.length) :
    msgAt msgB i = .ok (msgB.getD i.toNat default) := by
  have hlt : i.toNat < msgB.length := by omega
  simp [msgAt, h0, List.getElem?_eq_getElem hlt, List.getD_eq_getElem?_getD]

theorem markErr_ok (msgB : Messages) (i : Int) (h0 : 0 ≤ i) (h1 : i < msgB.length) :
    markErr msgB i =
      .ok (msgB.set i.toNat (MessageType.ERR, (msgB.getD i.toNat default).2)) := by
  have hlt : i.toNat < msgB.length := by omega
  simp [markErr, h0, List.getElem?_eq_getElem hlt, List.getD_eq_getElem?_getD]

theorem pushRounds_ok (msgB : Messages) :
    ∀ (n : Nat) (last : Int) (out : Messages), -1 ≤ last → last + n < msgB.length →
      pushRounds msgB n last out =
        .ok (last + n, out ++ (List.range' (last + 1).toNat n).map (fun i => msgB.getD i default))
  | 0, last, out, _, _ => by simp [pushRounds]
  | n + 1, last, out, h0, h1 => by
    have hm := msgAt_ok msgB (last + 1) (by omega) (by push_cast at h1; omega)
    have ih := pushRounds_ok msgB n (last + 1) (out ++ [msgB.getD (last + 1).toNat default])
      (by omega) (by push_cast at h1; omega)
    have e1 : (last + 1 + 1).toNat = (last + 1).toNat + 1 := by omega
    simp only [pushRounds, hm, ih, List.range'_succ, List.map_cons, e1]
    simp only [List.append_assoc, List.singleton_append]
    congr 2
    push_cast; ring

theorem pushWhile_ok (msgB : Messages) (last bound : Int) (out : Messages) (h0 : -1 ≤ last)
    (h1 : bound < msgB.length) :
    pushWhile msgB last bound out =
      .ok (max last bound, out ++ (idxs last bound).map (fun i => render msgB (some i))) := by
  unfold pushWhile idxs
  by_cases hb : bound ≤ last
  · have e : (bound - last).toNat = 0 := by omega
    simp [e, pushRounds, max_eq_left hb]
  · have hn : ((bound - last).toNat : Int) = bound - last := by omega
    rw [pushRounds_ok msgB _ last out h0 (by omega)]
    have e2 : last + ((bound - last).toNat : Int) = max last bound := by
      rw [hn, max_eq_right (by omega)]; ring
    rw [e2]
    rfl

theorem stepLast_ge (last : Int) (ra : Bool) (l : Int) (h0 : -1 ≤ last) :
    -1 ≤ stepLast last ra l := by
  simp only [stepLast, contextSize, max_def]
  split_ifs <;> omega

theorem stepLast_max (last : Int) (ra : Bool) (l : Int) (h0 : -1 ≤ last) (hl : 1 ≤ l) :
    max (stepLast last ra l) (l - 1) = max last (l - 1) := by
  by_cases c1 : (ra && decide (last < l - 1 - 3)) = true
  · have hc : last < l - 1 - 3 := by
      simp only [Bool.and_eq_true, decide_eq_true_eq] at c1; exact c1.2
    simp only [stepLast, contextSize, c1, if_true, max_def]
    split_ifs <;> omega
  · have c1f : (ra && decide (last < l - 1 - 3)) = false := by
      cases h : (ra && decide (last < l - 1 - 3)) with
      | true => exact absurd h c1
      | false => rfl
    simp only [stepLast, contextSize, c1f, Bool.false_eq_true, if_false, max_def]
    split_ifs <;> omega

theorem diffStep_ok (st : DiffLoop) (l : Int) (h0 : -1 ≤ st.lastAddedId) (hl : 1 ≤ l)
    (hl2 : l ≤ st.msgB.length) :
    diffStep st l = .ok
      { msgB := st.msgB.set (l - 1).toNat
          (MessageType.ERR, (st.msgB.getD (l - 1).toNat default).2),
        diffMesgs := st.diffMesgs ++ (stepItems st.lastAddedId st.realAdded l).map
          (render (st.msgB.set (l - 1).toNat
            (MessageType.ERR, (st.msgB.getD (l - 1).toNat default).2))),
        lastAddedId := max st.lastAddedId (l - 1),
        realAdded := true,
        changedCount := st.changedCount + 1 } := by
  have hlen : ∀ m : Message, ((st.msgB.set (l - 1).toNat m).length : Int) = st.msgB.length := by
    intro m; simp
  rw [← stepLast_max st.lastAddedId st.realAdded l h0 hl]
  unfold diffStep
  rw [markErr_ok st.msgB (l - 1) (by omega) (by omega)]
  simp only []
  by_cases c1 : (st.realAdded && decide (st.lastAddedId < l - 1 - contextSize)) = true
  · have hc : st.lastAddedId < l - 1 - 3 := by
      simp only [Bool.and_eq_true, decide_eq_true_eq, contextSize] at c1; exact c1.2
    simp only [c1, if_true]
    rw [pushWhile_ok _ _ _ _ h0 (by rw [hlen]; simp only [contextSize]; omega)]
    simp only []
    by_cases c2 : max st.lastAddedId (st.lastAddedId + contextSize) < l - 1 - contextSize
    · simp only [c2, if_true]
      rw [pushWhile_ok _ _ _ _ (by simp only [max_def]; split_ifs <;> omega)
        (by rw [hlen]; omega)]
      simp only [stepItems, stepLast, c1, c2, if_true, List.map_append, List.map_map,
        Function.comp_def, List.append_assoc]
      split <;> simp [render]
    · simp only [c2, if_false]
      rw [pushWhile_ok _ _ _ _ (by simp only [contextSize, max_def]; split_ifs <;> omega)
        (by rw [hlen]; omega)]
      simp only [stepItems, stepLast, c1, c2, if_true, if_false, List.map_append, List.map_map,
        Function.comp_def, List.append_assoc, List.append_nil]
  · have c1f : (st.realAdded && decide (st.lastAddedId < l - 1 - contextSize)) = false := by
      cases h : (st.realAdded && decide (st.lastAddedId < l - 1 - contextSize)) with
      | true => exact absurd h c1
      | false => rfl
    simp only [c1f, Bool.false_eq_true, if_false]
    by_cases c2 : st.lastAddedId < l - 1 - contextSize
    · have hra : st.realAdded = false := by
        cases hr : st.realAdded with
        | false => rfl
        | true => simp [hr, c2] at c1f
      simp only [c2, if_true]
      rw [pushWhile_ok _ _ _ _ (by simp only [max_def]; split_ifs <;> omega)
        (by rw [hlen]; omega)]
      simp only [stepItems, stepLast, hra, c2, if_true, List.map_append, List.map_map,
        Function.comp_def, List.append_assoc, Bool.false_eq_true, if_false, Bool.false_and,
        List.map_nil, List.nil_append]
      split <;> simp [render]
    · simp only [c2, if_false]
      rw [pushWhile_ok _ _ _ _ h0 (by rw [hlen]; omega)]
      simp only [stepItems, stepLast, c2, if_false, List.map_append, List.map_map,
        Function.comp_def, List.append_assoc, List.append_nil, Bool.false_eq_true,
        decide_False, Bool.and_false, List.map_nil, List.nil_append]

theorem diffLoop_total :
    ∀ (added : List Int) (st : DiffLoop), -1 ≤ st.lastAddedId →
      st.lastAddedId ≤ (st.msgB.length : Int) - 1 →
      (∀ l ∈ added, 1 ≤ l ∧ l ≤ (st.msgB.length : Int)) →
      ∃ fin, diffLoop added st = .ok fin ∧
        fin.changedCount = st.changedCount + added.length ∧
        fin.msgB.length = st.msgB.length ∧
        -1 ≤ fin.lastAddedId ∧ fin.lastAddedId ≤ (st.msgB.length : Int) - 1 ∧
        fin.realAdded = (st.realAdded || !added.isEmpty) ∧
        (added = [] → fin = st)
  | [], st, h0, h1, _ => ⟨st, rfl, by simp, rfl, h0, h1, by simp, fun _ => rfl⟩
  | l :: rest, st, h0, h1, hr => by
    have hl := hr l (List.mem_cons_self _ _)
    have hstep := diffStep_ok st l h0 hl.1 hl.2
    obtain ⟨fin, hfin, hc, hlen, hlo, hhi, hra, _⟩ := diffLoop_total rest
      { msgB := st.msgB.set (l - 1).toNat
          (MessageType.ERR, (st.msgB.getD (l - 1).toNat default).2),
        diffMesgs := st.diffMesgs ++ (stepItems st.lastAddedId st.realAdded l).map
          (render (st.msgB.set (l - 1).toNat
            (MessageType.ERR, (st.msgB.getD (l - 1).toNat default).2))),
        lastAddedId := max st.lastAddedId (l - 1),
        realAdded := true,
        changedCount := st.changedCount + 1 }
      (by simp only [max_def]; split_ifs <;> omega)
      (by simp only [max_def, List.length_set]; split_ifs <;> omega)
      (by
        intro l2 hl2
        simpa using hr l2 (List.mem_cons_of_mem _ hl2))
    refine ⟨fin, ?_, ?_, ?_, hlo, ?_, ?_, ?_⟩
    · simp only [diffLoop, hstep, hfin]
    · rw [hc]; simp only [List.length_cons]; push_cast; ring
    · rw [hlen]; simp
    · simpa using hhi
    · rw [hra]; simp
    · intro h; cases h

theorem diffTail_ok (st : DiffLoop) (h0 : -1 ≤ st.lastAddedId)
    (h1 : st.lastAddedId ≤ (st.msgB.length : Int) - 1) :
    diffTail st = .ok
      { st with
        diffMesgs := st.diffMesgs ++
          (tailItems st.lastAddedId st.realAdded st.msgB.length).map (render st.msgB),
        lastAddedId := if st.realAdded then
            max st.lastAddedId (min (st.lastAddedId + contextSize) ((st.msgB.length : Int) - 1))
          else st.lastAddedId } := by
  obtain ⟨msgB, out, last, ra, cnt⟩ := st
  unfold diffTail tailItems
  cases ra with
  | false => simp
  | true =>
    simp only [if_true]
    rw [pushWhile_ok _ _ _ _ h0 (by simp only [min_def]; split_ifs <;> omega)]
    simp [Function.comp_def]

/-- The context-window computation ends without a fault whenever every
reported line number is a line number of the new-side list. -/
theorem diffContext_total (msgB : Messages) (added : List Int)
    (hr : ∀ l ∈ added, 1 ≤ l ∧ l ≤ (msgB.length : Int)) :
    ∃ fin, diffContext msgB added = .ok fin ∧ fin.changedCount = added.length ∧
      (added = [] → fin.diffMesgs = [] ∧ fin.msgB = msgB) := by
  obtain ⟨mid, hmid, hc, hlen, hlo, hhi, hra, hnil⟩ := diffLoop_total added
    { msgB := msgB, diffMesgs := [], lastAddedId := -1, realAdded := false, changedCount := 0 }
    (by simp) (by simp) hr
  have ht := diffTail_ok mid hlo (by rw [hlen]; exact hhi)
  have hd : diffContext msgB added = .ok
      { mid with
        diffMesgs := mid.diffMesgs ++
          (tailItems mid.lastAddedId mid.realAdded mid.msgB.length).map (render mid.msgB),
        lastAddedId := if mid.realAdded then
            max mid.lastAddedId
              (min (mid.lastAddedId + contextSize) ((mid.msgB.length : Int) - 1))
          else mid.lastAddedId } := by
    simp only [diffContext, hmid, ht]
  refine ⟨_, hd, ?_, ?_⟩
  · simpa using hc
  · intro h
    have := hnil h
    subst this
    simp [tailItems]

theorem diffStep_count (st st1 : DiffLoop) (l : Int) (h : diffStep st l = .ok st1) :
    st1.changedCount = st.changedCount + 1 ∧ st1.realAdded = true := by
  unfold diffStep at h
  split at h
  · cases h
  · split at h
    · cases h
    · simp only [] at h
      split at h
      · cases h
      · cases h
        exact ⟨rfl, rfl⟩

theorem diffLoop_count : ∀ (added : List Int) (st fin : DiffLoop),
    diffLoop added st = .ok fin →
      fin.changedCount = st.changedCount + added.length ∧ (added = [] → fin = st)
  | [], st, fin, h => by
    cases h
    exact ⟨by simp, fun _ => rfl⟩
  | l :: rest, st, fin, h => by
    simp only [diffLoop] at h
    split at h
    · cases h
    · rename_i st1 hstep
      have h1 := diffStep_count st st1 l hstep
      have h2 := diffLoop_count rest st1 fin h
      refine ⟨?_, fun hnil => by cases hnil⟩
      rw [h2.1, h1.1]
      simp only [List.length_cons]
      push_cast
      ring

theorem diffTail_count (st fin : DiffLoop) (h : diffTail st = .ok fin) :
    fin.changedCount = st.changedCount ∧ (st.realAdded = false → fin = st) := by
  unfold diffTail at h
  split at h
  · rename_i hra
    split at h
    · cases h
    · cases h
      exact ⟨rfl, fun hf => by rw [hf] at hra; cases hra⟩
  · cases h
    exact ⟨rfl, fun _ => rfl⟩

theorem diffContext_count (msgB : Messages) (added : List Int) (fin : DiffLoop)
    (h : diffContext msgB added = .ok fin) :
    fin.changedCount = added.length ∧ (added = [] → fin.diffMesgs = []) := by
  unfold diffContext at h
  split at h
  · cases h
  · rename_i mid hmid
    have h1 := diffLoop_count added _ mid hmid
    have h2 := diffTail_count mid fin h
    refine ⟨by rw [h2.1, h1.1]; simp, ?_⟩
    intro hnil
    have hm := h1.2 hnil
    have hf := h2.2 (by rw [hm])
    rw [hf, hm]

theorem storeSlot_count (diffPart : DiffPart) (state : SharedDiffState) (messages : Messages) :
    (storeSlot diffPart state messages).count = state.count := by
  cases diffPart <;> rfl

theorem process_diff_second (re : RegexLib) (git : DiffLib) (heap : Heap)
    (diffPart : DiffPart) (logFilterRegex : String) (diffState : Nat) (st0 : Option Int)
    (messages : Messages) (status : Int) (added : List Int) (fin : DiffLoop)
    (hcount : (heap diffState).count ≠ 0)
    (hdiff : compareLogs git
        (filterLog re logFilterRegex (storeSlot diffPart (heap diffState) messages).a)
        (filterLog re logFilterRegex (storeSlot diffPart (heap diffState) messages).b)
        = .ok added)
    (hfin : diffContext (storeSlot diffPart (heap diffState) messages).b added = .ok fin) :
    (Processing.ProcessingDiff diffPart logFilterRegex diffState st0).process re git heap
        messages status = .ok
      { msgs := fin.diffMesgs,
        self := .ProcessingDiff diffPart logFilterRegex diffState
          (some (if fin.changedCount != 0 then 1 else 0)),
        heap := Function.update heap diffState
          { storeSlot diffPart (heap diffState) messages with b := fin.msgB } } := by
  have hcnt : ((storeSlot diffPart (heap diffState) messages).count == 0) = false := by
    rw [storeSlot_count]; simpa using hcount
  simp only [Processing.process, hcnt, hdiff, hfin, Bool.false_eq_true, if_false]

/-- C5: on the second delivery (the counter of the shared state is not 0),
when the line diff of the filtered old blob against the filtered new blob
reports the line numbers `added`: whenever `ProcessingDiff::process` returns,
its status is 1 if `added` is non-empty and 0 if it is empty, and with no added
line the returned message list is empty; and it does return whenever every
reported number is a line number of the new-side list. -/
theorem processingDiff_second_delivery_status (re : RegexLib) (git : DiffLib) (heap : Heap)
    (diffPart : DiffPart) (logFilterRegex : String) (diffState : Nat) (st0 : Option Int)
    (messages : Messages) (status : Int) (added : List Int)
    (hcount : (heap diffState).count ≠ 0)
    (hdiff : compareLogs git
        (filterLog re logFilterRegex (storeSlot diffPart (heap diffState) messages).a)
        (filterLog re logFilterRegex (storeSlot diffPart (heap diffState) messages).b)
        = .ok added) :
    (∀ r, (Processing.ProcessingDiff diffPart logFilterRegex diffState st0).process re git heap
          messages status = .ok r →
      r.self.getStatus = some (if added = [] then 0 else 1) ∧
      (added = [] → r.msgs = [])) ∧
    ((∀ l ∈ added,
        1 ≤ l ∧ l ≤ ((storeSlot diffPart (heap diffState) messages).b.length : Int)) →
      ∃ r, (Processing.ProcessingDiff diffPart logFilterRegex diffState st0).process re git heap
          messages status = .ok r) := by
  have hcnt : ((storeSlot diffPart (heap diffState) messages).count == 0) = false := by
    rw [storeSlot_count]; simpa using hcount
  constructor
  · intro r hr
    simp only [Processing.process, hcnt, hdiff, Bool.false_eq_true, if_false] at hr
    split at hr
    · cases hr
    · rename_i fin hfin
      cases hr
      have hc := diffContext_count _ added fin hfin
      refine ⟨?_, hc.2⟩
      simp only [Processing.getStatus, hc.1]
      cases added with
      | nil => simp
      | cons l rest =>
        have hne : ((rest.length : Int) + 1 != 0) = true := by
          simp only [bne_iff_ne, ne_eq]; omega
        simp only [List.length_cons, Nat.cast_add, Nat.cast_one, hne, if_true]
        simp
  · intro hr
    obtain ⟨fin, hfin, _, _⟩ := diffContext_total _ added hr
    exact ⟨_, process_diff_second re git heap diffPart logFilterRegex diffState st0 messages
      status added fin hcount hdiff hfin⟩

theorem processingDiff_second_delivery_status_witness :
    (pendingHeap [(MessageType.NORMAL, "a")] [] 0).count ≠ 0 ∧
    compareLogs (demoDiff [2])
        (filterLog demoRegex "x" (storeSlot .B (pendingHeap [(MessageType.NORMAL, "a")] [] 0)
          [(MessageType.NORMAL, "a"), (MessageType.NORMAL, "b")]).a)
        (filterLog demoRegex "x" (storeSlot .B (pendingHeap [(MessageType.NORMAL, "a")] [] 0)
          [(MessageType.NORMAL, "a"), (MessageType.NORMAL, "b")]).b) = .ok [2] ∧
    ∃ r, (Processing.ProcessingDiff .B "x" 0 (some 1)).process demoRegex (demoDiff [2])
          (pendingHeap [(MessageType.NORMAL, "a")] [])
          [(MessageType.NORMAL, "a"), (MessageType.NORMAL, "b")] 0 = .ok r ∧
      r.self.getStatus = some 1 :=
  ⟨by decide, rfl,
    ((processingDiff_second_delivery_status demoRegex (demoDiff [2])
      (pendingHeap [(MessageType.NORMAL, "a")] []) .B "x" 0 (some 1)
      [(MessageType.NORMAL, "a"), (MessageType.NORMAL, "b")] 0 [2] (by decide) rfl).2
      (by intro l hl; simp at hl; subst hl; simp [storeSlot, pendingHeap])).elim
      (fun r hr => ⟨r, hr,
        ((processingDiff_second_delivery_status demoRegex (demoDiff [2])
          (pendingHeap [(MessageType.NORMAL, "a")] []) .B "x" 0 (some 1)
          [(MessageType.NORMAL, "a"), (MessageType.NORMAL, "b")] 0 [2] (by decide) rfl).1
          r hr).1⟩)⟩

/-! ### The emitted lines for a strictly increasing list of line numbers -/

theorem mem_idxs (a b : Int) (i : Nat) (ha : -1 ≤ a) :
    i ∈ idxs a b ↔ a < (i : Int) ∧ (i : Int) ≤ b := by
  unfold idxs
  rw [List.mem_range'_1]
  omega

theorem idxs_pairwise (a b : Int) : (idxs a b).Pairwise (· < ·) :=
  List.pairwise_lt_range' _ _

theorem markAll_length : ∀ (added : List Int) (msgB : Messages),
    (markAll msgB added).length = msgB.length
  | [], _ => rfl
  | l :: rest, msgB => by
    simp only [markAll]
    rw [markAll_length rest]
    simp

theorem markAll_getD_lt : ∀ (rest : List Int) (cur : Messages) (i : Nat),
    (∀ l ∈ rest, (i : Int) < l - 1) →
      (markAll cur rest).getD i default = cur.getD i default
  | [], _, _, _ => rfl
  | l :: rest, cur, i, h => by
    have hl := h l (List.mem_cons_self _ _)
    have hne : (l - 1).toNat ≠ i := by omega
    simp only [markAll]
    rw [markAll_getD_lt rest _ i (fun l2 hl2 => h l2 (List.mem_cons_of_mem _ hl2))]
    simp only [List.getD_eq_getElem?_getD, List.getElem?_set_ne hne]

theorem markAll_getD : ∀ (added : List Int) (msgB : Messages) (i : Nat),
    (∀ l ∈ added, 1 ≤ l ∧ l ≤ (msgB.length : Int)) →
      (markAll msgB added).getD i default = markedLine msgB added i
  | [], msgB, i, _ => by simp [markAll, markedLine]
  | l :: rest, msgB, i, h => by
    have hl := h l (List.mem_cons_self _ _)
    simp only [markAll]
    rw [markAll_getD rest _ i (by
      intro l2 hl2
      simpa using h l2 (List.mem_cons_of_mem _ hl2))]
    by_cases hi : (l - 1).toNat = i
    · have hlt : (l - 1).toNat < msgB.length := by omega
      have e : (i : Int) + 1 = l := by omega
      have hset : (msgB.set (l - 1).toNat
            (MessageType.ERR, (msgB.getD (l - 1).toNat default).2)).getD i default =
          (MessageType.ERR, (msgB.getD i default).2) := by
        rw [← hi]
        simp only [List.getD_eq_getElem?_getD, List.getElem?_set_self hlt, Option.getD_some]
      simp only [markedLine, hset, List.mem_cons, e, true_or, if_true, ite_self]
    · have e : ¬ ((i : Int) + 1 = l) := by omega
      have hset : (msgB.set (l - 1).toNat
            (MessageType.ERR, (msgB.getD (l - 1).toNat default).2)).getD i default =
          msgB.getD i default := by
        simp only [List.getD_eq_getElem?_getD, List.getElem?_set_ne hi]
      simp only [markedLine, hset, List.mem_cons, e, false_or]

theorem stepItems_le (last : Int) (ra : Bool) (l : Int) (i : Nat) (h0 : -1 ≤ last)
    (hi : some i ∈ stepItems last ra l) : (i : Int) ≤ l - 1 := by
  have hs := stepLast_ge last ra l h0
  simp only [stepItems, List.mem_append, List.mem_map] at hi
  rcases hi with (hi | hi) | hi
  · split at hi
    · rename_i c1
      have hc : last < l - 1 - 3 := by
        simp only [Bool.and_eq_true, decide_eq_true_eq, contextSize] at c1; exact c1.2
      obtain ⟨j, hj, hji⟩ := List.mem_map.mp hi
      cases hji
      have := (mem_idxs _ _ _ h0).mp hj
      simp only [contextSize] at this
      omega
    · cases hi
  · split_ifs at hi <;> simp at hi
  · obtain ⟨j, hj, hji⟩ := hi
    cases hji
    exact ((mem_idxs _ _ _ hs).mp hj).2

theorem diffLoop_sorted :
    ∀ (added : List Int) (st : DiffLoop), -1 ≤ st.lastAddedId →
      (∀ l ∈ added, st.lastAddedId < l - 1 ∧ l ≤ (st.msgB.length : Int)) →
      added.Pairwise (· < ·) →
      diffLoop added st = .ok
        { msgB := markAll st.msgB added,
          diffMesgs := st.diffMesgs ++
            (loopItems st.lastAddedId st.realAdded added).map (render (markAll st.msgB added)),
          lastAddedId := lastAfter st.lastAddedId added,
          realAdded := st.realAdded || !added.isEmpty,
          changedCount := st.changedCount + added.length }
  | [], st, _, _, _ => by
    obtain ⟨msgB, out, last, ra, cnt⟩ := st
    simp [diffLoop, markAll, loopItems, lastAfter]
  | l :: rest, st, h0, hr, hp => by
    have hl := hr l (List.mem_cons_self _ _)
    have hpc := List.pairwise_cons.mp hp
    have hstep := diffStep_ok st l h0 (by omega) hl.2
    have ih := diffLoop_sorted rest
      { msgB := st.msgB.set (l - 1).toNat
          (MessageType.ERR, (st.msgB.getD (l - 1).toNat default).2),
        diffMesgs := st.diffMesgs ++ (stepItems st.lastAddedId st.realAdded l).map
          (render (st.msgB.set (l - 1).toNat
            (MessageType.ERR, (st.msgB.getD (l - 1).toNat default).2))),
        lastAddedId := max st.lastAddedId (l - 1),
        realAdded := true,
        changedCount := st.changedCount + 1 }
      (by simp only [max_def]; split_ifs <;> omega)
      (by
        intro l2 hl2
        have h2 := hr l2 (List.mem_cons_of_mem _ hl2)
        have h3 := hpc.1 l2 hl2
        simp only [max_def, List.length_set]
        refine ⟨?_, h2.2⟩
        split_ifs <;> omega)
      hpc.2
    simp only [diffLoop, hstep, ih, markAll, loopItems, lastAfter]
    have hagree : (stepItems st.lastAddedId st.realAdded l).map
          (render (st.msgB.set (l - 1).toNat
            (MessageType.ERR, (st.msgB.getD (l - 1).toNat default).2))) =
        (stepItems st.lastAddedId st.realAdded l).map
          (render (markAll (st.msgB.set (l - 1).toNat
            (MessageType.ERR, (st.msgB.getD (l - 1).toNat default).2)) rest)) := by
      apply List.map_congr_left
      intro x hx
      cases x with
      | none => rfl
      | some i =>
        have hle := stepItems_le _ _ _ i h0 hx
        simp only [render]
        rw [markAll_getD_lt rest _ i (fun l2 hl2 => by have := hpc.1 l2 hl2; omega)]
    rw [hagree]
    simp only [List.map_append, List.append_assoc, List.length_cons, Bool.true_or,
      List.isEmpty_cons, Bool.not_false, Bool.or_true]
    congr 2
    push_cast; ring

theorem filterMap_id_map_some (xs : List Nat) :
    (xs.map (some : Nat → Option Nat)).filterMap id = xs := by
  induction xs with
  | nil => rfl
  | cons x xs ih => simp [List.filterMap_cons, ih]

theorem stepItems_filterMap (last : Int) (ra : Bool) (l : Int) :
    (stepItems last ra l).filterMap id =
      (if ra && decide (last < l - 1 - contextSize) then idxs last (last + contextSize) else [])
        ++ idxs (stepLast last ra l) (l - 1) := by
  simp only [stepItems, List.filterMap_append, filterMap_id_map_some]
  congr 1
  split_ifs <;> simp [filterMap_id_map_some]

theorem mem_stepItems_filterMap (last : Int) (ra : Bool) (l : Int) (i : Nat) (h0 : -1 ≤ last)
    (hl : last < l - 1) :
    i ∈ (stepItems last ra l).filterMap id ↔
      (last < (i : Int) ∧ (i : Int) ≤ l - 1 ∧
        ((ra = true ∧ (i : Int) ≤ last + 3) ∨ l - 1 - 3 ≤ (i : Int))) := by
  have hs := stepLast_ge last ra l h0
  rw [stepItems_filterMap, List.mem_append, mem_idxs _ _ _ hs]
  cases ra with
  | false =>
    simp only [Bool.false_and, Bool.false_eq_true, if_false, List.not_mem_nil, false_or,
      false_and]
    simp only [stepLast, contextSize, Bool.false_and, Bool.false_eq_true, if_false, max_def]
    split_ifs <;> omega
  | true =>
    by_cases c : last < l - 1 - 3
    · simp only [Bool.true_and, contextSize, c, decide_True, if_true, mem_idxs _ _ _ h0,
        eq_self_iff_true, true_and]
      simp only [stepLast, contextSize, Bool.true_and, c, decide_True, if_true, max_def]
      split_ifs <;> omega
    · simp only [Bool.true_and, contextSize, c, decide_False, Bool.false_eq_true, if_false,
        List.not_mem_nil, false_or, eq_self_iff_true, true_and]
      simp only [stepLast, contextSize, Bool.true_and, c, decide_False, Bool.false_eq_true,
        if_false]
      omega

theorem stepItems_filterMap_pairwise (last : Int) (ra : Bool) (l : Int) (h0 : -1 ≤ last) :
    ((stepItems last ra l).filterMap id).Pairwise (· < ·) := by
  have hs := stepLast_ge last ra l h0
  rw [stepItems_filterMap, List.pairwise_append]
  refine ⟨?_, idxs_pairwise _ _, ?_⟩
  · split_ifs
    · exact idxs_pairwise _ _
    · exact List.Pairwise.nil
  · intro a ha b hb
    have hb2 := (mem_idxs _ _ _ hs).mp hb
    split_ifs at ha with c1
    · have ha2 := (mem_idxs _ _ _ h0).mp ha
      have hc : last < l - 1 - 3 := by
        simp only [Bool.and_eq_true, decide_eq_true_eq, contextSize] at c1; exact c1.2
      have hcs : contextSize = 3 := rfl
      have hge : last + 3 ≤ stepLast last ra l := by
        simp only [stepLast, c1, if_true, max_def]
        split_ifs <;> omega
      omega
    · cases ha

theorem allItems_cons (last : Int) (ra : Bool) (l : Int) (rest : List Int) (n : Nat) :
    allItems last ra (l :: rest) n = stepItems last ra l ++ allItems (max last (l - 1)) true rest n := by
  simp [allItems, loopItems, lastAfter]

theorem allItems_spec (n : Nat) :
    ∀ (added : List Int) (last : Int) (ra : Bool), -1 ≤ last → last ≤ (n : Int) - 1 →
      (∀ l ∈ added, last < l - 1 ∧ l ≤ (n : Int)) → added.Pairwise (· < ·) →
      ((allItems last ra added n).filterMap id).Pairwise (· < ·) ∧
      ∀ i : Nat, i ∈ (allItems last ra added n).filterMap id ↔
        (last < (i : Int) ∧ i < n ∧
          ((ra = true ∧ (i : Int) ≤ last + 3) ∨ ∃ l ∈ added, |(i : Int) - (l - 1)| ≤ 3))
  | [], last, ra, h0, h1, _, _ => by
    cases ra with
    | false => simp [allItems, loopItems, lastAfter, tailItems]
    | true =>
      simp only [allItems, loopItems, lastAfter, tailItems, List.nil_append, Bool.true_or, if_true,
        filterMap_id_map_some]
      refine ⟨idxs_pairwise _ _, fun i => ?_⟩
      rw [mem_idxs _ _ _ h0]
      simp only [contextSize, min_def, List.not_mem_nil, false_and, exists_false, or_false,
        true_and]
      split_ifs <;> omega
  | l :: rest, last, ra, h0, h1, hr, hp => by
    have hl := hr l (List.mem_cons_self _ _)
    have hpc := List.pairwise_cons.mp hp
    have hmax : max last (l - 1) = l - 1 := max_eq_right (by omega)
    obtain ⟨ihs, ihm⟩ := allItems_spec n rest (l - 1) true (by omega) (by omega)
      (fun l2 hl2 => ⟨by have := hpc.1 l2 hl2; omega, (hr l2 (List.mem_cons_of_mem _ hl2)).2⟩)
      hpc.2
    rw [allItems_cons, hmax, List.filterMap_append]
    constructor
    · rw [List.pairwise_append]
      refine ⟨stepItems_filterMap_pairwise _ _ _ h0, ihs, ?_⟩
      intro a ha b hb
      have ha2 := (mem_stepItems_filterMap last ra l a h0 hl.1).mp ha
      have hb2 := (ihm b).mp hb
      omega
    · intro i
      rw [List.mem_append, mem_stepItems_filterMap last ra l i h0 hl.1, ihm i]
      simp only [List.exists_mem_cons_iff, abs_le, eq_self_iff_true, true_and]
      constructor
      · rintro (⟨h1, h2, h3⟩ | ⟨h1, h2, h3⟩)
        · refine ⟨h1, by omega, ?_⟩
          rcases h3 with h3 | h3
          · exact Or.inl h3
          · exact Or.inr (Or.inl ⟨by omega, by omega⟩)
        · refine ⟨by omega, h2, Or.inr ?_⟩
          rcases h3 with h3 | h3
          · exact Or.inl ⟨by omega, by omega⟩
          · exact Or.inr h3
      · rintro ⟨h1, h2, h3⟩
        by_cases hi : (i : Int) ≤ l - 1
        · left
          refine ⟨h1, hi, ?_⟩
          rcases h3 with h3 | h3 | ⟨l2, hl2, h3⟩
          · exact Or.inl h3
          · exact Or.inr (by omega)
          · have := hpc.1 l2 hl2
            exact Or.inr (by omega)
        · right
          refine ⟨by omega, h2, ?_⟩
          rcases h3 with h3 | h3 | h3
          · exact Or.inl (by omega)
          · exact Or.inl (by omega)
          · exact Or.inr h3

theorem sorted_filter_eq (L : List Nat) (n : Nat) (P : Nat → Bool)
    (hs : L.Pairwise (· < ·)) (hm : ∀ i, i ∈ L ↔ (i < n ∧ P i = true)) :
    L = (List.range n).filter P := by
  have hs2 : ((List.range n).filter P).Pairwise (· < ·) :=
    List.Pairwise.filter P (List.pairwise_lt_range n)
  apply List.eq_of_perm_of_sorted _ hs hs2
  rw [List.perm_ext_iff_of_nodup hs.nodup hs2.nodup]
  intro i
  rw [hm i, List.mem_filter, List.mem_range]

theorem allItems_filterMap (n : Nat) (added : List Int)
    (hr : ∀ l ∈ added, 1 ≤ l ∧ l ≤ (n : Int)) (hp : added.Pairwise (· < ·)) :
    (allItems (-1) false added n).filterMap id = (List.range n).filter (nearAdded added) := by
  obtain ⟨hs, hm⟩ := allItems_spec n added (-1) false (by omega) (by omega)
    (fun l hl => ⟨by have := hr l hl; omega, (hr l hl).2⟩) hp
  apply sorted_filter_eq _ _ _ hs
  intro i
  rw [hm i]
  simp only [nearAdded, List.any_eq_true, decide_eq_true_eq, contextSize, Bool.false_eq_true,
    false_and, false_or]
  constructor
  · rintro ⟨_, h2, h3⟩
    exact ⟨h2, h3⟩
  · rintro ⟨h2, h3⟩
    exact ⟨by omega, h2, h3⟩

/-- The context-window computation on a strictly increasing list of line
numbers of the new-side list: which lines it emits, by origin. -/
theorem diffContext_sorted (msgB : Messages) (added : List Int)
    (hr : ∀ l ∈ added, 1 ≤ l ∧ l ≤ (msgB.length : Int)) (hp : added.Pairwise (· < ·)) :
    ∃ fin, diffContext msgB added = .ok fin ∧
      fin.msgB = markAll msgB added ∧
      fin.diffMesgs = (allItems (-1) false added msgB.length).map (outputLine msgB added) ∧
      fin.changedCount = added.length := by
  have h1 : diffLoop added
      { msgB := msgB, diffMesgs := [], lastAddedId := -1, realAdded := false,
        changedCount := 0 } = .ok
      { msgB := markAll msgB added,
        diffMesgs := (loopItems (-1) false added).map (render (markAll msgB added)),
        lastAddedId := lastAfter (-1) added,
        realAdded := !added.isEmpty,
        changedCount := added.length } := by
    have h := diffLoop_sorted added
      { msgB := msgB, diffMesgs := [], lastAddedId := -1, realAdded := false,
        changedCount := 0 }
      (by simp) (fun l hl => ⟨by have := hr l hl; simp only; omega, (hr l hl).2⟩) hp
    simpa using h
  have hb : -1 ≤ lastAfter (-1) added ∧ lastAfter (-1) added ≤ (msgB.length : Int) - 1 := by
    obtain ⟨mid, hmid, _, _, hlo, hhi, _, _⟩ := diffLoop_total added
      { msgB := msgB, diffMesgs := [], lastAddedId := -1, realAdded := false,
        changedCount := 0 }
      (by simp) (by simp) hr
    rw [h1] at hmid
    have hmid2 := Except.ok.inj hmid
    subst hmid2
    exact ⟨hlo, hhi⟩
  have ht := diffTail_ok
    { msgB := markAll msgB added,
      diffMesgs := (loopItems (-1) false added).map (render (markAll msgB added)),
      lastAddedId := lastAfter (-1) added,
      realAdded := !added.isEmpty,
      changedCount := added.length } hb.1 (by simp only [markAll_length]; exact hb.2)
  have hrender : ∀ x : Option Nat, render (markAll msgB added) x = outputLine msgB added x := by
    intro x
    cases x with
    | none => rfl
    | some i => exact markAll_getD added msgB i hr
  have hd : diffContext msgB added = .ok
      { msgB := markAll msgB added,
        diffMesgs := (loopItems (-1) false added).map (render (markAll msgB added)) ++
          (tailItems (lastAfter (-1) added) (!added.isEmpty) (markAll msgB added).length).map
            (render (markAll msgB added)),
        lastAddedId := if (!added.isEmpty) = true then
            max (lastAfter (-1) added)
              (min (lastAfter (-1) added + contextSize)
                (((markAll msgB added).length : Int) - 1))
          else lastAfter (-1) added,
        realAdded := !added.isEmpty,
        changedCount := added.length } := by
    unfold diffContext
    rw [h1]
    simp only []
    rw [ht]
  refine ⟨_, hd, rfl, ?_, rfl⟩
  simp only [allItems, List.map_append, markAll_length, Bool.false_or]
  congr 1
  · exact List.map_congr_left (fun x _ => hrender x)
  · exact List.map_congr_left (fun x _ => hrender x)

/-! ### Where the placeholder lines stand -/

theorem none_not_mem_map_some (u : List Nat) : (none : Option Nat) ∉ u.map some := by
  simp

theorem map_some_split : ∀ (u : List Nat) (rest xs c : List (Option Nat)),
    u.map some ++ rest = xs ++ none :: c →
      ∃ xs2, xs = u.map some ++ xs2 ∧ rest = xs2 ++ none :: c
  | [], rest, xs, c, h => ⟨xs, by simp, by simpa using h⟩
  | a :: u, rest, xs, c, h => by
    cases xs with
    | nil => simp at h
    | cons x xs1 =>
      simp only [List.map_cons, List.cons_append, List.cons.injEq] at h
      obtain ⟨xs2, h1, h2⟩ := map_some_split u rest xs1 c h.2
      exact ⟨xs2, by simp [h.1, h1], h2⟩

theorem split_three (u v : List Nat) (p2 xs c : List (Option Nat))
    (hp2 : p2 = [] ∨ p2 = [none])
    (h : u.map some ++ (p2 ++ v.map some) = xs ++ none :: c) :
    p2 = [none] ∧ c = v.map some := by
  obtain ⟨xs2, _, h2⟩ := map_some_split u _ xs c h
  rcases hp2 with hp | hp
  · subst hp
    have : (none : Option Nat) ∈ v.map some := by
      rw [List.nil_append] at h2; rw [h2]; simp
    exact absurd this (none_not_mem_map_some _)
  · subst hp
    cases xs2 with
    | nil =>
      simp only [List.nil_append, List.singleton_append, List.cons.injEq, true_and] at h2
      exact ⟨rfl, h2.symm⟩
    | cons x xs3 =>
      simp only [List.singleton_append, List.cons_append, List.cons.injEq,
        List.nil_append] at h2
      have : (none : Option Nat) ∈ v.map some := by
        rw [h2.2]; simp
      exact absurd this (none_not_mem_map_some _)

theorem stepItems_split (last : Int) (ra : Bool) (l : Int) (xs c : List (Option Nat))
    (h : stepItems last ra l = xs ++ none :: c) :
    c = (idxs (l - 1 - 3 - 1) (l - 1)).map some ∧ 0 ≤ l - 1 - 3 - 1 ∧
      (ra = true → last + 3 < l - 1 - 3) := by
  have hcs : contextSize = 3 := rfl
  by_cases c1 : (ra && decide (last < l - 1 - contextSize)) = true
  · simp only [stepItems, stepLast, c1, if_true, List.append_assoc] at h
    obtain ⟨hp, hc⟩ := split_three (idxs last (last + contextSize)) _ _ xs c
      (by split_ifs <;> simp) h
    split_ifs at hp with c2 c3
    have e : max (-1) (l - 1 - contextSize - 1) = l - 1 - 3 - 1 := by
      simp only [hcs, max_def] at c3 ⊢
      split_ifs at c3 ⊢ <;> omega
    simp only [c2, if_true, e] at hc
    refine ⟨hc, ?_, ?_⟩
    · rw [e] at c3; exact c3
    · intro _
      simp only [hcs, max_def] at c2
      split_ifs at c2 <;> omega
  · have c1f : (ra && decide (last < l - 1 - contextSize)) = false := by
      cases hb : (ra && decide (last < l - 1 - contextSize)) with
      | true => exact absurd hb c1
      | false => rfl
    simp only [stepItems, stepLast, c1f, Bool.false_eq_true, if_false, List.append_assoc,
      List.nil_append] at h
    obtain ⟨hp, hc⟩ := split_three []
      (idxs (if last < l - 1 - contextSize then max (-1) (l - 1 - contextSize - 1) else last)
        (l - 1))
      (if last < l - 1 - contextSize then
        (if max (-1) (l - 1 - contextSize - 1) ≥ 0 then [none] else []) else [])
      xs c (by split_ifs <;> simp) (by rw [List.map_nil, List.nil_append]; exact h)
    split_ifs at hp with c2 c3
    have e : max (-1) (l - 1 - contextSize - 1) = l - 1 - 3 - 1 := by
      simp only [hcs, max_def] at c3 ⊢
      split_ifs at c3 ⊢ <;> omega
    simp only [c2, if_true, e] at hc
    refine ⟨hc, ?_, ?_⟩
    · rw [e] at c3; exact c3
    · intro hra
      subst hra
      simp only [Bool.true_and, decide_eq_false_iff_not, hcs] at c1f
      omega

theorem idxs_head (a b : Int) (h : a < b) : (idxs a b).head? = some (a + 1).toNat := by
  unfold idxs
  obtain ⟨k, hk⟩ : ∃ k, (b - a).toNat = k + 1 := ⟨(b - a).toNat - 1, by omega⟩
  rw [hk, List.range'_succ]
  rfl

theorem allItems_placeholder (n : Nat) :
    ∀ (added : List Int) (last : Int) (ra : Bool), -1 ≤ last →
      (∀ l ∈ added, last < l - 1) → added.Pairwise (· < ·) →
      ∀ xs ys, allItems last ra added n = xs ++ none :: ys →
        ∃ l ∈ added, ys.head? = some (some (l - 1 - 3).toNat) ∧ 1 ≤ l - 1 - 3 ∧
          (ra = true → last + 3 < l - 1 - 3) ∧
          ∀ l2 ∈ added, l2 < l → (l2 - 1) + 3 < (l - 1) - 3
  | [], last, ra, _, _, _, xs, ys, h => by
    have hmem : (none : Option Nat) ∈ allItems last ra [] n := by rw [h]; simp
    simp only [allItems, loopItems, lastAfter, tailItems, List.nil_append] at hmem
    split_ifs at hmem
    · exact absurd hmem (none_not_mem_map_some _)
    · cases hmem
  | l :: rest, last, ra, h0, hr, hp, xs, ys, h => by
    have hl := hr l (List.mem_cons_self _ _)
    have hpc := List.pairwise_cons.mp hp
    have hmax : max last (l - 1) = l - 1 := max_eq_right (by omega)
    rw [allItems_cons, hmax, List.append_eq_append_iff] at h
    have ihB : ∀ xs2, allItems (l - 1) true rest n = xs2 ++ none :: ys →
        ∃ l3 ∈ l :: rest, ys.head? = some (some (l3 - 1 - 3).toNat) ∧ 1 ≤ l3 - 1 - 3 ∧
          (ra = true → last + 3 < l3 - 1 - 3) ∧
          ∀ l2 ∈ l :: rest, l2 < l3 → (l2 - 1) + 3 < (l3 - 1) - 3 := by
      intro xs2 hB
      obtain ⟨l3, hl3, hh, h1, h2, h3⟩ := allItems_placeholder n rest (l - 1) true (by omega)
        (fun l2 hl2 => by have := hpc.1 l2 hl2; omega) hpc.2 xs2 ys hB
      have h2t := h2 rfl
      refine ⟨l3, List.mem_cons_of_mem _ hl3, hh, h1, fun _ => by omega, ?_⟩
      intro l2 hl2 hlt
      rcases List.mem_cons.mp hl2 with e | hl2r
      · subst e; omega
      · exact h3 l2 hl2r hlt
    rcases h with ⟨a2, _, hB⟩ | ⟨c2, hA, hB⟩
    · exact ihB a2 hB
    · cases c2 with
      | nil =>
        rw [List.nil_append] at hB
        exact ihB [] (by rw [List.nil_append]; exact hB.symm)
      | cons x c3 =>
        simp only [List.cons_append, List.cons.injEq] at hB
        obtain ⟨hx, hys⟩ := hB
        subst hx
        obtain ⟨hc, hge, hra⟩ := stepItems_split last ra l xs c3 hA
        refine ⟨l, List.mem_cons_self _ _, ?_, by omega, hra, ?_⟩
        · rw [hys, hc]
          have hh := idxs_head (l - 1 - 3 - 1) (l - 1) (by omega)
          have e : (l - 1 - 3 - 1 + 1) = l - 1 - 3 := by ring
          rw [e] at hh
          cases hi : idxs (l - 1 - 3 - 1) (l - 1) with
          | nil => rw [hi] at hh; cases hh
          | cons y ys2 =>
            rw [hi] at hh
            simp only [List.head?_cons, Option.some.injEq] at hh
            simp [hh]
        · intro l2 hl2 hlt
          rcases List.mem_cons.mp hl2 with e | hl2r
          · subst e; omega
          · have := hpc.1 l2 hl2r; omega

/-! ### The second delivery -/

/-- C6: on the second delivery, when the line diff reports a strictly
increasing list `added` of line numbers of the new-side list B, the output is
a list of placeholders and lines of B (as the call leaves them: the added
lines tagged ERR) such that the lines other than the placeholders are exactly
the lines of B whose index lies within 3 of the index of an added line, each
once and in increasing index order; and a placeholder stands only directly
before the first line of the window of an added line whose window starts after
index 0 and after the end of the window of every earlier added line, so the
overlapping windows are never separated. -/
theorem processingDiff_context_lines (re : RegexLib) (git : DiffLib) (heap : Heap)
    (diffPart : DiffPart) (logFilterRegex : String) (diffState : Nat) (st0 : Option Int)
    (messages : Messages) (status : Int) (added : List Int)
    (hcount : (heap diffState).count ≠ 0)
    (hdiff : compareLogs git
        (filterLog re logFilterRegex (storeSlot diffPart (heap diffState) messages).a)
        (filterLog re logFilterRegex (storeSlot diffPart (heap diffState) messages).b)
        = .ok added)
    (hsorted : added.Pairwise (· < ·))
    (hr : ∀ l ∈ added,
      1 ≤ l ∧ l ≤ ((storeSlot diffPart (heap diffState) messages).b.length : Int)) :
    ∃ r items, (Processing.ProcessingDiff diffPart logFilterRegex diffState st0).process re git
          heap messages status = .ok r ∧
      r.msgs = items.map (outputLine (storeSlot diffPart (heap diffState) messages).b added) ∧
      items.filterMap id =
        (List.range (storeSlot diffPart (heap diffState) messages).b.length).filter
          (nearAdded added) ∧
      (∀ xs ys, items = xs ++ none :: ys →
        ∃ l ∈ added, ys.head? = some (some (l - 1 - 3).toNat) ∧ 1 ≤ l - 1 - 3 ∧
          ∀ l2 ∈ added, l2 < l → (l2 - 1) + 3 < (l - 1) - 3) := by
  obtain ⟨fin, hfin, _, hout, _⟩ := diffContext_sorted _ added hr hsorted
  refine ⟨_, allItems (-1) false added (storeSlot diffPart (heap diffState) messages).b.length,
    process_diff_second re git heap diffPart logFilterRegex diffState st0 messages status added
      fin hcount hdiff hfin, hout, allItems_filterMap _ added hr hsorted, ?_⟩
  intro xs ys hsplit
  obtain ⟨l, hl, h1, h2, _, h4⟩ := allItems_placeholder _ added (-1) false (by omega)
    (fun l hl => by have := hr l hl; omega) hsorted xs ys hsplit
  exact ⟨l, hl, h1, h2, h4⟩

theorem processingDiff_context_lines_witness :
    (pendingHeap [] [] 0).count ≠ 0 ∧
    compareLogs (demoDiff [5, 6, 20])
        (filterLog demoRegex "x" (storeSlot .B (pendingHeap [] [] 0) numbered23).a)
        (filterLog demoRegex "x" (storeSlot .B (pendingHeap [] [] 0) numbered23).b)
        = .ok [5, 6, 20] ∧
    ([5, 6, 20] : List Int).Pairwise (· < ·) ∧
    ∃ r items, (Processing.ProcessingDiff .B "x" 0 (some 1)).process demoRegex
          (demoDiff [5, 6, 20]) (pendingHeap [] []) numbered23 0 = .ok r ∧
      r.msgs = items.map (outputLine (storeSlot .B (pendingHeap [] [] 0) numbered23).b
        [5, 6, 20]) ∧
      items.filterMap id =
        (List.range (storeSlot .B (pendingHeap [] [] 0) numbered23).b.length).filter
          (nearAdded [5, 6, 20]) ∧
      (∀ xs ys, items = xs ++ none :: ys →
        ∃ l ∈ ([5, 6, 20] : List Int), ys.head? = some (some (l - 1 - 3).toNat) ∧
          1 ≤ l - 1 - 3 ∧
          ∀ l2 ∈ ([5, 6, 20] : List Int), l2 < l → (l2 - 1) + 3 < (l - 1) - 3) :=
  ⟨by decide, rfl, by decide,
    processingDiff_context_lines demoRegex (demoDiff [5, 6, 20]) (pendingHeap [] []) .B "x" 0
      (some 1) numbered23 0 [5, 6, 20] (by decide) rfl (by decide)
      (by
        intro l hl
        simp only [List.mem_cons, List.mem_singleton, List.not_mem_nil, or_false] at hl
        rcases hl with h | h | h <;> subst h <;> decide)⟩

/-- C7 (the claim as stated fails): for the 23 numbered lines and the added
line numbers 5, 6, 20, the output of the second delivery begins with a
placeholder line, holds two placeholder lines, and is not the block of lines
2-9, one placeholder, the block of lines 17-23. -/
theorem processingDiff_context_example_leading_placeholder :
    ∃ r, (Processing.ProcessingDiff .B "x" 0 (some 1)).process demoRegex
          (demoDiff [5, 6, 20]) (pendingHeap [] []) numbered23 0 = .ok r ∧
      r.msgs.head? = some placeholder ∧
      (r.msgs.filter (fun m => m.2 == "...")).length = 2 ∧
      r.msgs.map Prod.snd ≠
        ((numbered23.drop 1).take 8 ++ [placeholder] ++ (numbered23.drop 16).take 7).map
          Prod.snd := by
  refine ⟨_, rfl, ?_, ?_, ?_⟩ <;> decide

/-- C7 (amended): for a new-side list B with at least 23 lines and the added
line numbers 5, 6, 20, the output of the second delivery is a placeholder line
(line 1 is left out), the block of lines 2-9 of B, a placeholder line, and the
block of lines 17-23 of B, with lines 5, 6 and 20 tagged ERR. -/
theorem processingDiff_context_example (re : RegexLib) (git : DiffLib) (heap : Heap)
    (diffPart : DiffPart) (logFilterRegex : String) (diffState : Nat) (st0 : Option Int)
    (messages : Messages) (status : Int)
    (hcount : (heap diffState).count ≠ 0)
    (hdiff : compareLogs git
        (filterLog re logFilterRegex (storeSlot diffPart (heap diffState) messages).a)
        (filterLog re logFilterRegex (storeSlot diffPart (heap diffState) messages).b)
        = .ok [5, 6, 20])
    (hlen : 23 ≤ (storeSlot diffPart (heap diffState) messages).b.length) :
    ∃ r, (Processing.ProcessingDiff diffPart logFilterRegex diffState st0).process re git
          heap messages status = .ok r ∧
      r.msgs =
        [placeholder] ++
        (List.range' 1 8).map
          (markedLine (storeSlot diffPart (heap diffState) messages).b [5, 6, 20]) ++
        [placeholder] ++
        (List.range' 16 7).map
          (markedLine (storeSlot diffPart (heap diffState) messages).b [5, 6, 20]) ∧
      r.self.getStatus = some 1 := by
  have hr : ∀ l ∈ ([5, 6, 20] : List Int),
      1 ≤ l ∧ l ≤ ((storeSlot diffPart (heap diffState) messages).b.length : Int) := by
    intro l hl
    simp only [List.mem_cons, List.mem_singleton, List.not_mem_nil, or_false] at hl
    rcases hl with h | h | h <;> subst h <;> omega
  obtain ⟨fin, hfin, _, hout, hcnt⟩ := diffContext_sorted _ [5, 6, 20] hr (by decide)
  have hitems : allItems (-1) false [5, 6, 20]
        (storeSlot diffPart (heap diffState) messages).b.length =
      [none] ++ (List.range' 1 8).map some ++ [none] ++ (List.range' 16 7).map some := by
    have hloop : loopItems (-1) false [5, 6, 20] =
        [none] ++ (List.range' 1 8).map some ++ [none] ++ (List.range' 16 4).map some := by
      decide
    have hlast : lastAfter (-1) [5, 6, 20] = 19 := by decide
    have hmin : min ((19 : Int) + contextSize)
        (((storeSlot diffPart (heap diffState) messages).b.length : Int) - 1) = 22 := by
      have hcs : contextSize = 3 := rfl
      rw [hcs, min_eq_left (by omega)]; rfl
    have htail : idxs 19 22 = List.range' 20 3 := by decide
    simp only [allItems, hloop, hlast, tailItems, List.isEmpty_cons, Bool.not_false,
      Bool.or_true, if_true, hmin, htail]
    decide
  refine ⟨_, process_diff_second re git heap diffPart logFilterRegex diffState st0 messages
    status [5, 6, 20] fin hcount hdiff hfin, ?_, ?_⟩
  · rw [hout, hitems]
    simp only [List.map_append, List.map_map, List.map_cons, List.map_nil]
    rfl
  · simp only [Processing.getStatus, hcnt]
    rfl

theorem processingDiff_context_example_witness :
    (pendingHeap [] [] 0).count ≠ 0 ∧
    compareLogs (demoDiff [5, 6, 20])
        (filterLog demoRegex "x" (storeSlot .B (pendingHeap [] [] 0) numbered23).a)
        (filterLog demoRegex "x" (storeSlot .B (pendingHeap [] [] 0) numbered23).b)
        = .ok [5, 6, 20] ∧
    23 ≤ (storeSlot .B (pendingHeap [] [] 0) numbered23).b.length ∧
    ∃ r, (Processing.ProcessingDiff .B "x" 0 (some 1)).process demoRegex
          (demoDiff [5, 6, 20]) (pendingHeap [] []) numbered23 0 = .ok r ∧
      r.msgs =
        [placeholder] ++
        (List.range' 1 8).map
          (markedLine (storeSlot .B (pendingHeap [] [] 0) numbered23).b [5, 6, 20]) ++
        [placeholder] ++
        (List.range' 16 7).map
          (markedLine (storeSlot .B (pendingHeap [] [] 0) numbered23).b [5, 6, 20]) ∧
      r.self.getStatus = some 1 :=
  ⟨by decide, rfl, by decide,
    processingDiff_context_example demoRegex (demoDiff [5, 6, 20]) (pendingHeap [] []) .B "x" 0
      (some 1) numbered23 0 (by decide) rfl (by decide)⟩

/-! ### The aggregate status of a run -/

theorem nat_lor_eq_zero (m n : Nat) : m ||| n = 0 ↔ m = 0 ∧ n = 0 := by
  constructor
  · intro h
    have hm : ∀ i, m.testBit i = false := by
      intro i
      have := congrArg (fun x => x.testBit i) h
      simp only [Nat.testBit_or, Nat.zero_testBit, Bool.or_eq_false_iff] at this
      exact this.1
    have hn : ∀ i, n.testBit i = false := by
      intro i
      have := congrArg (fun x => x.testBit i) h
      simp only [Nat.testBit_or, Nat.zero_testBit, Bool.or_eq_false_iff] at this
      exact this.2
    exact ⟨Nat.eq_of_testBit_eq (by simpa using hm), Nat.eq_of_testBit_eq (by simpa using hn)⟩
  · rintro ⟨rfl, rfl⟩; rfl

theorem int_lor_eq_zero (a b : Int) : Int.lor a b = 0 ↔ a = 0 ∧ b = 0 := by
  cases a with
  | ofNat m =>
    cases b with
    | ofNat n =>
      simp only [Int.lor, Int.ofNat_eq_coe]
      rw [show ((0 : Int) = ((0 : Nat) : Int)) from rfl]
      simp only [Int.natCast_inj]
      exact nat_lor_eq_zero m n
    | negSucc n => simp [Int.lor]
  | negSucc m =>
    cases b with
    | ofNat n => simp [Int.lor]
    | negSucc n => simp [Int.lor]

theorem int_zero_lor (b : Int) : Int.lor 0 b = b := by
  cases b with
  | ofNat n => simp [Int.lor, show (0 : Int) = Int.ofNat 0 from rfl]
  | negSucc n =>
    show Int.lor (Int.ofNat 0) (Int.negSucc n) = _
    simp [Int.lor, Nat.ldiff]

theorem aggregate_append (t1 t2 : List Event) :
    aggregate (t1 ++ t2) = t2.foldl aggStep (aggregate t1) := by
  simp [aggregate, List.foldl_append]

theorem foldl_aggStep_print (msgs : Messages) (acc : Int) :
    (msgs.map Event.print).foldl aggStep acc = acc := by
  induction msgs with
  | nil => rfl
  | cons m rest ih => simpa [aggStep] using ih

theorem foldl_aggStep_runEvents (stage : Stage) (tasks : List Task) :
    ∀ (i : Nat) (acc : Int), (runEvents stage i tasks).foldl aggStep acc = acc := by
  induction tasks with
  | nil => intro i acc; rfl
  | cons t rest ih => intro i acc; simpa [runEvents, aggStep] using ih (i + 1) acc

/-- The invariant of `main`: `resultStatus` is the aggregate of the trace. -/
theorem andThen_inv (st : MainState) (next : MainState → MainState)
    (h : st.resultStatus = aggregate st.trace)
    (hn : ∀ s : MainState, s.resultStatus = aggregate s.trace →
      (next s).resultStatus = aggregate (next s).trace) :
    (st.andThen next).resultStatus = aggregate (st.andThen next).trace := by
  unfold MainState.andThen
  cases hf : st.fault with
  | none => exact hn st h
  | some f => exact h

theorem processResult_inv (w : World) (stage : Stage) (i : Nat) (result : TaskResult)
    (st : MainState) (h : st.resultStatus = aggregate st.trace) :
    (processResult w stage i result st).resultStatus =
      aggregate (processResult w stage i result st).trace := by
  unfold processResult
  cases (processingOf stage st.phases)[i]? with
  | none => exact h
  | some processing =>
    simp only []
    cases processing.process w.re w.diff st.heap result.msgs result.status with
    | error e => exact h
    | ok r =>
      simp only []
      cases hs : r.self.getStatus with
      | none =>
        cases stage <;> simp [aggregate_append, aggStep, h]
      | some status =>
        cases stage <;>
          simp [aggregate_append, aggStep, h, List.foldl_append, foldl_aggStep_print]

theorem processResults_inv (w : World) (stage : Stage) (results : List TaskResult) :
    ∀ (i : Nat) (st : MainState), st.resultStatus = aggregate st.trace →
      (processResults w stage i results st).resultStatus =
        aggregate (processResults w stage i results st).trace := by
  induction results with
  | nil => intro i st h; exact h
  | cons r rest ih =>
    intro i st h
    simp only [processResults]
    exact andThen_inv _ _ (processResult_inv w stage i r st h) (fun s hs => ih (i + 1) s hs)

theorem startTasks_inv (w : World) (stage : Stage) (forceThreadNum : Nat) (tasks : List Task)
    (st : MainState) (h : st.resultStatus = aggregate st.trace) :
    (startTasks w stage forceThreadNum tasks st).resultStatus =
      aggregate (startTasks w stage forceThreadNum tasks st).trace := by
  unfold startTasks
  split
  · exact h
  · split <;> simp [aggregate_append, foldl_aggStep_runEvents, h]

theorem runBuild_inv (w : World) (stage : Stage) (st : MainState)
    (h : st.resultStatus = aggregate st.trace) :
    (runBuild w stage st).resultStatus = aggregate (runBuild w stage st).trace := by
  unfold runBuild
  split
  · exact andThen_inv _ _ (startTasks_inv w stage 1 _ st h)
      (fun s hs => processResults_inv w stage _ 0 s hs)
  · exact h

theorem doCheckout_inv (w : World) (rev : String) (st : MainState)
    (h : st.resultStatus = aggregate st.trace) :
    (doCheckout w rev st).resultStatus = aggregate (doCheckout w rev st).trace := by
  unfold doCheckout
  split <;> simp [aggregate_append, aggStep, h]

theorem doCheckoutHead_inv (w : World) (headData : HeadData) (st : MainState)
    (h : st.resultStatus = aggregate st.trace) :
    (doCheckoutHead w headData st).resultStatus =
      aggregate (doCheckoutHead w headData st).trace := by
  unfold doCheckoutHead
  apply andThen_inv
  · apply doCheckout_inv
    simp [aggregate_append, aggStep, h]
  · intro s hs
    split
    · exact hs
    · exact hs

theorem oldPhase_inv (w : World) (config : CreatorConfig) (headData : HeadData)
    (st : MainState) (h0 : st.resultStatus = 0) (ht : st.trace = []) :
    (oldPhase w config headData st).resultStatus =
      aggregate (oldPhase w config headData st).trace := by
  have h : st.resultStatus = aggregate st.trace := by rw [h0, ht]; rfl
  unfold oldPhase
  split
  · split
    · apply andThen_inv
      · apply andThen_inv
        · apply andThen_inv
          · apply andThen_inv
            · exact doCheckout_inv w _ st h
            · intro s hs; exact runBuild_inv w _ s hs
          · intro s hs; exact startTasks_inv w _ _ _ s hs
        · intro s hs; exact processResults_inv w _ _ 0 s hs
      · intro s hs; exact doCheckoutHead_inv w headData s hs
    · simp [ht, aggregate, aggStep, int_zero_lor]
  · exact h

theorem runPhases_inv (w : World) (config : CreatorConfig) (taskTypes : TaskTypesMap) :
    (runPhases w config taskTypes).resultStatus =
      aggregate (runPhases w config taskTypes).trace := by
  unfold runPhases
  cases create w.re w.fs w.git config taskTypes with
  | error e => rfl
  | ok created =>
    simp only []
    cases w.git.getHeadSha with
    | error e => rfl
    | ok headData =>
      simp only []
      apply andThen_inv
      · apply andThen_inv
        · apply andThen_inv
          · exact oldPhase_inv w config headData _ rfl rfl
          · intro s hs; exact runBuild_inv w _ s hs
        · intro s hs; exact startTasks_inv w _ _ _ s hs
      · intro s hs; exact processResults_inv w _ _ 0 s hs

theorem foldl_aggStep_eq_zero (t : List Event) :
    ∀ acc : Int, t.foldl aggStep acc = 0 ↔
      (acc = 0 ∧ Event.checkoutFailed ∉ t ∧
        ∀ stage i status, Event.processed stage i (some status) ∈ t → stage ≠ .old →
          status = 0) := by
  induction t with
  | nil => intro acc; simp
  | cons ev rest ih =>
    intro acc
    rw [List.foldl_cons, ih]
    cases ev with
    | processed stage i st =>
      cases st with
      | none =>
        have e : aggStep acc (Event.processed stage i none) = acc := by
          cases stage <;> rfl
        rw [e]
        simp
      | some status =>
        cases stage with
        | old =>
          simp only [aggStep, List.mem_cons, Event.processed.injEq, reduceCtorEq, false_or,
            ne_eq, not_false_eq_true]
          constructor
          · rintro ⟨h1, h2, h3⟩
            refine ⟨h1, h2, ?_⟩
            rintro stage2 i2 status2 (⟨rfl, _, _⟩ | hm) hne
            · exact absurd rfl hne
            · exact h3 stage2 i2 status2 hm hne
          · rintro ⟨h1, h2, h3⟩
            exact ⟨h1, h2, fun stage2 i2 status2 hm hne =>
              h3 stage2 i2 status2 (Or.inr hm) hne⟩
        | buildOld =>
          simp only [aggStep, int_lor_eq_zero, List.mem_cons, reduceCtorEq, false_or]
          constructor
          · rintro ⟨⟨h1, h0⟩, h2, h3⟩
            refine ⟨h1, h2, ?_⟩
            rintro stage2 i2 status2 (hm | hm) hne
            · cases hm; exact h0
            · exact h3 stage2 i2 status2 hm hne
          · rintro ⟨h1, h2, h3⟩
            exact ⟨⟨h1, h3 _ _ _ (Or.inl rfl) (by decide)⟩, h2,
              fun stage2 i2 status2 hm hne => h3 stage2 i2 status2 (Or.inr hm) hne⟩
        | build =>
          simp only [aggStep, int_lor_eq_zero, List.mem_cons, reduceCtorEq, false_or]
          constructor
          · rintro ⟨⟨h1, h0⟩, h2, h3⟩
            refine ⟨h1, h2, ?_⟩
            rintro stage2 i2 status2 (hm | hm) hne
            · cases hm; exact h0
            · exact h3 stage2 i2 status2 hm hne
          · rintro ⟨h1, h2, h3⟩
            exact ⟨⟨h1, h3 _ _ _ (Or.inl rfl) (by decide)⟩, h2,
              fun stage2 i2 status2 hm hne => h3 stage2 i2 status2 (Or.inr hm) hne⟩
        | new =>
          simp only [aggStep, int_lor_eq_zero, List.mem_cons, reduceCtorEq, false_or]
          constructor
          · rintro ⟨⟨h1, h0⟩, h2, h3⟩
            refine ⟨h1, h2, ?_⟩
            rintro stage2 i2 status2 (hm | hm) hne
            · cases hm; exact h0
            · exact h3 stage2 i2 status2 hm hne
          · rintro ⟨h1, h2, h3⟩
            exact ⟨⟨h1, h3 _ _ _ (Or.inl rfl) (by decide)⟩, h2,
              fun stage2 i2 status2 hm hne => h3 stage2 i2 status2 (Or.inr hm) hne⟩
    | checkoutFailed =>
      simp [aggStep, int_lor_eq_zero]
    | checkout rev => simp [aggStep]
    | checkoutHead h => simp [aggStep]
    | taskRun stage i d => simp [aggStep]
    | logStatus st => simp [aggStep]
    | logDescr d => simp [aggStep]
    | print m => simp [aggStep]

/-- C1 (the claim as stated fails): in the run of a DIFF_WITH_CHECKOUT rule on
`a.py` whose tool prints the same on both trees, the run ends normally with
aggregate status 0 and exit code 0, although the bitwise OR of the statuses of
all processors applied in the old-tree, build and new-tree phases is 1 (the
old-tree processor holds the pending status 1). -/
theorem run_old_status_not_aggregated :
    demoCheckoutRun.fault = none ∧ demoCheckoutRun.resultStatus = 0 ∧
    exitCode demoCheckoutRun = some 0 ∧
    orStatuses [.buildOld, .old, .build, .new] demoCheckoutRun.trace = 1 ∧
    Event.processed .old 0 (some 1) ∈ demoCheckoutRun.trace := by
  decide

/-- C1 (amended): in every run that reaches the end of `main`, the aggregate
status is the bitwise OR of the statuses of the result processors applied in
the build phase (each time it runs) and in the new-tree phase, OR-ed with 1
when the checkout verification of the old revision failed; the statuses of
the old-tree processors are not part of it. The exit code is 1 if the
aggregate is non-zero and 0 otherwise, so it is 0 exactly when the
verification did not fail and each of those statuses is 0. -/
theorem run_aggregate_status (w : World) (config : CreatorConfig) (taskTypes : TaskTypesMap)
    (hdone : (runPhases w config taskTypes).fault = none) :
    (runPhases w config taskTypes).resultStatus =
        aggregate (runPhases w config taskTypes).trace ∧
    exitCode (runPhases w config taskTypes) =
        some (if aggregate (runPhases w config taskTypes).trace = 0 then 0 else 1) ∧
    (exitCode (runPhases w config taskTypes) = some 0 ↔
      (Event.checkoutFailed ∉ (runPhases w config taskTypes).trace ∧
        ∀ stage i status,
          Event.processed stage i (some status) ∈ (runPhases w config taskTypes).trace →
            stage ≠ .old → status = 0)) := by
  have hinv := runPhases_inv w config taskTypes
  have hexit : exitCode (runPhases w config taskTypes) =
      some (if aggregate (runPhases w config taskTypes).trace = 0 then 0 else 1) := by
    simp only [exitCode, hdone, hinv]
    by_cases h0 : aggregate (runPhases w config taskTypes).trace = 0 <;> simp [h0]
  refine ⟨hinv, hexit, ?_⟩
  rw [hexit]
  have hz := foldl_aggStep_eq_zero (runPhases w config taskTypes).trace 0
  simp only [true_and] at hz
  rw [← hz]
  by_cases h0 : aggregate (runPhases w config taskTypes).trace = 0
  · simp [h0, aggregate] at *
  · have : ¬ List.foldl aggStep 0 (runPhases w config taskTypes).trace = 0 := h0
    simp [h0, this]

theorem run_aggregate_status_witness :
    demoReturnRun.fault = none ∧
    demoReturnRun.resultStatus = aggregate demoReturnRun.trace ∧
    exitCode demoReturnRun = some (if aggregate demoReturnRun.trace = 0 then 0 else 1) ∧
    (exitCode demoReturnRun = some 0 ↔
      (Event.checkoutFailed ∉ demoReturnRun.trace ∧
        ∀ stage i status,
          Event.processed stage i (some status) ∈ demoReturnRun.trace →
            stage ≠ .old → status = 0)) :=
  ⟨by decide,
    run_aggregate_status (demoWorld [] 1 [(.NORMAL, "bad")]) demoConfig [pyRule .RETURN]
      (by decide)⟩

/-! ### End to end: one RETURN rule on one changed file -/

/-- The phases that expansion builds for one enabled FILE rule with extension
list `["py"]`, no allow-list, no exceptions and test kind RETURN, when the
only changed file is `a.py`: one task with one return-gated processor in the
new-tree phase. -/
theorem create_single_py_rule (re : RegexLib) (fs : FsLib) (git : GitRepo) (config : CreatorConfig)
    (rule : TaskType) (content oldContent : String)
    (henabled : rule.enabled = true) (htarget : rule.targetType = .FILE)
    (hfile : rule.file = some { ext := ["py"], files := [], exceptions := [] })
    (htest : rule.process.testType = .RETURN)
    (hchanges : git.getChangedFiles config.localSha config.remoteSha =
      .ok { newFiles := ["a.py"], newFileContent := [content],
            oldFileContent := [oldContent] }) :
    create re fs git config [rule] = .ok
      { phases :=
          { forNew := [Task.TaskPstream rule.process.executable
              (prepareArgs rule.process "a.py") content rule.process.useStdin
              { taskTypeName := rule.name, fileName := "a.py" }],
            processingForNew := [Processing.newReturnValue] },
        diffStates := 0 } := by
  have hidx : indexByExt ["a.py"] 0 [] = [("py", [0]), ("", [0])] := by decide
  have hlook : (ExtMap.push [("py", [0]), ("", [0])] anyChange 1).lookup "py" = some [0] := by
    decide
  simp only [create, hchanges, hidx, List.length_singleton, forTaskTypes, henabled, htarget,
    forEachFile, hfile, forExts, hlook, forFileIds, forOneFile, testFile, htest]
  simp

/-- C2: for a catalog holding exactly one enabled FILE rule with extension list
`["py"]`, no allow-list, no exceptions and test kind RETURN, and a change set
whose only changed file is `a.py` (the repository queries succeeding, a worker
thread being available, and the executable ending with a wait status, which is
never the value -1 that marks a result as missing): the run ends normally; its
exit code is 0 if the executable exits with status 0 and 1 if it exits with a
non-zero status; and the run reports the status next to the description (rule
name, `a.py`) of the one task, followed by the task's output when the status
is non-zero. -/
theorem run_single_py_rule (w : World) (config : CreatorConfig) (rule : TaskType)
    (content oldContent : String) (headData : HeadData) (status : Int) (msgs : Messages)
    (henabled : rule.enabled = true) (htarget : rule.targetType = .FILE)
    (hfile : rule.file = some { ext := ["py"], files := [], exceptions := [] })
    (htest : rule.process.testType = .RETURN)
    (hchanges : w.git.getChangedFiles config.localSha config.remoteSha =
      .ok { newFiles := ["a.py"], newFileContent := [content],
            oldFileContent := [oldContent] })
    (hhead : w.git.getHeadSha = .ok headData)
    (hworkers : 0 < w.hardware_concurrency)
    (hrun : w.runner.callProcess .new 0 rule.process.executable
        (prepareArgs rule.process "a.py")
        (if rule.process.useStdin then some content else none) = (status, msgs))
    (hstatus : status ≠ -1) :
    (runPhases w config [rule]).fault = none ∧
    (runPhases w config [rule]).resultStatus = status ∧
    exitCode (runPhases w config [rule]) = some (if status = 0 then 0 else 1) ∧
    (runPhases w config [rule]).trace =
      [Event.taskRun .new 0 { taskTypeName := rule.name, fileName := "a.py" },
       Event.processed .new 0 (some status),
       Event.logStatus status,
       Event.logDescr { taskTypeName := rule.name, fileName := "a.py" }] ++
      (if status = 0 then [] else msgs.map Event.print) := by
  have hcreate := create_single_py_rule w.re w.fs w.git config rule content oldContent henabled
    htarget hfile htest hchanges
  have hrs : (runPhases w config [rule]).fault = none ∧
      (runPhases w config [rule]).resultStatus = status ∧
      (runPhases w config [rule]).trace =
        [Event.taskRun .new 0 { taskTypeName := rule.name, fileName := "a.py" },
         Event.processed .new 0 (some status),
         Event.logStatus status,
         Event.logDescr { taskTypeName := rule.name, fileName := "a.py" }] ++
        (if status = 0 then [] else msgs.map Event.print) := by
    have htn : threadNum w.hardware_concurrency 0 1 = 1 := by
      simp only [threadNum]
      split_ifs <;> simp_all
    simp [runPhases, hcreate, hhead, oldPhase, runBuild, startTasks, MainState.andThen,
      processResults, processResult, runTasks, runEvents, Task.run, Task.getDescr, hrun,
      processingOf, setProcessing, Processing.newReturnValue, Processing.process,
      Processing.getStatus, htn, hstatus, int_zero_lor]
    by_cases hs : status = 0 <;> simp [hs]
  refine ⟨hrs.1, hrs.2.1, ?_, hrs.2.2⟩
  simp only [exitCode, hrs.1, hrs.2.1]
  by_cases hs : status = 0 <;> simp [hs]

theorem run_single_py_rule_witness :
    0 < (demoWorld [] 1 [(.NORMAL, "bad")]).hardware_concurrency ∧ (1 : Int) ≠ -1 ∧
    (pyRule .RETURN).enabled = true ∧ (pyRule .RETURN).targetType = .FILE ∧
    (pyRule .RETURN).file = some { ext := ["py"], files := [], exceptions := [] } ∧
    (pyRule .RETURN).process.testType = .RETURN ∧
    (runPhases (demoWorld [] 1 [(.NORMAL, "bad")]) demoConfig [pyRule .RETURN]).fault = none ∧
    (runPhases (demoWorld [] 1 [(.NORMAL, "bad")]) demoConfig [pyRule .RETURN]).resultStatus
      = 1 ∧
    exitCode (runPhases (demoWorld [] 1 [(.NORMAL, "bad")]) demoConfig [pyRule .RETURN]) =
      some (if (1 : Int) = 0 then 0 else 1) ∧
    (runPhases (demoWorld [] 1 [(.NORMAL, "bad")]) demoConfig [pyRule .RETURN]).trace =
      [Event.taskRun .new 0 { taskTypeName := (pyRule .RETURN).name, fileName := "a.py" },
       Event.processed .new 0 (some 1),
       Event.logStatus 1,
       Event.logDescr { taskTypeName := (pyRule .RETURN).name, fileName := "a.py" }] ++
      (if (1 : Int) = 0 then [] else [(MessageType.NORMAL, "bad")].map Event.print) :=
  ⟨by decide, by decide, rfl, rfl, rfl, rfl,
    run_single_py_rule (demoWorld [] 1 [(.NORMAL, "bad")]) demoConfig (pyRule .RETURN)
      "new" "old" { sha := "abc", refName := "refs/heads/main" } 1 [(.NORMAL, "bad")]
      rfl rfl rfl rfl rfl rfl (by decide) rfl (by decide)⟩

/-! ### The file matcher -/

/-- A file section without an exception entry and with an empty allow-list:
`testFile` accepts every path. -/
theorem testFile_unrestricted (fs : FsLib) (taskFileConfig : TaskType.File) (filePath : String)
    (hexc : taskFileConfig.exceptions = []) (hfiles : taskFileConfig.files = []) :
    testFile fs taskFileConfig filePath = .ok true := by
  unfold testFile
  rw [hexc, hfiles]
  rfl

/-- C11: the claim that the file matcher rejects a path under an exception
entry. Whenever the file section has an exception entry, whatever the path and
the allow-list are, the first round of the loop over the exceptions reads the
iterator `fs::relative(filePath, exceptionTest).begin()` after the temporary
path it points into has been destroyed: the behaviour of `testFile` is
undefined, it does not return a rejection. -/
theorem testFile_exception_entry_undefined (fs : FsLib) (taskFileConfig : TaskType.File)
    (filePath : String) (hexc : taskFileConfig.exceptions ≠ []) :
    testFile fs taskFileConfig filePath = .error .undefined := by
  unfold testFile
  cases h : taskFileConfig.exceptions with
  | nil => exact absurd h hexc
  | cons e rest => rfl

theorem testFile_exception_entry_undefined_witness :
    ({ ext := ["py"], files := ["src"], exceptions := ["doc"] } : TaskType.File).exceptions ≠ [] ∧
    testFile demoDisk { ext := ["py"], files := ["src"], exceptions := ["doc"] } "doc/a.py" =
      .error .undefined ∧
    testFile demoDisk { ext := ["py"], files := ["src"], exceptions := ["doc"] } "lib/a.py" =
      .error .undefined :=
  ⟨by decide,
    testFile_exception_entry_undefined demoDisk
      { ext := ["py"], files := ["src"], exceptions := ["doc"] } "doc/a.py" (by decide),
    rfl⟩

theorem lookup_cons_eq (k : String) (b : List Nat) (m : ExtMap) :
    List.lookup k ((k, b) :: m) = some b := by
  rw [List.lookup_cons]; simp

theorem lookup_cons_ne (k a : String) (b : List Nat) (m : ExtMap) (h : ¬ k = a) :
    List.lookup k ((a, b) :: m) = List.lookup k m := by
  rw [List.lookup_cons]
  have : (k == a) = false := by simpa using h
  rw [this]

theorem lookup_map_push (key : String) (i : Nat) (k : String) (m : ExtMap) :
    (m.map (fun kv => if kv.1 == key then (kv.1, kv.2 ++ [i]) else kv)).lookup k =
      if k = key then (m.lookup key).map (fun v => v ++ [i]) else m.lookup k := by
  induction m with
  | nil => simp
  | cons kv m ih =>
    obtain ⟨a, b⟩ := kv
    rw [List.map_cons]
    by_cases hak : a = key
    · subst hak
      have hf : (if ((a, b) : String × List Nat).1 == a then
          (((a, b) : String × List Nat).1, ((a, b) : String × List Nat).2 ++ [i])
          else (a, b)) = (a, b ++ [i]) := by simp
      simp only [hf]
      by_cases hk : k = a
      · subst hk; rw [lookup_cons_eq, lookup_cons_eq]; simp
      · rw [lookup_cons_ne _ _ _ _ hk, ih]; simp [hk, lookup_cons_ne _ _ _ _ hk]
    · have hf : (if ((a, b) : String × List Nat).1 == key then
          (((a, b) : String × List Nat).1, ((a, b) : String × List Nat).2 ++ [i])
          else (a, b)) = (a, b) := by simp [hak]
      simp only [hf]
      have hka : ¬ key = a := fun h => hak h.symm
      by_cases hk : k = key
      · subst hk
        rw [lookup_cons_ne _ _ _ _ hka, lookup_cons_ne _ _ _ _ hka, ih]
      · by_cases hk2 : k = a
        · subst hk2; rw [lookup_cons_eq, lookup_cons_eq]; simp [hk]
        · rw [lookup_cons_ne _ _ _ _ hk2, lookup_cons_ne _ _ _ _ hk2, ih]; simp [hk]

theorem lookup_append_single (key : String) (v : List Nat) (k : String) (m : ExtMap) :
    (m ++ [(key, v)]).lookup k =
      match m.lookup k with
      | some x => some x
      | none => if k = key then some v else none := by
  induction m with
  | nil =>
    by_cases hk : k = key
    · subst hk; simp [lookup_cons_eq]
    · simp [lookup_cons_ne _ _ _ _ hk, hk]
  | cons kv m ih =>
    obtain ⟨a, b⟩ := kv
    rw [List.cons_append]
    by_cases hka : k = a
    · subst hka; rw [lookup_cons_eq, lookup_cons_eq]
    · rw [lookup_cons_ne _ _ _ _ hka, lookup_cons_ne _ _ _ _ hka, ih]

theorem lookup_push (m : ExtMap) (key : String) (i : Nat) (k : String) :
    (m.push key i).lookup k =
      if k = key then some ((m.lookup key).getD [] ++ [i]) else m.lookup k := by
  unfold ExtMap.push
  cases h : List.lookup key m with
  | none =>
    simp only [lookup_append_single]
    by_cases hk : k = key
    · subst hk; simp [h]
    · simp only [hk, if_false]
      cases List.lookup k m <;> rfl
  | some v =>
    simp only [lookup_map_push]
    by_cases hk : k = key
    · subst hk; simp [h]
    · simp [hk]

theorem indexByExt_lookup (ext : String) :
    ∀ (files : List String) (i : Nat) (m : ExtMap),
      (indexByExt files i m).lookup ext =
        if bucketIds ext files i = [] then m.lookup ext
        else some ((m.lookup ext).getD [] ++ bucketIds ext files i) := by
  intro files
  induction files with
  | nil => intro i m; simp [indexByExt, bucketIds]
  | cons fileName rest ih =>
    intro i m
    simp only [indexByExt, bucketIds]
    rw [ih]
    by_cases h1 : has_extension fileName = true
    · by_cases h2 : lastPart fileName '.' = ext
      · by_cases h3 : ext = ""
        · subst h3
          simp [h1, h2, lookup_push]
        · simp [h1, h2, h3, lookup_push]
      · have h2b : ¬ ext = lastPart fileName '.' := fun h => h2 h.symm
        by_cases h3 : ext = ""
        · subst h3
          simp [h1, h2, h2b, lookup_push]
        · simp [h1, h2, h2b, h3, lookup_push]
    · by_cases h3 : ext = ""
      · subst h3
        simp [h1, lookup_push]
      · simp [h1, h3, lookup_push]

theorem create_eq (re : RegexLib) (fs : FsLib) (git : GitRepo) (config : CreatorConfig) (taskTypes : TaskTypesMap)
    (changes : ChangesData)
    (hchanges : git.getChangedFiles config.localSha config.remoteSha = .ok changes) :
    create re fs git config taskTypes =
      forTaskTypes re fs git config (withAnyChange changes) (changedByExtOf changes) taskTypes {} := by
  unfold create
  rw [hchanges]
  rfl

theorem bucketIds_bound (ext : String) :
    ∀ (files : List String) (i : Nat), ∀ id ∈ bucketIds ext files i,
      i ≤ id ∧ id < i + files.length := by
  intro files
  induction files with
  | nil => intro i id h; simp [bucketIds] at h
  | cons f rest ih =>
    intro i id h
    simp only [bucketIds, List.mem_append, List.length_cons] at h ⊢
    rcases h with h | h | h
    · split_ifs at h <;> simp at h; omega
    · split_ifs at h <;> simp at h; omega
    · have := ih (i + 1) id h; omega

theorem bucketIds_nil (ext : String) (hext : ext ≠ "") :
    ∀ (files : List String) (i : Nat),
      (∀ f ∈ files, ¬ (has_extension f = true ∧ lastPart f '.' = ext)) →
      bucketIds ext files i = [] := by
  intro files
  induction files with
  | nil => intro i _; rfl
  | cons g rest ih =>
    intro i h
    have hg := h g (List.mem_cons_self _ _)
    have hrest := ih (i + 1) (fun f hf => h f (List.mem_cons_of_mem _ hf))
    have h1 : (has_extension g && lastPart g '.' == ext) = false := by
      cases he : has_extension g with
      | false => rfl
      | true =>
        have : ¬ lastPart g '.' = ext := fun e => hg ⟨he, e⟩
        simpa using this
    simp [bucketIds, h1, hext, hrest]

theorem changedByExtOf_lookup (changes : ChangesData) (ext : String) :
    (changedByExtOf changes).lookup ext =
      if ext = anyChange then
        some (bucketIds anyChange changes.newFiles 0 ++ [changes.newFileContent.length])
      else if bucketIds ext changes.newFiles 0 = [] then none
      else some (bucketIds ext changes.newFiles 0) := by
  unfold changedByExtOf
  rw [lookup_push, indexByExt_lookup, indexByExt_lookup]
  by_cases h : ext = anyChange
  · subst h
    by_cases hb : bucketIds anyChange changes.newFiles 0 = []
    · simp [hb]
    · simp [hb]
  · by_cases hb : bucketIds ext changes.newFiles 0 = []
    · simp [h, hb]
    · simp [h, hb]

/-- What `forOneFile` returns for a file that `testFile` accepts, by the test
kind of the rule, when the pattern that the rule's processor compiles is a
regular expression. -/
theorem forOneFile_matched (re : RegexLib) (fs : FsLib) (git : GitRepo) (config : CreatorConfig)
    (changesData : ChangesData) (taskType : TaskType) (file : TaskType.File) (fileId : Nat)
    (st : CreateState) (fileName content : String)
    (hname : changesData.newFiles[fileId]? = some fileName)
    (hmatch : testFile fs file fileName = .ok true)
    (hadded : taskType.targetType = TargetType.ADDED_TEXT →
      git.getAddedLines config.localSha config.remoteSha fileName = .ok content)
    (hfull : taskType.targetType ≠ TargetType.ADDED_TEXT →
      changesData.newFileContent[fileId]? = some content) :
    (taskType.process.testType = TestType.RETURN →
      forOneFile re fs git config changesData taskType file fileId st =
        .ok (st.pushNew (fileTask taskType fileName content) Processing.newReturnValue)) ∧
    (taskType.process.testType = TestType.MATCH_SUCCESS →
      re.regex taskType.process.matchForSuccess = true →
      forOneFile re fs git config changesData taskType file fileId st =
        .ok (st.pushNew (fileTask taskType fileName content)
          (Processing.freshMatch true taskType.process.matchForSuccess))) ∧
    (taskType.process.testType = TestType.MATCH_FAIL →
      re.regex taskType.process.matchForFail = true →
      forOneFile re fs git config changesData taskType file fileId st =
        .ok (st.pushNew (fileTask taskType fileName content)
          (Processing.freshMatch false taskType.process.matchForFail))) ∧
    (taskType.process.testType = TestType.DIFF → taskType.process.useStdin = false →
      forOneFile re fs git config changesData taskType file fileId st = .error (.exit 1)) ∧
    (∀ oldContent, changesData.oldFileContent[fileId]? = some oldContent →
      taskType.process.testType = TestType.DIFF → taskType.process.useStdin = true →
      re.regex taskType.process.logDiffFilterRegex = true →
      forOneFile re fs git config changesData taskType file fileId st =
        .ok (((st.pushNew (oldSideTask taskType fileName oldContent)
            (Processing.freshDiff .A taskType.process.logDiffFilterRegex st.diffStates)).madeShared).pushNew
          (fileTask taskType fileName content)
          (Processing.freshDiff .B taskType.process.logDiffFilterRegex st.diffStates))) ∧
    (∀ oldContent, changesData.oldFileContent[fileId]? = some oldContent →
      taskType.process.testType = TestType.DIFF_WITH_CHECKOUT →
      re.regex taskType.process.logDiffFilterRegex = true →
      forOneFile re fs git config changesData taskType file fileId st =
        .ok (((st.pushOld (oldSideTask taskType fileName oldContent)
            (Processing.freshDiff .A taskType.process.logDiffFilterRegex st.diffStates)).madeShared).pushNew
          (fileTask taskType fileName content)
          (Processing.freshDiff .B taskType.process.logDiffFilterRegex st.diffStates))) := by
  have hc : (if taskType.targetType == TargetType.ADDED_TEXT then
              git.getAddedLines config.localSha config.remoteSha fileName
            else match changesData.newFileContent[fileId]? with
              | some c => .ok c
              | none => .error .undefined) = (.ok content : Except Fault String) := by
    by_cases h : taskType.targetType = TargetType.ADDED_TEXT
    · simp [h, hadded h]
    · simp [h, hfull h]
  refine ⟨?_, ?_, ?_, ?_, ?_, ?_⟩
  · intro ht
    unfold forOneFile
    simp only [hname, hmatch, hc, ht]
    rfl
  · intro ht hre
    unfold forOneFile
    simp only [hname, hmatch, hc, ht, Processing.newMatch, hre, if_true]
    rfl
  · intro ht hre
    unfold forOneFile
    simp only [hname, hmatch, hc, ht, Processing.newMatch, hre, if_true]
    rfl
  · intro ht hs
    unfold forOneFile
    simp only [hname, hmatch, hc, ht, hs]
    rfl
  · intro oldContent hold ht hs hre
    unfold forOneFile
    simp only [hname, hmatch, hc, ht, hs, hold, Processing.newDiff, hre, if_true]
    simp [CreateState.pushNew, CreateState.madeShared, fileTask, oldSideTask, hs]
  · intro oldContent hold ht hre
    unfold forOneFile
    simp only [hname, hmatch, hc, ht, hold, Processing.newDiff, hre, if_true]
    simp [CreateState.pushNew, CreateState.pushOld, CreateState.madeShared, fileTask, oldSideTask]

/-- What `forOneFile` returns for a file that `testFile` accepts when a
constructor of a processor throws on the rule's pattern, or when the old
contents lack an entry for the file. -/
theorem forOneFile_faulty (re : RegexLib) (fs : FsLib) (git : GitRepo) (config : CreatorConfig)
    (changesData : ChangesData) (taskType : TaskType) (file : TaskType.File) (fileId : Nat)
    (st : CreateState) (fileName content : String)
    (hname : changesData.newFiles[fileId]? = some fileName)
    (hmatch : testFile fs file fileName = .ok true)
    (hadded : taskType.targetType = TargetType.ADDED_TEXT →
      git.getAddedLines config.localSha config.remoteSha fileName = .ok content)
    (hfull : taskType.targetType ≠ TargetType.ADDED_TEXT →
      changesData.newFileContent[fileId]? = some content) :
    (taskType.process.testType = TestType.MATCH_SUCCESS →
      re.regex taskType.process.matchForSuccess = false →
      forOneFile re fs git config changesData taskType file fileId st = .error .uncaught) ∧
    (taskType.process.testType = TestType.MATCH_FAIL →
      re.regex taskType.process.matchForFail = false →
      forOneFile re fs git config changesData taskType file fileId st = .error .uncaught) ∧
    (taskType.process.testType = TestType.DIFF → taskType.process.useStdin = true →
      re.regex taskType.process.logDiffFilterRegex = false →
      forOneFile re fs git config changesData taskType file fileId st = .error .uncaught) ∧
    (taskType.process.testType = TestType.DIFF_WITH_CHECKOUT →
      re.regex taskType.process.logDiffFilterRegex = false →
      forOneFile re fs git config changesData taskType file fileId st = .error .uncaught) ∧
    (taskType.process.testType = TestType.DIFF → taskType.process.useStdin = true →
      re.regex taskType.process.logDiffFilterRegex = true →
      changesData.oldFileContent[fileId]? = none →
      forOneFile re fs git config changesData taskType file fileId st = .error .undefined) ∧
    (taskType.process.testType = TestType.DIFF_WITH_CHECKOUT →
      re.regex taskType.process.logDiffFilterRegex = true →
      changesData.oldFileContent[fileId]? = none →
      forOneFile re fs git config changesData taskType file fileId st = .error .undefined) := by
  have hc : (if taskType.targetType == TargetType.ADDED_TEXT then
              git.getAddedLines config.localSha config.remoteSha fileName
            else match changesData.newFileContent[fileId]? with
              | some c => .ok c
              | none => .error .undefined) = (.ok content : Except Fault String) := by
    by_cases h : taskType.targetType = TargetType.ADDED_TEXT
    · simp [h, hadded h]
    · simp [h, hfull h]
  refine ⟨?_, ?_, ?_, ?_, ?_, ?_⟩
  · intro ht hre
    unfold forOneFile
    simp only [hname, hmatch, hc, ht, Processing.newMatch, hre, Bool.false_eq_true, if_false]
  · intro ht hre
    unfold forOneFile
    simp only [hname, hmatch, hc, ht, Processing.newMatch, hre, Bool.false_eq_true, if_false]
  · intro ht hs hre
    unfold forOneFile
    simp only [hname, hmatch, hc, ht, hs, Processing.newDiff, hre, Bool.false_eq_true, if_false]
    rfl
  · intro ht hre
    unfold forOneFile
    simp only [hname, hmatch, hc, ht, Processing.newDiff, hre, Bool.false_eq_true, if_false]
    simp
  · intro ht hs hre hold
    unfold forOneFile
    simp only [hname, hmatch, hc, ht, hs, hold, Processing.newDiff, hre, if_true]
    rfl
  · intro ht hre hold
    unfold forOneFile
    simp only [hname, hmatch, hc, ht, hold, Processing.newDiff, hre, if_true]
    simp

theorem forOneFile_unmatched (re : RegexLib) (fs : FsLib) (git : GitRepo) (config : CreatorConfig)
    (changesData : ChangesData) (taskType : TaskType) (file : TaskType.File) (fileId : Nat)
    (st : CreateState) (fileName : String)
    (hname : changesData.newFiles[fileId]? = some fileName)
    (hmatch : testFile fs file fileName = .ok false) :
    forOneFile re fs git config changesData taskType file fileId st = .ok st := by
  unfold forOneFile
  simp only [hname, hmatch]

/-- Where the behaviour of `testFile` is undefined, so is that of `forOneFile`. -/
theorem forOneFile_matcher_fault (re : RegexLib) (fs : FsLib) (git : GitRepo)
    (config : CreatorConfig)
    (changesData : ChangesData) (taskType : TaskType) (file : TaskType.File) (fileId : Nat)
    (st : CreateState) (fileName : String) (e : Fault)
    (hname : changesData.newFiles[fileId]? = some fileName)
    (hmatch : testFile fs file fileName = .error e) :
    forOneFile re fs git config changesData taskType file fileId st = .error e := by
  unfold forOneFile
  simp only [hname, hmatch]

/-- The shapes of the state that `forOneFile` returns. -/
theorem forOneFile_ok (re : RegexLib) (fs : FsLib) (git : GitRepo) (config : CreatorConfig)
    (changesData : ChangesData) (taskType : TaskType) (file : TaskType.File) (fileId : Nat)
    (st st' : CreateState)
    (h : forOneFile re fs git config changesData taskType file fileId st = .ok st') :
    ∃ fileName, changesData.newFiles[fileId]? = some fileName ∧
      ((testFile fs file fileName = .ok false ∧ st' = st) ∨
       (testFile fs file fileName = .ok true ∧ ∃ content,
        ((taskType.process.testType = TestType.RETURN ∧
            st' = st.pushNew (fileTask taskType fileName content) Processing.newReturnValue) ∨
         (taskType.process.testType = TestType.MATCH_SUCCESS ∧
            st' = st.pushNew (fileTask taskType fileName content)
              (Processing.freshMatch true taskType.process.matchForSuccess)) ∨
         (taskType.process.testType = TestType.MATCH_FAIL ∧
            st' = st.pushNew (fileTask taskType fileName content)
              (Processing.freshMatch false taskType.process.matchForFail)) ∨
         (taskType.process.testType = TestType.DIFF ∧ taskType.process.useStdin = true ∧
            ∃ oldContent, changesData.oldFileContent[fileId]? = some oldContent ∧
            st' = ((st.pushNew (oldSideTask taskType fileName oldContent)
                (Processing.freshDiff .A taskType.process.logDiffFilterRegex st.diffStates)).madeShared).pushNew
              (fileTask taskType fileName content)
              (Processing.freshDiff .B taskType.process.logDiffFilterRegex st.diffStates)) ∨
         (taskType.process.testType = TestType.DIFF_WITH_CHECKOUT ∧
            ∃ oldContent, changesData.oldFileContent[fileId]? = some oldContent ∧
            st' = ((st.pushOld (oldSideTask taskType fileName oldContent)
                (Processing.freshDiff .A taskType.process.logDiffFilterRegex st.diffStates)).madeShared).pushNew
              (fileTask taskType fileName content)
              (Processing.freshDiff .B taskType.process.logDiffFilterRegex st.diffStates))))) := by
  cases hn : changesData.newFiles[fileId]? with
  | none => unfold forOneFile at h; rw [hn] at h; cases h
  | some fileName =>
    refine ⟨fileName, rfl, ?_⟩
    cases hm : testFile fs file fileName with
    | error e =>
      rw [forOneFile_matcher_fault re fs git config changesData taskType file fileId st fileName e
        hn hm] at h
      cases h
    | ok verdict =>
    cases verdict with
    | false =>
      left
      rw [forOneFile_unmatched re fs git config changesData taskType file fileId st fileName hn hm] at h
      exact ⟨rfl, (Except.ok.inj h).symm⟩
    | true =>
      right
      refine ⟨rfl, ?_⟩
      have hcontent : ∃ content,
          (taskType.targetType = TargetType.ADDED_TEXT →
            git.getAddedLines config.localSha config.remoteSha fileName = .ok content) ∧
          (taskType.targetType ≠ TargetType.ADDED_TEXT →
            changesData.newFileContent[fileId]? = some content) := by
        unfold forOneFile at h
        simp only [hn, hm] at h
        by_cases ha : taskType.targetType = TargetType.ADDED_TEXT
        · simp only [ha, beq_self_eq_true, if_true] at h
          cases hg : git.getAddedLines config.localSha config.remoteSha fileName with
          | error e => rw [hg] at h; cases h
          | ok content => exact ⟨content, fun _ => rfl, fun hne => absurd ha hne⟩
        · have hb : (taskType.targetType == TargetType.ADDED_TEXT) = false := by simpa using ha
          simp only [hb, Bool.false_eq_true, if_false] at h
          cases hg : changesData.newFileContent[fileId]? with
          | none => rw [hg] at h; cases h
          | some content => exact ⟨content, fun hne => absurd hne ha, fun _ => rfl⟩
      obtain ⟨content, hadded, hfull⟩ := hcontent
      refine ⟨content, ?_⟩
      obtain ⟨h1, h2, h3, h4, h5, h6⟩ := forOneFile_matched re fs git config changesData taskType
        file fileId st fileName content hn hm hadded hfull
      obtain ⟨f1, f2, f3, f4, f5, f6⟩ := forOneFile_faulty re fs git config changesData taskType
        file fileId st fileName content hn hm hadded hfull
      cases ht : taskType.process.testType with
      | RETURN =>
        rw [h1 ht] at h
        exact Or.inl ⟨rfl, (Except.ok.inj h).symm⟩
      | MATCH_SUCCESS =>
        rcases Bool.eq_false_or_eq_true (re.regex taskType.process.matchForSuccess) with hre | hre
        · rw [h2 ht hre] at h
          exact Or.inr (Or.inl ⟨rfl, (Except.ok.inj h).symm⟩)
        · rw [f1 ht hre] at h; cases h
      | MATCH_FAIL =>
        rcases Bool.eq_false_or_eq_true (re.regex taskType.process.matchForFail) with hre | hre
        · rw [h3 ht hre] at h
          exact Or.inr (Or.inr (Or.inl ⟨rfl, (Except.ok.inj h).symm⟩))
        · rw [f2 ht hre] at h; cases h
      | DIFF =>
        cases hs : taskType.process.useStdin with
        | false => rw [h4 ht hs] at h; cases h
        | true =>
          rcases Bool.eq_false_or_eq_true (re.regex taskType.process.logDiffFilterRegex)
            with hre | hre
          · cases ho : changesData.oldFileContent[fileId]? with
            | none => rw [f5 ht hs hre ho] at h; cases h
            | some oldContent =>
              rw [h5 oldContent ho ht hs hre] at h
              exact Or.inr (Or.inr (Or.inr (Or.inl
                ⟨rfl, rfl, oldContent, rfl, (Except.ok.inj h).symm⟩)))
          · rw [f3 ht hs hre] at h; cases h
      | DIFF_WITH_CHECKOUT =>
        rcases Bool.eq_false_or_eq_true (re.regex taskType.process.logDiffFilterRegex)
          with hre | hre
        · cases ho : changesData.oldFileContent[fileId]? with
          | none => rw [f6 ht hre ho] at h; cases h
          | some oldContent =>
            rw [h6 oldContent ho ht hre] at h
            exact Or.inr (Or.inr (Or.inr (Or.inr
              ⟨rfl, oldContent, rfl, (Except.ok.inj h).symm⟩)))
        · rw [f4 ht hre] at h; cases h

theorem forFileIds_rel (re : RegexLib) (fs : FsLib) (git : GitRepo) (config : CreatorConfig)
    (changesData : ChangesData) (taskType : TaskType) (file : TaskType.File)
    (R : CreateState → CreateState → Prop) (hrefl : ∀ s, R s s)
    (htrans : ∀ a b c, R a b → R b c → R a c)
    (hbody : ∀ id s s', forOneFile re fs git config changesData taskType file id s = .ok s' →
      R s s') :
    ∀ (ids : List Nat) (s s' : CreateState),
      forFileIds re fs git config changesData taskType file ids s = .ok s' → R s s' := by
  intro ids
  induction ids with
  | nil =>
    intro s s' h
    simp only [forFileIds] at h
    rw [← Except.ok.inj h]; exact hrefl s
  | cons id rest ih =>
    intro s s' h
    simp only [forFileIds] at h
    cases h1 : forOneFile re fs git config changesData taskType file id s with
    | error e => rw [h1] at h; cases h
    | ok s1 =>
      rw [h1] at h
      exact htrans _ _ _ (hbody id s s1 h1) (ih s1 s' h)

theorem forExts_rel (re : RegexLib) (fs : FsLib) (git : GitRepo) (config : CreatorConfig)
    (changesData : ChangesData) (changedByExt : ExtMap) (taskType : TaskType)
    (file : TaskType.File)
    (R : CreateState → CreateState → Prop) (hrefl : ∀ s, R s s)
    (htrans : ∀ a b c, R a b → R b c → R a c)
    (hbody : ∀ id s s', forOneFile re fs git config changesData taskType file id s = .ok s' →
      R s s') :
    ∀ (exts : List String) (s s' : CreateState),
      forExts re fs git config changesData changedByExt taskType file exts s = .ok s' →
      R s s' := by
  intro exts
  induction exts with
  | nil =>
    intro s s' h
    simp only [forExts] at h
    rw [← Except.ok.inj h]; exact hrefl s
  | cons ext rest ih =>
    intro s s' h
    simp only [forExts] at h
    cases hl : List.lookup ext changedByExt with
    | none => rw [hl] at h; exact ih s s' h
    | some ids =>
      rw [hl] at h
      simp only at h
      cases h1 : forFileIds re fs git config changesData taskType file ids s with
      | error e => rw [h1] at h; cases h
      | ok s1 =>
        rw [h1] at h
        exact htrans _ _ _
          (forFileIds_rel re fs git config changesData taskType file R hrefl htrans hbody ids s s1 h1)
          (ih s1 s' h)

theorem forEachFile_rel (re : RegexLib) (fs : FsLib) (git : GitRepo) (config : CreatorConfig)
    (changesData : ChangesData) (changedByExt : ExtMap) (taskType : TaskType)
    (R : CreateState → CreateState → Prop) (hrefl : ∀ s, R s s)
    (htrans : ∀ a b c, R a b → R b c → R a c)
    (hbody : ∀ file id s s',
      forOneFile re fs git config changesData taskType file id s = .ok s' → R s s')
    (s s' : CreateState)
    (h : forEachFile re fs git config changesData changedByExt taskType s = .ok s') : R s s' := by
  unfold forEachFile at h
  cases hf : taskType.file with
  | none => rw [hf] at h; cases h
  | some file =>
    rw [hf] at h
    exact forExts_rel re fs git config changesData changedByExt taskType file R hrefl htrans
      (hbody file) file.ext s s' h

theorem forTaskTypes_cons (re : RegexLib) (fs : FsLib) (git : GitRepo) (config : CreatorConfig)
    (changesData : ChangesData) (changedByExt : ExtMap) (taskType : TaskType)
    (rest : List TaskType) (s : CreateState) :
    forTaskTypes re fs git config changesData changedByExt (taskType :: rest) s =
      match forTaskTypes re fs git config changesData changedByExt [taskType] s with
      | .error e => .error e
      | .ok s1 => forTaskTypes re fs git config changesData changedByExt rest s1 := by
  simp only [forTaskTypes]
  cases taskType.enabled
  · rfl
  · simp only [Bool.not_true, Bool.false_eq_true, if_false]
    split <;> rfl

/-- One pass of the loop over the rules, for an enabled rule. -/
theorem forTaskTypes_single (re : RegexLib) (fs : FsLib) (git : GitRepo) (config : CreatorConfig)
    (changesData : ChangesData) (changedByExt : ExtMap) (taskType : TaskType)
    (s : CreateState) (henabled : taskType.enabled = true) :
    forTaskTypes re fs git config changesData changedByExt [taskType] s =
      match taskType.targetType with
      | .ANY_CHANGE =>
        forEachFile re fs git config changesData changedByExt
          { taskType with file := some { ext := [anyChange] } } s
      | .FILE => forEachFile re fs git config changesData changedByExt taskType s
      | .ADDED_TEXT => forEachFile re fs git config changesData changedByExt taskType s
      | .FILE_NAME => forEachFile re fs git config changesData changedByExt taskType s
      | .BUILD => forBuild taskType s
      | .COMMIT_TEXT => forCommitText re git config taskType s := by
  simp only [forTaskTypes, henabled, Bool.not_true, Bool.false_eq_true, if_false]
  cases taskType.targetType <;> simp only [] <;> split <;> simp_all

theorem forTaskTypes_single_disabled (re : RegexLib) (fs : FsLib) (git : GitRepo) (config : CreatorConfig)
    (changesData : ChangesData) (changedByExt : ExtMap) (taskType : TaskType)
    (s : CreateState) (henabled : taskType.enabled = false) :
    forTaskTypes re fs git config changesData changedByExt [taskType] s = .ok s := by
  simp [forTaskTypes, henabled]

theorem forTaskTypes_rel (re : RegexLib) (fs : FsLib) (git : GitRepo) (config : CreatorConfig)
    (changesData : ChangesData) (changedByExt : ExtMap)
    (R : CreateState → CreateState → Prop) (hrefl : ∀ s, R s s)
    (htrans : ∀ a b c, R a b → R b c → R a c)
    (hstep : ∀ t s s', forTaskTypes re fs git config changesData changedByExt [t] s = .ok s' →
      R s s') :
    ∀ (taskTypes : List TaskType) (s s' : CreateState),
      forTaskTypes re fs git config changesData changedByExt taskTypes s = .ok s' → R s s' := by
  intro taskTypes
  induction taskTypes with
  | nil =>
    intro s s' h
    simp only [forTaskTypes] at h
    rw [← Except.ok.inj h]; exact hrefl s
  | cons t rest ih =>
    intro s s' h
    rw [forTaskTypes_cons] at h
    cases h1 : forTaskTypes re fs git config changesData changedByExt [t] s with
    | error e => rw [h1] at h; cases h
    | ok s1 =>
      rw [h1] at h
      exact htrans _ _ _ (hstep t s s1 h1) (ih s1 s' h)

/-- A relation that every appended pair respects holds between the state
before and the state after one pass of the loop over the rules. -/
theorem step_rel (re : RegexLib) (fs : FsLib) (git : GitRepo) (config : CreatorConfig)
    (changesData : ChangesData) (changedByExt : ExtMap)
    (R : CreateState → CreateState → Prop) (hrefl : ∀ s, R s s)
    (htrans : ∀ a b c, R a b → R b c → R a c)
    (hfile : ∀ t file id s s',
      forOneFile re fs git config changesData t file id s = .ok s' → R s s')
    (hbuild : ∀ t s s', forBuild t s = .ok s' → R s s')
    (hcommit : ∀ t s s', forCommitText re git config t s = .ok s' → R s s')
    (t : TaskType) (s s' : CreateState)
    (h : forTaskTypes re fs git config changesData changedByExt [t] s = .ok s') : R s s' := by
  cases he : t.enabled with
  | false =>
    rw [forTaskTypes_single_disabled _ _ _ _ _ _ _ _ he] at h
    rw [← Except.ok.inj h]; exact hrefl s
  | true =>
    rw [forTaskTypes_single _ _ _ _ _ _ _ _ he] at h
    cases ht : t.targetType <;> rw [ht] at h <;> simp only [] at h
    · exact forEachFile_rel re fs git config changesData changedByExt t R hrefl htrans
        (hfile t) s s' h
    · exact hcommit t s s' h
    · exact forEachFile_rel re fs git config changesData changedByExt t R hrefl htrans
        (hfile t) s s' h
    · exact forEachFile_rel re fs git config changesData changedByExt t R hrefl htrans
        (hfile t) s s' h
    · exact hbuild t s s' h
    · exact forEachFile_rel re fs git config changesData changedByExt _ R hrefl htrans
        (hfile _) s s' h

theorem forBuild_ok (taskType : TaskType) (s s' : CreateState)
    (h : forBuild taskType s = .ok s') :
    taskType.process.useStdin = false ∧
    s' = s.pushBuild
      (Task.TaskPstream taskType.process.executable
        (prepareArgs taskType.process "<no file name>") "" false
        { taskTypeName := taskType.name, fileName := "<build>" })
      Processing.newReturnValue := by
  unfold forBuild at h
  cases hs : taskType.process.useStdin with
  | true => simp [hs] at h
  | false =>
    simp only [hs, Bool.false_eq_true, if_false] at h
    exact ⟨rfl, (Except.ok.inj h).symm⟩

theorem forCommitText_ok (re : RegexLib) (git : GitRepo) (config : CreatorConfig) (taskType : TaskType)
    (s s' : CreateState) (h : forCommitText re git config taskType s = .ok s') :
    ∃ allCommitsText processing,
      git.getJoinedCommitMsg config.localSha config.remoteSha = .ok allCommitsText ∧
      ((taskType.process.testType = TestType.RETURN ∧ processing = Processing.newReturnValue) ∨
       (taskType.process.testType = TestType.MATCH_SUCCESS ∧
          processing = Processing.freshMatch true taskType.process.matchForSuccess) ∨
       (taskType.process.testType = TestType.MATCH_FAIL ∧
          processing = Processing.freshMatch false taskType.process.matchForFail)) ∧
      s' = s.pushNew
        (Task.TaskPstream taskType.process.executable
          (prepareArgs taskType.process "<no file name>") allCommitsText true
          { taskTypeName := taskType.name, fileName := "<build>" })
        processing := by
  unfold forCommitText at h
  cases hg : git.getJoinedCommitMsg config.localSha config.remoteSha with
  | error e => simp [hg] at h
  | ok allCommitsText =>
    simp only [hg] at h
    cases ht : taskType.process.testType <;> simp only [ht] at h
    · cases h
    · exact ⟨allCommitsText, _, rfl, Or.inl ⟨rfl, rfl⟩, (Except.ok.inj h).symm⟩
    · rcases Bool.eq_false_or_eq_true (re.regex taskType.process.matchForSuccess) with hre | hre
      · simp only [Processing.newMatch, hre, if_true] at h
        exact ⟨allCommitsText, _, rfl, Or.inr (Or.inl ⟨rfl, rfl⟩), (Except.ok.inj h).symm⟩
      · simp only [Processing.newMatch, hre, Bool.false_eq_true, if_false] at h
        cases h
    · rcases Bool.eq_false_or_eq_true (re.regex taskType.process.matchForFail) with hre | hre
      · simp only [Processing.newMatch, hre, if_true] at h
        exact ⟨allCommitsText, _, rfl, Or.inr (Or.inr ⟨rfl, rfl⟩), (Except.ok.inj h).symm⟩
      · simp only [Processing.newMatch, hre, Bool.false_eq_true, if_false] at h
        cases h
    · cases h

theorem forOneFile_forNew_grows (re : RegexLib) (fs : FsLib) (git : GitRepo) (config : CreatorConfig)
    (changesData : ChangesData) (taskType : TaskType) (file : TaskType.File) (fileId : Nat)
    (s s' : CreateState)
    (h : forOneFile re fs git config changesData taskType file fileId s = .ok s') :
    s.phases.forNew <+: s'.phases.forNew := by
  obtain ⟨fileName, _, h1 | ⟨_, content, h2⟩⟩ :=
    forOneFile_ok re fs git config changesData taskType file fileId s s' h
  · rw [h1.2]
  · rcases h2 with ⟨_, e⟩ | ⟨_, e⟩ | ⟨_, e⟩ | ⟨_, _, o, _, e⟩ | ⟨_, o, _, e⟩ <;> rw [e] <;>
      simp [CreateState.pushNew, CreateState.pushOld, CreateState.madeShared]

/-- The loop over the rules only appends to the new-tree phase. -/
theorem forTaskTypes_forNew_grows (re : RegexLib) (fs : FsLib) (git : GitRepo) (config : CreatorConfig)
    (changesData : ChangesData) (changedByExt : ExtMap) (taskTypes : List TaskType)
    (s s' : CreateState)
    (h : forTaskTypes re fs git config changesData changedByExt taskTypes s = .ok s') :
    s.phases.forNew <+: s'.phases.forNew := by
  refine forTaskTypes_rel re fs git config changesData changedByExt
    (fun a b => a.phases.forNew <+: b.phases.forNew) (fun _ => List.prefix_refl _)
    (fun _ _ _ h1 h2 => List.IsPrefix.trans h1 h2) ?_ taskTypes s s' h
  intro t a b hab
  refine step_rel re fs git config changesData changedByExt
    (fun a b => a.phases.forNew <+: b.phases.forNew) (fun _ => List.prefix_refl _)
    (fun _ _ _ h1 h2 => List.IsPrefix.trans h1 h2) ?_ ?_ ?_ t a b hab
  · intro t file id x y hxy
    exact forOneFile_forNew_grows re fs git config changesData t file id x y hxy
  · intro t x y hxy
    rw [(forBuild_ok t x y hxy).2]
    exact List.prefix_refl _
  · intro t x y hxy
    obtain ⟨_, _, _, _, e⟩ := forCommitText_ok re git config t x y hxy
    rw [e]
    simp [CreateState.pushNew]

/-- The pass of the loop over the rules for an ANY_CHANGE rule visits the
synthetic entry and nothing else, when no changed file has the extension that
names the synthetic bucket. -/
theorem forTaskTypes_any_change (re : RegexLib) (fs : FsLib) (git : GitRepo) (config : CreatorConfig)
    (rule : TaskType) (changes : ChangesData) (hpar : changes.parallel = true)
    (hnoext : ∀ f ∈ changes.newFiles,
      ¬ (has_extension f = true ∧ lastPart f '.' = anyChange))
    (henabled : rule.enabled = true) (htarget : rule.targetType = TargetType.ANY_CHANGE)
    (s : CreateState) :
    forTaskTypes re fs git config (withAnyChange changes) (changedByExtOf changes) [rule] s =
      forOneFile re fs git config (withAnyChange changes)
        { rule with file := some { ext := [anyChange] } } { ext := [anyChange] }
        changes.newFiles.length s ∧
    (withAnyChange changes).newFiles[changes.newFiles.length]? = some anyChange ∧
    (withAnyChange changes).newFileContent[changes.newFiles.length]? = some "" ∧
    (withAnyChange changes).oldFileContent[changes.newFiles.length]? = some "" := by
  have hp := hpar
  simp only [ChangesData.parallel, Bool.and_eq_true, beq_iff_eq] at hp
  have hb : bucketIds anyChange changes.newFiles 0 = [] :=
    bucketIds_nil anyChange (by decide) changes.newFiles 0 hnoext
  have hl : (changedByExtOf changes).lookup anyChange = some [changes.newFiles.length] := by
    rw [changedByExtOf_lookup, if_pos rfl, hb, hp.1]
    rfl
  refine ⟨?_, ?_, ?_, ?_⟩
  · rw [forTaskTypes_single _ _ _ _ _ _ _ _ henabled, htarget]
    simp only [forEachFile, forExts, hl, forFileIds]
    generalize forOneFile _ _ _ _ _ _ _ _ _ = x
    cases x <;> rfl
  · simp [withAnyChange]
  · simp [withAnyChange, ← hp.1]
  · simp [withAnyChange, ← hp.2]

/-- C14 (amended): for a catalog of one enabled ANY_CHANGE rule and a change set
in which no file has the extension that names the synthetic bucket, expansion
visits the synthetic entry only. When the pattern of the rule's processor is a
regular expression: a rule of kind RETURN, MATCH_SUCCESS or MATCH_FAIL yields
one task in the new-tree phase; a rule of kind DIFF_WITH_CHECKOUT yields a null
task in the old-tree phase and one task in the new-tree phase; a rule of kind
DIFF that uses stdin yields both in the new-tree phase. A rule of kind DIFF
that does not use stdin ends expansion in `exit(1)`; for any other rule whose
pattern is not a regular expression the constructor of the processor throws. -/
theorem create_single_any_change (re : RegexLib) (fs : FsLib) (git : GitRepo) (config : CreatorConfig)
    (rule : TaskType) (changes : ChangesData)
    (hchanges : git.getChangedFiles config.localSha config.remoteSha = .ok changes)
    (hpar : changes.parallel = true)
    (hnoext : ∀ f ∈ changes.newFiles,
      ¬ (has_extension f = true ∧ lastPart f '.' = anyChange))
    (henabled : rule.enabled = true) (htarget : rule.targetType = TargetType.ANY_CHANGE) :
    (rule.process.testType = TestType.RETURN →
      create re fs git config [rule] =
        .ok { phases := { forNew := [fileTask rule anyChange ""],
                          processingForNew := [Processing.newReturnValue] } }) ∧
    (rule.process.testType = TestType.MATCH_SUCCESS →
      re.regex rule.process.matchForSuccess = true →
      create re fs git config [rule] =
        .ok { phases := { forNew := [fileTask rule anyChange ""],
                          processingForNew :=
                            [Processing.freshMatch true rule.process.matchForSuccess] } }) ∧
    (rule.process.testType = TestType.MATCH_FAIL →
      re.regex rule.process.matchForFail = true →
      create re fs git config [rule] =
        .ok { phases := { forNew := [fileTask rule anyChange ""],
                          processingForNew :=
                            [Processing.freshMatch false rule.process.matchForFail] } }) ∧
    (rule.process.testType = TestType.DIFF_WITH_CHECKOUT →
      re.regex rule.process.logDiffFilterRegex = true →
      create re fs git config [rule] =
        .ok { phases := {
                forOld := [Task.TaskNull { taskTypeName := "empty_file", fileName := anyChange }],
                processingForOld :=
                  [Processing.freshDiff .A rule.process.logDiffFilterRegex 0],
                forNew := [fileTask rule anyChange ""],
                processingForNew :=
                  [Processing.freshDiff .B rule.process.logDiffFilterRegex 0] },
              diffStates := 1 }) ∧
    (rule.process.testType = TestType.DIFF → rule.process.useStdin = true →
      re.regex rule.process.logDiffFilterRegex = true →
      create re fs git config [rule] =
        .ok { phases := {
                forNew := [Task.TaskNull { taskTypeName := "empty_file", fileName := anyChange },
                           fileTask rule anyChange ""],
                processingForNew :=
                  [Processing.freshDiff .A rule.process.logDiffFilterRegex 0,
                   Processing.freshDiff .B rule.process.logDiffFilterRegex 0] },
              diffStates := 1 }) ∧
    (rule.process.testType = TestType.DIFF → rule.process.useStdin = false →
      create re fs git config [rule] = .error (.exit 1)) ∧
    (rule.process.patternCompiles re = false →
      ¬ (rule.process.testType = TestType.DIFF ∧ rule.process.useStdin = false) →
      create re fs git config [rule] = .error .uncaught) ∧
    (∀ st, create re fs git config [rule] = .ok st →
      st.phases.taskCount =
        if rule.process.testType = TestType.DIFF ∨
            rule.process.testType = TestType.DIFF_WITH_CHECKOUT then 2 else 1) := by
  obtain ⟨hstep, hn, hc, ho⟩ := forTaskTypes_any_change re fs git config rule changes hpar hnoext
    henabled htarget {}
  have hmatch : testFile fs { ext := [anyChange] } anyChange = .ok true :=
    testFile_unrestricted fs { ext := [anyChange] } anyChange rfl rfl
  have hne : ({ rule with file := some { ext := [anyChange] } } : TaskType).targetType ≠
      TargetType.ADDED_TEXT := by
    simp only [htarget]
    decide
  obtain ⟨r1, r2, r3, r4, r5, r6⟩ := forOneFile_matched re fs git config (withAnyChange changes)
    { rule with file := some { ext := [anyChange] } } { ext := [anyChange] }
    changes.newFiles.length {} anyChange "" hn hmatch (fun h => absurd h hne) (fun _ => hc)
  obtain ⟨f1, f2, f3, f4, _, _⟩ := forOneFile_faulty re fs git config (withAnyChange changes)
    { rule with file := some { ext := [anyChange] } } { ext := [anyChange] }
    changes.newFiles.length {} anyChange "" hn hmatch (fun h => absurd h hne) (fun _ => hc)
  rw [create_eq _ _ _ _ _ _ hchanges, hstep]
  have e1 : rule.process.testType = TestType.RETURN → _ := r1
  have e2 : rule.process.testType = TestType.MATCH_SUCCESS →
    re.regex rule.process.matchForSuccess = true → _ := r2
  have e3 : rule.process.testType = TestType.MATCH_FAIL →
    re.regex rule.process.matchForFail = true → _ := r3
  have e4 : rule.process.testType = TestType.DIFF → rule.process.useStdin = false → _ := r4
  have e5 : rule.process.testType = TestType.DIFF → rule.process.useStdin = true →
    re.regex rule.process.logDiffFilterRegex = true → _ := r5 "" ho
  have e6 : rule.process.testType = TestType.DIFF_WITH_CHECKOUT →
    re.regex rule.process.logDiffFilterRegex = true → _ := r6 "" ho
  have g1 : rule.process.testType = TestType.MATCH_SUCCESS →
    re.regex rule.process.matchForSuccess = false → _ := f1
  have g2 : rule.process.testType = TestType.MATCH_FAIL →
    re.regex rule.process.matchForFail = false → _ := f2
  have g3 : rule.process.testType = TestType.DIFF → rule.process.useStdin = true →
    re.regex rule.process.logDiffFilterRegex = false → _ := f3
  have g4 : rule.process.testType = TestType.DIFF_WITH_CHECKOUT →
    re.regex rule.process.logDiffFilterRegex = false → _ := f4
  refine ⟨fun h => by rw [e1 h]; rfl, fun h hre => by rw [e2 h hre]; rfl,
    fun h hre => by rw [e3 h hre]; rfl,
    fun h hre => by rw [e6 h hre]; rfl, fun h hs hre => by rw [e5 h hs hre]; rfl,
    fun h hs => e4 h hs, ?_, ?_⟩
  · intro hpat hconf
    unfold TaskType.Process.patternCompiles at hpat
    cases ht : rule.process.testType with
    | RETURN => rw [ht] at hpat; cases hpat
    | MATCH_SUCCESS => rw [ht] at hpat; exact g1 ht hpat
    | MATCH_FAIL => rw [ht] at hpat; exact g2 ht hpat
    | DIFF_WITH_CHECKOUT => rw [ht] at hpat; exact g4 ht hpat
    | DIFF =>
      rw [ht] at hpat
      cases hs : rule.process.useStdin with
      | false => exact absurd ⟨ht, hs⟩ hconf
      | true => exact g3 ht hs hpat
  · intro st hst
    cases ht : rule.process.testType with
    | RETURN => rw [e1 ht] at hst; rw [← Except.ok.inj hst]; simp; rfl
    | MATCH_SUCCESS =>
      rcases Bool.eq_false_or_eq_true (re.regex rule.process.matchForSuccess) with hre | hre
      · rw [e2 ht hre] at hst; rw [← Except.ok.inj hst]; simp; rfl
      · rw [g1 ht hre] at hst; cases hst
    | MATCH_FAIL =>
      rcases Bool.eq_false_or_eq_true (re.regex rule.process.matchForFail) with hre | hre
      · rw [e3 ht hre] at hst; rw [← Except.ok.inj hst]; simp; rfl
      · rw [g2 ht hre] at hst; cases hst
    | DIFF_WITH_CHECKOUT =>
      rcases Bool.eq_false_or_eq_true (re.regex rule.process.logDiffFilterRegex) with hre | hre
      · rw [e6 ht hre] at hst; rw [← Except.ok.inj hst]; simp; rfl
      · rw [g4 ht hre] at hst; cases hst
    | DIFF =>
      cases hs : rule.process.useStdin with
      | false => rw [e4 ht hs] at hst; cases hst
      | true =>
        rcases Bool.eq_false_or_eq_true (re.regex rule.process.logDiffFilterRegex) with hre | hre
        · rw [e5 ht hs hre] at hst; rw [← Except.ok.inj hst]; simp; rfl
        · rw [g3 ht hs hre] at hst; cases hst

theorem create_single_any_change_witness :
    create demoRegex demoFs (demoGit onePyFile) demoConfig [anyChangeRule .RETURN] =
      .ok { phases := { forNew := [fileTask (anyChangeRule .RETURN) anyChange ""],
                        processingForNew := [Processing.newReturnValue] } } ∧
    (∀ st, create demoRegex demoFs (demoGit onePyFile) demoConfig [anyChangeRule .RETURN] = .ok st →
      st.phases.taskCount = 1) ∧
    create demoRegex demoFs (demoGit onePyFile) demoConfig [anyChangeRule .MATCH_FAIL] =
      .ok { phases := { forNew := [fileTask (anyChangeRule .MATCH_FAIL) anyChange ""],
                        processingForNew := [Processing.freshMatch false ""] } } ∧
    badPatternRule.process.patternCompiles demoRegex = false ∧
    create demoRegex demoFs (demoGit onePyFile) demoConfig [badPatternRule] =
      .error .uncaught :=
  have h := create_single_any_change demoRegex demoFs (demoGit onePyFile) demoConfig
    (anyChangeRule .RETURN) onePyFile rfl (by decide) (by decide) rfl rfl
  have h2 := create_single_any_change demoRegex demoFs (demoGit onePyFile) demoConfig
    (anyChangeRule .MATCH_FAIL) onePyFile rfl (by decide) (by decide) rfl rfl
  have h3 := create_single_any_change demoRegex demoFs (demoGit onePyFile) demoConfig
    badPatternRule onePyFile rfl (by decide) (by decide) rfl rfl
  ⟨h.1 rfl, h.2.2.2.2.2.2.2, h2.2.2.1 rfl (by decide), by decide,
    h3.2.2.2.2.2.2.1 (by decide) (by decide)⟩

/-- The claim C14 fails for the test kind DIFF_WITH_CHECKOUT: on the change set
of the one file `a.py`, the catalog of one enabled ANY_CHANGE rule of that kind
expands to two tasks, a null task in the old-tree phase and the task of the
rule in the new-tree phase. -/
theorem any_change_diff_with_checkout_two_tasks :
    onePyFile.newFiles = ["a.py"] ∧
    (anyChangeRule .DIFF_WITH_CHECKOUT).enabled = true ∧
    (anyChangeRule .DIFF_WITH_CHECKOUT).targetType = .ANY_CHANGE ∧
    ∃ st, create demoRegex demoFs (demoGit onePyFile) demoConfig [anyChangeRule .DIFF_WITH_CHECKOUT] =
        .ok st ∧
      st.phases.forOld =
        [Task.TaskNull { taskTypeName := "empty_file", fileName := anyChange }] ∧
      st.phases.build = [] ∧
      st.phases.forNew = [fileTask (anyChangeRule .DIFF_WITH_CHECKOUT) anyChange ""] ∧
      st.phases.taskCount = 2 :=
  ⟨rfl, rfl, rfl, _, rfl, rfl, rfl, rfl, rfl⟩

/-- A changed file whose extension is the name of the synthetic bucket lands in
that bucket: the ANY_CHANGE rule then makes a task for it too. -/
theorem any_change_bucket_shared :
    ∃ st, create demoRegex demoFs
        (demoGit { newFiles := ["x.___any_change___"], newFileContent := ["new"],
                   oldFileContent := ["old"] })
        demoConfig [anyChangeRule .RETURN] = .ok st ∧
      st.phases.forNew =
        [fileTask (anyChangeRule .RETURN) "x.___any_change___" "new",
         fileTask (anyChangeRule .RETURN) anyChange ""] :=
  ⟨_, rfl, rfl⟩

/-! ### Expansion: DIFF without stdin -/

theorem mem_handles_pushNew (st : CreateState) (task : Task) (p : Processing) (h : Nat) :
    h ∈ (st.pushNew task p).handles ↔ h ∈ st.handles ∨ h ∈ diffHandles [p] := by
  simp only [CreateState.handles, CreateState.pushNew, diffHandles, List.filterMap_append,
    List.mem_append]
  tauto

theorem mem_handles_pushOld (st : CreateState) (task : Task) (p : Processing) (h : Nat) :
    h ∈ (st.pushOld task p).handles ↔ h ∈ st.handles ∨ h ∈ diffHandles [p] := by
  simp only [CreateState.handles, CreateState.pushOld, diffHandles, List.filterMap_append,
    List.mem_append]
  tauto

theorem mem_handles_pushBuild (st : CreateState) (task : Task) (p : Processing) (h : Nat) :
    h ∈ (st.pushBuild task p).handles ↔ h ∈ st.handles ∨ h ∈ diffHandles [p] := by
  simp only [CreateState.handles, CreateState.pushBuild, diffHandles, List.filterMap_append,
    List.mem_append]
  tauto

/-- The handles that the processors of the phases hold stay below the number
of shared diff states made, through one call of `forOneFile`. -/
theorem forOneFile_handles (re : RegexLib) (fs : FsLib) (git : GitRepo) (config : CreatorConfig)
    (changesData : ChangesData) (taskType : TaskType) (file : TaskType.File) (fileId : Nat)
    (s s' : CreateState)
    (h : forOneFile re fs git config changesData taskType file fileId s = .ok s')
    (hbelow : ∀ x ∈ s.handles, x < s.diffStates) : ∀ x ∈ s'.handles, x < s'.diffStates := by
  obtain ⟨fileName, _, h1 | ⟨_, content, h2⟩⟩ :=
    forOneFile_ok re fs git config changesData taskType file fileId s s' h
  · rw [h1.2]; exact hbelow
  · rcases h2 with ⟨_, e⟩ | ⟨_, e⟩ | ⟨_, e⟩ | ⟨_, _, o, _, e⟩ | ⟨_, o, _, e⟩
    · intro x hx
      rw [e, mem_handles_pushNew] at hx
      rw [e]
      rcases hx with hx | hx
      · exact hbelow x hx
      · simp [diffHandles, Processing.newReturnValue] at hx
    · intro x hx
      rw [e, mem_handles_pushNew] at hx
      rw [e]
      rcases hx with hx | hx
      · exact hbelow x hx
      · simp [diffHandles, Processing.freshMatch] at hx
    · intro x hx
      rw [e, mem_handles_pushNew] at hx
      rw [e]
      rcases hx with hx | hx
      · exact hbelow x hx
      · simp [diffHandles, Processing.freshMatch] at hx
    · intro x hx
      rw [e, mem_handles_pushNew] at hx
      have hd : s'.diffStates = s.diffStates + 1 := by rw [e]; rfl
      rw [hd]
      rcases hx with hx | hx
      · have hx' : x ∈ (s.pushNew (oldSideTask taskType fileName o)
            (Processing.freshDiff .A taskType.process.logDiffFilterRegex s.diffStates)).handles :=
          hx
        rw [mem_handles_pushNew] at hx'
        rcases hx' with hx' | hx'
        · have := hbelow x hx'; omega
        · simp [diffHandles, Processing.freshDiff] at hx'; omega
      · simp [diffHandles, Processing.freshDiff] at hx; omega
    · intro x hx
      rw [e, mem_handles_pushNew] at hx
      have hd : s'.diffStates = s.diffStates + 1 := by rw [e]; rfl
      rw [hd]
      rcases hx with hx | hx
      · have hx' : x ∈ (s.pushOld (oldSideTask taskType fileName o)
            (Processing.freshDiff .A taskType.process.logDiffFilterRegex s.diffStates)).handles :=
          hx
        rw [mem_handles_pushOld] at hx'
        rcases hx' with hx' | hx'
        · have := hbelow x hx'; omega
        · simp [diffHandles, Processing.freshDiff] at hx'; omega
      · simp [diffHandles, Processing.freshDiff] at hx; omega

/-- The handles that the processors of the phases hold stay below the number
of shared diff states made, through the loop over the rules. -/
theorem forTaskTypes_handles (re : RegexLib) (fs : FsLib) (git : GitRepo) (config : CreatorConfig)
    (changesData : ChangesData) (changedByExt : ExtMap) (taskTypes : List TaskType)
    (s s' : CreateState)
    (h : forTaskTypes re fs git config changesData changedByExt taskTypes s = .ok s')
    (hbelow : ∀ x ∈ s.handles, x < s.diffStates) : ∀ x ∈ s'.handles, x < s'.diffStates := by
  refine forTaskTypes_rel re fs git config changesData changedByExt
    (fun a b => (∀ x ∈ a.handles, x < a.diffStates) → ∀ x ∈ b.handles, x < b.diffStates)
    (fun _ h => h) (fun _ _ _ h1 h2 h => h2 (h1 h)) ?_ taskTypes s s' h hbelow
  intro t a b hab
  refine step_rel re fs git config changesData changedByExt
    (fun a b => (∀ x ∈ a.handles, x < a.diffStates) → ∀ x ∈ b.handles, x < b.diffStates)
    (fun _ h => h) (fun _ _ _ h1 h2 h => h2 (h1 h)) ?_ ?_ ?_ t a b hab
  · intro t file id x y hxy
    exact forOneFile_handles re fs git config changesData t file id x y hxy
  · intro t x y hxy hx z hz
    rw [(forBuild_ok t x y hxy).2, mem_handles_pushBuild] at hz
    rw [(forBuild_ok t x y hxy).2]
    rcases hz with hz | hz
    · exact hx z hz
    · simp [diffHandles, Processing.newReturnValue] at hz
  · intro t x y hxy hx z hz
    obtain ⟨_, p, _, hp, e⟩ := forCommitText_ok re git config t x y hxy
    rw [e, mem_handles_pushNew] at hz
    rw [e]
    rcases hz with hz | hz
    · exact hx z hz
    · rcases hp with ⟨_, hp⟩ | ⟨_, hp⟩ | ⟨_, hp⟩ <;> rw [hp] at hz <;>
        simp [diffHandles, Processing.newReturnValue, Processing.freshMatch] at hz

theorem forOneFile_forOld (re : RegexLib) (fs : FsLib) (git : GitRepo) (config : CreatorConfig)
    (changesData : ChangesData) (taskType : TaskType) (file : TaskType.File) (fileId : Nat)
    (s s' : CreateState)
    (hkind : taskType.process.testType ≠ TestType.DIFF_WITH_CHECKOUT)
    (h : forOneFile re fs git config changesData taskType file fileId s = .ok s') :
    s'.phases.forOld = s.phases.forOld ∧
    s'.phases.processingForOld = s.phases.processingForOld := by
  obtain ⟨fileName, _, h1 | ⟨_, content, h2⟩⟩ :=
    forOneFile_ok re fs git config changesData taskType file fileId s s' h
  · rw [h1.2]; exact ⟨rfl, rfl⟩
  · rcases h2 with ⟨_, e⟩ | ⟨_, e⟩ | ⟨_, e⟩ | ⟨_, _, o, _, e⟩ | ⟨hk, _⟩
    · rw [e]; exact ⟨rfl, rfl⟩
    · rw [e]; exact ⟨rfl, rfl⟩
    · rw [e]; exact ⟨rfl, rfl⟩
    · rw [e]; exact ⟨rfl, rfl⟩
    · exact absurd hk hkind

/-- The pass of the loop over the rules for a rule that is not of kind
DIFF_WITH_CHECKOUT leaves the old-tree phase as it is. -/
theorem forTaskTypes_forOld (re : RegexLib) (fs : FsLib) (git : GitRepo) (config : CreatorConfig)
    (changesData : ChangesData) (changedByExt : ExtMap) (rule : TaskType) (s s' : CreateState)
    (hkind : rule.process.testType ≠ TestType.DIFF_WITH_CHECKOUT)
    (h : forTaskTypes re fs git config changesData changedByExt [rule] s = .ok s') :
    s'.phases.forOld = s.phases.forOld ∧
    s'.phases.processingForOld = s.phases.processingForOld := by
  have hrefl : ∀ a : CreateState, a.phases.forOld = a.phases.forOld ∧
      a.phases.processingForOld = a.phases.processingForOld := fun _ => ⟨rfl, rfl⟩
  have htrans : ∀ a b c : CreateState,
      (b.phases.forOld = a.phases.forOld ∧
        b.phases.processingForOld = a.phases.processingForOld) →
      (c.phases.forOld = b.phases.forOld ∧
        c.phases.processingForOld = b.phases.processingForOld) →
      (c.phases.forOld = a.phases.forOld ∧
        c.phases.processingForOld = a.phases.processingForOld) :=
    fun _ _ _ h1 h2 => ⟨h2.1.trans h1.1, h2.2.trans h1.2⟩
  cases he : rule.enabled with
  | false =>
    rw [forTaskTypes_single_disabled _ _ _ _ _ _ _ _ he] at h
    rw [← Except.ok.inj h]; exact ⟨rfl, rfl⟩
  | true =>
    rw [forTaskTypes_single _ _ _ _ _ _ _ _ he] at h
    cases ht : rule.targetType <;> rw [ht] at h <;> simp only [] at h
    · exact forEachFile_rel re fs git config changesData changedByExt rule
        (fun a b => b.phases.forOld = a.phases.forOld ∧
          b.phases.processingForOld = a.phases.processingForOld) hrefl htrans
        (fun file id x y hxy => forOneFile_forOld _ _ _ _ _ _ _ _ _ _ hkind hxy) s s' h
    · obtain ⟨_, _, _, _, e⟩ := forCommitText_ok re git config rule s s' h
      rw [e]; exact ⟨rfl, rfl⟩
    · exact forEachFile_rel re fs git config changesData changedByExt rule
        (fun a b => b.phases.forOld = a.phases.forOld ∧
          b.phases.processingForOld = a.phases.processingForOld) hrefl htrans
        (fun file id x y hxy => forOneFile_forOld _ _ _ _ _ _ _ _ _ _ hkind hxy) s s' h
    · exact forEachFile_rel re fs git config changesData changedByExt rule
        (fun a b => b.phases.forOld = a.phases.forOld ∧
          b.phases.processingForOld = a.phases.processingForOld) hrefl htrans
        (fun file id x y hxy => forOneFile_forOld _ _ _ _ _ _ _ _ _ _ hkind hxy) s s' h
    · rw [(forBuild_ok rule s s' h).2]; exact ⟨rfl, rfl⟩
    · refine forEachFile_rel re fs git config changesData changedByExt _
        (fun a b => b.phases.forOld = a.phases.forOld ∧
          b.phases.processingForOld = a.phases.processingForOld) hrefl htrans ?_ s s' h
      intro file id x y hxy
      refine forOneFile_forOld _ _ _ _ _ _ _ _ _ _ ?_ hxy
      exact hkind

/-- C16: for a file of a rule over files that `testFile` accepts and whose
input texts are at hand, when the pattern of the rule's processor is a regular
expression, `forOneFile` appends, for a rule of kind DIFF_WITH_CHECKOUT, one
pair of the old-side task and an A-tagged processor to the old-tree phase and
one pair of the new-side task and a B-tagged processor to the new-tree phase;
for a rule of kind DIFF that uses stdin, both pairs to the new-tree phase (one
that does not use stdin is the fatal combination: it appends nothing and ends
expansion in `exit(1)`); for a rule of kind RETURN, MATCH_SUCCESS or
MATCH_FAIL, one pair to the new-tree phase. The two processors of a DIFF kind
hold the handle of one shared diff state that no processor made before holds.
No pass of the loop over the rules for a rule of another kind than
DIFF_WITH_CHECKOUT changes the old-tree phase. -/
theorem forOneFile_pairs (re : RegexLib) (fs : FsLib) (git : GitRepo) (config : CreatorConfig)
    (changesData : ChangesData) (changedByExt : ExtMap) (taskType : TaskType)
    (file : TaskType.File) (fileId : Nat) (st : CreateState)
    (fileName content oldContent : String)
    (hname : changesData.newFiles[fileId]? = some fileName)
    (hmatch : testFile fs file fileName = .ok true)
    (hadded : taskType.targetType = TargetType.ADDED_TEXT →
      git.getAddedLines config.localSha config.remoteSha fileName = .ok content)
    (hfull : taskType.targetType ≠ TargetType.ADDED_TEXT →
      changesData.newFileContent[fileId]? = some content)
    (hold : changesData.oldFileContent[fileId]? = some oldContent)
    (hpattern : taskType.process.patternCompiles re = true)
    (hbelow : ∀ x ∈ st.handles, x < st.diffStates) :
    (taskType.process.testType = TestType.DIFF_WITH_CHECKOUT →
      forOneFile re fs git config changesData taskType file fileId st =
        .ok (((st.pushOld (oldSideTask taskType fileName oldContent)
            (Processing.freshDiff .A taskType.process.logDiffFilterRegex st.diffStates)).madeShared).pushNew
          (fileTask taskType fileName content)
          (Processing.freshDiff .B taskType.process.logDiffFilterRegex st.diffStates))) ∧
    (taskType.process.testType = TestType.DIFF → taskType.process.useStdin = true →
      forOneFile re fs git config changesData taskType file fileId st =
        .ok (((st.pushNew (oldSideTask taskType fileName oldContent)
            (Processing.freshDiff .A taskType.process.logDiffFilterRegex st.diffStates)).madeShared).pushNew
          (fileTask taskType fileName content)
          (Processing.freshDiff .B taskType.process.logDiffFilterRegex st.diffStates))) ∧
    (taskType.process.testType = TestType.DIFF → taskType.process.useStdin = false →
      forOneFile re fs git config changesData taskType file fileId st = .error (.exit 1)) ∧
    (taskType.process.testType = TestType.RETURN →
      forOneFile re fs git config changesData taskType file fileId st =
        .ok (st.pushNew (fileTask taskType fileName content) Processing.newReturnValue)) ∧
    (taskType.process.testType = TestType.MATCH_SUCCESS →
      forOneFile re fs git config changesData taskType file fileId st =
        .ok (st.pushNew (fileTask taskType fileName content)
          (Processing.freshMatch true taskType.process.matchForSuccess))) ∧
    (taskType.process.testType = TestType.MATCH_FAIL →
      forOneFile re fs git config changesData taskType file fileId st =
        .ok (st.pushNew (fileTask taskType fileName content)
          (Processing.freshMatch false taskType.process.matchForFail))) ∧
    st.diffStates ∉ st.handles ∧
    (∀ st', forOneFile re fs git config changesData taskType file fileId st = .ok st' →
      ∀ x ∈ st'.handles, x < st'.diffStates) ∧
    (∀ (rule : TaskType) (s s' : CreateState),
      rule.process.testType ≠ TestType.DIFF_WITH_CHECKOUT →
      forTaskTypes re fs git config changesData changedByExt [rule] s = .ok s' →
      s'.phases.forOld = s.phases.forOld ∧
      s'.phases.processingForOld = s.phases.processingForOld) ∧
    (∀ (taskTypes : List TaskType) (s' : CreateState),
      forTaskTypes re fs git config changesData changedByExt taskTypes {} = .ok s' →
      ∀ x ∈ s'.handles, x < s'.diffStates) := by
  obtain ⟨r1, r2, r3, r4, r5, r6⟩ := forOneFile_matched re fs git config changesData taskType
    file fileId st fileName content hname hmatch hadded hfull
  unfold TaskType.Process.patternCompiles at hpattern
  refine ⟨?_, ?_, r4, r1, ?_, ?_, ?_, ?_, ?_, ?_⟩
  · intro ht
    rw [ht] at hpattern
    exact r6 oldContent hold ht hpattern
  · intro ht hs
    rw [ht] at hpattern
    exact r5 oldContent hold ht hs hpattern
  · intro ht
    rw [ht] at hpattern
    exact r2 ht hpattern
  · intro ht
    rw [ht] at hpattern
    exact r3 ht hpattern
  · intro hmem
    exact absurd (hbelow _ hmem) (Nat.lt_irrefl _)
  · intro st' h
    exact forOneFile_handles re fs git config changesData taskType file fileId st st' h hbelow
  · intro rule s s' hkind h
    exact forTaskTypes_forOld re fs git config changesData changedByExt rule s s' hkind h
  · intro taskTypes s' h
    refine forTaskTypes_handles re fs git config changesData changedByExt taskTypes {} s' h ?_
    intro x hx
    simp [CreateState.handles, diffHandles] at hx

theorem forOneFile_pairs_witness :
    testFile demoFs { ext := ["py"] } "a.py" = .ok true ∧
    (pyRule .DIFF_WITH_CHECKOUT).process.patternCompiles demoRegex = true ∧
    forOneFile demoRegex demoFs (demoGit onePyFile) demoConfig (withAnyChange onePyFile)
        (pyRule .DIFF_WITH_CHECKOUT) { ext := ["py"] } 0 {} =
      .ok { phases := {
              forOld := [fileTask (pyRule .DIFF_WITH_CHECKOUT) "a.py" "old"],
              processingForOld := [Processing.freshDiff .A "x" 0],
              forNew := [fileTask (pyRule .DIFF_WITH_CHECKOUT) "a.py" "new"],
              processingForNew := [Processing.freshDiff .B "x" 0] },
            diffStates := 1 } :=
  ⟨rfl, by decide,
    ((forOneFile_pairs demoRegex demoFs (demoGit onePyFile) demoConfig (withAnyChange onePyFile)
      (changedByExtOf onePyFile) (pyRule .DIFF_WITH_CHECKOUT) { ext := ["py"] } 0 {}
      "a.py" "new" "old" rfl rfl (fun h => absurd h (by decide)) (fun _ => rfl) rfl (by decide)
      (fun x hx => absurd hx (List.not_mem_nil x))).1 rfl).trans rfl⟩

/-! ### Expansion: BUILD and COMMIT_TEXT rules -/

theorem forOneFile_build (re : RegexLib) (fs : FsLib) (git : GitRepo) (config : CreatorConfig)
    (changesData : ChangesData) (taskType : TaskType) (file : TaskType.File) (fileId : Nat)
    (s s' : CreateState)
    (h : forOneFile re fs git config changesData taskType file fileId s = .ok s') :
    s'.phases.build = s.phases.build ∧
    s'.phases.processingBuild = s.phases.processingBuild := by
  obtain ⟨fileName, _, h1 | ⟨_, content, h2⟩⟩ :=
    forOneFile_ok re fs git config changesData taskType file fileId s s' h
  · rw [h1.2]; exact ⟨rfl, rfl⟩
  · rcases h2 with ⟨_, e⟩ | ⟨_, e⟩ | ⟨_, e⟩ | ⟨_, _, o, _, e⟩ | ⟨_, o, _, e⟩ <;> rw [e] <;>
      exact ⟨rfl, rfl⟩

/-- One pass of the loop over the rules appends the pair of a BUILD rule to the
build phase and leaves the build phase as it is for any other rule. -/
theorem forTaskTypes_single_build (re : RegexLib) (fs : FsLib) (git : GitRepo) (config : CreatorConfig)
    (changesData : ChangesData) (changedByExt : ExtMap) (t : TaskType) (s s' : CreateState)
    (h : forTaskTypes re fs git config changesData changedByExt [t] s = .ok s') :
    s'.phases.build = s.phases.build ++ (enabledBuildRules [t]).map buildTask ∧
    s'.phases.processingBuild = s.phases.processingBuild ++
      (enabledBuildRules [t]).map (fun _ => Processing.newReturnValue) := by
  have hrefl : ∀ a : CreateState, a.phases.build = a.phases.build ∧
      a.phases.processingBuild = a.phases.processingBuild := fun _ => ⟨rfl, rfl⟩
  have htrans : ∀ a b c : CreateState,
      (b.phases.build = a.phases.build ∧ b.phases.processingBuild = a.phases.processingBuild) →
      (c.phases.build = b.phases.build ∧ c.phases.processingBuild = b.phases.processingBuild) →
      (c.phases.build = a.phases.build ∧ c.phases.processingBuild = a.phases.processingBuild) :=
    fun _ _ _ h1 h2 => ⟨h2.1.trans h1.1, h2.2.trans h1.2⟩
  have hfiles : ∀ t' : TaskType,
      forEachFile re fs git config changesData changedByExt t' s = .ok s' →
      s'.phases.build = s.phases.build ∧ s'.phases.processingBuild = s.phases.processingBuild :=
    fun t' h' => forEachFile_rel re fs git config changesData changedByExt t'
      (fun a b => b.phases.build = a.phases.build ∧
        b.phases.processingBuild = a.phases.processingBuild) hrefl htrans
      (fun file id x y hxy => forOneFile_build _ _ _ _ _ _ _ _ _ _ hxy) s s' h'
  cases he : t.enabled with
  | false =>
    rw [forTaskTypes_single_disabled _ _ _ _ _ _ _ _ he] at h
    rw [← Except.ok.inj h]
    simp [enabledBuildRules, he]
  | true =>
    rw [forTaskTypes_single _ _ _ _ _ _ _ _ he] at h
    cases ht : t.targetType <;> rw [ht] at h <;> simp only [] at h
    · simpa [enabledBuildRules, he, ht] using hfiles _ h
    · obtain ⟨_, _, _, _, e⟩ := forCommitText_ok re git config t s s' h
      rw [e]
      simp [enabledBuildRules, he, ht, CreateState.pushNew]
    · simpa [enabledBuildRules, he, ht] using hfiles _ h
    · simpa [enabledBuildRules, he, ht] using hfiles _ h
    · rw [(forBuild_ok t s s' h).2]
      simp [enabledBuildRules, he, ht, CreateState.pushBuild, buildTask]
    · simpa [enabledBuildRules, he, ht] using hfiles _ h

theorem forTaskTypes_build (re : RegexLib) (fs : FsLib) (git : GitRepo) (config : CreatorConfig)
    (changesData : ChangesData) (changedByExt : ExtMap) :
    ∀ (taskTypes : List TaskType) (s s' : CreateState),
      forTaskTypes re fs git config changesData changedByExt taskTypes s = .ok s' →
      s'.phases.build = s.phases.build ++ (enabledBuildRules taskTypes).map buildTask ∧
      s'.phases.processingBuild = s.phases.processingBuild ++
        (enabledBuildRules taskTypes).map (fun _ => Processing.newReturnValue) := by
  intro taskTypes
  induction taskTypes with
  | nil =>
    intro s s' h
    simp only [forTaskTypes] at h
    rw [← Except.ok.inj h]
    simp [enabledBuildRules]
  | cons t rest ih =>
    intro s s' h
    rw [forTaskTypes_cons] at h
    cases h1 : forTaskTypes re fs git config changesData changedByExt [t] s with
    | error e => rw [h1] at h; cases h
    | ok s1 =>
      rw [h1] at h
      obtain ⟨a1, a2⟩ := forTaskTypes_single_build re fs git config changesData changedByExt t s s1 h1
      obtain ⟨b1, b2⟩ := ih s1 s' h
      have hsplit : enabledBuildRules (t :: rest) =
          enabledBuildRules [t] ++ enabledBuildRules rest := by
        simp only [enabledBuildRules]
        rw [← List.filter_append]
        rfl
      rw [b1, a1, b2, a2, hsplit]
      simp

/-- C17: whatever the changed files are, the pass of the loop over the rules for
an enabled BUILD rule that does not use stdin appends one pair to the build
phase, a task with `useStdIn` false and a return-value processor; the pass for
an enabled COMMIT_TEXT rule of kind RETURN, MATCH_SUCCESS or MATCH_FAIL whose
pattern is a regular expression appends one pair to the new-tree phase, a task
with `useStdIn` true whose input is the joined commit messages; and the build
phase that expansion returns holds the pairs of the enabled BUILD rules of the
catalog and nothing else. -/
theorem build_and_commit_text_pairs (re : RegexLib) (fs : FsLib) (git : GitRepo) (config : CreatorConfig)
    (changesData : ChangesData) (changedByExt : ExtMap) (rule : TaskType) (s : CreateState)
    (henabled : rule.enabled = true) :
    (rule.targetType = TargetType.BUILD → rule.process.useStdin = false →
      forTaskTypes re fs git config changesData changedByExt [rule] s =
        .ok (s.pushBuild (buildTask rule) Processing.newReturnValue)) ∧
    (rule.targetType = TargetType.COMMIT_TEXT →
      (rule.process.testType = TestType.RETURN ∨
        rule.process.testType = TestType.MATCH_SUCCESS ∨
        rule.process.testType = TestType.MATCH_FAIL) →
      rule.process.patternCompiles re = true →
      ∀ allCommitsText,
        git.getJoinedCommitMsg config.localSha config.remoteSha = .ok allCommitsText →
        forTaskTypes re fs git config changesData changedByExt [rule] s =
          .ok (s.pushNew (commitTextTask rule allCommitsText) (commitTextProcessing rule))) ∧
    (∀ (taskTypes : TaskTypesMap) (st : CreateState),
      create re fs git config taskTypes = .ok st →
      st.phases.build = (enabledBuildRules taskTypes).map buildTask ∧
      st.phases.processingBuild =
        (enabledBuildRules taskTypes).map (fun _ => Processing.newReturnValue)) := by
  refine ⟨?_, ?_, ?_⟩
  · intro ht hs
    rw [forTaskTypes_single _ _ _ _ _ _ _ _ henabled, ht]
    simp only [forBuild, hs, Bool.false_eq_true, if_false]
    rfl
  · intro ht hk hpat text hmsg
    rw [forTaskTypes_single _ _ _ _ _ _ _ _ henabled, ht]
    simp only [forCommitText, hmsg]
    unfold TaskType.Process.patternCompiles at hpat
    rcases hk with hk | hk | hk <;> rw [hk] at hpat <;> simp only [] at hpat <;>
      simp only [hk] <;>
      simp [CreateState.pushNew, commitTextTask, commitTextProcessing, hk,
        Processing.newMatch, hpat]
  · intro taskTypes st h
    cases hc : git.getChangedFiles config.localSha config.remoteSha with
    | error e => simp [create, hc] at h
    | ok changes =>
      rw [create_eq _ _ _ _ _ _ hc] at h
      have := forTaskTypes_build re fs git config (withAnyChange changes) (changedByExtOf changes)
        taskTypes {} st h
      simpa using this

theorem build_and_commit_text_pairs_witness :
    forTaskTypes demoRegex demoFs (demoGit onePyFile) demoConfig (withAnyChange onePyFile)
        (changedByExtOf onePyFile) [buildRule] {} =
      .ok { phases := {
              build := [Task.TaskPstream "make" ["make", "all"] "" false
                { taskTypeName := "make", fileName := "<build>" }],
              processingBuild := [Processing.newReturnValue] } } ∧
    create demoRegex demoFs (demoGit onePyFile) demoConfig [buildRule, commitRule .MATCH_FAIL] =
      .ok { phases := {
              build := [Task.TaskPstream "make" ["make", "all"] "" false
                { taskTypeName := "make", fileName := "<build>" }],
              processingBuild := [Processing.newReturnValue],
              forNew := [Task.TaskPstream "checkmsg" ["checkmsg"] "" true
                { taskTypeName := "msg", fileName := "<build>" }],
              processingForNew := [Processing.freshMatch false "^WIP"] } } ∧
    (commitRule .MATCH_FAIL).process.patternCompiles demoRegex = true :=
  ⟨((build_and_commit_text_pairs demoRegex demoFs (demoGit onePyFile) demoConfig (withAnyChange onePyFile)
      (changedByExtOf onePyFile) buildRule {} rfl).1 rfl rfl).trans rfl, rfl, by decide⟩

/-! ### The trace of a run by stage -/

theorem andThen_of_fault_none (st : MainState) (next : MainState → MainState)
    (h : (st.andThen next).fault = none) : st.fault = none ∧ st.andThen next = next st := by
  unfold MainState.andThen at h ⊢
  cases hf : st.fault with
  | none => simp only [hf] at h ⊢; exact ⟨trivial, trivial⟩
  | some e => simp only [hf] at h; cases h

/-- The trace of a step that is skipped or run after a state extends the trace
of that state by events of the kind that the step emits. -/
theorem andThen_grows (Q : Event → Prop) (st : MainState) (next : MainState → MainState)
    (hn : ∀ s : MainState, ∃ evs, (next s).trace = s.trace ++ evs ∧ ∀ ev ∈ evs, Q ev) :
    ∃ evs, (st.andThen next).trace = st.trace ++ evs ∧ ∀ ev ∈ evs, Q ev := by
  unfold MainState.andThen
  cases st.fault with
  | none => exact hn st
  | some e => exact ⟨[], by simp, fun ev h => by cases h⟩

theorem processResult_grows (w : World) (stage : Stage) (i : Nat) (result : TaskResult)
    (st : MainState) :
    ∃ evs, (processResult w stage i result st).trace = st.trace ++ evs ∧
      ∀ ev ∈ evs, ev.ofStage stage = true := by
  unfold processResult
  cases (processingOf stage st.phases)[i]? with
  | none => exact ⟨[], by simp, fun ev h => by cases h⟩
  | some processing =>
    simp only []
    cases processing.process w.re w.diff st.heap result.msgs result.status with
    | error e => exact ⟨[], by simp, fun ev h => by cases h⟩
    | ok r =>
      simp only []
      cases hs : r.self.getStatus with
      | none =>
        cases stage
        · exact ⟨[Event.processed .buildOld i none], by simp, fun ev h => by
            simp only [List.mem_singleton] at h; subst h; simp [Event.ofStage]⟩
        · exact ⟨[Event.processed .old i none], by simp, fun ev h => by
            simp only [List.mem_singleton] at h; subst h; simp [Event.ofStage]⟩
        · exact ⟨[Event.processed .build i none], by simp, fun ev h => by
            simp only [List.mem_singleton] at h; subst h; simp [Event.ofStage]⟩
        · exact ⟨[Event.processed .new i none], by simp, fun ev h => by
            simp only [List.mem_singleton] at h; subst h; simp [Event.ofStage]⟩
      | some status =>
        cases stage
        · refine ⟨Event.processed .buildOld i (some status) :: r.msgs.map Event.print,
            by simp, ?_⟩
          intro ev h
          simp only [List.mem_cons, List.mem_map] at h
          rcases h with h | ⟨m, _, h⟩ <;> subst h <;> simp [Event.ofStage]
        · exact ⟨[Event.processed .old i (some status)], by simp, fun ev h => by
            simp only [List.mem_singleton] at h; subst h; simp [Event.ofStage]⟩
        · refine ⟨Event.processed .build i (some status) :: r.msgs.map Event.print,
            by simp, ?_⟩
          intro ev h
          simp only [List.mem_cons, List.mem_map] at h
          rcases h with h | ⟨m, _, h⟩ <;> subst h <;> simp [Event.ofStage]
        · refine ⟨Event.processed .new i (some status) :: Event.logStatus status ::
            Event.logDescr result.descr :: r.msgs.map Event.print, by simp, ?_⟩
          intro ev h
          simp only [List.mem_cons, List.mem_map] at h
          rcases h with h | h | h | ⟨m, _, h⟩ <;> subst h <;> simp [Event.ofStage]

theorem grows_trans (Q : Event → Prop) (t0 t1 t2 : List Event)
    (h1 : ∃ evs, t1 = t0 ++ evs ∧ ∀ ev ∈ evs, Q ev)
    (h2 : ∃ evs, t2 = t1 ++ evs ∧ ∀ ev ∈ evs, Q ev) :
    ∃ evs, t2 = t0 ++ evs ∧ ∀ ev ∈ evs, Q ev := by
  obtain ⟨e1, r1, q1⟩ := h1
  obtain ⟨e2, r2, q2⟩ := h2
  refine ⟨e1 ++ e2, by rw [r2, r1, List.append_assoc], ?_⟩
  intro ev h
  rcases List.mem_append.1 h with h | h
  · exact q1 ev h
  · exact q2 ev h

theorem andThen_grows_from (Q : Event → Prop) (t0 : List Event) (st : MainState)
    (next : MainState → MainState)
    (h0 : ∃ evs, st.trace = t0 ++ evs ∧ ∀ ev ∈ evs, Q ev)
    (hn : ∀ s : MainState, ∃ evs, (next s).trace = s.trace ++ evs ∧ ∀ ev ∈ evs, Q ev) :
    ∃ evs, (st.andThen next).trace = t0 ++ evs ∧ ∀ ev ∈ evs, Q ev :=
  grows_trans Q t0 st.trace _ h0 (andThen_grows Q st next hn)

theorem processResults_grows (w : World) (stage : Stage) (results : List TaskResult) :
    ∀ (i : Nat) (st : MainState),
      ∃ evs, (processResults w stage i results st).trace = st.trace ++ evs ∧
        ∀ ev ∈ evs, ev.ofStage stage = true := by
  induction results with
  | nil => intro i st; exact ⟨[], by simp [processResults], fun ev h => by cases h⟩
  | cons r rest ih =>
    intro i st
    simp only [processResults]
    exact andThen_grows_from _ st.trace _ _ (processResult_grows w stage i r st)
      (fun s => ih (i + 1) s)

theorem runEvents_ofStage (stage : Stage) (tasks : List Task) :
    ∀ (i : Nat), ∀ ev ∈ runEvents stage i tasks, ev.ofStage stage = true := by
  induction tasks with
  | nil => intro i ev h; cases h
  | cons t rest ih =>
    intro i ev h
    simp only [runEvents, List.mem_cons] at h
    rcases h with h | h
    · subst h; simp [Event.ofStage]
    · exact ih (i + 1) ev h

theorem startTasks_grows (w : World) (stage : Stage) (forceThreadNum : Nat)
    (tasks : List Task) (st : MainState) :
    ∃ evs, (startTasks w stage forceThreadNum tasks st).trace = st.trace ++ evs ∧
      ∀ ev ∈ evs, ev.ofStage stage = true := by
  unfold startTasks
  split
  · exact ⟨[], by simp, fun ev h => by cases h⟩
  · split
    · exact ⟨runEvents stage 0 tasks, rfl, runEvents_ofStage stage tasks 0⟩
    · exact ⟨runEvents stage 0 tasks, rfl, runEvents_ofStage stage tasks 0⟩

theorem runBuild_grows (w : World) (stage : Stage) (st : MainState) :
    ∃ evs, (runBuild w stage st).trace = st.trace ++ evs ∧
      ∀ ev ∈ evs, ev.ofStage stage = true := by
  unfold runBuild
  split
  · exact andThen_grows_from _ st.trace _ _ (startTasks_grows w stage 1 _ st)
      (fun s => processResults_grows w stage _ 0 s)
  · exact ⟨[], by simp, fun ev h => by cases h⟩

theorem setProcessing_tasks (stage : Stage) (phases : TaskPhases) (ps : List Processing) :
    (setProcessing stage phases ps).forOld = phases.forOld ∧
    (setProcessing stage phases ps).build = phases.build ∧
    (setProcessing stage phases ps).forNew = phases.forNew := by
  cases stage <;> exact ⟨rfl, rfl, rfl⟩

theorem processResult_tasks (w : World) (stage : Stage) (i : Nat) (result : TaskResult)
    (st : MainState) :
    (processResult w stage i result st).phases.forOld = st.phases.forOld ∧
    (processResult w stage i result st).phases.build = st.phases.build ∧
    (processResult w stage i result st).phases.forNew = st.phases.forNew := by
  unfold processResult
  cases (processingOf stage st.phases)[i]? with
  | none => exact ⟨rfl, rfl, rfl⟩
  | some processing =>
    simp only []
    cases processing.process w.re w.diff st.heap result.msgs result.status with
    | error e => exact ⟨rfl, rfl, rfl⟩
    | ok r =>
      simp only []
      cases r.self.getStatus <;> cases stage <;> exact ⟨rfl, rfl, rfl⟩

theorem andThen_tasks (st : MainState) (next : MainState → MainState)
    (hn : ∀ s : MainState, (next s).phases.forOld = s.phases.forOld ∧
      (next s).phases.build = s.phases.build ∧ (next s).phases.forNew = s.phases.forNew) :
    (st.andThen next).phases.forOld = st.phases.forOld ∧
    (st.andThen next).phases.build = st.phases.build ∧
    (st.andThen next).phases.forNew = st.phases.forNew := by
  unfold MainState.andThen
  cases st.fault with
  | none => exact hn st
  | some e => exact ⟨rfl, rfl, rfl⟩

theorem processResults_tasks (w : World) (stage : Stage) (results : List TaskResult) :
    ∀ (i : Nat) (st : MainState),
      (processResults w stage i results st).phases.forOld = st.phases.forOld ∧
      (processResults w stage i results st).phases.build = st.phases.build ∧
      (processResults w stage i results st).phases.forNew = st.phases.forNew := by
  induction results with
  | nil => intro i st; exact ⟨rfl, rfl, rfl⟩
  | cons r rest ih =>
    intro i st
    simp only [processResults]
    obtain ⟨a1, a2, a3⟩ := processResult_tasks w stage i r st
    obtain ⟨b1, b2, b3⟩ := andThen_tasks (processResult w stage i r st)
      (processResults w stage (i + 1) rest) (fun s => ih (i + 1) s)
    exact ⟨b1.trans a1, b2.trans a2, b3.trans a3⟩

theorem startTasks_tasks (w : World) (stage : Stage) (forceThreadNum : Nat)
    (tasks : List Task) (st : MainState) :
    (startTasks w stage forceThreadNum tasks st).phases = st.phases := by
  unfold startTasks
  split
  · rfl
  · split <;> rfl

theorem runBuild_tasks (w : World) (stage : Stage) (st : MainState) :
    (runBuild w stage st).phases.forOld = st.phases.forOld ∧
    (runBuild w stage st).phases.build = st.phases.build ∧
    (runBuild w stage st).phases.forNew = st.phases.forNew := by
  unfold runBuild
  split
  · obtain ⟨b1, b2, b3⟩ := andThen_tasks (startTasks w stage 1 st.phases.build st)
      (processResults w stage 0 (runTasks w.runner stage 0 st.phases.build))
      (fun s => processResults_tasks w stage _ 0 s)
    rw [startTasks_tasks] at b1 b2 b3
    exact ⟨b1, b2, b3⟩
  · exact ⟨rfl, rfl, rfl⟩

theorem runTasks_length (runner : ProcessRunner) (stage : Stage) (tasks : List Task) :
    ∀ i : Nat, (runTasks runner stage i tasks).length = tasks.length := by
  induction tasks with
  | nil => intro i; rfl
  | cons t rest ih => intro i; simp [runTasks, ih]

theorem processResult_done (w : World) (stage : Stage) (i : Nat) (result : TaskResult)
    (st : MainState) (h : (processResult w stage i result st).fault = none) :
    ∃ status, Event.processed stage i status ∈ (processResult w stage i result st).trace := by
  unfold processResult at h ⊢
  cases hp : (processingOf stage st.phases)[i]? with
  | none => simp [hp] at h
  | some processing =>
    simp only [hp] at h ⊢
    cases hr : processing.process w.re w.diff st.heap result.msgs result.status with
    | error e => simp [hr] at h
    | ok r =>
      simp only [hr] at h ⊢
      cases hs : r.self.getStatus with
      | none =>
        cases stage
        · simp [hs] at h
        · exact ⟨none, by simp [hs]⟩
        · simp [hs] at h
        · simp [hs] at h
      | some status =>
        cases stage <;> exact ⟨some status, by simp [hs]⟩

theorem processResults_done (w : World) (stage : Stage) (results : List TaskResult) :
    ∀ (i : Nat) (st : MainState), (processResults w stage i results st).fault = none →
      ∀ k, k < results.length →
        ∃ status, Event.processed stage (i + k) status ∈
          (processResults w stage i results st).trace := by
  induction results with
  | nil => intro i st _ k hk; simp at hk
  | cons r rest ih =>
    intro i st h k hk
    simp only [processResults] at h ⊢
    obtain ⟨h1, h2⟩ := andThen_of_fault_none _ _ h
    rw [h2] at h ⊢
    cases k with
    | zero =>
      obtain ⟨status, hm⟩ := processResult_done w stage i r st h1
      obtain ⟨evs, he, _⟩ := processResults_grows w stage rest (i + 1)
        (processResult w stage i r st)
      exact ⟨status, by rw [he]; exact List.mem_append_left _ hm⟩
    | succ k =>
      obtain ⟨status, hm⟩ := ih (i + 1) _ h k (by simpa using hk)
      exact ⟨status, by
        have e : i + (k + 1) = i + 1 + k := by omega
        rw [e]; exact hm⟩

theorem startTasks_done (w : World) (stage : Stage) (forceThreadNum : Nat)
    (tasks : List Task) (st : MainState)
    (h : (startTasks w stage forceThreadNum tasks st).fault = none) :
    (startTasks w stage forceThreadNum tasks st).trace = st.trace ++ runEvents stage 0 tasks := by
  unfold startTasks at h ⊢
  split at h
  · cases h
  · split at h
    · cases h
    · rename_i h1 h2
      simp only [h1, h2, Bool.false_eq_true, if_false]

/-- A stage that ends without a fault has run every task and applied every
processor of the stage. -/
theorem stage_done (w : World) (stage : Stage) (forceThreadNum : Nat) (tasks : List Task)
    (st : MainState)
    (h : ((startTasks w stage forceThreadNum tasks st).andThen
      (processResults w stage 0 (runTasks w.runner stage 0 tasks))).fault = none) :
    (∀ ev ∈ runEvents stage 0 tasks, ev ∈
      ((startTasks w stage forceThreadNum tasks st).andThen
        (processResults w stage 0 (runTasks w.runner stage 0 tasks))).trace) ∧
    (∀ k, k < tasks.length → ∃ status, Event.processed stage k status ∈
      ((startTasks w stage forceThreadNum tasks st).andThen
        (processResults w stage 0 (runTasks w.runner stage 0 tasks))).trace) := by
  obtain ⟨h1, h2⟩ := andThen_of_fault_none _ _ h
  rw [h2] at h ⊢
  have hs := startTasks_done w stage forceThreadNum tasks st h1
  obtain ⟨evs, he, _⟩ := processResults_grows w stage (runTasks w.runner stage 0 tasks) 0
    (startTasks w stage forceThreadNum tasks st)
  refine ⟨?_, ?_⟩
  · intro ev hev
    rw [he, hs]
    exact List.mem_append_left _ (List.mem_append_right _ hev)
  · intro k hk
    have := processResults_done w stage _ 0 _ h k (by rw [runTasks_length]; exact hk)
    simpa using this

theorem runBuild_done (w : World) (stage : Stage) (st : MainState)
    (h : (runBuild w stage st).fault = none) :
    (∀ ev ∈ runEvents stage 0 st.phases.build, ev ∈ (runBuild w stage st).trace) ∧
    (∀ k, k < st.phases.build.length →
      ∃ status, Event.processed stage k status ∈ (runBuild w stage st).trace) := by
  unfold runBuild at h ⊢
  by_cases hb : (st.phases.build.length != 0) = true
  · simp only [hb, if_true] at h ⊢
    exact stage_done w stage 1 st.phases.build st h
  · simp only [hb, Bool.false_eq_true, if_false]
    have hnil : st.phases.build = [] := by
      cases hl : st.phases.build with
      | nil => rfl
      | cons x xs => simp [hl] at hb
    rw [hnil]
    refine ⟨?_, ?_⟩
    · intro ev hev; cases hev
    · intro k hk; simp at hk

/-! ### A failed checkout verification -/

theorem andThen_none (st : MainState) (next : MainState → MainState)
    (h : st.fault = none) : st.andThen next = next st := by
  unfold MainState.andThen
  rw [h]

/-- The trace of the build phase under the head followed by the new-tree phase
extends the trace before them by events of these two stages. -/
theorem tail_phases_grow (w : World) (st : MainState) :
    ∃ evs, (((st.andThen (runBuild w .build)).andThen
        (fun st1 => startTasks w .new 0 st1.phases.forNew st1)).andThen
        (fun st1 =>
          processResults w .new 0 (runTasks w.runner .new 0 st1.phases.forNew) st1)).trace =
        st.trace ++ evs ∧
      ∀ ev ∈ evs, ev.ofStage .build = true ∨ ev.ofStage .new = true := by
  refine andThen_grows_from _ st.trace _ _ (andThen_grows_from _ st.trace _ _
    (andThen_grows_from _ st.trace _ _ ⟨[], by simp, fun ev h => by cases h⟩ ?_) ?_) ?_
  · intro s
    obtain ⟨evs, h1, h2⟩ := runBuild_grows w .build s
    exact ⟨evs, h1, fun ev hev => Or.inl (h2 ev hev)⟩
  · intro s
    obtain ⟨evs, h1, h2⟩ := startTasks_grows w .new 0 s.phases.forNew s
    exact ⟨evs, h1, fun ev hev => Or.inr (h2 ev hev)⟩
  · intro s
    obtain ⟨evs, h1, h2⟩ := processResults_grows w .new
      (runTasks w.runner .new 0 s.phases.forNew) 0 s
    exact ⟨evs, h1, fun ev hev => Or.inr (h2 ev hev)⟩

/-- When the build phase under the head and the new-tree phase end without a
fault, every task of the two phases has been run and every processor of the
two phases applied. -/
theorem tail_phases_done (w : World) (st : MainState) (hst : st.fault = none)
    (h : (((st.andThen (runBuild w .build)).andThen
        (fun st1 => startTasks w .new 0 st1.phases.forNew st1)).andThen
        (fun st1 =>
          processResults w .new 0 (runTasks w.runner .new 0 st1.phases.forNew) st1)).fault =
      none) :
    (∀ ev ∈ runEvents .build 0 st.phases.build ++ runEvents .new 0 st.phases.forNew,
      ev ∈ (((st.andThen (runBuild w .build)).andThen
        (fun st1 => startTasks w .new 0 st1.phases.forNew st1)).andThen
        (fun st1 =>
          processResults w .new 0 (runTasks w.runner .new 0 st1.phases.forNew) st1)).trace) ∧
    (∀ k, k < st.phases.build.length → ∃ status, Event.processed .build k status ∈
      (((st.andThen (runBuild w .build)).andThen
        (fun st1 => startTasks w .new 0 st1.phases.forNew st1)).andThen
        (fun st1 =>
          processResults w .new 0 (runTasks w.runner .new 0 st1.phases.forNew) st1)).trace) ∧
    (∀ k, k < st.phases.forNew.length → ∃ status, Event.processed .new k status ∈
      (((st.andThen (runBuild w .build)).andThen
        (fun st1 => startTasks w .new 0 st1.phases.forNew st1)).andThen
        (fun st1 =>
          processResults w .new 0 (runTasks w.runner .new 0 st1.phases.forNew) st1)).trace) := by
  obtain ⟨h1, e1⟩ := andThen_of_fault_none _ _ h
  obtain ⟨h2, e2⟩ := andThen_of_fault_none _ _ h1
  have eA : st.andThen (runBuild w .build) = runBuild w .build st := andThen_none _ _ hst
  rw [eA] at h h1 h2 e1 e2 ⊢
  have hnew : (runBuild w .build st).phases.forNew = st.phases.forNew :=
    (runBuild_tasks w .build st).2.2
  obtain ⟨b1, b2⟩ := runBuild_done w .build st h2
  -- the new-tree phase as a stage run after the build phase
  have eN : ((runBuild w .build st).andThen
        (fun st1 => startTasks w .new 0 st1.phases.forNew st1)).andThen
        (fun st1 =>
          processResults w .new 0 (runTasks w.runner .new 0 st1.phases.forNew) st1) =
      (startTasks w .new 0 st.phases.forNew (runBuild w .build st)).andThen
        (processResults w .new 0 (runTasks w.runner .new 0 st.phases.forNew)) := by
    rw [e2]
    simp only [hnew]
    have hp : (startTasks w .new 0 st.phases.forNew (runBuild w .build st)).phases.forNew =
        st.phases.forNew := by rw [startTasks_tasks]; exact hnew
    rw [e2] at h1
    simp only [hnew] at h1
    rw [andThen_none _ _ h1, andThen_none _ _ h1]
    simp only [hp]
  rw [eN] at h ⊢
  obtain ⟨n1, n2⟩ := stage_done w .new 0 st.phases.forNew (runBuild w .build st) h
  obtain ⟨evs, he, _⟩ : ∃ evs,
      ((startTasks w .new 0 st.phases.forNew (runBuild w .build st)).andThen
        (processResults w .new 0 (runTasks w.runner .new 0 st.phases.forNew))).trace =
        (runBuild w .build st).trace ++ evs ∧ ∀ ev ∈ evs, ev.ofStage .new = true :=
    andThen_grows_from _ _ _ _ (startTasks_grows w .new 0 _ _)
      (fun s => processResults_grows w .new _ 0 s)
  refine ⟨?_, ?_, n2⟩
  · intro ev hev
    rcases List.mem_append.1 hev with hev | hev
    · rw [he]; exact List.mem_append_left _ (b1 ev hev)
    · exact n1 ev hev
  · intro k hk
    obtain ⟨status, hm⟩ := b2 k hk
    exact ⟨status, by rw [he]; exact List.mem_append_left _ hm⟩

/-- C18: when expansion has put tasks into the old-tree phase and the checkout
verification of the old revision fails, the run records the failure and goes
on with the build phase and the new-tree phase: its trace holds no checkout
and no event of a task or processor of the old-tree phase or of the build
phase under the old checkout, and a run that reaches the end of `main` has run
every task and applied every processor of the build phase and of the new-tree
phase and ends with the exit code 1. -/
theorem run_checkout_verification_failed (w : World) (config : CreatorConfig)
    (taskTypes : TaskTypesMap) (created : CreateState) (headData : HeadData)
    (hcreate : create w.re w.fs w.git config taskTypes = .ok created)
    (hhead : w.git.getHeadSha = .ok headData)
    (hold : created.phases.forOld ≠ [])
    (hcan : w.git.canCheckout config.remoteSha = false) :
    runPhases w config taskTypes =
      (((({ heap := fun _ => {}, phases := created.phases, resultStatus := 1,
            trace := [Event.checkoutFailed] } : MainState).andThen
        (runBuild w .build)).andThen
        (fun st1 => startTasks w .new 0 st1.phases.forNew st1)).andThen
        (fun st1 =>
          processResults w .new 0 (runTasks w.runner .new 0 st1.phases.forNew) st1)) ∧
    (∀ ev ∈ (runPhases w config taskTypes).trace,
      ev = Event.checkoutFailed ∨ ev.ofStage .build = true ∨ ev.ofStage .new = true) ∧
    (∀ rev, Event.checkout rev ∉ (runPhases w config taskTypes).trace) ∧
    (∀ i descr, Event.taskRun .old i descr ∉ (runPhases w config taskTypes).trace ∧
      Event.taskRun .buildOld i descr ∉ (runPhases w config taskTypes).trace) ∧
    (∀ i status, Event.processed .old i status ∉ (runPhases w config taskTypes).trace ∧
      Event.processed .buildOld i status ∉ (runPhases w config taskTypes).trace) ∧
    ((runPhases w config taskTypes).fault = none →
      exitCode (runPhases w config taskTypes) = some 1 ∧
      (∀ ev ∈ runEvents .build 0 created.phases.build ++
          runEvents .new 0 created.phases.forNew,
        ev ∈ (runPhases w config taskTypes).trace) ∧
      (∀ k, k < created.phases.build.length →
        ∃ status, Event.processed .build k status ∈ (runPhases w config taskTypes).trace) ∧
      (∀ k, k < created.phases.forNew.length →
        ∃ status, Event.processed .new k status ∈ (runPhases w config taskTypes).trace)) := by
  have hlen : (created.phases.forOld.length != 0) = true := by
    cases hl : created.phases.forOld with
    | nil => exact absurd hl hold
    | cons x xs => rfl
  have hrun : runPhases w config taskTypes =
      (((({ heap := fun _ => {}, phases := created.phases, resultStatus := 1,
            trace := [Event.checkoutFailed] } : MainState).andThen
        (runBuild w .build)).andThen
        (fun st1 => startTasks w .new 0 st1.phases.forNew st1)).andThen
        (fun st1 =>
          processResults w .new 0 (runTasks w.runner .new 0 st1.phases.forNew) st1)) := by
    simp only [runPhases, hcreate, hhead, oldPhase, hlen, hcan, if_true, Bool.false_eq_true,
      if_false, List.nil_append]
  obtain ⟨evs, he, hq⟩ := tail_phases_grow w
    ({ heap := fun _ => {}, phases := created.phases, resultStatus := 1,
       trace := [Event.checkoutFailed] } : MainState)
  rw [← hrun] at he
  have hev : ∀ ev ∈ (runPhases w config taskTypes).trace,
      ev = Event.checkoutFailed ∨ ev.ofStage .build = true ∨ ev.ofStage .new = true := by
    intro ev hm
    rw [he] at hm
    rcases List.mem_append.1 hm with hm | hm
    · exact Or.inl (List.mem_singleton.1 hm)
    · exact Or.inr (hq ev hm)
  refine ⟨hrun, hev, ?_, ?_, ?_, ?_⟩
  · intro rev hm
    rcases hev _ hm with h | h | h
    · cases h
    · simp [Event.ofStage] at h
    · simp [Event.ofStage] at h
  · intro i descr
    refine ⟨fun hm => ?_, fun hm => ?_⟩ <;> rcases hev _ hm with h | h | h
    · cases h
    · simp [Event.ofStage] at h
    · simp [Event.ofStage] at h
    · cases h
    · simp [Event.ofStage] at h
    · simp [Event.ofStage] at h
  · intro i status
    refine ⟨fun hm => ?_, fun hm => ?_⟩ <;> rcases hev _ hm with h | h | h
    · cases h
    · simp [Event.ofStage] at h
    · simp [Event.ofStage] at h
    · cases h
    · simp [Event.ofStage] at h
    · simp [Event.ofStage] at h
  · intro hdone
    have hmem : Event.checkoutFailed ∈ (runPhases w config taskTypes).trace := by
      rw [he]; exact List.mem_append_left _ (List.mem_singleton.2 rfl)
    have hinv := runPhases_inv w config taskTypes
    have hne : aggregate (runPhases w config taskTypes).trace ≠ 0 := by
      intro h0
      have := (foldl_aggStep_eq_zero (runPhases w config taskTypes).trace 0).1 h0
      exact this.2.1 hmem
    have hexit : exitCode (runPhases w config taskTypes) = some 1 := by
      simp only [exitCode, hdone, hinv]
      simp [hne]
    have hd := hdone
    rw [hrun] at hd
    obtain ⟨d1, d2, d3⟩ := tail_phases_done w
      ({ heap := fun _ => {}, phases := created.phases, resultStatus := 1,
         trace := [Event.checkoutFailed] } : MainState) rfl hd
    rw [← hrun] at d1 d2 d3
    exact ⟨hexit, d1, d2, d3⟩

theorem run_checkout_verification_failed_witness :
    (runPhases noCheckoutWorld demoConfig [pyRule .DIFF_WITH_CHECKOUT]).fault = none ∧
    exitCode (runPhases noCheckoutWorld demoConfig [pyRule .DIFF_WITH_CHECKOUT]) = some 1 ∧
    (runPhases noCheckoutWorld demoConfig [pyRule .DIFF_WITH_CHECKOUT]).trace =
      [Event.checkoutFailed,
       Event.taskRun .new 0 { taskTypeName := "lint", fileName := "a.py" },
       Event.processed .new 0 (some 1),
       Event.logStatus 1,
       Event.logDescr { taskTypeName := "lint", fileName := "a.py" }] :=
  have h := run_checkout_verification_failed noCheckoutWorld demoConfig
    [pyRule .DIFF_WITH_CHECKOUT] checkoutRulePhases
    { sha := "abc", refName := "refs/heads/main" } rfl rfl (List.cons_ne_nil _ _) rfl
  ⟨by decide, (h.2.2.2.2.2 (by decide)).1, by decide⟩

/-! ### The checkout back to the head -/

theorem oldTreeSteps_grows (w : World) (config : CreatorConfig) (st : MainState) :
    ∃ evs, (oldTreeSteps w config st).trace =
        (st.trace ++ [Event.checkout config.remoteSha]) ++ evs ∧
      ∀ ev ∈ evs, ev.ofStage .buildOld = true ∨ ev.ofStage .old = true := by
  unfold oldTreeSteps
  have h0 : ∃ evs, (doCheckout w config.remoteSha st).trace =
      (st.trace ++ [Event.checkout config.remoteSha]) ++ evs ∧
      ∀ ev ∈ evs, ev.ofStage .buildOld = true ∨ ev.ofStage .old = true := by
    refine ⟨[], ?_, fun ev h => by cases h⟩
    unfold doCheckout
    split <;> simp
  refine andThen_grows_from _ _ _ _ (andThen_grows_from _ _ _ _
    (andThen_grows_from _ _ _ _ h0 ?_) ?_) ?_
  · intro s
    obtain ⟨evs, h1, h2⟩ := runBuild_grows w .buildOld s
    exact ⟨evs, h1, fun ev hev => Or.inl (h2 ev hev)⟩
  · intro s
    obtain ⟨evs, h1, h2⟩ := startTasks_grows w .old 0 s.phases.forOld s
    exact ⟨evs, h1, fun ev hev => Or.inr (h2 ev hev)⟩
  · intro s
    obtain ⟨evs, h1, h2⟩ := processResults_grows w .old
      (runTasks w.runner .old 0 s.phases.forOld) 0 s
    exact ⟨evs, h1, fun ev hev => Or.inr (h2 ev hev)⟩

theorem doCheckoutHead_trace (w : World) (headData : HeadData) (st : MainState)
    (h : st.fault = none) :
    (doCheckoutHead w headData st).trace =
      st.trace ++ [Event.checkoutHead headData, Event.checkout headData.sha] := by
  unfold doCheckoutHead doCheckout MainState.andThen
  simp only [h]
  cases w.git.doCheckout headData.sha <;> cases w.git.set_head headData.refName <;> simp

theorem andThen_some (st : MainState) (next : MainState → MainState) (e : Fault)
    (h : st.fault = some e) : st.andThen next = st := by
  unfold MainState.andThen
  rw [h]

/-- The run when expansion has put tasks into the old-tree phase and the
checkout verification passes. -/
theorem runPhases_old (w : World) (config : CreatorConfig)
    (taskTypes : TaskTypesMap) (created : CreateState) (headData : HeadData)
    (hcreate : create w.re w.fs w.git config taskTypes = .ok created)
    (hhead : w.git.getHeadSha = .ok headData)
    (hold : created.phases.forOld ≠ [])
    (hcan : w.git.canCheckout config.remoteSha = true) :
    runPhases w config taskTypes =
      (((((oldTreeSteps w config { heap := fun _ => {}, phases := created.phases }).andThen
        (doCheckoutHead w headData)).andThen
        (runBuild w .build)).andThen
        (fun st1 => startTasks w .new 0 st1.phases.forNew st1)).andThen
        (fun st1 =>
          processResults w .new 0 (runTasks w.runner .new 0 st1.phases.forNew) st1)) := by
  have hlen : (created.phases.forOld.length != 0) = true := by
    cases hl : created.phases.forOld with
    | nil => exact absurd hl hold
    | cons x xs => rfl
  simp only [runPhases, hcreate, hhead, oldPhase, hlen, hcan, if_true, oldTreeSteps]

/-- C19 (amended): when expansion has put tasks into the old-tree phase and the
checkout verification passes, the checkout of the old revision is started, and
the checkout back to the recorded head is attempted exactly when the steps
between the two (the checkout of the old revision, the build phase, the
old-tree tasks and the loop over their results) end without a fault, whatever
the statuses of the tasks are; a run that reaches the end of `main` has
attempted it. When the checkout of the old revision throws, the run stops
there and makes no further checkout. -/
theorem run_head_restoration (w : World) (config : CreatorConfig)
    (taskTypes : TaskTypesMap) (created : CreateState) (headData : HeadData)
    (hcreate : create w.re w.fs w.git config taskTypes = .ok created)
    (hhead : w.git.getHeadSha = .ok headData)
    (hold : created.phases.forOld ≠ [])
    (hcan : w.git.canCheckout config.remoteSha = true) :
    Event.checkout config.remoteSha ∈ (runPhases w config taskTypes).trace ∧
    (Event.checkoutHead headData ∈ (runPhases w config taskTypes).trace ↔
      (oldTreeSteps w config { heap := fun _ => {}, phases := created.phases }).fault = none) ∧
    (w.git.doCheckout config.remoteSha = false →
      (runPhases w config taskTypes).trace = [Event.checkout config.remoteSha] ∧
      (runPhases w config taskTypes).fault = some .uncaught) ∧
    ((runPhases w config taskTypes).fault = none →
      Event.checkoutHead headData ∈ (runPhases w config taskTypes).trace) := by
  have hrun := runPhases_old w config taskTypes created headData hcreate hhead hold hcan
  obtain ⟨evs, he, hq⟩ := oldTreeSteps_grows w config
    { heap := fun _ => {}, phases := created.phases }
  have hiff : Event.checkoutHead headData ∈ (runPhases w config taskTypes).trace ↔
      (oldTreeSteps w config { heap := fun _ => {}, phases := created.phases }).fault =
        none := by
    constructor
    · intro hm
      cases hf : (oldTreeSteps w config { heap := fun _ => {}, phases := created.phases }).fault with
      | none => rfl
      | some e =>
        exfalso
        rw [hrun, andThen_some _ _ e hf, andThen_some _ _ e hf, andThen_some _ _ e hf,
          andThen_some _ _ e hf, he] at hm
        simp only [List.nil_append, List.mem_append, List.mem_singleton, reduceCtorEq,
          false_or] at hm
        rcases hq _ hm with h | h <;> simp [Event.ofStage] at h
    · intro hf
      obtain ⟨evs2, he2, _⟩ := tail_phases_grow w
        ((oldTreeSteps w config { heap := fun _ => {}, phases := created.phases }).andThen
          (doCheckoutHead w headData))
      rw [← hrun] at he2
      rw [he2, andThen_none _ _ hf, doCheckoutHead_trace w headData _ hf]
      simp
  refine ⟨?_, hiff, ?_, ?_⟩
  · obtain ⟨evs2, he2, _⟩ := tail_phases_grow w
      ((oldTreeSteps w config { heap := fun _ => {}, phases := created.phases }).andThen
        (doCheckoutHead w headData))
    rw [← hrun] at he2
    obtain ⟨evs3, he3, _⟩ := andThen_grows (fun _ => True)
      (oldTreeSteps w config { heap := fun _ => {}, phases := created.phases })
      (doCheckoutHead w headData) (fun s => by
        unfold doCheckoutHead
        exact andThen_grows_from _ s.trace _ _
          ⟨[Event.checkoutHead headData, Event.checkout headData.sha],
            by unfold doCheckout; split <;> simp, fun _ _ => trivial⟩
          (fun s2 => ⟨[], by split <;> simp, fun _ _ => trivial⟩))
    rw [he2, he3, he]
    simp
  · intro hfail
    have hmid : oldTreeSteps w config { heap := fun _ => {}, phases := created.phases } =
        { heap := fun _ => {}, phases := created.phases,
          trace := [Event.checkout config.remoteSha], fault := some .uncaught } := by
      simp only [oldTreeSteps, doCheckout, hfail, Bool.false_eq_true, if_false,
        MainState.andThen, List.nil_append]
    rw [hrun, hmid]
    exact ⟨rfl, rfl⟩
  · intro hdone
    rw [hiff]
    rw [hrun] at hdone
    obtain ⟨h1, _⟩ := andThen_of_fault_none _ _ hdone
    obtain ⟨h2, _⟩ := andThen_of_fault_none _ _ h1
    obtain ⟨h3, _⟩ := andThen_of_fault_none _ _ h2
    obtain ⟨h4, _⟩ := andThen_of_fault_none _ _ h3
    exact h4

theorem run_head_restoration_witness :
    (runPhases (demoWorld [] 1 [(.NORMAL, "bad")]) demoConfig
      [pyRule .DIFF_WITH_CHECKOUT, buildRule]).fault = none ∧
    Event.processed .buildOld 0 (some 1) ∈
      (runPhases (demoWorld [] 1 [(.NORMAL, "bad")]) demoConfig
        [pyRule .DIFF_WITH_CHECKOUT, buildRule]).trace ∧
    Event.processed .old 0 (some 1) ∈
      (runPhases (demoWorld [] 1 [(.NORMAL, "bad")]) demoConfig
        [pyRule .DIFF_WITH_CHECKOUT, buildRule]).trace ∧
    Event.checkout "HEAD~1" ∈
      (runPhases (demoWorld [] 1 [(.NORMAL, "bad")]) demoConfig
        [pyRule .DIFF_WITH_CHECKOUT, buildRule]).trace ∧
    Event.checkoutHead { sha := "abc", refName := "refs/heads/main" } ∈
      (runPhases (demoWorld [] 1 [(.NORMAL, "bad")]) demoConfig
        [pyRule .DIFF_WITH_CHECKOUT, buildRule]).trace :=
  have h := run_head_restoration (demoWorld [] 1 [(.NORMAL, "bad")]) demoConfig
    [pyRule .DIFF_WITH_CHECKOUT, buildRule]
    (checkoutRulePhases.pushBuild (buildTask buildRule) Processing.newReturnValue)
    { sha := "abc", refName := "refs/heads/main" } rfl rfl (List.cons_ne_nil _ _) rfl
  ⟨by decide, by decide, by decide, h.1, h.2.2.2 (by decide)⟩

/-- The claim C19 fails when the checkout of the old revision throws: the
checkout verification passes, the checkout of `HEAD~1` is started and throws,
and the run is aborted there, with no checkout back to the recorded head. -/
theorem run_without_head_restoration :
    failingCheckoutWorld.git.canCheckout demoConfig.remoteSha = true ∧
    failingCheckoutWorld.git.doCheckout demoConfig.remoteSha = false ∧
    failingCheckoutWorld.git.getHeadSha = .ok { sha := "abc", refName := "refs/heads/main" } ∧
    (runPhases failingCheckoutWorld demoConfig [pyRule .DIFF_WITH_CHECKOUT]).trace =
      [Event.checkout "HEAD~1"] ∧
    (runPhases failingCheckoutWorld demoConfig [pyRule .DIFF_WITH_CHECKOUT]).fault =
      some .uncaught ∧
    Event.checkoutHead { sha := "abc", refName := "refs/heads/main" } ∉
      (runPhases failingCheckoutWorld demoConfig [pyRule .DIFF_WITH_CHECKOUT]).trace ∧
    exitCode (runPhases failingCheckoutWorld demoConfig [pyRule .DIFF_WITH_CHECKOUT]) = none :=
  ⟨rfl, by decide, rfl, by decide, by decide, by decide, by decide⟩

/-! ### The log filter pattern of a loaded rule -/

/-- The process that `decodeProcess` returns, field by field. -/
theorem decodeProcess_ok (yaml : YamlLib) (node : YamlNode) (process : TaskType.Process)
    (h : decodeProcess yaml node = .ok (some process)) :
    (process.testType = TestType.DIFF →
      ∃ n, node.get "logDiffFilterRegex" = some n ∧
        yaml.as_string n = some process.logDiffFilterRegex) ∧
    (process.testType ≠ TestType.DIFF → process.logDiffFilterRegex = "") := by
  unfold decodeProcess at h
  split at h
  · cases h
  · split at h
    · split at h
      · cases h
      · split at h
        · cases h
        · cases h
        · split at h
          · cases h
          · split at h
            · cases h
            · split at h
              · cases h
              · rename_i _ testType htt _ useStdin hus _ executable hex
                simp only [] at h
                cases testType
                · -- DIFF
                  simp only [beq_self_eq_true, if_true] at h
                  cases hg : node.get "logDiffFilterRegex" with
                  | none => simp [hg] at h
                  | some n =>
                    cases hs : yaml.as_string n with
                    | none => simp [hg, hs] at h
                    | some s =>
                      simp [hg, hs] at h
                      subst h
                      exact ⟨fun _ => ⟨n, rfl, hs⟩, fun hne => absurd rfl hne⟩
                · -- RETURN
                  simp at h
                  subst h
                  exact ⟨fun hd => (by cases hd), fun _ => rfl⟩
                · -- MATCH_SUCCESS
                  cases hg : node.get "matchForSuccess" with
                  | none => simp [hg] at h
                  | some n =>
                    cases hs : yaml.as_string n with
                    | none => simp [hg, hs] at h
                    | some s =>
                      simp [hg, hs] at h
                      subst h
                      exact ⟨fun hd => (by cases hd), fun _ => rfl⟩
                · -- MATCH_FAIL
                  cases hg : node.get "matchForFail" with
                  | none => simp [hg] at h
                  | some n =>
                    cases hs : yaml.as_string n with
                    | none => simp [hg, hs] at h
                    | some s =>
                      simp [hg, hs] at h
                      subst h
                      exact ⟨fun hd => (by cases hd), fun _ => rfl⟩
                · -- DIFF_WITH_CHECKOUT
                  simp at h
                  subst h
                  exact ⟨fun hd => (by cases hd), fun _ => rfl⟩
    · cases h

/-- C20 (code bug): `convert<TaskType::Process>::decode` reads the field
`logDiffFilterRegex` of the catalog for the test kind DIFF only. A process of
kind DIFF_WITH_CHECKOUT that it returns holds the empty pattern, whatever the
catalog holds in that field, and the A-tagged and the B-tagged processor that
`forOneFile` makes for a file of a rule with that process hold the empty
pattern. -/
theorem checkout_filter_pattern_not_loaded (yaml : YamlLib) (node : YamlNode)
    (process : TaskType.Process) (re : RegexLib) (fs : FsLib) (git : GitRepo) (config : CreatorConfig)
    (changesData : ChangesData) (taskType : TaskType) (file : TaskType.File) (fileId : Nat)
    (st st' : CreateState)
    (hdecode : decodeProcess yaml node = .ok (some process))
    (hkind : process.testType = TestType.DIFF_WITH_CHECKOUT)
    (hrule : taskType.process = process)
    (hrun : forOneFile re fs git config changesData taskType file fileId st = .ok st')
    (hmatched : st' ≠ st) :
    process.logDiffFilterRegex = "" ∧
    st'.phases.processingForOld =
      st.phases.processingForOld ++ [Processing.freshDiff .A "" st.diffStates] ∧
    st'.phases.processingForNew =
      st.phases.processingForNew ++ [Processing.freshDiff .B "" st.diffStates] := by
  have hempty : process.logDiffFilterRegex = "" :=
    (decodeProcess_ok yaml node process hdecode).2 (by rw [hkind]; decide)
  refine ⟨hempty, ?_⟩
  subst hrule
  obtain ⟨fileName, _, h1 | ⟨_, content, h2⟩⟩ :=
    forOneFile_ok re fs git config changesData taskType file fileId st st' hrun
  · exact absurd h1.2 hmatched
  · rcases h2 with ⟨e, _⟩ | ⟨e, _⟩ | ⟨e, _⟩ | ⟨e, _⟩ | ⟨_, o, _, e⟩
    · rw [hkind] at e; cases e
    · rw [hkind] at e; cases e
    · rw [hkind] at e; cases e
    · rw [hkind] at e; cases e
    · rw [e, hempty]
      exact ⟨rfl, rfl⟩

theorem checkout_filter_pattern_not_loaded_witness :
    (∃ process, decodeProcess demoYaml (demoProcessNode "DIFF_WITH_CHECKOUT") =
        .ok (some process) ∧
      process.logDiffFilterRegex = "") ∧
    (∃ process, decodeProcess demoYaml (demoProcessNode "DIFF") = .ok (some process) ∧
      process.logDiffFilterRegex = "[0-9]+") ∧
    (∃ rule st, loadRule demoYaml "lint" (demoRuleNode "DIFF_WITH_CHECKOUT") = .ok rule ∧
      create demoRegex demoFs (demoGit onePyFile) demoConfig [rule] = .ok st ∧
      st.phases.processingForOld = [Processing.freshDiff .A "" 0] ∧
      st.phases.processingForNew = [Processing.freshDiff .B "" 0]) :=
  ⟨⟨_, rfl,
      (checkout_filter_pattern_not_loaded demoYaml (demoProcessNode "DIFF_WITH_CHECKOUT")
        { demoProcess .DIFF_WITH_CHECKOUT with logDiffFilterRegex := "" }
        demoRegex demoFs (demoGit onePyFile) demoConfig (withAnyChange onePyFile)
        { pyRule .DIFF_WITH_CHECKOUT with
          process := { demoProcess .DIFF_WITH_CHECKOUT with logDiffFilterRegex := "" } }
        { ext := ["py"] } 0 {}
        { phases := {
            forOld := [fileTask (pyRule .DIFF_WITH_CHECKOUT) "a.py" "old"],
            processingForOld := [Processing.freshDiff .A "" 0],
            forNew := [fileTask (pyRule .DIFF_WITH_CHECKOUT) "a.py" "new"],
            processingForNew := [Processing.freshDiff .B "" 0] },
          diffStates := 1 }
        rfl rfl rfl rfl (by decide)).1⟩,
    ⟨_, rfl, rfl⟩, ⟨_, _, rfl, rfl, rfl, rfl⟩⟩

/-! ### The mode of an invocation -/

theorem selectMode_other (exeFullName : String) (rest : List String)
    (hpush : lastPart exeFullName '/' ≠ "pre-push")
    (hcommit : lastPart exeFullName '/' ≠ "pre-commit") :
    selectMode (exeFullName :: rest) =
      if rest.length == 2 then .ok .TEST_2
      else if rest.length == 1 then
        match rest[0]? with
        | none => .error .undefined
        | some arg => if arg == "--help" || arg == "-h" then .ok .HELP else .ok .TEST_1
      else .ok .HELP := by
  simp [selectMode, hpush, hcommit]

/-- C21 (amended): an invocation under the name pre-commit logs that the mode
is unsupported and exits with 1. Under a name that is neither pre-push nor
pre-commit, an invocation whose only argument is `-h` or `--help`, and every
invocation with no argument or with more than two arguments, logs the usage
text and exits with 0; none of these runs starts a task or a checkout. The
mode NONE, whose case exits with 1, is never chosen. -/
theorem mode_selection (w : World) (exeFullName : String) (rest stdin : List String)
    (taskTypes : TaskTypesMap) :
    (lastPart exeFullName '/' = "pre-commit" →
      (program w (exeFullName :: rest) stdin taskTypes).1 = [LogLine.preCommitUnsupported] ∧
      exitCode (program w (exeFullName :: rest) stdin taskTypes).2 = some 1 ∧
      (program w (exeFullName :: rest) stdin taskTypes).2.trace = []) ∧
    (lastPart exeFullName '/' ≠ "pre-push" → lastPart exeFullName '/' ≠ "pre-commit" →
      (rest = ["-h"] ∨ rest = ["--help"] ∨ (rest.length ≠ 1 ∧ rest.length ≠ 2)) →
      (program w (exeFullName :: rest) stdin taskTypes).1 = [LogLine.usage] ∧
      exitCode (program w (exeFullName :: rest) stdin taskTypes).2 = some 0 ∧
      (program w (exeFullName :: rest) stdin taskTypes).2.trace = []) ∧
    (∀ args : List String, selectMode args ≠ .ok .NONE) := by
  refine ⟨?_, ?_, ?_⟩
  · intro hname
    have hm : selectMode (exeFullName :: rest) = .ok .PRE_COMMIT := by
      simp [selectMode, hname]
    simp [program, startup, hm, exitCode]
  · intro hpush hcommit hrest
    have hm : selectMode (exeFullName :: rest) = .ok .HELP := by
      rw [selectMode_other exeFullName rest hpush hcommit]
      rcases hrest with h | h | ⟨h1, h2⟩
      · subst h; simp
      · subst h; simp
      · simp [h1, h2]
    simp [program, startup, hm, exitCode]
  · intro args h
    unfold selectMode at h
    split at h
    · cases h
    · simp only [] at h
      split at h
      · cases h
      · split at h
        · cases h
        · split at h
          · cases h
          · split at h
            · split at h
              · cases h
              · split at h <;> cases h
            · cases h

theorem mode_selection_witness :
    (program (demoWorld [] 0 []) ["/usr/bin/git-verify", "--help"] [] [pyRule .RETURN]).1 =
      [LogLine.usage] ∧
    exitCode (program (demoWorld [] 0 []) ["/usr/bin/git-verify", "--help"] []
      [pyRule .RETURN]).2 = some 0 ∧
    (program (demoWorld [] 0 []) [".git/hooks/pre-commit"] [] [pyRule .RETURN]).1 =
      [LogLine.preCommitUnsupported] ∧
    exitCode (program (demoWorld [] 0 []) [".git/hooks/pre-commit"] []
      [pyRule .RETURN]).2 = some 1 :=
  have h := (mode_selection (demoWorld [] 0 []) "/usr/bin/git-verify" ["--help"] []
    [pyRule .RETURN]).2.1 (by decide) (by decide) (Or.inr (Or.inl rfl))
  have h2 := (mode_selection (demoWorld [] 0 []) ".git/hooks/pre-commit" [] []
    [pyRule .RETURN]).1 (by decide)
  ⟨h.1, h.2.1, h2.1, h2.2.1⟩

/-- The claim C21 fails for an invocation that is not recognised: under the
name git-verify, an invocation with no argument and one with three arguments
log the usage text and exit with 0, not with 1. -/
theorem unrecognized_invocation_exits_zero :
    lastPart "git-verify" '/' = "git-verify" ∧
    (program (demoWorld [] 0 []) ["git-verify"] [] [pyRule .RETURN]).1 = [LogLine.usage] ∧
    exitCode (program (demoWorld [] 0 []) ["git-verify"] [] [pyRule .RETURN]).2 = some 0 ∧
    (program (demoWorld [] 0 []) ["git-verify", "a", "b", "c"] [] [pyRule .RETURN]).1 =
      [LogLine.usage] ∧
    exitCode (program (demoWorld [] 0 []) ["git-verify", "a", "b", "c"] []
      [pyRule .RETURN]).2 = some 0 := by
  decide

/-- When expansion has put tasks into the old-tree phase and the checkout
verification passes, the run starts the checkout of `config.remoteSha`. -/
theorem checkout_started (w : World) (config : CreatorConfig)
    (taskTypes : TaskTypesMap) (created : CreateState) (headData : HeadData)
    (hcreate : create w.re w.fs w.git config taskTypes = .ok created)
    (hhead : w.git.getHeadSha = .ok headData)
    (hold : created.phases.forOld ≠ [])
    (hcan : w.git.canCheckout config.remoteSha = true) :
    Event.checkout config.remoteSha ∈ (runPhases w config taskTypes).trace := by
  have hrun := runPhases_old w config taskTypes created headData hcreate hhead hold hcan
  obtain ⟨evs, he, _⟩ := oldTreeSteps_grows w config
    { heap := fun _ => {}, phases := created.phases }
  obtain ⟨evs2, he2, _⟩ := tail_phases_grow w
    ((oldTreeSteps w config { heap := fun _ => {}, phases := created.phases }).andThen
      (doCheckoutHead w headData))
  rw [← hrun] at he2
  obtain ⟨evs3, he3, _⟩ := andThen_grows (fun _ => True)
    (oldTreeSteps w config { heap := fun _ => {}, phases := created.phases })
    (doCheckoutHead w headData) (fun s => by
      unfold doCheckoutHead
      exact andThen_grows_from _ s.trace _ _
        ⟨[Event.checkoutHead headData, Event.checkout headData.sha],
          by unfold doCheckout; split <;> simp, fun _ _ => trivial⟩
        (fun s2 => ⟨[], by split <;> simp, fun _ _ => trivial⟩))
  rw [he2, he3, he]
  simp

/-- C22 (code bug): in the two-revision test mode the first revision argument
becomes `localSha` and the second `remoteSha`. The run passes `localSha` where
the repository functions take the new commit and `remoteSha` where they take
the old commit: the changed files are those of `getChangedFiles(rev1, rev2)`,
the commit messages are walked over the range `rev2..rev1`, and the checkout of
the old-tree phase is a checkout of `rev2`. -/
theorem test2_revisions (w : World) (exeFullName rev1 rev2 : String) (stdin : List String)
    (taskTypes : TaskTypesMap)
    (hpush : lastPart exeFullName '/' ≠ "pre-push")
    (hcommit : lastPart exeFullName '/' ≠ "pre-commit") :
    program w [exeFullName, rev1, rev2] stdin taskTypes =
      ([], runPhases w { remote := "", url := "", localRef := "", localSha := rev1,
                         remoteRef := "", remoteSha := rev2 } taskTypes) ∧
    create w.re w.fs w.git { remote := "", url := "", localRef := "", localSha := rev1,
                             remoteRef := "", remoteSha := rev2 } taskTypes =
      (match w.git.getChangedFiles rev1 rev2 with
        | .error e => .error e
        | .ok changes =>
          forTaskTypes w.re w.fs w.git
            { remote := "", url := "", localRef := "", localSha := rev1,
              remoteRef := "", remoteSha := rev2 }
            (withAnyChange changes) (changedByExtOf changes) taskTypes {}) ∧
    commitRange rev1 rev2 = rev2 ++ ".." ++ rev1 ∧
    (∀ (created : CreateState) (headData : HeadData),
      create w.re w.fs w.git { remote := "", url := "", localRef := "", localSha := rev1,
                               remoteRef := "", remoteSha := rev2 } taskTypes = .ok created →
      w.git.getHeadSha = .ok headData → created.phases.forOld ≠ [] →
      w.git.canCheckout rev2 = true →
      Event.checkout rev2 ∈ (program w [exeFullName, rev1, rev2] stdin taskTypes).2.trace) := by
  have hm : selectMode [exeFullName, rev1, rev2] = .ok .TEST_2 := by
    rw [selectMode_other exeFullName [rev1, rev2] hpush hcommit]
    rfl
  have hprog : program w [exeFullName, rev1, rev2] stdin taskTypes =
      ([], runPhases w { remote := "", url := "", localRef := "", localSha := rev1,
                         remoteRef := "", remoteSha := rev2 } taskTypes) := by
    simp [program, startup, hm]
  refine ⟨hprog, ?_, rfl, ?_⟩
  · unfold create
    cases w.git.getChangedFiles rev1 rev2 <;> rfl
  · intro created headData hcreate hhead hold hcan
    rw [hprog]
    exact checkout_started w _ taskTypes created headData hcreate hhead hold hcan

theorem test2_revisions_witness :
    (program rangeWorld ["git-verify", "v1", "v2"] []
      [pyRule .DIFF_WITH_CHECKOUT, commitRule .RETURN]).2.phases.forNew =
      [fileTask (pyRule .DIFF_WITH_CHECKOUT) "a.py" "tree of v1",
       commitTextTask (commitRule .RETURN) "messages of v2..v1"] ∧
    (program rangeWorld ["git-verify", "v1", "v2"] []
      [pyRule .DIFF_WITH_CHECKOUT, commitRule .RETURN]).2.phases.forOld =
      [fileTask (pyRule .DIFF_WITH_CHECKOUT) "a.py" "tree of v2"] ∧
    Event.checkout "v2" ∈
      (program rangeWorld ["git-verify", "v1", "v2"] []
        [pyRule .DIFF_WITH_CHECKOUT, commitRule .RETURN]).2.trace ∧
    Event.checkout "v1" ∉
      (program rangeWorld ["git-verify", "v1", "v2"] []
        [pyRule .DIFF_WITH_CHECKOUT, commitRule .RETURN]).2.trace :=
  have h := test2_revisions rangeWorld "git-verify" "v1" "v2" []
    [pyRule .DIFF_WITH_CHECKOUT, commitRule .RETURN] (by decide) (by decide)
  ⟨by decide, by decide,
    h.2.2.2
      { phases := {
          forOld := [fileTask (pyRule .DIFF_WITH_CHECKOUT) "a.py" "tree of v2"],
          processingForOld := [Processing.freshDiff .A "x" 0],
          forNew := [fileTask (pyRule .DIFF_WITH_CHECKOUT) "a.py" "tree of v1",
                     commitTextTask (commitRule .RETURN) "messages of v2..v1"],
          processingForNew := [Processing.freshDiff .B "x" 0, Processing.newReturnValue] },
        diffStates := 1 }
      { sha := "abc", refName := "refs/heads/main" } rfl rfl (List.cons_ne_nil _ _) rfl,
    by decide⟩

/-! ### The exit status and the pattern processor -/

/-- C29: the result of `ProcessingMatch::process` does not depend on the task's
exit status. Two calls that differ only in the exit status return the same
messages, the same processor object (so the same status) and the same shared
states; the exit status appears nowhere in the result: the returned messages
are the non-compliant lines tagged ERR, and the status is 1 when there is such
a line and the processor's status from before the call otherwise. So after a
task that exits non-zero, whatever the value, with only compliant lines or no
lines at all, the call returns no message and sets no failure status. -/
theorem processingMatch_ignores_exit_status (re : RegexLib) (git : DiffLib) (heap : Heap)
    (matchForSuccess : Bool) (pattern : String) (st0 : Option Int) (messages : Messages) :
    (∀ status1 status2 : Int,
      (Processing.ProcessingMatch matchForSuccess pattern st0).process re git heap messages
          status1 =
        (Processing.ProcessingMatch matchForSuccess pattern st0).process re git heap messages
          status2) ∧
    (∀ status : Int, ∃ r,
      (Processing.ProcessingMatch matchForSuccess pattern st0).process re git heap messages
          status = .ok r ∧
      r.msgs = (messages.filter
          (fun m => re.regex_match m.2 pattern != matchForSuccess)).map
          (fun m => (MessageType.ERR, m.2)) ∧
      r.self.getStatus =
        (if messages.filter (fun m => re.regex_match m.2 pattern != matchForSuccess) = []
          then st0 else some 1) ∧
      ((∀ m ∈ messages, re.regex_match m.2 pattern = matchForSuccess) →
        r.msgs = [] ∧ r.self.getStatus = st0)) := by
  refine ⟨fun _ _ => rfl, fun status => ⟨_, rfl, ?_, ?_, ?_⟩⟩
  · simpa using (matchLoop_eq re matchForSuccess pattern messages ([], st0)).1
  · exact (matchLoop_eq re matchForSuccess pattern messages ([], st0)).2
  · intro hall
    have hnil : messages.filter (fun m => re.regex_match m.2 pattern != matchForSuccess) = [] := by
      rw [List.filter_eq_nil_iff]
      intro m hm
      simp [hall m hm]
    have h := matchLoop_eq re matchForSuccess pattern messages ([], st0)
    constructor
    · have h1 := h.1
      rw [hnil] at h1
      simpa using h1
    · have h2 := h.2
      rw [hnil] at h2
      simpa [Processing.getStatus] using h2

theorem processingMatch_ignores_exit_status_witness :
    (Processing.freshMatch true "^OK.*").process demoRegex (demoDiff []) freshHeap
        [(.NORMAL, "OK 1")] 0 =
      (Processing.freshMatch true "^OK.*").process demoRegex (demoDiff []) freshHeap
        [(.NORMAL, "OK 1")] 3 ∧
    ∃ r, (Processing.freshMatch true "^OK.*").process demoRegex (demoDiff []) freshHeap
        [(.NORMAL, "OK 1")] 3 = .ok r ∧ r.msgs = [] ∧ r.self.getStatus = none :=
  ⟨(processingMatch_ignores_exit_status demoRegex (demoDiff []) freshHeap true "^OK.*" none
      [(.NORMAL, "OK 1")]).1 0 3,
    ((processingMatch_ignores_exit_status demoRegex (demoDiff []) freshHeap true "^OK.*" none
      [(.NORMAL, "OK 1")]).2 3).elim (fun r hr =>
        ⟨r, hr.1, (hr.2.2.2 (by decide)).1, (hr.2.2.2 (by decide)).2⟩)⟩

/-! ### The filtered blobs of the second delivery -/

theorem foldl_filterLog (f : Message → String) (rows : Messages) :
    ∀ acc : String,
      (rows.foldl (fun log row => log ++ f row ++ "\n") acc).data =
        acc.data ++ (rows.map (fun row => (f row).data ++ ['\n'])).flatten := by
  induction rows with
  | nil => intro acc; simp
  | cons row rest ih =>
    intro acc
    rw [List.foldl_cons, ih]
    simp [String.data_append]

theorem filterLog_data (re : RegexLib) (logFilterRegex : String) (rows : Messages) :
    (filterLog re logFilterRegex rows).data =
      (rows.map (fun row => (re.regex_replace row.2 logFilterRegex).data ++ ['\n'])).flatten := by
  unfold filterLog
  rw [foldl_filterLog (fun row => re.regex_replace row.2 logFilterRegex) rows ""]
  simp

theorem textLinesFrom_line (line rest : List Char) (hline : '\n' ∉ line) :
    ∀ cur, textLinesFrom (line ++ '\n' :: rest) cur = (cur ++ line) :: textLinesFrom rest [] := by
  induction line with
  | nil => intro cur; simp [textLinesFrom]
  | cons c cs ih =>
    intro cur
    have hc : c ≠ '\n' := fun h => hline (by simp [h])
    have hcs : '\n' ∉ cs := fun h => hline (by simp [h])
    simp [textLinesFrom, hc, ih hcs]

theorem textLines_flatten (lines : List (List Char)) (hlines : ∀ l ∈ lines, '\n' ∉ l) :
    textLines ((lines.map (fun l => l ++ ['\n'])).flatten) = lines := by
  induction lines with
  | nil => simp [textLines, textLinesFrom]
  | cons l ls ih =>
    have hl : '\n' ∉ l := hlines l (by simp)
    have hls : ∀ x ∈ ls, '\n' ∉ x := fun x hx => hlines x (by simp [hx])
    unfold textLines at ih ⊢
    simp only [List.map_cons, List.flatten_cons, List.append_assoc, List.singleton_append]
    rw [textLinesFrom_line l _ hl []]
    simp [ih hls]

theorem textLines_filterLog (re : RegexLib) (logFilterRegex : String) (rows : Messages)
    (hrows : ∀ row ∈ rows, '\n' ∉ (re.regex_replace row.2 logFilterRegex).data) :
    textLines (filterLog re logFilterRegex rows).data =
      rows.map (fun row => (re.regex_replace row.2 logFilterRegex).data) := by
  rw [filterLog_data]
  have h := textLines_flatten
    (rows.map (fun row => (re.regex_replace row.2 logFilterRegex).data))
    (by
      intro l hl
      rw [List.mem_map] at hl
      obtain ⟨row, hrow, rfl⟩ := hl
      exact hrows row hrow)
  rw [List.map_map] at h
  exact h

theorem msgAt_undefined_iff (msgB : Messages) (i : Int) :
    msgAt msgB i = .error .undefined ↔ ¬ (0 ≤ i ∧ i < msgB.length) := by
  unfold msgAt
  by_cases h0 : 0 ≤ i
  · by_cases h1 : i.toNat < msgB.length
    · have hi : i < msgB.length := by omega
      simp [h0, List.getElem?_eq_getElem h1, hi]
    · have hi : ¬ i < msgB.length := by omega
      have hnone : msgB[i.toNat]? = none := List.getElem?_eq_none (by omega)
      simp [h0, hnone, hi]
  · simp [h0]

theorem markErr_undefined_iff (msgB : Messages) (i : Int) :
    markErr msgB i = .error .undefined ↔ ¬ (0 ≤ i ∧ i < msgB.length) := by
  unfold markErr
  by_cases h0 : 0 ≤ i
  · by_cases h1 : i.toNat < msgB.length
    · have hi : i < msgB.length := by omega
      simp [h0, List.getElem?_eq_getElem h1, hi]
    · have hi : ¬ i < msgB.length := by omega
      have hnone : msgB[i.toNat]? = none := List.getElem?_eq_none (by omega)
      simp [h0, hnone, hi]
  · simp [h0]

/-- C26, the claim as worded does not hold: with the pattern `[0-9]+`, the
message line `12` matches the pattern, yet it contributes a line, the empty
one, to the blob built by the code, which is `"\nab\n"` and not the `"ab"` of
the claim's wording; the line `cd` of the new side is therefore line 3 of the
blob and message 3 of the list, and it is the one the second delivery marks. -/
theorem filterLog_keeps_matching_lines :
    digitRegex.regex_match "12" "[0-9]+" = true ∧
    filterLog digitRegex "[0-9]+" [(.NORMAL, "12"), (.NORMAL, "ab")] = "\nab\n" ∧
    specFilterLog digitRegex "[0-9]+" [(.NORMAL, "12"), (.NORMAL, "ab")] = "ab" ∧
    textLines (filterLog digitRegex "[0-9]+" [(.NORMAL, "12"), (.NORMAL, "ab")]).data =
      [[], ['a', 'b']] ∧
    ∃ r, (Processing.ProcessingDiff .B "[0-9]+" 0 (some 1)).process digitRegex lineSetDiff
          (pendingHeap [(.NORMAL, "12"), (.NORMAL, "ab")] [])
          [(.NORMAL, "34"), (.NORMAL, "ab"), (.NORMAL, "cd")] 0 = .ok r ∧
      r.msgs = [(.NORMAL, "34"), (.NORMAL, "ab"), (.ERR, "cd")] := by
  refine ⟨by decide, by decide, by decide, by decide, ?_⟩
  exact ⟨_, rfl, by decide⟩

/-- C26 (amended): on the second delivery the line diff is called once, on the
two blobs that `filterLog` builds from the stored old-side and new-side
messages, and on no other buffers: the result of `process` is the same under
any two diff libraries that agree on this pair of blobs. A blob is the concatenation, in message
order, of every message line with the matches of the log-filter pattern
replaced by the empty string, each followed by a newline. No message is
removed: when the filtered lines hold no newline, the lines of the blob are
exactly the filtered message lines, one line per message, and a message that
the pattern matches entirely contributes an empty line. -/
theorem processingDiff_filtered_blobs (re : RegexLib) (git1 git2 : DiffLib) (heap : Heap)
    (diffPart : DiffPart) (logFilterRegex : String) (diffState : Nat) (st0 : Option Int)
    (messages : Messages) (status : Int)
    (hsame : git1.git_diff_buffers
        (filterLog re logFilterRegex (storeSlot diffPart (heap diffState) messages).a)
        (filterLog re logFilterRegex (storeSlot diffPart (heap diffState) messages).b) =
      git2.git_diff_buffers
        (filterLog re logFilterRegex (storeSlot diffPart (heap diffState) messages).a)
        (filterLog re logFilterRegex (storeSlot diffPart (heap diffState) messages).b)) :
    (Processing.ProcessingDiff diffPart logFilterRegex diffState st0).process re git1 heap
        messages status =
      (Processing.ProcessingDiff diffPart logFilterRegex diffState st0).process re git2 heap
        messages status ∧
    (∀ rows : Messages,
      (filterLog re logFilterRegex rows).data =
        (rows.map (fun row => (re.regex_replace row.2 logFilterRegex).data ++ ['\n'])).flatten) ∧
    (∀ rows : Messages,
      (∀ row ∈ rows, '\n' ∉ (re.regex_replace row.2 logFilterRegex).data) →
      textLines (filterLog re logFilterRegex rows).data =
          rows.map (fun row => (re.regex_replace row.2 logFilterRegex).data) ∧
        (textLines (filterLog re logFilterRegex rows).data).length = rows.length) := by
  refine ⟨?_, fun rows => filterLog_data re logFilterRegex rows, ?_⟩
  · have hc : compareLogs git1
          (filterLog re logFilterRegex (storeSlot diffPart (heap diffState) messages).a)
          (filterLog re logFilterRegex (storeSlot diffPart (heap diffState) messages).b) =
        compareLogs git2
          (filterLog re logFilterRegex (storeSlot diffPart (heap diffState) messages).a)
          (filterLog re logFilterRegex (storeSlot diffPart (heap diffState) messages).b) := by
      unfold compareLogs
      rw [hsame]
    simp only [Processing.process]
    rw [hc]
  · intro rows hrows
    have h := textLines_filterLog re logFilterRegex rows hrows
    exact ⟨h, by rw [h, List.length_map]⟩

theorem processingDiff_filtered_blobs_witness :
    (Processing.ProcessingDiff .B "[0-9]+" 0 (some 1)).process digitRegex lineSetDiff
        (pendingHeap [(.NORMAL, "12"), (.NORMAL, "ab")] [])
        [(.NORMAL, "34"), (.NORMAL, "ab"), (.NORMAL, "cd")] 0 =
      (Processing.ProcessingDiff .B "[0-9]+" 0 (some 1)).process digitRegex (demoDiff [3])
        (pendingHeap [(.NORMAL, "12"), (.NORMAL, "ab")] [])
        [(.NORMAL, "34"), (.NORMAL, "ab"), (.NORMAL, "cd")] 0 ∧
    textLines (filterLog digitRegex "[0-9]+"
        [(.NORMAL, "34"), (.NORMAL, "ab"), (.NORMAL, "cd")]).data = [[], ['a', 'b'], ['c', 'd']] :=
  ⟨(processingDiff_filtered_blobs digitRegex lineSetDiff (demoDiff [3])
      (pendingHeap [(.NORMAL, "12"), (.NORMAL, "ab")] []) .B "[0-9]+" 0 (some 1)
      [(.NORMAL, "34"), (.NORMAL, "ab"), (.NORMAL, "cd")] 0 (by decide)).1,
    ((processingDiff_filtered_blobs digitRegex lineSetDiff (demoDiff [3])
      (pendingHeap [(.NORMAL, "12"), (.NORMAL, "ab")] []) .B "[0-9]+" 0 (some 1)
      [(.NORMAL, "34"), (.NORMAL, "ab"), (.NORMAL, "cd")] 0 (by decide)).2.2
      [(.NORMAL, "34"), (.NORMAL, "ab"), (.NORMAL, "cd")] (by decide)).1⟩

/-- C28: on the second delivery, when every line number returned by the line
diff lies in `1..|B|` (as do the numbers of a strictly increasing list of
lines of the new blob), the call returns without an out-of-range access: the
reads `msgB[i]` and the writes `msgB[i].first` are the only accesses to the
new-side list, each of them is undefined exactly when its index lies outside
`0..|B|-1`, and the call ends without such a fault. The filtered new blob has
exactly `|B|` newline-terminated lines, line `k` being the filtered text of
message `k - 1`, given that the filtered lines hold no newline (process output
is split at newlines and the filter only removes text). -/
theorem processingDiff_indices_in_range (re : RegexLib) (git : DiffLib) (heap : Heap)
    (diffPart : DiffPart) (logFilterRegex : String) (diffState : Nat) (st0 : Option Int)
    (messages : Messages) (status : Int) (added : List Int)
    (hcount : (heap diffState).count ≠ 0)
    (hdiff : compareLogs git
        (filterLog re logFilterRegex (storeSlot diffPart (heap diffState) messages).a)
        (filterLog re logFilterRegex (storeSlot diffPart (heap diffState) messages).b)
        = .ok added)
    (hrange : ∀ l ∈ added,
        1 ≤ l ∧ l ≤ ((storeSlot diffPart (heap diffState) messages).b.length : Int))
    (hlines : ∀ row ∈ (storeSlot diffPart (heap diffState) messages).b,
        '\n' ∉ (re.regex_replace row.2 logFilterRegex).data) :
    (∃ r, (Processing.ProcessingDiff diffPart logFilterRegex diffState st0).process re git heap
        messages status = .ok r) ∧
    (∀ e, diffContext (storeSlot diffPart (heap diffState) messages).b added ≠ .error e) ∧
    (∀ (msgB : Messages) (i : Int),
      (msgAt msgB i = .error .undefined ↔ ¬ (0 ≤ i ∧ i < msgB.length)) ∧
      (markErr msgB i = .error .undefined ↔ ¬ (0 ≤ i ∧ i < msgB.length))) ∧
    textLines (filterLog re logFilterRegex
        (storeSlot diffPart (heap diffState) messages).b).data =
      (storeSlot diffPart (heap diffState) messages).b.map
        (fun row => (re.regex_replace row.2 logFilterRegex).data) ∧
    (textLines (filterLog re logFilterRegex
        (storeSlot diffPart (heap diffState) messages).b).data).length =
      (storeSlot diffPart (heap diffState) messages).b.length := by
  obtain ⟨fin, hfin, -, -⟩ :=
    diffContext_total (storeSlot diffPart (heap diffState) messages).b added hrange
  have hl := textLines_filterLog re logFilterRegex _ hlines
  refine ⟨⟨_, process_diff_second re git heap diffPart logFilterRegex diffState st0 messages
      status added fin hcount hdiff hfin⟩, ?_, ?_, hl, by rw [hl, List.length_map]⟩
  · intro e he
    rw [hfin] at he
    cases he
  · exact fun msgB i => ⟨msgAt_undefined_iff msgB i, markErr_undefined_iff msgB i⟩

theorem processingDiff_indices_in_range_witness :
    (pendingHeap [(.NORMAL, "12"), (.NORMAL, "ab")] [] 0).count ≠ 0 ∧
    (∃ r, (Processing.ProcessingDiff .B "[0-9]+" 0 (some 1)).process digitRegex lineSetDiff
        (pendingHeap [(.NORMAL, "12"), (.NORMAL, "ab")] [])
        [(.NORMAL, "34"), (.NORMAL, "ab"), (.NORMAL, "cd")] 0 = .ok r) ∧
    (textLines (filterLog digitRegex "[0-9]+"
        (storeSlot .B (pendingHeap [(.NORMAL, "12"), (.NORMAL, "ab")] [] 0)
          [(.NORMAL, "34"), (.NORMAL, "ab"), (.NORMAL, "cd")]).b).data).length = 3 :=
  ⟨by decide,
    (processingDiff_indices_in_range digitRegex lineSetDiff
      (pendingHeap [(.NORMAL, "12"), (.NORMAL, "ab")] []) .B "[0-9]+" 0 (some 1)
      [(.NORMAL, "34"), (.NORMAL, "ab"), (.NORMAL, "cd")] 0 [3] (by decide) rfl
      (by decide) (by decide)).1,
    (processingDiff_indices_in_range digitRegex lineSetDiff
      (pendingHeap [(.NORMAL, "12"), (.NORMAL, "ab")] []) .B "[0-9]+" 0 (some 1)
      [(.NORMAL, "34"), (.NORMAL, "ab"), (.NORMAL, "cd")] 0 [3] (by decide) rfl
      (by decide) (by decide)).2.2.2.2⟩

/-! ### Expansion: the synthetic bucket and the changed files -/

/-- C30 (code bug): the synthetic any-change bucket holds the synthetic entry
last, after the ids of the changed files whose extension is the bucket's name
`___any_change___`. When no changed file has that extension (in particular
when the change set is empty) the bucket holds the synthetic entry alone, and
the pass of an enabled ANY_CHANGE rule is the visit of that one entry, whose
file name is `___any_change___` and whose old and new content are empty. The
synthetic entry is in no other bucket, so a rule that lists other extensions,
the match-all extension `""` among them, never visits it. But the expansion
does depend on the changed files: for the changed file `x.___any_change___`
the ANY_CHANGE rule gets two tasks, the first one for that file with the
file's content. -/
theorem any_change_expansion (re : RegexLib) (fs : FsLib) (git : GitRepo) (config : CreatorConfig)
    (rule : TaskType) (changes : ChangesData) (hpar : changes.parallel = true)
    (henabled : rule.enabled = true) (htarget : rule.targetType = TargetType.ANY_CHANGE)
    (s : CreateState) :
    (changedByExtOf changes).lookup anyChange =
      some (bucketIds anyChange changes.newFiles 0 ++ [changes.newFiles.length]) ∧
    ((∀ f ∈ changes.newFiles, ¬ (has_extension f = true ∧ lastPart f '.' = anyChange)) →
      (changedByExtOf changes).lookup anyChange = some [changes.newFiles.length] ∧
      forTaskTypes re fs git config (withAnyChange changes) (changedByExtOf changes) [rule] s =
        forOneFile re fs git config (withAnyChange changes)
          { rule with file := some { ext := [anyChange] } } { ext := [anyChange] }
          changes.newFiles.length s ∧
      (withAnyChange changes).newFiles[changes.newFiles.length]? = some anyChange ∧
      (withAnyChange changes).newFileContent[changes.newFiles.length]? = some "" ∧
      (withAnyChange changes).oldFileContent[changes.newFiles.length]? = some "" ∧
      testFile fs { ext := [anyChange] } anyChange = .ok true) ∧
    (∀ ext ids, ext ≠ anyChange → (changedByExtOf changes).lookup ext = some ids →
      changes.newFiles.length ∉ ids) ∧
    (∃ st, create demoRegex demoFs
        (demoGit { newFiles := ["x.___any_change___"], newFileContent := ["new"],
                   oldFileContent := ["old"] })
        demoConfig [anyChangeRule .RETURN] = .ok st ∧
      st.phases.forNew =
        [fileTask (anyChangeRule .RETURN) "x.___any_change___" "new",
         fileTask (anyChangeRule .RETURN) anyChange ""]) := by
  have hp := hpar
  simp only [ChangesData.parallel, Bool.and_eq_true, beq_iff_eq] at hp
  have hl : (changedByExtOf changes).lookup anyChange =
      some (bucketIds anyChange changes.newFiles 0 ++ [changes.newFiles.length]) := by
    rw [changedByExtOf_lookup, if_pos rfl, hp.1]
  refine ⟨hl, ?_, ?_, ⟨_, rfl, rfl⟩⟩
  · intro hnoext
    obtain ⟨h1, h2, h3, h4⟩ :=
      forTaskTypes_any_change re fs git config rule changes hpar hnoext henabled htarget s
    refine ⟨?_, h1, h2, h3, h4, testFile_unrestricted fs { ext := [anyChange] } anyChange rfl rfl⟩
    rw [hl, bucketIds_nil anyChange (by decide) changes.newFiles 0 hnoext]
    rfl
  · intro ext ids hext hlook hmem
    rw [changedByExtOf_lookup, if_neg hext] at hlook
    split at hlook
    · cases hlook
    · have hids : bucketIds ext changes.newFiles 0 = ids := Option.some.inj hlook
      have hb := bucketIds_bound ext changes.newFiles 0 changes.newFiles.length
        (by rw [hids]; exact hmem)
      omega

theorem any_change_expansion_witness :
    ChangesData.parallel { newFiles := [], newFileContent := [], oldFileContent := [] } = true ∧
    (anyChangeRule .RETURN).enabled = true ∧
    (anyChangeRule .RETURN).targetType = TargetType.ANY_CHANGE ∧
    (changedByExtOf { newFiles := [], newFileContent := [], oldFileContent := [] }).lookup
        anyChange = some [0] ∧
    create demoRegex demoFs (demoGit { newFiles := [], newFileContent := [], oldFileContent := [] })
        demoConfig [anyChangeRule .RETURN] =
      .ok { phases := { forNew := [fileTask (anyChangeRule .RETURN) anyChange ""],
                        processingForNew := [Processing.newReturnValue] } } :=
  ⟨rfl, rfl, rfl,
    ((any_change_expansion demoRegex demoFs
      (demoGit { newFiles := [], newFileContent := [], oldFileContent := [] }) demoConfig
      (anyChangeRule .RETURN) { newFiles := [], newFileContent := [], oldFileContent := [] }
      rfl rfl rfl {}).2.1 (by simp)).1,
    rfl⟩

/-! ### Expansion: the order of the tasks of a rule -/

theorem forFileIds_append (re : RegexLib) (fs : FsLib) (git : GitRepo) (config : CreatorConfig)
    (changesData : ChangesData) (taskType : TaskType) (file : TaskType.File) :
    ∀ (ids1 ids2 : List Nat) (s : CreateState),
      forFileIds re fs git config changesData taskType file (ids1 ++ ids2) s =
        match forFileIds re fs git config changesData taskType file ids1 s with
        | .error e => .error e
        | .ok s1 => forFileIds re fs git config changesData taskType file ids2 s1 := by
  intro ids1
  induction ids1 with
  | nil => intro ids2 s; rfl
  | cons id rest ih =>
    intro ids2 s
    simp only [List.cons_append, forFileIds]
    cases forOneFile re fs git config changesData taskType file id s with
    | error e => rfl
    | ok s1 => exact ih ids2 s1

theorem forExts_eq_forFileIds (re : RegexLib) (fs : FsLib) (git : GitRepo) (config : CreatorConfig)
    (changesData : ChangesData) (changedByExt : ExtMap) (taskType : TaskType)
    (file : TaskType.File) :
    ∀ (exts : List String) (s : CreateState),
      forExts re fs git config changesData changedByExt taskType file exts s =
        forFileIds re fs git config changesData taskType file (visitedIds changedByExt exts) s := by
  intro exts
  induction exts with
  | nil => intro s; rfl
  | cons ext rest ih =>
    intro s
    simp only [forExts, visitedIds, List.flatMap_cons]
    rw [forFileIds_append]
    cases hl : changedByExt.lookup ext with
    | none =>
      simp only [Option.getD_none, forFileIds]
      exact ih s
    | some ids =>
      simp only [Option.getD_some]
      cases forFileIds re fs git config changesData taskType file ids s with
      | error e => rfl
      | ok s1 => exact ih s1

theorem taskFiles_append (a b : List Task) : taskFiles (a ++ b) = taskFiles a ++ taskFiles b := by
  simp [taskFiles]

theorem taskFiles_fileTask (taskType : TaskType) (fileName content : String) :
    taskFiles [fileTask taskType fileName content] = [fileName] := rfl

theorem taskFiles_oldSideTask (taskType : TaskType) (fileName oldContent : String) :
    taskFiles [oldSideTask taskType fileName oldContent] = [fileName] := by
  unfold oldSideTask
  split <;> rfl

theorem taskFiles_pair (taskType : TaskType) (fileName oldContent content : String) :
    taskFiles [oldSideTask taskType fileName oldContent, fileTask taskType fileName content] =
      [fileName, fileName] := by
  have h := taskFiles_append [oldSideTask taskType fileName oldContent]
    [fileTask taskType fileName content]
  rw [taskFiles_oldSideTask, taskFiles_fileTask] at h
  exact h

theorem acceptedNames_append (fs : FsLib) (changesData : ChangesData) (file : TaskType.File)
    (ids1 ids2 : List Nat) :
    acceptedNames fs changesData file (ids1 ++ ids2) =
      acceptedNames fs changesData file ids1 ++ acceptedNames fs changesData file ids2 := by
  simp [acceptedNames, List.filterMap_append]

theorem forOneFile_taskFiles (re : RegexLib) (fs : FsLib) (git : GitRepo) (config : CreatorConfig)
    (changesData : ChangesData) (taskType : TaskType) (file : TaskType.File) (fileId : Nat)
    (s s' : CreateState)
    (h : forOneFile re fs git config changesData taskType file fileId s = .ok s') :
    taskFiles s'.phases.forNew = taskFiles s.phases.forNew ++
      (acceptedNames fs changesData file [fileId]).flatMap
        (List.replicate (newTasksPerFile taskType.process.testType)) ∧
    taskFiles s'.phases.forOld = taskFiles s.phases.forOld ++
      (acceptedNames fs changesData file [fileId]).flatMap
        (List.replicate (oldTasksPerFile taskType.process.testType)) := by
  obtain ⟨fileName, hname, hcase⟩ := forOneFile_ok re fs git config changesData taskType file
    fileId s s' h
  rcases hcase with ⟨hrej, rfl⟩ | ⟨hacc, content, hkind⟩
  · simp [acceptedNames, hname, hrej]
  · have hn : acceptedNames fs changesData file [fileId] = [fileName] := by
      simp [acceptedNames, hname, hacc]
    rw [hn]
    rcases hkind with ⟨ht, rfl⟩ | ⟨ht, rfl⟩ | ⟨ht, rfl⟩ | ⟨ht, -, oldContent, -, rfl⟩ |
      ⟨ht, oldContent, -, rfl⟩
    all_goals
      simp [ht, newTasksPerFile, oldTasksPerFile, CreateState.pushNew, CreateState.pushOld,
        CreateState.madeShared, taskFiles_append, taskFiles_fileTask, taskFiles_oldSideTask,
        taskFiles_pair, List.replicate]

theorem forFileIds_taskFiles (re : RegexLib) (fs : FsLib) (git : GitRepo) (config : CreatorConfig)
    (changesData : ChangesData) (taskType : TaskType) (file : TaskType.File) :
    ∀ (ids : List Nat) (s s' : CreateState),
      forFileIds re fs git config changesData taskType file ids s = .ok s' →
      taskFiles s'.phases.forNew = taskFiles s.phases.forNew ++
        (acceptedNames fs changesData file ids).flatMap
          (List.replicate (newTasksPerFile taskType.process.testType)) ∧
      taskFiles s'.phases.forOld = taskFiles s.phases.forOld ++
        (acceptedNames fs changesData file ids).flatMap
          (List.replicate (oldTasksPerFile taskType.process.testType)) := by
  intro ids
  induction ids with
  | nil =>
    intro s s' h
    simp only [forFileIds] at h
    cases h
    simp [acceptedNames]
  | cons id rest ih =>
    intro s s' h
    simp only [forFileIds] at h
    cases h1 : forOneFile re fs git config changesData taskType file id s with
    | error e => rw [h1] at h; cases h
    | ok s1 =>
      rw [h1] at h
      have hone := forOneFile_taskFiles re fs git config changesData taskType file id s s1 h1
      have hrest := ih s1 s' h
      have happ : acceptedNames fs changesData file (id :: rest) =
          acceptedNames fs changesData file [id] ++ acceptedNames fs changesData file rest :=
        acceptedNames_append fs changesData file [id] rest
      rw [happ, List.flatMap_append, List.flatMap_append, hrest.1, hrest.2, hone.1, hone.2]
      simp

theorem bucketIds_sorted (ext : String) :
    ∀ (files : List String) (i : Nat),
      (bucketIds ext files i).Pairwise (· ≤ ·) ∧
      (ext ≠ "" → (bucketIds ext files i).Pairwise (· < ·)) := by
  intro files
  induction files with
  | nil => intro i; simp [bucketIds]
  | cons f rest ih =>
    intro i
    have hb := bucketIds_bound ext rest (i + 1)
    have hge : ∀ x ∈ bucketIds ext rest (i + 1), i < x := fun x hx => by
      have := hb x hx
      omega
    obtain ⟨h1, h2⟩ := ih (i + 1)
    constructor
    · simp only [bucketIds]
      rw [List.pairwise_append]
      refine ⟨by split <;> simp, ?_, ?_⟩
      · rw [List.pairwise_append]
        refine ⟨by split <;> simp, h1, ?_⟩
        intro a ha b hb'
        split at ha
        · simp at ha; subst ha; exact Nat.le_of_lt (hge b hb')
        · simp at ha
      · intro a ha b hb'
        have ha' : a = i := by
          split at ha
          · simpa using ha
          · simp at ha
        subst ha'
        rw [List.mem_append] at hb'
        rcases hb' with hb' | hb'
        · split at hb'
          · simp at hb'; omega
          · simp at hb'
        · exact Nat.le_of_lt (hge b hb')
    · intro hext
      have hne : (ext == "") = false := by simpa using hext
      simp only [bucketIds, hne, Bool.false_eq_true, if_false, List.nil_append]
      rw [List.pairwise_append]
      refine ⟨by split <;> simp, h2 hext, ?_⟩
      intro a ha b hb'
      split at ha
      · simp at ha; subst ha; exact hge b hb'
      · simp at ha

theorem changedByExtOf_bucket (changes : ChangesData) (ext : String) :
    ((changedByExtOf changes).lookup ext).getD [] =
      if ext = anyChange then
        bucketIds anyChange changes.newFiles 0 ++ [changes.newFileContent.length]
      else bucketIds ext changes.newFiles 0 := by
  rw [changedByExtOf_lookup]
  by_cases h : ext = anyChange
  · simp [h]
  · rw [if_neg h, if_neg h]
    by_cases hb : bucketIds ext changes.newFiles 0 = []
    · simp [hb]
    · simp [hb]

theorem changedByExtOf_bucket_sorted (changes : ChangesData) (hpar : changes.parallel = true)
    (ext : String) :
    (((changedByExtOf changes).lookup ext).getD []).Pairwise (· ≤ ·) := by
  have hp := hpar
  simp only [ChangesData.parallel, Bool.and_eq_true, beq_iff_eq] at hp
  rw [changedByExtOf_bucket]
  split
  · rw [List.pairwise_append]
    refine ⟨(bucketIds_sorted anyChange changes.newFiles 0).1, by simp, ?_⟩
    intro a ha b hb
    have hbound := bucketIds_bound anyChange changes.newFiles 0 a ha
    simp only [List.mem_singleton] at hb
    omega
  · exact (bucketIds_sorted ext changes.newFiles 0).1

/-- The claim C25 fails for a rule with several extensions: for the change set
`a.py`, `b.c`, `c.py` and a rule that lists the extension `py` before `c`, the
task of `c.py` stands before the task of `b.c`, although `b.c` occurs before
`c.py` in the change set. -/
theorem expansion_order_across_extensions :
    threeFiles.newFiles = ["a.py", "b.c", "c.py"] ∧
    (pyAndCRule .RETURN).file = some { ext := ["py", "c"] } ∧
    ∃ st, create demoRegex demoFs (demoGit threeFiles) demoConfig [pyAndCRule .RETURN] = .ok st ∧
      taskFiles st.phases.forNew = ["a.py", "c.py", "b.c"] :=
  ⟨rfl, rfl, _, rfl, rfl⟩

/-- C25 (amended): the pass of expansion for an enabled rule over files visits
the buckets of the rule's extensions one after the other, in the order of the
rule's extension list, and each bucket in the order in which its files occur in
the change set (the file ids of a bucket are ascending). The tasks that the
pass appends to the new-tree phase, and to the old-tree phase for a rule of
kind DIFF_WITH_CHECKOUT, carry the names of the accepted files in this
visiting order. So the tasks of a rule with one extension stand in change-set
order, while the tasks of a rule with several extensions are grouped by
extension and stand in change-set order within each group only. -/
theorem expansion_order_within_rule (re : RegexLib) (fs : FsLib) (git : GitRepo) (config : CreatorConfig)
    (changes : ChangesData) (rule : TaskType) (file : TaskType.File) (s s' : CreateState)
    (henabled : rule.enabled = true)
    (htarget : rule.targetType = TargetType.FILE ∨ rule.targetType = TargetType.ADDED_TEXT ∨
      rule.targetType = TargetType.FILE_NAME)
    (hfile : rule.file = some file)
    (hpar : changes.parallel = true)
    (h : forTaskTypes re fs git config (withAnyChange changes) (changedByExtOf changes) [rule] s =
      .ok s') :
    taskFiles s'.phases.forNew = taskFiles s.phases.forNew ++
      (acceptedNames fs (withAnyChange changes) file
        (visitedIds (changedByExtOf changes) file.ext)).flatMap
        (List.replicate (newTasksPerFile rule.process.testType)) ∧
    taskFiles s'.phases.forOld = taskFiles s.phases.forOld ++
      (acceptedNames fs (withAnyChange changes) file
        (visitedIds (changedByExtOf changes) file.ext)).flatMap
        (List.replicate (oldTasksPerFile rule.process.testType)) ∧
    visitedIds (changedByExtOf changes) file.ext =
      file.ext.flatMap (fun ext =>
        if ext = anyChange then
          bucketIds anyChange changes.newFiles 0 ++ [changes.newFiles.length]
        else bucketIds ext changes.newFiles 0) ∧
    (∀ ext, (((changedByExtOf changes).lookup ext).getD []).Pairwise (· ≤ ·)) ∧
    (∀ ext, file.ext = [ext] →
      (visitedIds (changedByExtOf changes) file.ext).Pairwise (· ≤ ·)) := by
  have hp := hpar
  simp only [ChangesData.parallel, Bool.and_eq_true, beq_iff_eq] at hp
  have hpass : forFileIds re fs git config (withAnyChange changes) rule file
      (visitedIds (changedByExtOf changes) file.ext) s = .ok s' := by
    rw [← forExts_eq_forFileIds]
    rw [forTaskTypes_single _ _ _ _ _ _ _ _ henabled] at h
    rcases htarget with ht | ht | ht <;>
      · rw [ht] at h
        simpa only [forEachFile, hfile] using h
  have hnames := forFileIds_taskFiles re fs git config (withAnyChange changes) rule file _ s s' hpass
  refine ⟨hnames.1, hnames.2, ?_, changedByExtOf_bucket_sorted changes hpar, ?_⟩
  · unfold visitedIds
    congr 1
    funext ext
    rw [changedByExtOf_bucket, hp.1]
  · intro ext hext
    rw [hext]
    simpa [visitedIds] using changedByExtOf_bucket_sorted changes hpar ext

theorem expansion_order_within_rule_witness :
    ∃ s', forTaskTypes demoRegex demoFs (demoGit threeFiles) demoConfig (withAnyChange threeFiles)
        (changedByExtOf threeFiles) [pyRule .RETURN] {} = .ok s' ∧
      taskFiles s'.phases.forNew = ["a.py", "c.py"] ∧
      visitedIds (changedByExtOf threeFiles) ["py"] = [0, 2] :=
  ⟨_, rfl,
    (expansion_order_within_rule demoRegex demoFs (demoGit threeFiles) demoConfig threeFiles
      (pyRule .RETURN) { ext := ["py"] } {} _ rfl (Or.inl rfl) rfl rfl rfl).1.trans (by decide),
    (expansion_order_within_rule demoRegex demoFs (demoGit threeFiles) demoConfig threeFiles
      (pyRule .RETURN) { ext := ["py"] } {} _ rfl (Or.inl rfl) rfl rfl rfl).2.2.1.trans
      (by decide)⟩

/-! ### The process calls of a run -/

theorem process_holder (re : RegexLib) (git : DiffLib) (heap : Heap) (messages : Messages)
    (status : Int) (p : Processing) (r : Processed)
    (h : p.process re git heap messages status = .ok r) : r.self.holder = p.holder := by
  cases p with
  | ProcessingNoop s => simp only [Processing.process] at h; cases h; rfl
  | ProcessingReturnValue s => simp only [Processing.process] at h; cases h; rfl
  | ProcessingMatch m pat s => simp only [Processing.process] at h; cases h; rfl
  | ProcessingDiff part regex hd s =>
    simp only [Processing.process] at h
    split at h
    · cases h; rfl
    · split at h
      · cases h
      · split at h
        · cases h
        · cases h; rfl

theorem process_heap_other (re : RegexLib) (git : DiffLib) (heap : Heap) (messages : Messages)
    (status : Int) (p : Processing) (r : Processed) (hd : Nat)
    (h : p.process re git heap messages status = .ok r)
    (hother : holderPart hd p = none) : r.heap hd = heap hd := by
  cases p with
  | ProcessingNoop s => simp only [Processing.process] at h; cases h; rfl
  | ProcessingReturnValue s => simp only [Processing.process] at h; cases h; rfl
  | ProcessingMatch m pat s => simp only [Processing.process] at h; cases h; rfl
  | ProcessingDiff part regex hd' s =>
    have hne : hd ≠ hd' := by
      intro heq
      simp [holderPart, Processing.holder, heq] at hother
    simp only [Processing.process] at h
    split at h
    · cases h; exact Function.update_noteq hne _ _
    · split at h
      · cases h
      · split at h
        · cases h
        · cases h; exact Function.update_noteq hne _ _

theorem processCalls_append (t1 t2 : List Event) :
    processCalls (t1 ++ t2) = processCalls t1 ++ processCalls t2 := by
  simp [processCalls, List.filterMap_append]

theorem deliveries_calls (phases : TaskPhases) (h : Nat) (t1 t2 : List Event)
    (hcalls : processCalls t1 = processCalls t2) :
    deliveries phases h t1 = deliveries phases h t2 := by
  simp only [deliveries, hcalls]

theorem processCalls_runEvents (stage : Stage) (tasks : List Task) :
    ∀ i, processCalls (runEvents stage i tasks) = [] := by
  induction tasks with
  | nil => intro i; rfl
  | cons t rest ih =>
    intro i
    simp only [runEvents, processCalls, List.filterMap_cons]
    exact ih (i + 1)

theorem processCalls_prints (msgs : Messages) : processCalls (msgs.map Event.print) = [] := by
  induction msgs with
  | nil => rfl
  | cons m rest ih =>
    simp only [List.map_cons, processCalls, List.filterMap_cons]
    exact ih


theorem map_set_same {α β : Type} (f : α → β) :
    ∀ (l : List α) (i : Nat) (a b : α), l[i]? = some a → f b = f a →
      (l.set i b).map f = l.map f := by
  intro l
  induction l with
  | nil => intro i a b h _; simp
  | cons x xs ih =>
    intro i a b h hf
    cases i with
    | zero =>
      simp only [List.getElem?_cons_zero, Option.some.injEq] at h
      subst h
      simp [hf]
    | succ n =>
      simp only [List.getElem?_cons_succ] at h
      simp [ih n a b h hf]

theorem frame_processingOf (stage : Stage) (p1 p2 : TaskPhases) (h : p1.frame = p2.frame) :
    (processingOf stage p1).map Processing.holder =
      (processingOf stage p2).map Processing.holder := by
  simp only [TaskPhases.frame, Prod.mk.injEq] at h
  cases stage <;> simp [processingOf, h]

theorem frame_setProcessing (stage : Stage) (phases : TaskPhases) (ps : List Processing)
    (h : ps.map Processing.holder = (processingOf stage phases).map Processing.holder) :
    (setProcessing stage phases ps).frame = phases.frame := by
  cases stage <;> simp_all [TaskPhases.frame, setProcessing, processingOf]

theorem frame_tasks (p1 p2 : TaskPhases) (h : p1.frame = p2.frame) :
    p1.forOld = p2.forOld ∧ p1.build = p2.build ∧ p1.forNew = p2.forNew := by
  simp only [TaskPhases.frame, Prod.mk.injEq] at h
  exact ⟨h.1, h.2.1, h.2.2.1⟩

theorem frame_holderPart (stage : Stage) (p1 p2 : TaskPhases) (h : p1.frame = p2.frame)
    (i : Nat) (p : Processing) (hp : (processingOf stage p1)[i]? = some p) (hd : Nat) :
    ∃ q, (processingOf stage p2)[i]? = some q ∧ holderPart hd q = holderPart hd p := by
  have hm := frame_processingOf stage p1 p2 h
  have h1 : ((processingOf stage p1).map Processing.holder)[i]? = some p.holder := by
    rw [List.getElem?_map, hp]; rfl
  rw [hm, List.getElem?_map] at h1
  cases hq : (processingOf stage p2)[i]? with
  | none => rw [hq] at h1; cases h1
  | some q =>
    rw [hq] at h1
    simp only [Option.map_some', Option.some.injEq] at h1
    exact ⟨q, rfl, by simp [holderPart, h1]⟩

/-- The two ways in which the body of a loop over task results ends: early,
with nothing changed but the fault, or after a call of `process` that
returned. -/
theorem processResult_shape (w : World) (stage : Stage) (i : Nat) (result : TaskResult)
    (st : MainState) :
    ((processResult w stage i result st).phases = st.phases ∧
      (processResult w stage i result st).heap = st.heap ∧
      (processResult w stage i result st).trace = st.trace ∧
      (processResult w stage i result st).fault ≠ none) ∨
    (∃ processing r evs,
      (processingOf stage st.phases)[i]? = some processing ∧
      processing.process w.re w.diff st.heap result.msgs result.status = .ok r ∧
      (processResult w stage i result st).phases =
        setProcessing stage st.phases ((processingOf stage st.phases).set i r.self) ∧
      (processResult w stage i result st).heap = r.heap ∧
      (processResult w stage i result st).trace =
        st.trace ++ Event.processed stage i r.self.getStatus :: evs ∧
      processCalls evs = []) := by
  unfold processResult
  cases hl : (processingOf stage st.phases)[i]? with
  | none => left; simp
  | some processing =>
    simp only []
    cases hp : processing.process w.re w.diff st.heap result.msgs result.status with
    | error e => left; simp
    | ok r =>
      right
      simp only []
      cases hs : r.self.getStatus with
      | none =>
        refine ⟨processing, r, [], rfl, hp, ?_⟩
        cases stage <;> simp [hs, processCalls]
      | some status =>
        cases stage
        · exact ⟨processing, r, r.msgs.map Event.print, rfl, hp, by simp [hs],
            by simp, by simp [hs], processCalls_prints _⟩
        · exact ⟨processing, r, [], rfl, hp, by simp [hs], by simp, by simp [hs], rfl⟩
        · exact ⟨processing, r, r.msgs.map Event.print, rfl, hp, by simp [hs],
            by simp, by simp [hs], processCalls_prints _⟩
        · refine ⟨processing, r, Event.logStatus status :: Event.logDescr result.descr ::
            r.msgs.map Event.print, rfl, hp, by simp [hs], by simp, by simp [hs], ?_⟩
          simp only [processCalls, List.filterMap_cons]
          exact processCalls_prints _

theorem deliveries_append (phases : TaskPhases) (h : Nat) (t1 t2 : List Event) :
    deliveries phases h (t1 ++ t2) = deliveries phases h t1 ++ deliveries phases h t2 := by
  simp [deliveries, processCalls_append, List.filterMap_append]

theorem deliveries_processed (phases : TaskPhases) (h : Nat) (stage : Stage) (i : Nat)
    (status : Option Int) (evs : List Event) (hevs : processCalls evs = []) :
    deliveries phases h (Event.processed stage i status :: evs) =
      match (processingOf stage phases)[i]? with
      | some p => (holderPart h p).toList
      | none => [] := by
  simp only [deliveries, processCalls, List.filterMap_cons]
  have h0 : List.filterMap (fun ev =>
      match ev with
      | Event.processed stage i _ => some (stage, i)
      | _ => none) evs = [] := hevs
  rw [h0]
  cases (processingOf stage phases)[i]? with
  | none => rfl
  | some p => cases holderPart h p <;> rfl

theorem frame_quiet (c : TaskPhases) (st st' : MainState) (hp : st'.phases = st.phases)
    (hh : st'.heap = st.heap) (hc : processCalls st'.trace = processCalls st.trace)
    (hinv : st.phases.frame = c.frame ∧
      ∀ h, deliveries c h st.trace = [] → (st.heap h).count = 0) :
    st'.phases.frame = c.frame ∧
      ∀ h, deliveries c h st'.trace = [] → (st'.heap h).count = 0 := by
  refine ⟨by rw [hp]; exact hinv.1, fun h hd => ?_⟩
  rw [hh]
  exact hinv.2 h (by rw [← deliveries_calls c h _ _ hc]; exact hd)

theorem processResult_frame (w : World) (stage : Stage) (i : Nat) (result : TaskResult)
    (c : TaskPhases) (st : MainState)
    (hinv : st.phases.frame = c.frame ∧
      ∀ h, deliveries c h st.trace = [] → (st.heap h).count = 0) :
    (processResult w stage i result st).phases.frame = c.frame ∧
      ∀ h, deliveries c h (processResult w stage i result st).trace = [] →
        ((processResult w stage i result st).heap h).count = 0 := by
  rcases processResult_shape w stage i result st with ⟨hp, hh, ht, -⟩ |
    ⟨processing, r, evs, hl, hproc, hp, hh, ht, hevs⟩
  · exact frame_quiet c st _ hp hh (by rw [ht]) hinv
  · constructor
    · rw [hp, frame_setProcessing, hinv.1]
      exact map_set_same Processing.holder _ i processing r.self hl
        (process_holder _ _ _ _ _ _ _ hproc)
    · intro h hd
      rw [ht, deliveries_append, List.append_eq_nil, deliveries_processed c h stage i _ evs hevs]
        at hd
      obtain ⟨q, hq, hqp⟩ := frame_holderPart stage st.phases c hinv.1 i processing hl h
      rw [hq] at hd
      have hnone : holderPart h processing = none := by
        rw [← hqp]
        cases hx : holderPart h q with
        | none => rfl
        | some x =>
          have hd2 := hd.2
          simp only [hx, Option.toList_some] at hd2
          cases hd2
      rw [hh, process_heap_other _ _ _ _ _ _ _ h hproc hnone]
      exact hinv.2 h hd.1

theorem andThen_frame (c : TaskPhases) (st : MainState) (next : MainState → MainState)
    (hinv : st.phases.frame = c.frame ∧
      ∀ h, deliveries c h st.trace = [] → (st.heap h).count = 0)
    (hnext : ∀ s : MainState, (s.phases.frame = c.frame ∧
        ∀ h, deliveries c h s.trace = [] → (s.heap h).count = 0) →
      ((next s).phases.frame = c.frame ∧
        ∀ h, deliveries c h (next s).trace = [] → ((next s).heap h).count = 0)) :
    (st.andThen next).phases.frame = c.frame ∧
      ∀ h, deliveries c h (st.andThen next).trace = [] →
        ((st.andThen next).heap h).count = 0 := by
  unfold MainState.andThen
  cases st.fault with
  | none => exact hnext st hinv
  | some e => exact hinv

theorem processResults_frame (w : World) (stage : Stage) (c : TaskPhases)
    (results : List TaskResult) :
    ∀ (i : Nat) (st : MainState),
      (st.phases.frame = c.frame ∧
        ∀ h, deliveries c h st.trace = [] → (st.heap h).count = 0) →
      ((processResults w stage i results st).phases.frame = c.frame ∧
        ∀ h, deliveries c h (processResults w stage i results st).trace = [] →
          ((processResults w stage i results st).heap h).count = 0) := by
  induction results with
  | nil => intro i st hinv; exact hinv
  | cons result rest ih =>
    intro i st hinv
    simp only [processResults]
    exact andThen_frame c _ _ (processResult_frame w stage i result c st hinv)
      (fun s hs => ih (i + 1) s hs)

theorem startTasks_calls (w : World) (stage : Stage) (forceThreadNum : Nat)
    (tasks : List Task) (st : MainState) :
    (startTasks w stage forceThreadNum tasks st).heap = st.heap ∧
    processCalls (startTasks w stage forceThreadNum tasks st).trace = processCalls st.trace := by
  unfold startTasks
  split
  · exact ⟨rfl, rfl⟩
  · split
    · exact ⟨rfl, by simp [processCalls_append, processCalls_runEvents]⟩
    · exact ⟨rfl, by simp [processCalls_append, processCalls_runEvents]⟩

theorem startTasks_frame (w : World) (stage : Stage) (forceThreadNum : Nat)
    (tasks : List Task) (c : TaskPhases) (st : MainState)
    (hinv : st.phases.frame = c.frame ∧
      ∀ h, deliveries c h st.trace = [] → (st.heap h).count = 0) :
    (startTasks w stage forceThreadNum tasks st).phases.frame = c.frame ∧
      ∀ h, deliveries c h (startTasks w stage forceThreadNum tasks st).trace = [] →
        ((startTasks w stage forceThreadNum tasks st).heap h).count = 0 :=
  frame_quiet c st _ (startTasks_tasks w stage forceThreadNum tasks st)
    (startTasks_calls w stage forceThreadNum tasks st).1
    (startTasks_calls w stage forceThreadNum tasks st).2 hinv

theorem runBuild_frame (w : World) (stage : Stage) (c : TaskPhases) (st : MainState)
    (hinv : st.phases.frame = c.frame ∧
      ∀ h, deliveries c h st.trace = [] → (st.heap h).count = 0) :
    (runBuild w stage st).phases.frame = c.frame ∧
      ∀ h, deliveries c h (runBuild w stage st).trace = [] →
        ((runBuild w stage st).heap h).count = 0 := by
  unfold runBuild
  split
  · exact andThen_frame c _ _ (startTasks_frame w stage 1 _ c st hinv)
      (fun s hs => processResults_frame w stage c _ 0 s hs)
  · exact hinv

theorem doCheckout_calls (w : World) (rev : String) (st : MainState) :
    (doCheckout w rev st).phases = st.phases ∧ (doCheckout w rev st).heap = st.heap ∧
    processCalls (doCheckout w rev st).trace = processCalls st.trace := by
  unfold doCheckout
  split <;> simp [processCalls_append, processCalls]

theorem doCheckoutHead_calls (w : World) (headData : HeadData) (st : MainState) :
    (doCheckoutHead w headData st).phases = st.phases ∧
    (doCheckoutHead w headData st).heap = st.heap ∧
    processCalls (doCheckoutHead w headData st).trace = processCalls st.trace := by
  unfold doCheckoutHead MainState.andThen
  have h := doCheckout_calls w headData.sha
    { st with trace := st.trace ++ [Event.checkoutHead headData] }
  have ht : processCalls (st.trace ++ [Event.checkoutHead headData]) = processCalls st.trace := by
    simp [processCalls_append, processCalls]
  split
  · exact ⟨h.1, h.2.1, by rw [h.2.2]; exact ht⟩
  · split
    · exact ⟨h.1, h.2.1, by rw [h.2.2]; exact ht⟩
    · exact ⟨h.1, h.2.1, by rw [h.2.2]; exact ht⟩

theorem oldPhase_frame (w : World) (config : CreatorConfig) (headData : HeadData)
    (c : TaskPhases) (st : MainState)
    (hinv : st.phases.frame = c.frame ∧
      ∀ h, deliveries c h st.trace = [] → (st.heap h).count = 0) :
    (oldPhase w config headData st).phases.frame = c.frame ∧
      ∀ h, deliveries c h (oldPhase w config headData st).trace = [] →
        ((oldPhase w config headData st).heap h).count = 0 := by
  unfold oldPhase
  split
  · split
    · refine andThen_frame c _ _ (andThen_frame c _ _ (andThen_frame c _ _ (andThen_frame c _ _ ?_ ?_)
        ?_) ?_) ?_
      · exact frame_quiet c st _ (doCheckout_calls w _ st).1 (doCheckout_calls w _ st).2.1
          (doCheckout_calls w _ st).2.2 hinv
      · exact fun s hs => runBuild_frame w .buildOld c s hs
      · exact fun s hs => startTasks_frame w .old 0 _ c s hs
      · exact fun s hs => processResults_frame w .old c _ 0 s hs
      · exact fun s hs => frame_quiet c s _ (doCheckoutHead_calls w headData s).1
          (doCheckoutHead_calls w headData s).2.1 (doCheckoutHead_calls w headData s).2.2 hs
    · exact frame_quiet c st _ rfl rfl (by simp [processCalls_append, processCalls]) hinv
  · exact hinv


theorem processResult_calls (w : World) (stage : Stage) (i : Nat) (result : TaskResult)
    (st : MainState) (h : (processResult w stage i result st).fault = none) :
    processCalls (processResult w stage i result st).trace =
      processCalls st.trace ++ [(stage, i)] := by
  rcases processResult_shape w stage i result st with ⟨-, -, -, hf⟩ |
    ⟨processing, r, evs, -, -, -, -, ht, hevs⟩
  · exact absurd h hf
  · rw [ht, processCalls_append]
    simp only [processCalls, List.filterMap_cons]
    have h0 : List.filterMap (fun ev =>
        match ev with
        | Event.processed stage i _ => some (stage, i)
        | _ => none) evs = [] := hevs
    rw [h0]

theorem processResults_calls (w : World) (stage : Stage) (results : List TaskResult) :
    ∀ (i : Nat) (st : MainState), (processResults w stage i results st).fault = none →
      processCalls (processResults w stage i results st).trace =
        processCalls st.trace ++ (List.range' i results.length).map (fun k => (stage, k)) := by
  induction results with
  | nil => intro i st _; simp [processResults]
  | cons result rest ih =>
    intro i st h
    simp only [processResults] at h ⊢
    obtain ⟨h1, h2⟩ := andThen_of_fault_none _ _ h
    rw [h2] at h ⊢
    rw [ih (i + 1) _ h, processResult_calls w stage i result st h1]
    simp [List.range'_succ]

theorem runBuild_calls (w : World) (stage : Stage) (st : MainState)
    (h : (runBuild w stage st).fault = none) :
    processCalls (runBuild w stage st).trace =
      processCalls st.trace ++
        (List.range' 0 st.phases.build.length).map (fun k => (stage, k)) := by
  unfold runBuild at h ⊢
  split at h
  · rename_i hne
    rw [if_pos hne]
    obtain ⟨-, h2⟩ := andThen_of_fault_none _ _ h
    rw [h2] at h ⊢
    rw [processResults_calls w stage _ 0 _ h, (startTasks_calls w stage 1 _ st).2,
      runTasks_length]
  · rename_i hne
    rw [if_neg hne]
    have h0 : st.phases.build.length = 0 := by simpa using hne
    simp [h0]

theorem range_filterMap_lookup {β : Type} (f : Processing → Option β) :
    ∀ (ps pre post : List Processing),
      (List.range' pre.length ps.length).filterMap (fun k =>
        match (pre ++ ps ++ post)[k]? with
        | some p => f p
        | none => none) = ps.filterMap f := by
  intro ps
  induction ps with
  | nil => intro pre post; simp
  | cons p rest ih =>
    intro pre post
    have hl : (pre ++ p :: rest ++ post)[pre.length]? = some p := by
      rw [List.append_assoc, List.getElem?_append_right (Nat.le_refl _)]
      simp
    have hrest := ih (pre ++ [p]) post
    simp only [List.length_append, List.length_singleton, List.append_assoc,
      List.singleton_append] at hrest
    simp only [List.length_cons, List.range'_succ, List.filterMap_cons, hl]
    simp only [List.append_assoc, List.cons_append] at hrest ⊢
    rw [hrest]

theorem deliveries_stage (phases : TaskPhases) (h : Nat) (stage : Stage) (k : Nat)
    (calls : List (Stage × Nat)) :
    ((List.range' 0 k).map (fun i => (stage, i)) ++ calls).filterMap (fun call =>
        match (processingOf call.1 phases)[call.2]? with
        | some p => holderPart h p
        | none => none) =
      holdersIn ((processingOf stage phases).take k) h ++
        calls.filterMap (fun call =>
          match (processingOf call.1 phases)[call.2]? with
          | some p => holderPart h p
          | none => none) := by
  rw [List.filterMap_append, List.filterMap_map]
  congr 1
  by_cases hk : k ≤ (processingOf stage phases).length
  · have h1 := range_filterMap_lookup (holderPart h) ((processingOf stage phases).take k) []
      ((processingOf stage phases).drop k)
    simp only [List.length_nil, List.nil_append, List.take_append_drop, List.length_take,
      Nat.min_eq_left hk] at h1
    exact h1
  · have hk2 : (processingOf stage phases).length ≤ k := by omega
    rw [List.take_of_length_le hk2]
    have hsplit : List.range' 0 k = List.range' 0 (processingOf stage phases).length ++
        List.range' (processingOf stage phases).length
          (k - (processingOf stage phases).length) := by
      have h3 := @List.range'_append_1 0 (processingOf stage phases).length
        (k - (processingOf stage phases).length)
      rw [Nat.zero_add] at h3
      rw [h3]
      congr 1
      omega
    rw [hsplit, List.filterMap_append]
    have h1 := range_filterMap_lookup (holderPart h) (processingOf stage phases) [] []
    simp only [List.length_nil, List.nil_append, List.append_nil] at h1
    have h2 : List.filterMap ((fun call : Stage × Nat =>
          match (processingOf call.1 phases)[call.2]? with
          | some p => holderPart h p
          | none => none) ∘ fun i => (stage, i))
        (List.range' (processingOf stage phases).length
          (k - (processingOf stage phases).length)) = [] := by
      rw [List.filterMap_eq_nil_iff]
      intro i hi
      rw [List.mem_range'_1] at hi
      simp only [Function.comp]
      rw [List.getElem?_eq_none (by omega)]
    rw [h2, List.append_nil]
    exact h1


theorem oldTreeSteps_calls (w : World) (config : CreatorConfig) (st : MainState)
    (h : (oldTreeSteps w config st).fault = none) :
    processCalls (oldTreeSteps w config st).trace =
      processCalls st.trace ++
        ((List.range' 0 st.phases.build.length).map (fun k => (Stage.buildOld, k)) ++
          (List.range' 0 st.phases.forOld.length).map (fun k => (Stage.old, k))) := by
  unfold oldTreeSteps at h ⊢
  obtain ⟨h3, e3⟩ := andThen_of_fault_none _ _ h
  obtain ⟨h2, e2⟩ := andThen_of_fault_none _ _ h3
  obtain ⟨h1, e1⟩ := andThen_of_fault_none _ _ h2
  rw [e3] at h ⊢
  rw [processResults_calls w .old _ 0 _ h, runTasks_length]
  rw [e2] at h3 ⊢
  rw [startTasks_tasks, (startTasks_calls w .old 0 _ _).2]
  rw [e1] at h2 ⊢
  rw [runBuild_calls w .buildOld _ h2, (runBuild_tasks w .buildOld _).1,
    (doCheckout_calls w config.remoteSha st).1, (doCheckout_calls w config.remoteSha st).2.2,
    List.append_assoc]

theorem oldPhase_eq (w : World) (config : CreatorConfig) (headData : HeadData)
    (st : MainState) :
    oldPhase w config headData st =
      if st.phases.forOld.length != 0 then
        if w.git.canCheckout config.remoteSha then
          (oldTreeSteps w config st).andThen (doCheckoutHead w headData)
        else { st with resultStatus := 1, trace := st.trace ++ [Event.checkoutFailed] }
      else st := rfl

theorem oldPhase_calls (w : World) (config : CreatorConfig) (headData : HeadData)
    (st : MainState) (h : (oldPhase w config headData st).fault = none) :
    processCalls (oldPhase w config headData st).trace =
      processCalls st.trace ++
        (if st.phases.forOld.length != 0 && w.git.canCheckout config.remoteSha then
          (List.range' 0 st.phases.build.length).map (fun k => (Stage.buildOld, k)) ++
            (List.range' 0 st.phases.forOld.length).map (fun k => (Stage.old, k))
        else []) := by
  rw [oldPhase_eq] at h ⊢
  by_cases hold : (st.phases.forOld.length != 0) = true
  · rw [if_pos hold] at h ⊢
    by_cases hcan : w.git.canCheckout config.remoteSha = true
    · rw [if_pos hcan] at h ⊢
      obtain ⟨h1, e1⟩ := andThen_of_fault_none _ _ h
      rw [e1, (doCheckoutHead_calls w headData _).2.2, oldTreeSteps_calls w config st h1]
      simp [hold, hcan]
    · rw [if_neg hcan] at h ⊢
      simp [hold, hcan, processCalls_append, processCalls]
  · rw [if_neg hold] at h ⊢
    simp [hold]



/-! ### Expansion: who holds a shared diff state -/

theorem holdersIn_append (a b : List Processing) (h : Nat) :
    holdersIn (a ++ b) h = holdersIn a h ++ holdersIn b h := by
  simp [holdersIn, List.filterMap_append]

theorem holdersIn_plain (p : Processing) (hp : p.holder = none) (h : Nat) :
    holdersIn [p] h = [] := by
  simp [holdersIn, holderPart, hp]

theorem holdersIn_diff (diffPart : DiffPart) (regex : String) (d h : Nat) :
    holdersIn [Processing.freshDiff diffPart regex d] h = if d = h then [diffPart] else [] := by
  by_cases hd : d = h <;> simp [holdersIn, holderPart, Processing.freshDiff, Processing.holder, hd]

theorem pairedAt_iff (phases : TaskPhases) (diffStates h : Nat) :
    pairedAt phases diffStates h = true ↔
      holdersIn phases.processingBuild h = [] ∧
      ((h < diffStates ∧
          ((holdersIn phases.processingForOld h = [] ∧
              holdersIn phases.processingForNew h = [DiffPart.A, DiffPart.B]) ∨
            (holdersIn phases.processingForOld h = [DiffPart.A] ∧
              holdersIn phases.processingForNew h = [DiffPart.B]))) ∨
        (diffStates ≤ h ∧ holdersIn phases.processingForOld h = [] ∧
          holdersIn phases.processingForNew h = [])) := by
  unfold pairedAt
  by_cases hlt : h < diffStates
  · have hnle : ¬ diffStates ≤ h := by omega
    simp [hlt, hnle]
  · have hle : diffStates ≤ h := by omega
    simp [hlt, hle]

theorem paired_pushNew_plain (s : CreateState) (task : Task) (p : Processing)
    (hp : p.holder = none)
    (hinv : s.phases.aligned = true ∧ ∀ h, pairedAt s.phases s.diffStates h = true) :
    (s.pushNew task p).phases.aligned = true ∧
      ∀ h, pairedAt (s.pushNew task p).phases (s.pushNew task p).diffStates h = true := by
  obtain ⟨ha, hpair⟩ := hinv
  constructor
  · simp only [TaskPhases.aligned, Bool.and_eq_true, beq_iff_eq] at ha ⊢
    simp [CreateState.pushNew, ha]
  · intro h
    have hh := (pairedAt_iff _ _ _).1 (hpair h)
    rw [pairedAt_iff]
    simpa [CreateState.pushNew, holdersIn_append, holdersIn_plain p hp] using hh

theorem paired_pushBuild_plain (s : CreateState) (task : Task) (p : Processing)
    (hp : p.holder = none)
    (hinv : s.phases.aligned = true ∧ ∀ h, pairedAt s.phases s.diffStates h = true) :
    (s.pushBuild task p).phases.aligned = true ∧
      ∀ h, pairedAt (s.pushBuild task p).phases (s.pushBuild task p).diffStates h = true := by
  obtain ⟨ha, hpair⟩ := hinv
  constructor
  · simp only [TaskPhases.aligned, Bool.and_eq_true, beq_iff_eq] at ha ⊢
    simp [CreateState.pushBuild, ha]
  · intro h
    have hh := (pairedAt_iff _ _ _).1 (hpair h)
    rw [pairedAt_iff]
    simpa [CreateState.pushBuild, holdersIn_append, holdersIn_plain p hp] using hh

theorem paired_diff_new (s : CreateState) (t1 t2 : Task) (regex : String)
    (hinv : s.phases.aligned = true ∧ ∀ h, pairedAt s.phases s.diffStates h = true) :
    (((s.pushNew t1 (Processing.freshDiff .A regex s.diffStates)).madeShared).pushNew t2
        (Processing.freshDiff .B regex s.diffStates)).phases.aligned = true ∧
      ∀ h, pairedAt
        (((s.pushNew t1 (Processing.freshDiff .A regex s.diffStates)).madeShared).pushNew t2
          (Processing.freshDiff .B regex s.diffStates)).phases
        (((s.pushNew t1 (Processing.freshDiff .A regex s.diffStates)).madeShared).pushNew t2
          (Processing.freshDiff .B regex s.diffStates)).diffStates h = true := by
  obtain ⟨ha, hpair⟩ := hinv
  constructor
  · simp only [TaskPhases.aligned, Bool.and_eq_true, beq_iff_eq] at ha ⊢
    simp [CreateState.pushNew, CreateState.madeShared, ha]
  · intro h
    have hh := (pairedAt_iff _ _ _).1 (hpair h)
    rw [pairedAt_iff]
    simp only [CreateState.pushNew, CreateState.madeShared, holdersIn_append, holdersIn_diff]
    by_cases hd : s.diffStates = h
    · subst hd
      rcases hh with ⟨hb, ⟨hlt, -⟩ | ⟨-, ho, hn⟩⟩
      · omega
      · simp [hb, ho, hn]
    · rcases hh with ⟨hb, ⟨hlt, hcase⟩ | ⟨hle, ho, hn⟩⟩
      · refine ⟨hb, Or.inl ⟨by omega, ?_⟩⟩
        simpa [hd] using hcase
      · refine ⟨hb, Or.inr ⟨by omega, ?_⟩⟩
        simp [hd, ho, hn]

theorem paired_diff_old (s : CreateState) (t1 t2 : Task) (regex : String)
    (hinv : s.phases.aligned = true ∧ ∀ h, pairedAt s.phases s.diffStates h = true) :
    (((s.pushOld t1 (Processing.freshDiff .A regex s.diffStates)).madeShared).pushNew t2
        (Processing.freshDiff .B regex s.diffStates)).phases.aligned = true ∧
      ∀ h, pairedAt
        (((s.pushOld t1 (Processing.freshDiff .A regex s.diffStates)).madeShared).pushNew t2
          (Processing.freshDiff .B regex s.diffStates)).phases
        (((s.pushOld t1 (Processing.freshDiff .A regex s.diffStates)).madeShared).pushNew t2
          (Processing.freshDiff .B regex s.diffStates)).diffStates h = true := by
  obtain ⟨ha, hpair⟩ := hinv
  constructor
  · simp only [TaskPhases.aligned, Bool.and_eq_true, beq_iff_eq] at ha ⊢
    simp [CreateState.pushNew, CreateState.pushOld, CreateState.madeShared, ha]
  · intro h
    have hh := (pairedAt_iff _ _ _).1 (hpair h)
    rw [pairedAt_iff]
    simp only [CreateState.pushNew, CreateState.pushOld, CreateState.madeShared,
      holdersIn_append, holdersIn_diff]
    by_cases hd : s.diffStates = h
    · subst hd
      rcases hh with ⟨hb, ⟨hlt, -⟩ | ⟨-, ho, hn⟩⟩
      · omega
      · simp [hb, ho, hn]
    · rcases hh with ⟨hb, ⟨hlt, hcase⟩ | ⟨hle, ho, hn⟩⟩
      · refine ⟨hb, Or.inl ⟨by omega, ?_⟩⟩
        simpa [hd] using hcase
      · refine ⟨hb, Or.inr ⟨by omega, ?_⟩⟩
        simp [hd, ho, hn]

theorem forTaskTypes_paired (re : RegexLib) (fs : FsLib) (git : GitRepo) (config : CreatorConfig)
    (changesData : ChangesData) (changedByExt : ExtMap) (taskTypes : List TaskType)
    (s s' : CreateState)
    (h : forTaskTypes re fs git config changesData changedByExt taskTypes s = .ok s')
    (hinv : s.phases.aligned = true ∧ ∀ h, pairedAt s.phases s.diffStates h = true) :
    s'.phases.aligned = true ∧ ∀ h, pairedAt s'.phases s'.diffStates h = true := by
  refine forTaskTypes_rel re fs git config changesData changedByExt
    (fun a b => (a.phases.aligned = true ∧ ∀ h, pairedAt a.phases a.diffStates h = true) →
      (b.phases.aligned = true ∧ ∀ h, pairedAt b.phases b.diffStates h = true))
    (fun _ hx => hx) (fun _ _ _ hab hbc hx => hbc (hab hx)) ?_ taskTypes s s' h hinv
  intro t a b hstep
  refine step_rel re fs git config changesData changedByExt
    (fun a b => (a.phases.aligned = true ∧ ∀ h, pairedAt a.phases a.diffStates h = true) →
      (b.phases.aligned = true ∧ ∀ h, pairedAt b.phases b.diffStates h = true))
    (fun _ hx => hx) (fun _ _ _ hab hbc hx => hbc (hab hx)) ?_ ?_ ?_ t a b hstep
  · intro t file id x y hone hx
    obtain ⟨fileName, -, hcase⟩ := forOneFile_ok re fs git config changesData t file id x y hone
    rcases hcase with ⟨-, rfl⟩ | ⟨-, content, hkind⟩
    · exact hx
    · rcases hkind with ⟨-, rfl⟩ | ⟨-, rfl⟩ | ⟨-, rfl⟩ | ⟨-, -, oldContent, -, rfl⟩ |
        ⟨-, oldContent, -, rfl⟩
      · exact paired_pushNew_plain x _ _ rfl hx
      · exact paired_pushNew_plain x _ _ rfl hx
      · exact paired_pushNew_plain x _ _ rfl hx
      · exact paired_diff_new x _ _ _ hx
      · exact paired_diff_old x _ _ _ hx
  · intro t x y hb hx
    obtain ⟨-, rfl⟩ := forBuild_ok t x y hb
    exact paired_pushBuild_plain x _ _ rfl hx
  · intro t x y hc hx
    obtain ⟨text, processing, -, hkind, rfl⟩ := forCommitText_ok re git config t x y hc
    refine paired_pushNew_plain x _ _ ?_ hx
    rcases hkind with ⟨-, rfl⟩ | ⟨-, rfl⟩ | ⟨-, rfl⟩ <;> rfl

theorem create_paired (re : RegexLib) (fs : FsLib) (git : GitRepo) (config : CreatorConfig)
    (taskTypes : TaskTypesMap) (created : CreateState)
    (h : create re fs git config taskTypes = .ok created) :
    created.phases.aligned = true ∧
      ∀ h, pairedAt created.phases created.diffStates h = true := by
  unfold create at h
  split at h
  · cases h
  · exact forTaskTypes_paired re fs git config _ _ taskTypes {} created h
      ⟨rfl, fun h => by simp [pairedAt, holdersIn]⟩


/-! ### The deliveries to a shared diff state -/

theorem runPhases_newTreeStart (w : World) (config : CreatorConfig)
    (taskTypes : TaskTypesMap) (created : CreateState)
    (hcreate : create w.re w.fs w.git config taskTypes = .ok created)
    (hfault : (runPhases w config taskTypes).fault = none) :
    ∃ headData, w.git.getHeadSha = .ok headData ∧
      (newTreeStart w config headData created.phases).fault = none ∧
      (newTreeStart w config headData created.phases).phases.frame = created.phases.frame ∧
      (∀ h, deliveries created.phases h (newTreeStart w config headData created.phases).trace =
          [] → ((newTreeStart w config headData created.phases).heap h).count = 0) ∧
      runPhases w config taskTypes =
        processResults w .new 0 (runTasks w.runner .new 0 created.phases.forNew)
          (newTreeStart w config headData created.phases) := by
  cases hhead : w.git.getHeadSha with
  | error e =>
    exfalso
    simp [runPhases, hcreate, hhead] at hfault
  | ok headData =>
    have hrun : runPhases w config taskTypes =
        (newTreeStart w config headData created.phases).andThen
          (fun st1 =>
            processResults w .new 0 (runTasks w.runner .new 0 st1.phases.forNew) st1) := by
      simp only [runPhases, hcreate, hhead, newTreeStart]
    have hinv : (newTreeStart w config headData created.phases).phases.frame =
          created.phases.frame ∧
        ∀ h, deliveries created.phases h
            (newTreeStart w config headData created.phases).trace = [] →
          ((newTreeStart w config headData created.phases).heap h).count = 0 := by
      unfold newTreeStart
      refine andThen_frame _ _ _ (andThen_frame _ _ _ ?_ ?_) ?_
      · exact oldPhase_frame w config headData created.phases _ ⟨rfl, fun _ _ => rfl⟩
      · exact fun s hs => runBuild_frame w .build created.phases s hs
      · exact fun s hs => startTasks_frame w .new 0 _ created.phases s hs
    rw [hrun] at hfault
    obtain ⟨h1, e1⟩ := andThen_of_fault_none _ _ hfault
    refine ⟨headData, rfl, h1, hinv.1, hinv.2, ?_⟩
    rw [hrun, e1, (frame_tasks _ _ hinv.1).2.2]

theorem newTreeStart_calls (w : World) (config : CreatorConfig) (headData : HeadData)
    (phases : TaskPhases)
    (hfault : (newTreeStart w config headData phases).fault = none) :
    processCalls (newTreeStart w config headData phases).trace =
      (if phases.forOld.length != 0 && w.git.canCheckout config.remoteSha then
          (List.range' 0 phases.build.length).map (fun k => (Stage.buildOld, k)) ++
            (List.range' 0 phases.forOld.length).map (fun k => (Stage.old, k))
        else []) ++
        (List.range' 0 phases.build.length).map (fun k => (Stage.build, k)) := by
  unfold newTreeStart at hfault ⊢
  obtain ⟨h2, e2⟩ := andThen_of_fault_none _ _ hfault
  obtain ⟨h1, e1⟩ := andThen_of_fault_none _ _ h2
  rw [e2, (startTasks_calls w .new 0 _ _).2]
  rw [e1] at h2 ⊢
  have hframe := (oldPhase_frame w config headData phases
    { heap := fun _ => {}, phases := phases } ⟨rfl, fun _ _ => rfl⟩).1
  rw [runBuild_calls w .build _ h2, oldPhase_calls w config headData _ h1,
    (frame_tasks _ _ hframe).2.1]
  rfl

theorem take_length_eq {α : Type} (l : List α) (n : Nat) (h : n = l.length) :
    l.take n = l := by
  subst h
  exact List.take_length l

/-- The deliveries that a shared diff state receives in a run that ends without
a fault: those of the old-tree phase, when it runs, and those of the new-tree
phase. -/
theorem run_deliveries_eq (w : World) (config : CreatorConfig)
    (taskTypes : TaskTypesMap) (created : CreateState)
    (hcreate : create w.re w.fs w.git config taskTypes = .ok created)
    (hfault : (runPhases w config taskTypes).fault = none) (h : Nat) :
    deliveries created.phases h (runPhases w config taskTypes).trace =
      (if created.phases.forOld.length != 0 && w.git.canCheckout config.remoteSha then
          holdersIn created.phases.processingForOld h
        else []) ++ holdersIn created.phases.processingForNew h := by
  obtain ⟨headData, -, hf, -, -, hrun⟩ :=
    runPhases_newTreeStart w config taskTypes created hcreate hfault
  obtain ⟨halign, hpair⟩ := create_paired w.re w.fs w.git config taskTypes created hcreate
  simp only [TaskPhases.aligned, Bool.and_eq_true, beq_iff_eq] at halign
  have hb := ((pairedAt_iff _ _ _).1 (hpair h)).1
  rw [hrun] at hfault
  unfold deliveries
  rw [hrun, processResults_calls w .new _ 0 _ hfault, newTreeStart_calls w config headData _ hf,
    runTasks_length]
  have hnew := deliveries_stage created.phases h .new created.phases.forNew.length []
  have hbuild := fun calls =>
    deliveries_stage created.phases h .build created.phases.build.length calls
  have hbuildOld := fun calls =>
    deliveries_stage created.phases h .buildOld created.phases.build.length calls
  have hold := fun calls =>
    deliveries_stage created.phases h .old created.phases.forOld.length calls
  simp only [List.append_nil, List.filterMap_nil] at hnew
  split
  · simp only [List.append_assoc]
    rw [hbuildOld, hold, hbuild, hnew]
    simp only [processingOf]
    rw [take_length_eq _ _ halign.1.2, take_length_eq _ _ halign.1.1,
      take_length_eq _ _ halign.2, hb]
    simp
  · rw [List.nil_append, hbuild, hnew]
    simp only [processingOf]
    rw [take_length_eq _ _ halign.1.2, take_length_eq _ _ halign.2, hb]


/-- The claim C24 fails for a run in which the verification of the old-revision
checkout fails: the old-tree phase is skipped, so the shared diff state of a
DIFF_WITH_CHECKOUT pair gets one call of `process` only, the one of its
B-tagged processor in the new-tree phase, and the run ends normally. -/
theorem checkout_failure_single_delivery :
    noCheckoutWorld.git.canCheckout demoConfig.remoteSha = false ∧
    ∃ created, create noCheckoutWorld.re noCheckoutWorld.fs noCheckoutWorld.git demoConfig
        [pyRule .DIFF_WITH_CHECKOUT] = .ok created ∧
      created.diffStates = 1 ∧
      created.phases.processingForOld = [Processing.freshDiff .A "x" 0] ∧
      created.phases.processingForNew = [Processing.freshDiff .B "x" 0] ∧
      (runPhases noCheckoutWorld demoConfig [pyRule .DIFF_WITH_CHECKOUT]).fault = none ∧
      deliveries created.phases 0
        (runPhases noCheckoutWorld demoConfig [pyRule .DIFF_WITH_CHECKOUT]).trace = [.B] :=
  ⟨rfl, _, rfl, rfl, rfl, rfl, rfl, rfl⟩

/-- C24 (amended): in a run that ends without a fault, no call of `process`
changes the tag or the handle of a processor, and the calls that reach a shared
diff state are those of the processors that hold it, one call each. When the
old-tree phase is empty or the verification of the old-revision checkout
succeeds, every shared diff state made by expansion receives exactly two
calls, the first from its A-tagged and the second from its B-tagged processor.
When the old-tree phase is not empty and the verification fails, the old-tree
phase is skipped: a shared diff state receives the calls of its processors of
the new-tree phase only, which for a state whose A-tagged processor stands in
the old-tree phase is the one call of the B-tagged processor. A handle that
expansion has not handed out receives no call. -/
theorem run_deliveries (w : World) (config : CreatorConfig)
    (taskTypes : TaskTypesMap) (created : CreateState)
    (hcreate : create w.re w.fs w.git config taskTypes = .ok created)
    (hfault : (runPhases w config taskTypes).fault = none) :
    (runPhases w config taskTypes).phases.frame = created.phases.frame ∧
    ((created.phases.forOld = [] ∨ w.git.canCheckout config.remoteSha = true) →
      ∀ h, h < created.diffStates →
        deliveries created.phases h (runPhases w config taskTypes).trace = [.A, .B]) ∧
    (created.phases.forOld ≠ [] → w.git.canCheckout config.remoteSha = false →
      ∀ h, deliveries created.phases h (runPhases w config taskTypes).trace =
          holdersIn created.phases.processingForNew h ∧
        (holdersIn created.phases.processingForOld h = [.A] →
          deliveries created.phases h (runPhases w config taskTypes).trace = [.B])) ∧
    (∀ h, created.diffStates ≤ h →
      deliveries created.phases h (runPhases w config taskTypes).trace = []) := by
  obtain ⟨headData, -, -, hframe, hheap, hrun⟩ :=
    runPhases_newTreeStart w config taskTypes created hcreate hfault
  obtain ⟨halign, hpair⟩ := create_paired w.re w.fs w.git config taskTypes created hcreate
  simp only [TaskPhases.aligned, Bool.and_eq_true, beq_iff_eq] at halign
  have heq := run_deliveries_eq w config taskTypes created hcreate hfault
  refine ⟨?_, ?_, ?_, ?_⟩
  · rw [hrun]
    exact (processResults_frame w .new created.phases _ 0 _ ⟨hframe, hheap⟩).1
  · intro hold h hlt
    rw [heq h]
    obtain ⟨-, hcase⟩ := (pairedAt_iff _ _ _).1 (hpair h)
    rcases hcase with ⟨-, ⟨ho, hn⟩ | ⟨ho, hn⟩⟩ | ⟨hle, -, -⟩
    · rw [ho, hn]
      split <;> rfl
    · rw [ho, hn]
      rcases hold with hnil | hcan
      · exfalso
        have hlen : created.phases.processingForOld.length = 0 := by
          rw [← halign.1.1, hnil]
          rfl
        have hnil2 : created.phases.processingForOld = [] := List.length_eq_zero.1 hlen
        rw [hnil2] at ho
        simp [holdersIn] at ho
      · have hne : created.phases.forOld.length ≠ 0 := by
          intro h0
          have hlen : created.phases.processingForOld.length = 0 := by
            rw [← halign.1.1, h0]
          have hnil2 : created.phases.processingForOld = [] := List.length_eq_zero.1 hlen
          rw [hnil2] at ho
          simp [holdersIn] at ho
        simp [hne, hcan]
    · omega
  · intro hold hcan h
    have hd : deliveries created.phases h (runPhases w config taskTypes).trace =
        holdersIn created.phases.processingForNew h := by
      rw [heq h]
      simp [hcan]
    refine ⟨hd, fun ho => ?_⟩
    rw [hd]
    obtain ⟨-, hcase⟩ := (pairedAt_iff _ _ _).1 (hpair h)
    rcases hcase with ⟨-, ⟨ho2, -⟩ | ⟨-, hn⟩⟩ | ⟨-, ho2, -⟩
    · rw [ho2] at ho; cases ho
    · exact hn
    · rw [ho2] at ho; cases ho
  · intro h hle
    rw [heq h]
    obtain ⟨-, hcase⟩ := (pairedAt_iff _ _ _).1 (hpair h)
    rcases hcase with ⟨hlt, -⟩ | ⟨-, ho, hn⟩
    · omega
    · rw [ho, hn]
      split <;> rfl

theorem run_deliveries_witness :
    ∃ created, create (demoWorld [] 0 [(.NORMAL, "fine")]).re
        (demoWorld [] 0 [(.NORMAL, "fine")]).fs
        (demoWorld [] 0 [(.NORMAL, "fine")]).git demoConfig
        [pyRule .DIFF_WITH_CHECKOUT, pyRule .DIFF] = .ok created ∧
      created.diffStates = 2 ∧
      (runPhases (demoWorld [] 0 [(.NORMAL, "fine")]) demoConfig
        [pyRule .DIFF_WITH_CHECKOUT, pyRule .DIFF]).fault = none ∧
      deliveries created.phases 0
        (runPhases (demoWorld [] 0 [(.NORMAL, "fine")]) demoConfig
          [pyRule .DIFF_WITH_CHECKOUT, pyRule .DIFF]).trace = [.A, .B] ∧
      deliveries created.phases 1
        (runPhases (demoWorld [] 0 [(.NORMAL, "fine")]) demoConfig
          [pyRule .DIFF_WITH_CHECKOUT, pyRule .DIFF]).trace = [.A, .B] :=
  ⟨_, rfl, rfl, rfl,
    (run_deliveries (demoWorld [] 0 [(.NORMAL, "fine")]) demoConfig
      [pyRule .DIFF_WITH_CHECKOUT, pyRule .DIFF] _ rfl rfl).2.1 (Or.inr rfl) 0 (by decide),
    (run_deliveries (demoWorld [] 0 [(.NORMAL, "fine")]) demoConfig
      [pyRule .DIFF_WITH_CHECKOUT, pyRule .DIFF] _ rfl rfl).2.1 (Or.inr rfl) 1 (by decide)⟩


/-! ### The first delivery of a DIFF pair and the exit code -/

theorem processResult_fault_start (w : World) (stage : Stage) (i : Nat) (result : TaskResult)
    (st : MainState) (h : (processResult w stage i result st).fault = none) :
    st.fault = none := by
  unfold processResult at h
  split at h
  · simp at h
  · split at h
    · simp at h
    · cases stage
      · simp only [] at h
        split at h
        · simp at h
        · exact h
      · exact h
      · simp only [] at h
        split at h
        · simp at h
        · exact h
      · simp only [] at h
        split at h
        · simp at h
        · exact h

theorem processResults_fault_start (w : World) (stage : Stage) (results : List TaskResult) :
    ∀ (i : Nat) (st : MainState), (processResults w stage i results st).fault = none →
      st.fault = none := by
  induction results with
  | nil => intro i st h; exact h
  | cons r rest ih =>
    intro i st h
    simp only [processResults] at h
    exact processResult_fault_start w stage i r st (andThen_of_fault_none _ _ h).1

theorem processResults_split (w : World) (stage : Stage) (a b : List TaskResult) :
    ∀ (i : Nat) (st : MainState), (processResults w stage i (a ++ b) st).fault = none →
      (processResults w stage i a st).fault = none ∧
      processResults w stage i (a ++ b) st =
        processResults w stage (i + a.length) b (processResults w stage i a st) := by
  induction a with
  | nil =>
    intro i st h
    exact ⟨processResults_fault_start w stage b i st h, rfl⟩
  | cons r rest ih =>
    intro i st h
    simp only [List.cons_append, processResults] at h ⊢
    obtain ⟨h1, e1⟩ := andThen_of_fault_none _ _ h
    rw [e1] at h ⊢
    obtain ⟨h2, e2⟩ := ih (i + 1) _ h
    rw [andThen_none _ _ h1]
    refine ⟨h2, ?_⟩
    have hlen : i + (r :: rest).length = i + 1 + rest.length := by
      simp only [List.length_cons]
      omega
    rw [hlen]
    exact e2

theorem holderPart_some (h : Nat) (p : Processing) (diffPart : DiffPart)
    (hp : holderPart h p = some diffPart) :
    ∃ regex st, p = .ProcessingDiff diffPart regex h st := by
  cases p with
  | ProcessingNoop s => simp [holderPart, Processing.holder] at hp
  | ProcessingReturnValue s => simp [holderPart, Processing.holder] at hp
  | ProcessingMatch m pat s => simp [holderPart, Processing.holder] at hp
  | ProcessingDiff part regex d s =>
    simp only [holderPart, Processing.holder] at hp
    split at hp
    · rename_i hd
      cases hp
      subst hd
      exact ⟨regex, s, rfl⟩
    · cases hp

theorem first_delivery_status (re : RegexLib) (git : DiffLib) (heap : Heap)
    (diffPart : DiffPart) (regex : String) (d : Nat) (st0 : Option Int) (messages : Messages)
    (status : Int) (r : Processed) (h0 : (heap d).count = 0)
    (h : (Processing.ProcessingDiff diffPart regex d st0).process re git heap messages status =
      .ok r) : r.self.getStatus = some 1 := by
  have hc : (storeSlot diffPart (heap d) messages).count = 0 := by
    cases diffPart <;> exact h0
  simp only [Processing.process, hc, beq_self_eq_true, if_true] at h
  cases h
  rfl

theorem holders_before_first (X Y : List DiffPart) (New Old : List DiffPart)
    (hsplit : New = X ++ DiffPart.A :: Y)
    (hcase : (Old = [] ∧ New = [DiffPart.A, DiffPart.B]) ∨ (Old = [DiffPart.A] ∧ New = [DiffPart.B]) ∨
      (Old = [] ∧ New = [])) :
    X = [] ∧ Old = [] ∧ New = [DiffPart.A, DiffPart.B] := by
  subst hsplit
  rcases hcase with ⟨ho, hn⟩ | ⟨-, hn⟩ | ⟨-, hn⟩
  · cases X with
    | nil => exact ⟨rfl, ho, hn⟩
    | cons x xs =>
      exfalso
      cases xs with
      | nil => simp at hn
      | cons y ys =>
        cases ys with
        | nil => simp at hn
        | cons z zs => simp at hn
  · exfalso
    cases X with
    | nil => simp at hn
    | cons x xs =>
      cases xs with
      | nil => simp at hn
      | cons y ys => simp at hn
  · exfalso
    cases X <;> simp at hn

/-- C27: in every run that ends without a fault and in which expansion has
registered an A-tagged processor in the new-tree phase, as it does for every
file that a DIFF rule accepts, the overall exit code is 1, whatever the tasks
output. For an accepted file of a DIFF rule the body of `forEachFile` appends
the A-tagged processor and directly after it the B-tagged partner to the
new-tree phase. The call of the A-tagged processor is the first delivery to
the shared diff state, no call before it has touched the state, so it leaves
the status 1, which the loop over the results of the new-tree phase ORs into
the aggregate; the second delivery is the one of the B-tagged partner. -/
theorem diff_pair_exit_code (w : World) (config : CreatorConfig) (taskTypes : TaskTypesMap)
    (created : CreateState) (k : Nat) (regex : String) (h : Nat)
    (hcreate : create w.re w.fs w.git config taskTypes = .ok created)
    (hfault : (runPhases w config taskTypes).fault = none)
    (hA : created.phases.processingForNew[k]? = some (Processing.freshDiff .A regex h)) :
    Event.processed .new k (some 1) ∈ (runPhases w config taskTypes).trace ∧
    exitCode (runPhases w config taskTypes) = some 1 ∧
    deliveries created.phases h (runPhases w config taskTypes).trace = [.A, .B] ∧
    (∀ (re : RegexLib) (fs : FsLib) (git : GitRepo) (cfg : CreatorConfig) (changesData : ChangesData)
        (rule : TaskType) (file : TaskType.File) (fileId : Nat) (s s' : CreateState),
      forOneFile re fs git cfg changesData rule file fileId s = .ok s' → s' ≠ s →
      rule.process.testType = TestType.DIFF →
      s'.phases.processingForNew = s.phases.processingForNew ++
        [Processing.freshDiff .A rule.process.logDiffFilterRegex s.diffStates,
         Processing.freshDiff .B rule.process.logDiffFilterRegex s.diffStates]) := by
  obtain ⟨headData, -, hf, hframe, hheap, hrun⟩ :=
    runPhases_newTreeStart w config taskTypes created hcreate hfault
  obtain ⟨halign, hpair⟩ := create_paired w.re w.fs w.git config taskTypes created hcreate
  simp only [TaskPhases.aligned, Bool.and_eq_true, beq_iff_eq] at halign
  -- the holders of the state
  have hk : k < created.phases.processingForNew.length := by
    by_contra hge
    rw [List.getElem?_eq_none (by omega)] at hA
    cases hA
  have hget : created.phases.processingForNew[k] = Processing.freshDiff .A regex h := by
    rw [List.getElem?_eq_getElem hk] at hA
    exact Option.some.inj hA
  have hNew : created.phases.processingForNew =
      created.phases.processingForNew.take k ++
        Processing.freshDiff .A regex h :: created.phases.processingForNew.drop (k + 1) := by
    rw [← hget, ← List.drop_eq_getElem_cons hk, List.take_append_drop]
  have hNewH : holdersIn created.phases.processingForNew h =
      holdersIn (created.phases.processingForNew.take k) h ++
        DiffPart.A :: holdersIn (created.phases.processingForNew.drop (k + 1)) h := by
    conv_lhs => rw [hNew]
    rw [holdersIn_append]
    congr 1
    simp [holdersIn, holderPart, Processing.freshDiff, Processing.holder]
  obtain ⟨hb, hcase⟩ := (pairedAt_iff _ _ _).1 (hpair h)
  obtain ⟨hX, hOld, hNewAB⟩ := holders_before_first _ _ _
    (holdersIn created.phases.processingForOld h) hNewH (by
      rcases hcase with ⟨-, h1 | h1⟩ | ⟨-, h1⟩
      · exact Or.inl h1
      · exact Or.inr (Or.inl h1)
      · exact Or.inr (Or.inr h1))
  have heq := run_deliveries_eq w config taskTypes created hcreate hfault h
  have hdel : deliveries created.phases h (runPhases w config taskTypes).trace = [.A, .B] := by
    rw [heq, hOld, hNewAB]
    split <;> rfl
  -- the results before the one of the A-tagged processor
  have hlen : (runTasks w.runner .new 0 created.phases.forNew).length =
      created.phases.processingForNew.length := by
    rw [runTasks_length, halign.2]
  have hkr : k < (runTasks w.runner .new 0 created.phases.forNew).length := by omega
  have hres : runTasks w.runner .new 0 created.phases.forNew =
      (runTasks w.runner .new 0 created.phases.forNew).take k ++
        (runTasks w.runner .new 0 created.phases.forNew)[k] ::
          (runTasks w.runner .new 0 created.phases.forNew).drop (k + 1) := by
    rw [← List.drop_eq_getElem_cons hkr, List.take_append_drop]
  have hlenA : ((runTasks w.runner .new 0 created.phases.forNew).take k).length = k := by
    rw [List.length_take]
    omega
  have hfault2 := hfault
  rw [hrun, hres] at hfault2
  obtain ⟨hfA, eA⟩ := processResults_split w .new _ _ 0 _ hfault2
  rw [hlenA, Nat.zero_add] at eA
  rw [eA] at hfault2
  simp only [processResults] at hfault2 eA
  obtain ⟨hfB, eB⟩ := andThen_of_fault_none _ _ hfault2
  rw [eB] at eA
  -- the state before the call of the A-tagged processor
  have hinvA := processResults_frame w .new created.phases
    ((runTasks w.runner .new 0 created.phases.forNew).take k) 0 _ ⟨hframe, hheap⟩
  have hcallsA := processResults_calls w .new
    ((runTasks w.runner .new 0 created.phases.forNew).take k) 0 _ hfA
  rw [hlenA, newTreeStart_calls w config headData _ hf] at hcallsA
  have hdelA : deliveries created.phases h
      (processResults w .new 0 ((runTasks w.runner .new 0 created.phases.forNew).take k)
        (newTreeStart w config headData created.phases)).trace = [] := by
    unfold deliveries
    rw [hcallsA]
    have hnew := deliveries_stage created.phases h .new k []
    have hbuild := fun calls =>
      deliveries_stage created.phases h .build created.phases.build.length calls
    have hbuildOld := fun calls =>
      deliveries_stage created.phases h .buildOld created.phases.build.length calls
    have hold := fun calls =>
      deliveries_stage created.phases h .old created.phases.forOld.length calls
    simp only [List.append_nil, List.filterMap_nil] at hnew
    split
    · simp only [List.append_assoc]
      rw [hbuildOld, hold, hbuild, hnew]
      simp only [processingOf]
      rw [take_length_eq _ _ halign.1.2, take_length_eq _ _ halign.1.1, hb, hOld, hX]
      rfl
    · rw [List.nil_append, hbuild, hnew]
      simp only [processingOf]
      rw [take_length_eq _ _ halign.1.2, hb, hX]
      rfl
  have hcount := hinvA.2 h hdelA
  -- the call of the A-tagged processor
  have hevent : Event.processed .new k (some 1) ∈
      (processResult w .new k (runTasks w.runner .new 0 created.phases.forNew)[k]
        (processResults w .new 0 ((runTasks w.runner .new 0 created.phases.forNew).take k)
          (newTreeStart w config headData created.phases))).trace := by
    rcases processResult_shape w .new k (runTasks w.runner .new 0 created.phases.forNew)[k]
        (processResults w .new 0 ((runTasks w.runner .new 0 created.phases.forNew).take k)
          (newTreeStart w config headData created.phases)) with
      ⟨-, -, -, hne⟩ | ⟨processing, r, evs, hl, hproc, -, -, ht, -⟩
    · exact absurd hfB hne
    · obtain ⟨q, hq, hqp⟩ := frame_holderPart .new _ created.phases hinvA.1 k processing hl h
      have hq2 : q = Processing.freshDiff .A regex h := by
        have hq3 : created.phases.processingForNew[k]? = some q := hq
        rw [hA] at hq3
        exact (Option.some.inj hq3).symm
      have hpart : holderPart h processing = some .A := by
        rw [← hqp, hq2]
        simp [holderPart, Processing.freshDiff, Processing.holder]
      obtain ⟨regex2, st2, hproc2⟩ := holderPart_some h processing .A hpart
      rw [hproc2] at hproc
      have hst := first_delivery_status w.re w.diff _ .A regex2 h st2 _ _ r hcount hproc
      rw [ht, hst]
      simp
  have hmem : Event.processed .new k (some 1) ∈ (runPhases w config taskTypes).trace := by
    have hfinal := (congrArg (fun rs => processResults w .new 0 rs
      (newTreeStart w config headData created.phases)) hres).trans eA
    simp only [] at hfinal
    rw [hrun, hfinal]
    obtain ⟨evs, hevs, -⟩ := processResults_grows w .new
      ((runTasks w.runner .new 0 created.phases.forNew).drop (k + 1)) (k + 1)
      (processResult w .new k (runTasks w.runner .new 0 created.phases.forNew)[k]
        (processResults w .new 0 ((runTasks w.runner .new 0 created.phases.forNew).take k)
          (newTreeStart w config headData created.phases)))
    rw [hevs]
    exact List.mem_append_left _ hevent
  refine ⟨hmem, ?_, hdel, ?_⟩
  · have hagg : (runPhases w config taskTypes).resultStatus ≠ 0 := by
      rw [runPhases_inv]
      intro h0
      have hz := ((foldl_aggStep_eq_zero _ 0).1 h0).2.2 .new k 1 hmem (by decide)
      exact absurd hz (by decide)
    simp [exitCode, hfault, hagg]
  · intro re fs git cfg changesData rule file fileId s s' hone hne hkind
    obtain ⟨fileName, -, hcase2⟩ := forOneFile_ok re fs git cfg changesData rule file fileId s s'
      hone
    rcases hcase2 with ⟨-, rfl⟩ | ⟨-, content, hk2⟩
    · exact absurd rfl hne
    · rcases hk2 with ⟨ht, -⟩ | ⟨ht, -⟩ | ⟨ht, -⟩ | ⟨-, -, oldContent, -, rfl⟩ | ⟨ht, -⟩
      · rw [hkind] at ht; cases ht
      · rw [hkind] at ht; cases ht
      · rw [hkind] at ht; cases ht
      · simp [CreateState.pushNew, CreateState.madeShared]
      · rw [hkind] at ht; cases ht

theorem diff_pair_exit_code_witness :
    (runPhases (demoWorld [] 0 [(.NORMAL, "fine")]) demoConfig [pyRule .DIFF]).fault = none ∧
    Event.processed .new 0 (some 1) ∈
      (runPhases (demoWorld [] 0 [(.NORMAL, "fine")]) demoConfig [pyRule .DIFF]).trace ∧
    Event.processed .new 1 (some 0) ∈
      (runPhases (demoWorld [] 0 [(.NORMAL, "fine")]) demoConfig [pyRule .DIFF]).trace ∧
    exitCode (runPhases (demoWorld [] 0 [(.NORMAL, "fine")]) demoConfig [pyRule .DIFF]) =
      some 1 :=
  ⟨rfl,
    (diff_pair_exit_code (demoWorld [] 0 [(.NORMAL, "fine")]) demoConfig [pyRule .DIFF] _ 0 "x" 0
      rfl rfl rfl).1,
    by decide,
    (diff_pair_exit_code (demoWorld [] 0 [(.NORMAL, "fine")]) demoConfig [pyRule .DIFF] _ 0 "x" 0
      rfl rfl rfl).2.1⟩


/-! ### The messages of a process run with input -/

theorem readerLoop_all_data (msgType : MessageType) :
    ∀ (pipe : List Avail) (unfinished : String) (msg : Messages),
      (∀ a ∈ pipe, ∃ chunk, a = Avail.data chunk ∧ chunk.length ≠ 0) →
      ∃ (lines : List String) (rest : String), readerLoop msgType pipe unfinished msg =
        ([], true, rest, msg ++ lines.map (fun line => (msgType, line))) := by
  intro pipe
  induction pipe with
  | nil => intro unfinished msg _; exact ⟨[], unfinished, by simp [readerLoop]⟩
  | cons a rest ih =>
    intro unfinished msg h
    obtain ⟨chunk, rfl, hne⟩ := h a (by simp)
    obtain ⟨lines, rest2, hrec⟩ := ih (splitBuf (unfinished ++ chunk).data [] []).2
      (msg ++ (splitBuf (unfinished ++ chunk).data [] []).1.map (fun line => (msgType, line)))
      (fun b hb => h b (by simp [hb]))
    refine ⟨(splitBuf (unfinished ++ chunk).data [] []).1 ++ lines, rest2, ?_⟩
    simp only [readerLoop, hne, if_false]
    rw [hrec]
    simp

/-- C23 (code bug): the loop of `callProcess` with input does not return the
lines of the two streams once each. When stdout is at its end the first time
the loop has read through it, the end-of-file flag of the one stream object is
set, `process.err().eof()` holds from then on and stderr is never read:
whatever the child process wrote to stderr, the ERR messages returned are two
empty strings. For a child process that has written the line `a` to stdout and
the line `b` to stderr and has ended before the first read, the line `b` is
lost, while the overload without input returns both lines for the same
process. Were the flags of the two pipes separate, the rest of a stream that
has ended would be pushed again in every round until the other stream ends:
the unfinished line `x` of stdout is returned twice when stderr ends a round
later. -/
theorem callProcess_loses_or_repeats_lines (out err : List Avail)
    (hout : ∀ a ∈ out, ∃ chunk, a = Avail.data chunk ∧ chunk.length ≠ 0) :
    (∃ (lines : List String) (rest : String), callProcess true { out := out, err := err } =
      .ok (lines.map (fun line => (MessageType.NORMAL, line)) ++
        [(.ERR, ""), (.NORMAL, rest), (.ERR, "")])) ∧
    callProcess true fastChild =
      .ok [(.NORMAL, "a"), (.ERR, ""), (.NORMAL, ""), (.ERR, "")] ∧
    callProcessNoInput fastChild = [(.NORMAL, "a"), (.ERR, "b")] ∧
    callProcess true lateStderrChild =
      .ok [(.NORMAL, "a"), (.ERR, ""), (.NORMAL, "x"), (.ERR, "")] ∧
    callProcess false lateStderrChild =
      .ok [(.NORMAL, "a"), (.NORMAL, "x"), (.ERR, "b"), (.NORMAL, "x"), (.ERR, "")] ∧
    callProcessNoInput lateStderrChild = [(.NORMAL, "a"), (.NORMAL, "x"), (.ERR, "b")] := by
  refine ⟨?_, rfl, by decide, rfl, rfl, by decide⟩
  obtain ⟨lines, rest, hread⟩ := readerLoop_all_data .NORMAL out "" [] hout
  refine ⟨lines, rest, ?_⟩
  have hfuel : out.length + err.length + 4 = (out.length + err.length + 1) + 1 + 1 + 1 := by
    omega
  simp only [callProcess, List.length, hfuel]
  simp [pollLoop, pollOut, pollErr, PStream.eof, PStream.atEof, hread]

theorem callProcess_loses_or_repeats_lines_witness :
    (∀ a ∈ [Avail.data "a\n"], ∃ chunk, a = Avail.data chunk ∧ chunk.length ≠ 0) ∧
    ∃ (lines : List String) (rest : String), callProcess true { out := [.data "a\n"], err := [.data "b\n"] } =
      .ok (lines.map (fun line => (MessageType.NORMAL, line)) ++
        [(.ERR, ""), (.NORMAL, rest), (.ERR, "")]) :=
  ⟨fun a ha => ⟨"a\n", by simpa using ha, by decide⟩,
    (callProcess_loses_or_repeats_lines [.data "a\n"] [.data "b\n"]
      (fun a ha => ⟨"a\n", by simpa using ha, by decide⟩)).1⟩

end GitVerify
